import Mathlib

/-!
# Surface roles of the 12to11 compositor: shell surface, icon surface, subsurface

A shallow embedding of the role state machines of `xdg_surface.c`,
`icon_surface.c` and `subsurface.c`.

* A C `int` flag word (`role->state`) is the `Nat` below `2 ^ 32` that has the
  same 32 bits (two's complement); `&` and `|` are `&&&` and `|||`, and `~` flips
  the 32 bits.  The code only ever tests such a word against a flag.
  `uint32_t` serials and frame times are `Nat`: the code only compares and
  copies them.  Other `int` fields are `Int`.
* Pointers (`Surface *`, `XdgRoleImplementation *`, `ExtBuffer *`) are `Nat`
  identifiers, `NULL` is `none`.
* Calls into collaborators that live outside these files (the sync helper, the
  subcompositor, the buffer release helper, the protocol marshalling layer) are
  recorded, in program order, in the list of `Call`s each operation returns.
* The function-pointer table of a role implementation (`impl->funcs`), whose
  bodies live in other files, is a parameter: a map from implementation
  pointers to state transformers on the role.
* `subsurface.c` works on a graph of surfaces and subsurfaces that point at
  each other.  Its model is a `World`: the surfaces and subsurfaces by address,
  the view tree, and the calls made so far.  An operation yields `none` where
  the source would read through `NULL` or a dangling pointer, and where a
  recursive walk needs more nesting than the fuel it is given.
* `XLCommitSurface` of `surface.c` re-enters `subsurface.c`: it runs the commit
  callbacks of the children and the commit of the role.  The definitions of
  namespace `Sub` record it as one call and stop there, which is what each
  function stores by itself; namespace `Cascade` has the functions that call
  it again, with the commit run through.
* The role type and the role pointer of a surface are shared by the three
  kinds of role; the part of `XLGetXdgSurface` and `XLGetIconSurface` that
  concerns them is modelled on the same `World` (namespace `Roles`).
* The reference count of a role is decremented by `ReleaseBacking` or
  `DestroyBacking`; a role that is freed is `none`, or gone from the `World`.
-/

/-! ## Flag words -/

/-- The C test `state & flag`, true when the result is nonzero. -/
def hasFlag (state flag : Nat) : Prop := state &&& flag ≠ 0

instance (state flag : Nat) : Decidable (hasFlag state flag) := by
  unfold hasFlag; infer_instance

/-- The C expression `~x` on a 32-bit `int`. -/
def complement (x : Nat) : Nat := 0xFFFFFFFF ^^^ x

/-- The C statement `state |= flag`. -/
def setFlag (state flag : Nat) : Nat := state ||| flag

/-- The C statement `state &= ~flag`. -/
def clearFlag (state flag : Nat) : Nat := state &&& complement flag

/-- Every single-bit flag `1 << k` of a 32-bit word that is not listed in
`changed` tests the same in `s'` as in `s`. -/
def flagsAgreeExcept (changed : List Nat) (s s' : Nat) : Prop :=
  ∀ k : Nat, k < 32 → 2 ^ k ∉ changed → (hasFlag s' (2 ^ k) ↔ hasFlag s (2 ^ k))

/-! ## Calls to collaborators -/

/-- Protocol errors posted with `wl_resource_post_error`. -/
inductive ProtocolError where
  | XDG_SURFACE_ERROR_INVALID_SERIAL
  | XDG_WM_BASE_ERROR_ROLE
  | WL_SUBSURFACE_ERROR_BAD_SURFACE
  | WL_SUBCOMPOSITOR_ERROR_BAD_SURFACE
  | WL_SUBCOMPOSITOR_ERROR_BAD_PARENT
  deriving DecidableEq, Repr

/-- One call made by a role operation to code outside the role's own file. -/
inductive Call where
  | wl_resource_post_error (code : ProtocolError)
  | SubcompositorGarbage
  | SyncHelperUpdate
  | SyncHelperCheckFrameCallback
  | SyncHelperClearPendingFrame
  | xdg_surface_send_configure (serial : Nat)
  | XLSurfaceRunFrameCallbacksMs (surface : Nat) (frame_time : Nat)
  | XLReleaseBuffer (buffer : Nat)
  | ReleaseBufferWithHelper (buffer : Nat)
  | impl_attach (impl : Nat)
  | impl_detach (impl : Nat)
  | impl_commit (impl : Nat)
  | impl_after_commit (impl : Nat)
  | impl_ack_configure (impl : Nat) (serial : Nat)
  | XMapRaised
  | XUnmapWindow
  | XLUpdateSurfaceOutputs (surface : Nat) (x y width height : Int)
  | XLClearOutputs (surface : Nat)
  | wl_resource_post_no_memory
  | XLCommitSurface (surface : Nat)
  | XLSurfaceMergeCachedState (surface : Nat)
  | XLSurfaceRunOnFree (surface : Nat)
  | XLSurfaceCancelRunOnFree (surface : Nat)
  | XLSurfaceRunAtCommit (surface : Nat)
  | XLSurfaceCancelCommitCallback (surface : Nat)
  | XLDetectSurfaceIdleInhibit
  | ViewMove (surface : Nat) (x y : Int)
  | MaybeUpdateOutputs (surface : Nat)
  | subsurface_update (surface : Nat)
  | XMoveWindow (x y : Int)
  | XResizeWindow (width height : Int)
  | XLUpdateSurfaceOutputsOf (surface : Option Nat) (x y width height : Int)
  | RunReconstrainCallbacks
  | impl_note_window_pre_resize (impl : Nat) (width height : Int)
  | impl_note_window_resized (impl : Nat) (width height : Int)
  | impl_handle_geometry_change (impl : Nat)
  | impl_note_size (impl : Nat) (width height : Int)
  | FreeBufferReleaseHelper
  | RenderDestroyRenderTarget
  | XDestroyWindow
  | FreeSyncHelper
  | SubcompositorFree
  | XLFree
  | wl_client_post_no_memory
  | ViewUnmap (surface : Nat) (under : Bool)
  | ViewMap (surface : Nat) (under : Bool)
  | role_commit (surface : Nat)
  deriving DecidableEq, Repr

namespace Xdg

/-! ## `xdg_surface.c`: data model -/

def StatePendingFrameCallback : Nat := 1
def StatePendingWindowGeometry : Nat := 1 <<< 2
def StateWaitingForAckConfigure : Nat := 1 <<< 3
def StateWaitingForAckCommit : Nat := 1 <<< 4
def StateMaybeConfigure : Nat := 1 <<< 5
def StateDirtyFrameExtents : Nat := 1 <<< 6
def StateTemporaryBounds : Nat := 1 <<< 7
def StatePendingBufferRelease : Nat := 1 <<< 8

/-- The `struct _XdgState`. -/
structure XdgState where
  window_geometry_x : Int := 0
  window_geometry_y : Int := 0
  window_geometry_width : Int := 0
  window_geometry_height : Int := 0
  deriving DecidableEq, Repr

/-- The `struct _XdgRole`, restricted to the fields the role state machine
reads and writes.  `surface` is `role.surface`. -/
structure XdgRole where
  surface : Option Nat := none
  impl : Option Nat := none
  refcount : Int := 0
  state : Nat := 0
  pending_state : XdgState := {}
  current_state : XdgState := {}
  conf_serial : Nat := 0
  last_specified_serial : Nat := 0
  min_x : Int := 0
  min_y : Int := 0
  max_x : Int := 0
  max_y : Int := 0
  bounds_width : Int := 0
  bounds_height : Int := 0
  pending_root_x : Int := 0
  pending_root_y : Int := 0
  pending_synth_configure : Int := 0
  pending_frame_time : Nat := 0
  deriving DecidableEq, Repr

/-- The entries of `impl->funcs` that the operations below call.  Their bodies
are in the toplevel and popup implementations; `after_commit` and the four
entries that `NoteBounds` calls may be `NULL`. -/
structure XdgRoleImplementationFuncs where
  attach : XdgRole → XdgRole
  detach : XdgRole → XdgRole
  commit : XdgRole → XdgRole
  ack_configure : XdgRole → Nat → XdgRole
  after_commit : Option (XdgRole → XdgRole)
  note_window_pre_resize : Option (XdgRole → Int → Int → XdgRole) := none
  note_window_resized : Option (XdgRole → Int → Int → XdgRole) := none
  handle_geometry_change : Option (XdgRole → XdgRole) := none
  note_size : Option (XdgRole → Int → Int → XdgRole) := none

/-- The function table found behind each implementation pointer. -/
abbrev ImplTable := Nat → XdgRoleImplementationFuncs

/-! ## `xdg_surface.c`: operations -/

/-- `RunFrameCallbacks`: nothing happens when `surface` is `NULL`. -/
def RunFrameCallbacks (surface : Option Nat) (frame_time : Nat) : List Call :=
  match surface with
  | none => []
  | some s => [Call.XLSurfaceRunFrameCallbacksMs s frame_time]

/-- `RunFrameCallbacksConditionally`. -/
def RunFrameCallbacksConditionally (role : XdgRole) (frame_time : Nat) :
    XdgRole × List Call :=
  if ¬ hasFlag role.state StatePendingBufferRelease then
    (role, RunFrameCallbacks role.surface frame_time)
  else if role.surface.isSome then
    ({ role with
        state := setFlag role.state StatePendingFrameCallback
        pending_frame_time := frame_time }, [])
  else
    (role, [])

/-- `AllBuffersReleased`. -/
def AllBuffersReleased (role : XdgRole) : XdgRole × List Call :=
  let surface := role.surface
  let role1 := { role with state := clearFlag role.state StatePendingBufferRelease }
  if surface.isSome ∧ hasFlag role1.state StatePendingFrameCallback then
    ({ role1 with state := clearFlag role1.state StatePendingFrameCallback },
      RunFrameCallbacks surface role1.pending_frame_time)
  else
    (role1, [])

/-- `SetWindowGeometry`. -/
def SetWindowGeometry (role : XdgRole) (x y width height : Int) : XdgRole :=
  if x = role.current_state.window_geometry_x
      ∧ y = role.pending_state.window_geometry_y
      ∧ width = role.pending_state.window_geometry_width
      ∧ height = role.pending_state.window_geometry_height then
    role
  else
    { role with
        state := setFlag role.state StatePendingWindowGeometry
        pending_state :=
          { window_geometry_x := x
            window_geometry_y := y
            window_geometry_width := width
            window_geometry_height := height } }

/-- `AckConfigure`. -/
def AckConfigure (funcs : ImplTable) (role : XdgRole) (serial : Nat) :
    XdgRole × List Call :=
  if role.surface.isNone then
    (role, [])
  else if serial ≠ 0 ∧ serial ≤ role.last_specified_serial then
    (role, [Call.wl_resource_post_error ProtocolError.XDG_SURFACE_ERROR_INVALID_SERIAL])
  else
    let step : XdgRole × List Call :=
      if serial = role.conf_serial then
        ({ role with
            last_specified_serial := serial
            state := clearFlag role.state StateWaitingForAckConfigure },
          [Call.SubcompositorGarbage])
      else
        (role, [])
    match step.1.impl with
    | some impl =>
      ((funcs impl).ack_configure step.1 serial,
        step.2 ++ [Call.impl_ack_configure impl serial])
    | none => step

/-- `Commit`.  The `surface` argument is only handed on to the hooks.  The
result is `none` when the source would dereference a `NULL` `impl`, which it
reads again after the commit hook has run. -/
def Commit (funcs : ImplTable) (role : XdgRole) : Option (XdgRole × List Call) :=
  match role.impl with
  | none => some (role, [])
  | some impl =>
    let role1 : XdgRole :=
      if hasFlag role.state StatePendingWindowGeometry then
        { role with
            current_state :=
              { window_geometry_x := role.pending_state.window_geometry_x
                window_geometry_y := role.pending_state.window_geometry_y
                window_geometry_width := role.pending_state.window_geometry_width
                window_geometry_height := role.pending_state.window_geometry_height }
            state :=
              setFlag (clearFlag role.state StatePendingWindowGeometry)
                StateDirtyFrameExtents }
      else role
    let role2 := (funcs impl).commit role1
    let role3 : XdgRole :=
      if ¬ hasFlag role2.state StateWaitingForAckConfigure
          ∧ hasFlag role2.state StateWaitingForAckCommit then
        { role2 with state := clearFlag role2.state StateWaitingForAckCommit }
      else role2
    if ¬ hasFlag role3.state StateWaitingForAckCommit then
      match role3.impl with
      | none => none
      | some impl3 =>
        match (funcs impl3).after_commit with
        | some after_commit =>
          some (after_commit role3,
            [Call.impl_commit impl, Call.SyncHelperUpdate, Call.impl_after_commit impl3])
        | none => some (role3, [Call.impl_commit impl, Call.SyncHelperUpdate])
    else
      some (role3, [Call.impl_commit impl, Call.SyncHelperCheckFrameCallback])

/-- `Setup`, as far as the role structure is concerned. -/
def Setup (surface : Nat) (role : XdgRole) : XdgRole :=
  { role with surface := some surface, refcount := role.refcount + 1 }

/-- `Teardown`, as far as the role structure is concerned (the backing data is
released by `ReleaseBacking` when the count reaches zero). -/
def Teardown (role : XdgRole) : XdgRole :=
  { role with surface := none, refcount := role.refcount - 1 }

/-- `ReleaseBuffer`.  `idle` is the answer of `RenderIsBufferIdle`. -/
def ReleaseBuffer (role : XdgRole) (buffer : Nat) (idle : Bool) : XdgRole × List Call :=
  if idle then
    (role, [Call.XLReleaseBuffer buffer])
  else
    ({ role with state := setFlag role.state StatePendingBufferRelease },
      [Call.ReleaseBufferWithHelper buffer])

/-- `HandleResize`. -/
def HandleResize (role : XdgRole) (only_frame : Bool) : XdgRole × List Call :=
  if only_frame then
    (role, [Call.SyncHelperCheckFrameCallback])
  else
    ({ role with
        state :=
          setFlag (setFlag (setFlag role.state StateWaitingForAckConfigure)
            StateWaitingForAckCommit) StateMaybeConfigure },
      [Call.SyncHelperClearPendingFrame, Call.SyncHelperCheckFrameCallback])

/-- `HandleFrameCallback`. -/
def HandleFrameCallback (role : XdgRole) (frame_time : Nat) : XdgRole × List Call :=
  RunFrameCallbacksConditionally role frame_time

/-- `XLGetXdgSurface` on a surface that can take the role: the structure is
zeroed, the client resource holds one reference, and attaching the role to the
surface runs `Setup`. -/
def XLGetXdgSurface (surface : Nat) : XdgRole :=
  Setup surface { refcount := 1 }

/-- `XLXdgRoleAttachImplementation`; `none` when the `XLAssert` fails. -/
def XLXdgRoleAttachImplementation (funcs : ImplTable) (role : XdgRole) (impl : Nat) :
    Option (XdgRole × List Call) :=
  if role.impl.isNone ∧ role.surface.isSome then
    some ({ (funcs impl).attach role with impl := some impl }, [Call.impl_attach impl])
  else none

/-- `XLXdgRoleDetachImplementation`; `none` when the `XLAssert` fails. -/
def XLXdgRoleDetachImplementation (funcs : ImplTable) (role : XdgRole) (impl : Nat) :
    Option (XdgRole × List Call) :=
  if role.impl = some impl then
    some ({ (funcs impl).detach role with impl := none }, [Call.impl_detach impl])
  else none

/-- `XLXdgRoleSendConfigure`. -/
def XLXdgRoleSendConfigure (role : XdgRole) (serial : Nat) : XdgRole × List Call :=
  ({ role with
      conf_serial := serial
      state :=
        clearFlag
          (clearFlag
            (setFlag (setFlag role.state StateWaitingForAckConfigure)
              StateWaitingForAckCommit)
            StateTemporaryBounds)
          StateMaybeConfigure },
    [Call.SyncHelperClearPendingFrame, Call.xdg_surface_send_configure serial])

/-- `XLXdgRoleSetBoundsSize`. -/
def XLXdgRoleSetBoundsSize (role : XdgRole) (bounds_width bounds_height : Int) : XdgRole :=
  { role with
      bounds_width := bounds_width
      bounds_height := bounds_height
      state := setFlag role.state StateTemporaryBounds }

/-- `XLXdgRoleNoteRejectedConfigure`. -/
def XLXdgRoleNoteRejectedConfigure (role : XdgRole) : XdgRole :=
  if hasFlag role.state StateMaybeConfigure then
    { role with
        state :=
          clearFlag
            (clearFlag (clearFlag role.state StateWaitingForAckConfigure)
              StateWaitingForAckCommit)
            StateMaybeConfigure }
  else role

/-! ## `xdg_surface.c`: hooks and runs -/

/-- A hook that leaves the role's attachment, flags and serials as they are. -/
def InertHook (f : XdgRole → XdgRole) : Prop :=
  ∀ r, (f r).surface = r.surface ∧ (f r).impl = r.impl ∧ (f r).state = r.state
    ∧ (f r).conf_serial = r.conf_serial
    ∧ (f r).last_specified_serial = r.last_specified_serial

/-- Every hook of every implementation is inert. -/
def HooksInert (funcs : ImplTable) : Prop :=
  ∀ impl, InertHook (funcs impl).attach ∧ InertHook (funcs impl).detach
    ∧ InertHook (funcs impl).commit
    ∧ (∀ serial, InertHook fun r => (funcs impl).ack_configure r serial)
    ∧ ∀ f, (funcs impl).after_commit = some f → InertHook f

/-- An implementation table whose hooks do nothing and that has no
`after_commit`. -/
def idleFuncs : ImplTable := fun _ =>
  { attach := fun r => r
    detach := fun r => r
    commit := fun r => r
    ack_configure := fun r _ => r
    after_commit := none }

/-- The two requests of the configure handshake. -/
inductive HandshakeOp where
  | send_configure (serial : Nat)
  | ack_configure (serial : Nat)
  deriving DecidableEq, Repr

/-- One handshake request applied to the role. -/
def applyOp (funcs : ImplTable) (role : XdgRole) : HandshakeOp → XdgRole
  | HandshakeOp.send_configure serial => (XLXdgRoleSendConfigure role serial).1
  | HandshakeOp.ack_configure serial => (AckConfigure funcs role serial).1

/-- A sequence of handshake requests applied in order. -/
def runOps (funcs : ImplTable) (role : XdgRole) (ops : List HandshakeOp) : XdgRole :=
  ops.foldl (applyOp funcs) role

/-- No configure event of the sequence carries serial 0. -/
def sendsNonzero (ops : List HandshakeOp) : Prop :=
  ∀ serial, HandshakeOp.send_configure serial ∈ ops → serial ≠ 0

/-- The states a shell-surface role can be in, starting from its creation, under
the requests and events of `xdg_surface.c` modelled above.  A role whose
reference count has dropped to zero is gone; it is kept here, which only adds
states. -/
inductive Reachable (funcs : ImplTable) : XdgRole → Prop where
  | create (surface : Nat) : Reachable funcs (XLGetXdgSurface surface)
  | attach {role r : XdgRole} {cs : List Call} (impl : Nat) :
      Reachable funcs role →
      XLXdgRoleAttachImplementation funcs role impl = some (r, cs) → Reachable funcs r
  | detach {role r : XdgRole} {cs : List Call} (impl : Nat) :
      Reachable funcs role →
      XLXdgRoleDetachImplementation funcs role impl = some (r, cs) → Reachable funcs r
  | teardown {role : XdgRole} :
      Reachable funcs role → Reachable funcs (Teardown role)
  | set_window_geometry {role : XdgRole} (x y width height : Int) :
      Reachable funcs role → Reachable funcs (SetWindowGeometry role x y width height)
  | ack_configure {role : XdgRole} (serial : Nat) :
      Reachable funcs role → Reachable funcs (AckConfigure funcs role serial).1
  | commit {role r : XdgRole} {cs : List Call} :
      Reachable funcs role → Commit funcs role = some (r, cs) → Reachable funcs r
  | send_configure {role : XdgRole} (serial : Nat) :
      Reachable funcs role → Reachable funcs (XLXdgRoleSendConfigure role serial).1
  | handle_resize {role : XdgRole} (only_frame : Bool) :
      Reachable funcs role → Reachable funcs (HandleResize role only_frame).1
  | note_rejected_configure {role : XdgRole} :
      Reachable funcs role → Reachable funcs (XLXdgRoleNoteRejectedConfigure role)
  | set_bounds_size {role : XdgRole} (bounds_width bounds_height : Int) :
      Reachable funcs role →
      Reachable funcs (XLXdgRoleSetBoundsSize role bounds_width bounds_height)
  | release_buffer {role : XdgRole} (buffer : Nat) (idle : Bool) :
      Reachable funcs role → Reachable funcs (ReleaseBuffer role buffer idle).1
  | handle_frame_callback {role : XdgRole} (frame_time : Nat) :
      Reachable funcs role → Reachable funcs (HandleFrameCallback role frame_time).1
  | all_buffers_released {role : XdgRole} :
      Reachable funcs role → Reachable funcs (AllBuffersReleased role).1

end Xdg

namespace Icon

/-! ## `icon_surface.c`: data model -/

def StateIsMapped : Nat := 1
def StateIsReleased : Nat := 1 <<< 1
def StatePendingBufferRelease : Nat := 1 <<< 2
def StatePendingFrameCallback : Nat := 1 <<< 3

/-- The `struct _IconSurface`, restricted to the fields the role state machine
reads and writes.  `surface` is `role.surface`. -/
structure IconSurface where
  surface : Option Nat := none
  refcount : Int := 0
  state : Nat := 0
  x : Int := 0
  y : Int := 0
  min_x : Int := 0
  min_y : Int := 0
  max_x : Int := 0
  max_y : Int := 0
  pending_frame_time : Nat := 0
  deriving DecidableEq, Repr

/-! ## `icon_surface.c`: operations -/

/-- `Setup`, as far as the role structure is concerned. -/
def Setup (surface : Nat) (icon : IconSurface) : IconSurface :=
  { icon with surface := some surface, refcount := icon.refcount + 1 }

/-- `XLGetIconSurface`: the structure is zeroed, starts with one reference, and
attaching the role to the surface runs `Setup`. -/
def XLGetIconSurface (surface : Nat) : IconSurface :=
  Setup surface { refcount := 1 }

/-- `ReleaseBuffer`.  `idle` is the answer of `RenderIsBufferIdle`. -/
def ReleaseBuffer (icon : IconSurface) (buffer : Nat) (idle : Bool) :
    IconSurface × List Call :=
  if idle then
    (icon, [Call.XLReleaseBuffer buffer])
  else
    ({ icon with state := setFlag icon.state StatePendingBufferRelease },
      [Call.ReleaseBufferWithHelper buffer])

/-- `UpdateOutputs`.  `x_off` and `y_off` are `current_state.x` and
`current_state.y` of the attached surface. -/
def UpdateOutputs (icon : IconSurface) (x_off y_off : Int) : List Call :=
  match icon.surface with
  | none => []
  | some s =>
    [Call.XLUpdateSurfaceOutputs s (icon.x + icon.min_x + x_off)
      (icon.y + icon.min_y + y_off) (icon.max_x - icon.min_x + 1)
      (icon.max_y - icon.min_y + 1)]

/-- `RunFrameCallbacks`: nothing happens when `surface` is `NULL`. -/
def RunFrameCallbacks (surface : Option Nat) (ms_time : Nat) : List Call :=
  match surface with
  | none => []
  | some s => [Call.XLSurfaceRunFrameCallbacksMs s ms_time]

/-- `RunFrameCallbacksConditionally`. -/
def RunFrameCallbacksConditionally (icon : IconSurface) (ms_time : Nat) :
    IconSurface × List Call :=
  if icon.surface.isNone then
    (icon, [])
  else if hasFlag icon.state StatePendingBufferRelease then
    ({ icon with
        state := setFlag icon.state StatePendingFrameCallback
        pending_frame_time := ms_time }, [])
  else
    (icon, RunFrameCallbacks icon.surface ms_time)

/-- `AllBuffersReleased`.  The first statement assigns `~StatePendingBufferRelease`
to the whole flag word. -/
def AllBuffersReleased (icon : IconSurface) : IconSurface × List Call :=
  let surface := icon.surface
  let icon1 := { icon with state := complement StatePendingBufferRelease }
  if surface.isSome ∧ hasFlag icon1.state StatePendingFrameCallback then
    ({ icon1 with state := clearFlag icon1.state StatePendingFrameCallback },
      RunFrameCallbacks surface icon1.pending_frame_time)
  else
    (icon1, [])

/-- `HandleFrameCallback`. -/
def HandleFrameCallback (icon : IconSurface) (ms_time : Nat) : IconSurface × List Call :=
  RunFrameCallbacksConditionally icon ms_time

/-- `MaybeMapWindow`.  `x_off` and `y_off` as for `UpdateOutputs`. -/
def MaybeMapWindow (icon : IconSurface) (x_off y_off : Int) : IconSurface × List Call :=
  if hasFlag icon.state StateIsMapped then
    (icon, [])
  else if hasFlag icon.state StateIsReleased then
    (icon, [])
  else
    let icon1 := { icon with state := setFlag icon.state StateIsMapped }
    (icon1, Call.XMapRaised :: UpdateOutputs icon1 x_off y_off)

/-- `MaybeUnmapWindow`. -/
def MaybeUnmapWindow (icon : IconSurface) : IconSurface × List Call :=
  if ¬ hasFlag icon.state StateIsMapped then
    (icon, [])
  else
    ({ icon with state := clearFlag icon.state StateIsMapped },
      Call.XUnmapWindow ::
        (match icon.surface with
          | some s => [Call.XLClearOutputs s]
          | none => []))

end Icon

namespace Xdg

/-! ## `xdg_surface.c`: sample states -/

/-- A role as `XLGetXdgSurface` leaves it. -/
def freshRole : XdgRole := XLGetXdgSurface 1

/-- A role that was sent the configure serial 7 and acknowledged it. -/
def ackedRole : XdgRole :=
  (AckConfigure idleFuncs (XLXdgRoleSendConfigure freshRole 7).1 7).1

/-! ## `xdg_surface.c`: the three stages of `Commit` -/

/-- The first block of `Commit`: the pending window geometry is applied. -/
def commitWindowGeometry (role : XdgRole) : XdgRole :=
  if hasFlag role.state StatePendingWindowGeometry then
    { role with
        current_state :=
          { window_geometry_x := role.pending_state.window_geometry_x
            window_geometry_y := role.pending_state.window_geometry_y
            window_geometry_width := role.pending_state.window_geometry_width
            window_geometry_height := role.pending_state.window_geometry_height }
        state :=
          setFlag (clearFlag role.state StatePendingWindowGeometry)
            StateDirtyFrameExtents }
  else role

/-- The block of `Commit` that follows the commit hook: the commit is taken as
the one that was awaited after an `ack_configure`. -/
def commitAckCommit (role : XdgRole) : XdgRole :=
  if ¬ hasFlag role.state StateWaitingForAckConfigure
      ∧ hasFlag role.state StateWaitingForAckCommit then
    { role with state := clearFlag role.state StateWaitingForAckCommit }
  else role

/-- The last block of `Commit`: the sync helper is told to update the frame or
to check for a frame callback.  `impl` is the implementation whose commit hook
ran. -/
def commitFrame (funcs : ImplTable) (impl : Nat) (role : XdgRole) :
    Option (XdgRole × List Call) :=
  if ¬ hasFlag role.state StateWaitingForAckCommit then
    match role.impl with
    | none => none
    | some impl3 =>
      match (funcs impl3).after_commit with
      | some after_commit =>
        some (after_commit role,
          [Call.impl_commit impl, Call.SyncHelperUpdate, Call.impl_after_commit impl3])
      | none => some (role, [Call.impl_commit impl, Call.SyncHelperUpdate])
  else
    some (role, [Call.impl_commit impl, Call.SyncHelperCheckFrameCallback])

/-- What `XLXdgRoleAttachImplementation` makes of a fresh role. -/
def attachedRole : XdgRole := { freshRole with impl := some 0 }

/-- A shell-surface role with a buffer waiting for release. -/
def busyRole : XdgRole := (ReleaseBuffer freshRole 9 false).1

end Xdg

namespace Icon

/-! ## `icon_surface.c`: sample states -/

/-- An icon surface as `XLGetIconSurface` leaves it. -/
def freshIcon : IconSurface := XLGetIconSurface 1

/-- An icon surface with a buffer waiting for release; no frame callback has
been deferred. -/
def busyIcon : IconSurface := (ReleaseBuffer freshIcon 9 false).1

end Icon

namespace Sub

/-! ## `subsurface.c`: data model -/

def PendingPosition : Nat := 1

/-- The `enum _SurfaceActionType`. -/
inductive SurfaceActionType where
  | Sentinel
  | PlaceAboveOther
  | PlaceBelowOther
  deriving DecidableEq, Repr

/-- The role types a surface can be reserved for (`surface->role_type`); the
enumeration is declared in `compositor.h`. -/
inductive RoleType where
  | AnythingType
  | SubsurfaceType
  | XdgType
  | OtherType
  deriving DecidableEq, Repr

/-- The target of `surface->role`: a subsurface, by address, or a role of
another kind. -/
inductive RolePtr where
  | subsurface (address : Nat)
  | other
  deriving DecidableEq, Repr

/-- The `struct _SurfaceAction`, without its list links. -/
structure SurfaceAction where
  type : SurfaceActionType
  subsurface : Nat
  other : Nat
  deriving DecidableEq, Repr

/-- The `struct _Substate`. -/
structure Substate where
  x : Int := 0
  y : Int := 0
  flags : Nat := 0
  deriving DecidableEq, Repr

/-- The `struct _Subsurface`.  `surface` is `role.surface`; `commit_callback`
tells whether the pointer is set. -/
structure Subsurface where
  surface : Option Nat := none
  parent : Option Nat := none
  refcount : Int := 0
  pending_substate : Substate := {}
  current_substate : Substate := {}
  commit_callback : Bool := false
  should_be_desync : Bool := false
  synchronous : Bool := false
  pending_commit : Bool := false
  mapped : Bool := false
  pending : Bool := false
  deriving DecidableEq, Repr

/-- The two views of a surface, `surface->view` and `surface->under`. -/
inductive View where
  | view (surface : Nat)
  | under (surface : Nat)
  deriving DecidableEq, Repr

/-- The fields of a `Surface` that `subsurface.c` reads and writes.
`subsurfaces` is the list of child surfaces, head first.  `actions` is the
`SubsurfaceData` client data: `none` while it has not been allocated, else the
action list as read from the sentinel's `next`.  `commit_callbacks` are the
subsurfaces whose `AfterParentCommit` runs at this surface's commit, in the
order they were registered. -/
structure Surface where
  role_type : RoleType := RoleType.AnythingType
  role : Option RolePtr := none
  subsurfaces : List Nat := []
  actions : Option (List SurfaceAction) := none
  commit_callbacks : List Nat := []
  deriving DecidableEq, Repr

/-- Everything `subsurface.c` works on: surfaces and subsurfaces by address, the
view tree (each view's parent, children in paint order and subcompositor), and
the calls made so far to code outside the file. -/
structure World where
  surfaces : Nat → Option Surface
  subsurfaces : Nat → Option Subsurface
  view_parent : View → Option View
  view_children : View → List View
  view_subcompositor : View → Option Nat
  calls : List Call

/-- The world with nothing in it. -/
def World.empty : World :=
  { surfaces := fun _ => none
    subsurfaces := fun _ => none
    view_parent := fun _ => none
    view_children := fun _ => []
    view_subcompositor := fun _ => none
    calls := [] }

/-- A store into the subsurface at `address`. -/
def World.setSubsurface (w : World) (address : Nat) (subsurface : Subsurface) : World :=
  { w with subsurfaces := fun j => if j = address then some subsurface else w.subsurfaces j }

/-- A store into the surface at `address`. -/
def World.setSurface (w : World) (address : Nat) (surface : Surface) : World :=
  { w with surfaces := fun j => if j = address then some surface else w.surfaces j }

/-- One more call to code outside the file. -/
def World.call (w : World) (c : Call) : World :=
  { w with calls := w.calls ++ [c] }

/-- `SubsurfaceFromRole (surface->role)` for the surface at `address`: the
address of the subsurface, when the surface exists and its role is one. -/
def World.roleOf (w : World) (address : Nat) : Option Nat :=
  match w.surfaces address with
  | some surface =>
    match surface.role with
    | some (RolePtr.subsurface k) => some k
    | _ => none
  | none => none

/-! ## The view tree -/

/-- Modelled from the spec: `ViewGetParent`, of the subcompositor, which is not
part of these files.  The view a paint node is inserted in, if any. -/
def ViewGetParent (w : World) (view : View) : Option View :=
  w.view_parent view

/-- Modelled from the spec: `ViewUnparent`, of the subcompositor.  The paint
node is taken out of its parent's order; nothing happens to a node that has no
parent. -/
def ViewUnparent (w : World) (view : View) : World :=
  match w.view_parent view with
  | none => w
  | some parent =>
    { w with
        view_children := fun v =>
          if v = parent then (w.view_children parent).filter (fun c => c ≠ view)
          else w.view_children v
        view_parent := fun v => if v = view then none else w.view_parent v }

/-- Modelled from the spec: `ViewInsert`, of the subcompositor.  The paint node
becomes the last child of `parent`. -/
def ViewInsert (w : World) (parent child : View) : World :=
  { w with
      view_children := fun v =>
        if v = parent then w.view_children parent ++ [child] else w.view_children v
      view_parent := fun v => if v = child then some parent else w.view_parent v }

/-- The list with `child` put right after the first `sibling`; `none` when
`sibling` is not in it. -/
def insertAfter (sibling child : View) : List View → Option (List View)
  | [] => none
  | v :: rest =>
    if v = sibling then some (v :: child :: rest)
    else (insertAfter sibling child rest).map (fun l => v :: l)

/-- The list with `child` put right before the first `sibling`; `none` when
`sibling` is not in it. -/
def insertBefore (sibling child : View) : List View → Option (List View)
  | [] => none
  | v :: rest =>
    if v = sibling then some (child :: v :: rest)
    else (insertBefore sibling child rest).map (fun l => v :: l)

/-- Modelled from the spec: `ViewInsertAfter`, of the subcompositor.  The paint
node is put immediately above `sibling` in the order of `parent`, which must be
there and contain `sibling`. -/
def ViewInsertAfter (w : World) (parent : Option View) (child sibling : View) :
    Option World :=
  match parent with
  | none => none
  | some parent =>
    match insertAfter sibling child (w.view_children parent) with
    | none => none
    | some children =>
      some { w with
        view_children := fun v => if v = parent then children else w.view_children v
        view_parent := fun v => if v = child then some parent else w.view_parent v }

/-- Modelled from the spec: `ViewInsertBefore`, of the subcompositor.  The paint
node is put immediately below `sibling` in the order of `parent`, which must be
there and contain `sibling`. -/
def ViewInsertBefore (w : World) (parent : Option View) (child sibling : View) :
    Option World :=
  match parent with
  | none => none
  | some parent =>
    match insertBefore sibling child (w.view_children parent) with
    | none => none
    | some children =>
      some { w with
        view_children := fun v => if v = parent then children else w.view_children v
        view_parent := fun v => if v = child then some parent else w.view_parent v }

/-- Modelled from the spec: `ViewGetSubcompositor`, of the subcompositor. -/
def ViewGetSubcompositor (w : World) (view : View) : Option Nat :=
  w.view_subcompositor view

/-- Modelled from the spec: `ViewSetSubcompositor`, of the subcompositor. -/
def ViewSetSubcompositor (w : World) (view : View) (subcompositor : Option Nat) : World :=
  { w with
      view_subcompositor := fun v =>
        if v = view then subcompositor else w.view_subcompositor v }

end Sub

namespace Sub

/-! ## `subsurface.c`: the action queue -/

/-- `CheckSiblingRelationship` for the subsurface at `address`. -/
def CheckSiblingRelationship (w : World) (address other : Nat) : Option Bool :=
  match w.subsurfaces address, w.surfaces other with
  | some subsurface, some other_surface =>
    if other_surface.role_type ≠ RoleType.SubsurfaceType ∨ other_surface.role = none then
      some false
    else
      match other_surface.role with
      | some (RolePtr.subsurface k) =>
        match w.subsurfaces k with
        | some other_subsurface =>
          if other_subsurface.parent ≠ subsurface.parent then some false else some true
        | none => none
      | _ => none
  | _, _ => none

/-- `ParentBelow`. -/
def ParentBelow (w : World) (parent : Option View) (below : View) (surface : Nat) :
    Option World :=
  match ViewInsertBefore w parent (View.view surface) below with
  | none => none
  | some w1 => ViewInsertBefore w1 parent (View.under surface) (View.view surface)

/-- `ParentAbove`. -/
def ParentAbove (w : World) (parent : Option View) (above : View) (surface : Nat) :
    Option World :=
  match ViewInsertAfter w parent (View.under surface) above with
  | none => none
  | some w1 => ViewInsertAfter w1 parent (View.view surface) (View.under surface)

/-- `ParentStart`. -/
def ParentStart (w : World) (parent : View) (surface : Nat) : World :=
  ViewInsert (ViewInsert w parent (View.under surface)) parent (View.view surface)

/-- `RunOneSurfaceAction`; `subsurface` is `subaction->subsurface`. -/
def RunOneSurfaceAction (w : World) (subaction : SurfaceAction) : Option World :=
  match w.subsurfaces subaction.subsurface with
  | none => none
  | some subsurface =>
    match subsurface.surface, subsurface.parent with
    | some surface, some parent =>
      if subaction.type = SurfaceActionType.PlaceAboveOther then
        match (if subaction.other ≠ parent then
                CheckSiblingRelationship w subaction.subsurface subaction.other
              else some true) with
        | none => none
        | some false => some w
        | some true =>
          let target := ViewGetParent w (View.view subaction.other)
          let w1 := ViewUnparent (ViewUnparent w (View.view surface)) (View.under surface)
          if subaction.other = parent then
            some (ParentStart w1 (View.view parent) surface)
          else
            ParentAbove w1 target (View.view subaction.other) surface
      else if subaction.type = SurfaceActionType.PlaceBelowOther then
        match (if subaction.other ≠ parent then
                CheckSiblingRelationship w subaction.subsurface subaction.other
              else some true) with
        | none => none
        | some false => some w
        | some true =>
          let target := ViewGetParent w (View.view subaction.other)
          let w1 := ViewUnparent (ViewUnparent w (View.view surface)) (View.under surface)
          if subaction.other ≠ parent then
            ParentBelow w1 target (View.under subaction.other) surface
          else
            some (ParentStart w1 (View.under parent) surface)
      else some w
    | _, _ => some w

/-- `AddSurfaceAction`: the new action becomes the first of the parent's list,
which is allocated and initialised when it is not there yet. -/
def AddSurfaceAction (w : World) (address other : Nat) (type : SurfaceActionType) :
    Option World :=
  match w.subsurfaces address with
  | none => none
  | some subsurface =>
    let w1 := w.call (Call.XLSurfaceRunOnFree other)
    match subsurface.parent with
    | none => none
    | some parent =>
      match w1.surfaces parent with
      | none => none
      | some parent_surface =>
        let action : SurfaceAction := { type := type, subsurface := address, other := other }
        some (w1.setSurface parent
          { parent_surface with
              actions := some (action :: (parent_surface.actions.getD [])) })

/-- One turn of the loop of `RunSurfaceActions` on the last action of the list:
`RunOneSurfaceAction`, then `DestroySurfaceAction`, which cancels the destroy
listener and unlinks the action, leaving `remaining`. -/
def runAndDestroy (w : World) (parent : Nat) (action : SurfaceAction)
    (remaining : List SurfaceAction) : Option World :=
  match RunOneSurfaceAction w action with
  | none => none
  | some w1 =>
    match w1.surfaces parent with
    | none => none
    | some parent_surface =>
      some ((w1.call (Call.XLSurfaceCancelRunOnFree action.other)).setSurface parent
        { parent_surface with actions := some remaining })

/-- The loop of `RunSurfaceActions`, which starts at `first->last` and follows
the `last` links.  `backwards` is the list read in that direction. -/
def runBackwards (parent : Nat) : World → List SurfaceAction → Option World
  | w, [] => some w
  | w, action :: rest =>
    match runAndDestroy w parent action rest.reverse with
    | none => none
    | some w1 => runBackwards parent w1 rest

/-- `RunSurfaceActions` on the action list of the surface at `parent`. -/
def RunSurfaceActions (w : World) (parent : Nat) (actions : List SurfaceAction) :
    Option World :=
  runBackwards parent w actions.reverse

/-- `XLSubsurfaceHandleParentCommit`. -/
def XLSubsurfaceHandleParentCommit (w : World) (parent : Nat) : Option World :=
  match w.surfaces parent with
  | none => none
  | some parent_surface =>
    match parent_surface.actions with
    | none => some w
    | some actions => RunSurfaceActions w parent actions

/-- The test shared by `PlaceAbove` and `PlaceBelow`:
`other != subsurface->parent && !CheckSiblingRelationship (subsurface, other)`. -/
def placeRejected (w : World) (address other : Nat) : Option Bool :=
  match w.subsurfaces address with
  | none => none
  | some subsurface =>
    if subsurface.parent ≠ some other then
      (CheckSiblingRelationship w address other).map (fun sibling => !sibling)
    else some false

/-- `PlaceAbove`. -/
def PlaceAbove (w : World) (address other : Nat) : Option World :=
  match placeRejected w address other with
  | none => none
  | some true =>
    some (w.call (Call.wl_resource_post_error ProtocolError.WL_SUBSURFACE_ERROR_BAD_SURFACE))
  | some false => AddSurfaceAction w address other SurfaceActionType.PlaceAboveOther

/-- `PlaceBelow`. -/
def PlaceBelow (w : World) (address other : Nat) : Option World :=
  match placeRejected w address other with
  | none => none
  | some true =>
    some (w.call (Call.wl_resource_post_error ProtocolError.WL_SUBSURFACE_ERROR_BAD_SURFACE))
  | some false => AddSurfaceAction w address other SurfaceActionType.PlaceBelowOther

/-- `SetPosition`. -/
def SetPosition (w : World) (address : Nat) (x y : Int) : Option World :=
  match w.subsurfaces address with
  | none => none
  | some subsurface =>
    some (w.setSubsurface address
      { subsurface with
          pending_substate :=
            { x := x
              y := y
              flags := setFlag subsurface.pending_substate.flags PendingPosition } })

end Sub

namespace Sub

/-! ## `subsurface.c`: synchronous and desynchronous subsurfaces -/

/-- The loop `for (; list; list = list->next)` over the child surfaces of a
surface, as `SetSync1`, `NoteSubsurfaceDesynchronous` and
`NoteSubsurfaceTeardown` run it: each child's role is read as a subsurface and
handed to `body`. -/
def forEachChild (body : World → Nat → Option World) (w : World) (list : List Nat) :
    Option World :=
  list.foldlM
    (fun w child =>
      match w.roleOf child with
      | some child_subsurface => body w child_subsurface
      | none => none)
    w

/-- `SetSync1`. -/
def SetSync1 : Nat → World → Nat → Option World
  | 0, _, _ => none
  | fuel + 1, w, address =>
    match w.subsurfaces address with
    | none => none
    | some subsurface =>
      let w1 := w.setSubsurface address { subsurface with synchronous := true }
      match subsurface.surface with
      | none => some w1
      | some surface =>
        match w1.surfaces surface with
        | none => none
        | some s => forEachChild (SetSync1 fuel) w1 s.subsurfaces

/-- `SetSync`. -/
def SetSync (fuel : Nat) (w : World) (address : Nat) : Option World :=
  match w.subsurfaces address with
  | none => none
  | some subsurface =>
    SetSync1 fuel (w.setSubsurface address { subsurface with should_be_desync := false })
      address

/-- `IsParentSynchronous`. -/
def IsParentSynchronous (w : World) (address : Nat) : Option Bool :=
  match w.subsurfaces address with
  | none => none
  | some subsurface =>
    match subsurface.parent with
    | none => some false
    | some surface =>
      match w.surfaces surface with
      | none => none
      | some s =>
        if s.role_type ≠ RoleType.SubsurfaceType then some false
        else
          match s.role with
          | some (RolePtr.subsurface parent) =>
            match w.subsurfaces parent with
            | some p => some p.synchronous
            | none => none
          | _ => none

/-- `NoteSubsurfaceDesynchronous`.  The call of `XLCommitSurface` is recorded
and not run; `Cascade.NoteSubsurfaceDesynchronous` runs it. -/
def NoteSubsurfaceDesynchronous : Nat → World → Nat → Bool → Option World
  | 0, _, _, _ => none
  | fuel + 1, w, address, apply_state =>
    match w.subsurfaces address with
    | none => none
    | some subsurface =>
      let w1 := w.setSubsurface address { subsurface with synchronous := false }
      let w2 :=
        match subsurface.surface with
        | some surface =>
          if subsurface.pending_commit = true ∧ apply_state = true then
            (w1.call (Call.XLCommitSurface surface)).setSubsurface address
              { subsurface with synchronous := false, pending_commit := false }
          else w1
        | none => w1
      match subsurface.surface with
      | none => some w2
      | some surface =>
        match w2.surfaces surface with
        | none => none
        | some s =>
          forEachChild
            (fun w child_subsurface =>
              match w.subsurfaces child_subsurface with
              | none => none
              | some child =>
                if child.should_be_desync = true then
                  NoteSubsurfaceDesynchronous fuel w child_subsurface false
                else some w)
            w2 s.subsurfaces

/-- `NoteSubsurfaceTeardown`. -/
def NoteSubsurfaceTeardown : Nat → World → Nat → Option World
  | 0, _, _ => none
  | fuel + 1, w, address =>
    match w.subsurfaces address with
    | none => none
    | some subsurface =>
      match subsurface.surface with
      | none => none
      | some surface =>
        match w.surfaces surface with
        | none => none
        | some s =>
          let w1 := w.setSubsurface address { subsurface with synchronous := false }
          forEachChild
            (fun w child_subsurface =>
              match w.subsurfaces child_subsurface with
              | none => none
              | some child =>
                if child.should_be_desync = true then
                  NoteSubsurfaceTeardown fuel w child_subsurface
                else some w)
            w1 s.subsurfaces

/-- `SetDesync`. -/
def SetDesync (fuel : Nat) (w : World) (address : Nat) : Option World :=
  match w.subsurfaces address with
  | none => none
  | some subsurface =>
    let w1 := w.setSubsurface address { subsurface with should_be_desync := true }
    match IsParentSynchronous w1 address with
    | none => none
    | some true => some w1
    | some false => NoteSubsurfaceDesynchronous fuel w1 address true

/-- `DestroyBacking`: the subsurface is freed when its last reference goes. -/
def DestroyBacking (w : World) (address : Nat) : Option World :=
  match w.subsurfaces address with
  | none => none
  | some subsurface =>
    if subsurface.refcount - 1 ≠ 0 then
      some (w.setSubsurface address { subsurface with refcount := subsurface.refcount - 1 })
    else
      some { w with subsurfaces := fun j => if j = address then none else w.subsurfaces j }

/-- `EarlyCommit`, with the value it returns. -/
def EarlyCommit (w : World) (surface address : Nat) : Option (World × Bool) :=
  match w.subsurfaces address with
  | none => none
  | some subsurface =>
    if subsurface.synchronous = true then
      some (w.setSubsurface address { subsurface with pending_commit := true }, false)
    else if subsurface.pending_commit = true then
      some ((w.call (Call.XLSurfaceMergeCachedState surface)).setSubsurface address
        { subsurface with pending_commit := false }, true)
    else some (w, true)

/-- `MaybeUpdateOutputs`.  The positions are scaled in floating point and the
recorded `output_*` fields are not part of the model: the step is one call. -/
def MaybeUpdateOutputs (w : World) (address : Nat) : Option World :=
  match w.subsurfaces address with
  | none => none
  | some subsurface =>
    match subsurface.surface with
    | none => none
    | some surface => some (w.call (Call.MaybeUpdateOutputs surface))

/-- `MoveFractional`.  The conversion of the current position to window
coordinates is floating point: the step is recorded as one call that carries
the position in surface coordinates. -/
def MoveFractional (w : World) (address : Nat) : Option World :=
  match w.subsurfaces address with
  | none => none
  | some subsurface =>
    match subsurface.parent, subsurface.surface with
    | some parent, some surface =>
      match w.surfaces parent with
      | none => none
      | some _ =>
        some (w.call
          (Call.ViewMove surface subsurface.current_substate.x subsurface.current_substate.y))
    | _, _ => none

/-- `AfterParentCommit`; `surface` is the parent that commits.  The call of
`XLCommitSurface` is recorded and not run; `Cascade.AfterParentCommit` runs
it. -/
def AfterParentCommit (w : World) (surface address : Nat) : Option World :=
  match w.subsurfaces address with
  | none => none
  | some subsurface =>
    match subsurface.surface with
    | none => some w
    | some own =>
      let moved : Option World :=
        if hasFlag subsurface.pending_substate.flags PendingPosition then
          MoveFractional
            (w.setSubsurface address
              { subsurface with
                  current_substate :=
                    { subsurface.current_substate with
                        x := subsurface.pending_substate.x
                        y := subsurface.pending_substate.y } })
            address
        else some w
      match moved with
      | none => none
      | some w1 =>
        match w1.subsurfaces address with
        | none => none
        | some subsurface1 =>
          let w2 :=
            if subsurface1.pending = true then
              let a := ViewSetSubcompositor w1 (View.under own)
                (ViewGetSubcompositor w1 (View.view surface))
              let b := ViewInsert a (View.view surface) (View.under own)
              let c := ViewSetSubcompositor b (View.view own)
                (ViewGetSubcompositor b (View.view surface))
              let d := ViewInsert c (View.view surface) (View.view own)
              d.setSubsurface address { subsurface1 with pending := false }
            else w1
          let committed : Option World :=
            match w2.subsurfaces address with
            | none => none
            | some subsurface2 =>
              if subsurface2.pending_commit = true then
                MaybeUpdateOutputs (w2.call (Call.XLCommitSurface own)) address
              else some w2
          match committed with
          | none => none
          | some w3 =>
            match w3.subsurfaces address with
            | none => none
            | some subsurface3 =>
              some (w3.setSubsurface address
                { subsurface3 with
                    pending_commit := false
                    pending_substate := { subsurface3.pending_substate with flags := 0 } })

/-- `SubsurfaceUpdate`: the call goes through the function table of the
parent's role. -/
def SubsurfaceUpdate (w : World) (address : Nat) : Option World :=
  match w.subsurfaces address with
  | none => none
  | some subsurface =>
    match subsurface.parent with
    | none => some w
    | some parent =>
      match w.surfaces parent with
      | none => none
      | some p =>
        if p.role = none then some w else some (w.call (Call.subsurface_update parent))

end Sub

namespace Sub

/-! ## `subsurface.c`: attaching and detaching -/

/-- `Setup`. -/
def Setup (fuel : Nat) (w : World) (surface address : Nat) : Option World :=
  match w.surfaces surface, w.subsurfaces address with
  | some s, some subsurface =>
    let w1 := w.setSurface surface { s with role_type := RoleType.SubsurfaceType }
    let w2 := w1.setSubsurface address
      { subsurface with refcount := subsurface.refcount + 1, surface := some surface }
    match MoveFractional w2 address with
    | none => none
    | some w3 =>
      match subsurface.parent with
      | none => none
      | some parent =>
        match w3.surfaces parent, w3.subsurfaces address with
        | some p, some subsurface3 =>
          let w4 := w3.setSurface parent { p with subsurfaces := surface :: p.subsurfaces }
          let w5 := w4.setSubsurface address { subsurface3 with pending := true }
          SetSync1 fuel w5 address
        | _, _ => none
  | _, _ => none

/-- Modelled from the spec: `XLListRemove`, of the list helpers, which are not
part of these files.  Every element equal to `data` is taken out. -/
def XLListRemove (list : List Nat) (data : Nat) : List Nat :=
  list.filter (fun x => x ≠ data)

/-- The part of `Teardown` that runs when the subsurface still has a parent. -/
def teardownFromParent (w : World) (surface address parent : Nat) (pending : Bool) :
    Option World :=
  let subcompositor : Option Nat :=
    if pending = false then ViewGetSubcompositor w (View.view surface) else none
  let w1 :=
    if pending = false then
      ViewSetSubcompositor
        (ViewUnparent
          (ViewSetSubcompositor (ViewUnparent w (View.view surface)) (View.view surface) none)
          (View.under surface))
        (View.under surface) none
    else w
  match w1.surfaces parent with
  | none => none
  | some p =>
    let w2 :=
      match p.actions with
      | none => w1
      | some actions =>
        { (w1.setSurface parent
            { p with
              actions :=
                some (actions.filter (fun a : SurfaceAction => a.subsurface ≠ address)) })
          with calls :=
            w1.calls ++
              ((actions.filter (fun a : SurfaceAction => a.subsurface = address)).map
                (fun a : SurfaceAction => Call.XLSurfaceCancelRunOnFree a.other)) }
    match w2.surfaces parent with
    | none => none
    | some p2 =>
      let w3 := (w2.setSurface parent
        { p2 with
            subsurfaces := XLListRemove p2.subsurfaces surface
            commit_callbacks := p2.commit_callbacks.filter (fun k => k ≠ address) }).call
        (Call.XLSurfaceCancelCommitCallback parent)
      if subcompositor.isSome then SubsurfaceUpdate w3 address else some w3

/-- `Teardown`; `surface` is the surface the role is attached to. -/
def Teardown (fuel : Nat) (w : World) (surface address : Nat) : Option World :=
  match NoteSubsurfaceTeardown fuel w address with
  | none => none
  | some w1 =>
    match w1.subsurfaces address with
    | none => none
    | some subsurface =>
      let w2 := w1.setSubsurface address { subsurface with surface := none }
      let detached : Option World :=
        match subsurface.parent with
        | none => some w2
        | some parent => teardownFromParent w2 surface address parent subsurface.pending
      match detached with
      | none => none
      | some w3 =>
        match DestroyBacking w3 address with
        | none => none
        | some w4 => some (w4.call Call.XLDetectSurfaceIdleInhibit)

/-- `GetRootSurface`. -/
def GetRootSurface : Nat → World → Nat → Option Nat
  | 0, _, _ => none
  | fuel + 1, w, surface =>
    match w.surfaces surface with
    | none => none
    | some s =>
      if s.role_type ≠ RoleType.SubsurfaceType ∨ s.role = none then some surface
      else
        match s.role with
        | some (RolePtr.subsurface address) =>
          match w.subsurfaces address with
          | none => none
          | some subsurface =>
            match subsurface.parent with
            | none => some surface
            | some parent => GetRootSurface fuel w parent
        | _ => none

/-- Modelled from the spec: `XLSurfaceAttachRole`, of `surface.c`, which is not
part of these files.  The role's setup runs and the role becomes the role of
the surface. -/
def XLSurfaceAttachRole (fuel : Nat) (w : World) (surface address : Nat) : Option World :=
  match Setup fuel w surface address with
  | none => none
  | some w1 =>
    match w1.surfaces surface with
    | none => none
    | some s => some (w1.setSurface surface { s with role := some (RolePtr.subsurface address) })

/-- Modelled from the spec: `XLSurfaceReleaseRole`, of `surface.c`.  The role's
teardown runs and the surface's role pointer is cleared. -/
def XLSurfaceReleaseRole (fuel : Nat) (w : World) (surface address : Nat) : Option World :=
  match Teardown fuel w surface address with
  | none => none
  | some w1 =>
    match w1.surfaces surface with
    | none => none
    | some s => some (w1.setSurface surface { s with role := none })

/-- `GetSubsurface`.  `allocated` is what `XLSafeMalloc` returns and `resource`
tells whether `wl_resource_create` succeeds. -/
def GetSubsurface (fuel : Nat) (w : World) (surface parent : Nat) (allocated : Option Nat)
    (resource : Bool) : Option World :=
  match w.surfaces surface with
  | none => none
  | some s =>
    if s.role ≠ none
        ∨ (s.role_type ≠ RoleType.AnythingType ∧ s.role_type ≠ RoleType.SubsurfaceType) then
      some (w.call
        (Call.wl_resource_post_error ProtocolError.WL_SUBCOMPOSITOR_ERROR_BAD_SURFACE))
    else if parent = surface then
      some (w.call
        (Call.wl_resource_post_error ProtocolError.WL_SUBCOMPOSITOR_ERROR_BAD_PARENT))
    else
      match GetRootSurface fuel w parent with
      | none => none
      | some root =>
        if root = surface then
          some (w.call
            (Call.wl_resource_post_error ProtocolError.WL_SUBCOMPOSITOR_ERROR_BAD_PARENT))
        else
          match allocated with
          | none => some (w.call Call.wl_resource_post_no_memory)
          | some address =>
            if resource = false then some (w.call Call.wl_resource_post_no_memory)
            else
              match w.surfaces parent with
              | none => none
              | some p =>
                let w1 := w.setSubsurface address
                  { refcount := 1, parent := some parent, commit_callback := true,
                    synchronous := true }
                let w2 := (w1.setSurface parent
                  { p with commit_callbacks := p.commit_callbacks ++ [address] }).call
                  (Call.XLSurfaceRunAtCommit parent)
                XLSurfaceAttachRole fuel w2 surface address

/-- `DestroySubsurface`: the role is released if it is attached, and destroying
the resource drops the reference the resource held
(`HandleSubsurfaceResourceDestroy`). -/
def DestroySubsurface (fuel : Nat) (w : World) (address : Nat) : Option World :=
  match w.subsurfaces address with
  | none => none
  | some subsurface =>
    let released : Option World :=
      match subsurface.surface with
      | some surface => XLSurfaceReleaseRole fuel w surface address
      | none => some w
    match released with
    | none => none
    | some w1 => DestroyBacking w1 address

end Sub

namespace Sub

/-! ## `subsurface.c`: trees of subsurfaces -/

/-- The subsurface at `j` is reachable from the subsurface at `k`: it is `k`
itself, or it is reached by going, any number of times, from a subsurface
to its surface, to a child surface in its `subsurfaces` list, and to the
subsurface that is the child's role, through children that all satisfy
`want`. -/
inductive Reach (want : Subsurface → Bool) (w : World) : Nat → Nat → Prop where
  | refl (k : Nat) : Reach want w k k
  | step {k s c ck j : Nat} {subsurface child : Subsurface} {surface : Surface} :
      w.subsurfaces k = some subsurface → subsurface.surface = some s →
      w.surfaces s = some surface → c ∈ surface.subsurfaces →
      w.roleOf c = some ck → w.subsurfaces ck = some child → want child = true →
      Reach want w ck j → Reach want w k j

/-- The subsurface at `j` is the one at `k` or a descendant of it, at any
depth. -/
def Descendant (w : World) (k j : Nat) : Prop :=
  Reach (fun _ => true) w k j

/-- The subsurface at `j` is the one at `k` or is reached from it through a
chain of children that each have `should_be_desync` set. -/
def DesyncChain (w : World) (k j : Nat) : Prop :=
  Reach (fun child => child.should_be_desync) w k j

/-- The subsurfaces below the one at `k` form a tree of fewer than `height`
levels: every child surface in a `subsurfaces` list exists and has a subsurface
as its role, whose `role.surface` is that child. -/
def treeBelow (w : World) : Nat → Nat → Bool
  | 0, _ => false
  | height + 1, k =>
    match w.subsurfaces k with
    | none => false
    | some subsurface =>
      match subsurface.surface with
      | none => true
      | some s =>
        match w.surfaces s with
        | none => false
        | some surface =>
          surface.subsurfaces.all fun c =>
            match w.roleOf c with
            | none => false
            | some ck =>
              (match w.subsurfaces ck with
                | some child => decide (child.surface = some c)
                | none => false)
              && treeBelow w height ck

/-- The common shape of `SetSync1`, `NoteSubsurfaceDesynchronous` without
`apply_state`, and `NoteSubsurfaceTeardown`: the subsurface at `address` gets
`synchronous = value`, and the walk goes on into the children that satisfy
`want`.  With `strict` the surface of the subsurface is read unguarded. -/
def walk (value : Bool) (want : Subsurface → Bool) (strict : Bool) :
    Nat → World → Nat → Option World
  | 0, _, _ => none
  | fuel + 1, w, address =>
    match w.subsurfaces address with
    | none => none
    | some subsurface =>
      let w1 := w.setSubsurface address { subsurface with synchronous := value }
      match subsurface.surface with
      | none => if strict = true then none else some w1
      | some surface =>
        match w.surfaces surface with
        | none => none
        | some s =>
          forEachChild
            (fun w child_subsurface =>
              match w.subsurfaces child_subsurface with
              | none => none
              | some child =>
                if want child = true then walk value want strict fuel w child_subsurface
                else some w)
            w1 s.subsurfaces

/-- The world `w'` is `w` with `synchronous = value` stored into the
subsurfaces in `visited`, and nothing else changed. -/
def Resynced (value : Bool) (visited : Nat → Prop) (w w' : World) : Prop :=
  w'.surfaces = w.surfaces ∧ w'.view_parent = w.view_parent
    ∧ w'.view_children = w.view_children
    ∧ w'.view_subcompositor = w.view_subcompositor ∧ w'.calls = w.calls
    ∧ ∀ j,
      (visited j →
        w'.subsurfaces j
          = (w.subsurfaces j).map fun a => { a with synchronous := value })
      ∧ (¬ visited j → w'.subsurfaces j = w.subsurfaces j)

/-- The worlds have the same surfaces, and their subsurfaces differ at most in
`synchronous`. -/
def SameTree (w w' : World) : Prop :=
  w'.surfaces = w.surfaces
    ∧ ∀ j, (w'.subsurfaces j).map (fun a => { a with synchronous := false })
        = (w.subsurfaces j).map (fun a => { a with synchronous := false })

/-- Modelled from the spec: a surface as it is created, with no role, no role
type reserved and no subsurfaces. -/
def addSurface (w : World) (surface : Nat) : World :=
  w.setSurface surface {}

end Sub

namespace Sub

/-! ## Sample worlds -/

/-- Four surfaces, 1 to 4, none with a role. -/
def fourSurfaces : World :=
  addSurface (addSurface (addSurface (addSurface World.empty 1) 2) 3) 4

/-- Surfaces 2 and 3 made subsurfaces 10 and 11 of surface 1 by
`GetSubsurface`, in that order. -/
def family : World :=
  ((GetSubsurface 4 fourSurfaces 2 1 (some 10) true).bind fun w =>
    GetSubsurface 4 w 3 1 (some 11) true).getD World.empty

/-- A subsurface as `GetSubsurface` leaves it: attached, synchronous, not yet
parented, held by its resource and its role. -/
def newSubsurface (surface parent : Nat) : Subsurface :=
  { surface := some surface, parent := some parent, refcount := 2, commit_callback := true,
    synchronous := true, pending := true }

/-- The `family` with surface 4 made subsurface 12 of surface 2. -/
def nested : World :=
  (GetSubsurface 4 family 4 2 (some 12) true).getD World.empty

end Sub


namespace Sub

/-- The request `set_desync` made `count` times in a row on one subsurface. -/
def repeatSetDesync (fuel : Nat) : Nat → World → Nat → Option World
  | 0, w, _ => some w
  | count + 1, w, address =>
    (SetDesync fuel w address).bind fun w1 => repeatSetDesync fuel count w1 address

end Sub


namespace Sub

/-- The `nested` world after subsurface 12 asked for `set_desync` while its
parent 10 was synchronous. -/
def heldDesync : World :=
  (SetDesync 4 nested 12).getD World.empty

end Sub


namespace Sub

/-- The `nested` world with a fifth surface made subsurface 13 of surface 4,
which then asked for `set_desync`: 13 is held synchronous by its parent 12,
which never asked. -/
def deepHeld : World :=
  ((GetSubsurface 4 (addSurface nested 5) 5 4 (some 13) true).bind fun w =>
    SetDesync 4 w 13).getD World.empty

end Sub


namespace Sub

/-- The `family` after the first commit of the parent surface 1: both
subsurfaces have their views in the parent's view. -/
def parented : World :=
  ((AfterParentCommit family 1 10).bind fun w => AfterParentCommit w 1 11).getD World.empty

end Sub


namespace Sub

/-! ## Siblings in the paint order -/

/-- The subsurface at `address`, on surface `own` with parent surface `parent`,
and the surface `other` are siblings that `CheckSiblingRelationship` accepts,
the views of both are children of the view `top`, and `others` is the paint
order of `top` without the two views of `own`. -/
def SiblingViews (w : World) (address own other parent : Nat) (top : View)
    (others : List View) : Prop :=
  (∃ a, w.subsurfaces address = some a ∧ a.surface = some own ∧ a.parent = some parent)
    ∧ own ≠ other ∧ other ≠ parent
    ∧ CheckSiblingRelationship w address other = some true
    ∧ w.view_parent (View.view other) = some top
    ∧ w.view_parent (View.view own) = some top
    ∧ w.view_parent (View.under own) = some top
    ∧ ((w.view_children top).filter (fun c => c ≠ View.view own)).filter
        (fun c => c ≠ View.under own) = others
    ∧ View.under other ∈ others ∧ View.view other ∈ others

/-- The paint order `others` with the views of `own` put immediately below the
under view of `other`, as `ParentBelow` does it. -/
def orderBelow (own other : Nat) (others : List View) : Option (List View) :=
  (insertBefore (View.under other) (View.view own) others).bind
    (insertBefore (View.view own) (View.under own))

/-- The paint order `others` with the views of `own` put immediately above the
content view of `other`, as `ParentAbove` does it. -/
def orderAbove (own other : Nat) (others : List View) : Option (List View) :=
  (insertAfter (View.view other) (View.under own) others).bind
    (insertAfter (View.under own) (View.view own))

end Sub


namespace Sub

/-! ## Reachable worlds and what holds in them -/

/-- The worlds built from nothing by creating surfaces and by the requests and
callbacks of `subsurface.c`: `GetSubsurface` (which runs `Setup`), `SetSync`,
`SetDesync`, `EarlyCommit`, `AfterParentCommit`, and `Teardown` as the release
of the role of the surface it is attached to.  A new surface and a new
subsurface get an address that is not in use; a step is taken when the
operation returns. -/
inductive Reachable : World → Prop where
  | init : Reachable World.empty
  | surface {w : World} (s : Nat) :
      Reachable w → w.surfaces s = none → Reachable (addSurface w s)
  | getSubsurface {w w' : World} (fuel surface parent : Nat) (allocated : Option Nat)
      (resource : Bool) :
      Reachable w → (∀ address, allocated = some address → w.subsurfaces address = none) →
      GetSubsurface fuel w surface parent allocated resource = some w' → Reachable w'
  | setSync {w w' : World} (fuel address : Nat) :
      Reachable w → SetSync fuel w address = some w' → Reachable w'
  | setDesync {w w' : World} (fuel address : Nat) :
      Reachable w → SetDesync fuel w address = some w' → Reachable w'
  | earlyCommit {w w' : World} (surface address : Nat) (applied : Bool) :
      Reachable w → EarlyCommit w surface address = some (w', applied) → Reachable w'
  | afterParentCommit {w w' : World} (surface address : Nat) :
      Reachable w → AfterParentCommit w surface address = some w' → Reachable w'
  | teardown {w w' : World} (fuel surface address : Nat) (a : Subsurface) :
      Reachable w → w.subsurfaces address = some a → a.surface = some surface →
      XLSurfaceReleaseRole fuel w surface address = some w' → Reachable w'

/-- Every attached subsurface whose parent surface carries an attached
synchronous subsurface role is itself synchronous. -/
def SyncHeld (w : World) : Prop :=
  ∀ (k s p t : Nat) (a ta : Subsurface) (psurf : Surface),
    w.subsurfaces k = some a → a.surface = some s → a.parent = some p →
    w.surfaces p = some psurf → psurf.role = some (RolePtr.subsurface t) →
    w.subsurfaces t = some ta → ta.surface = some p → ta.synchronous = true →
    a.synchronous = true

/-- The pointers between surfaces and subsurfaces agree: an attached subsurface
is the role of its surface, which is in the list of its parent, and every
surface in a list has an attached subsurface role with that parent. -/
def WellLinked (w : World) : Prop :=
  (∀ (k s : Nat) (a : Subsurface), w.subsurfaces k = some a → a.surface = some s →
    ∃ surf p psurf, w.surfaces s = some surf ∧ surf.role = some (RolePtr.subsurface k)
      ∧ surf.role_type = RoleType.SubsurfaceType
      ∧ a.parent = some p ∧ w.surfaces p = some psurf ∧ s ∈ psurf.subsurfaces)
  ∧ (∀ (p c : Nat) (psurf : Surface), w.surfaces p = some psurf → c ∈ psurf.subsurfaces →
    ∃ ck child, w.roleOf c = some ck ∧ w.subsurfaces ck = some child
      ∧ child.surface = some c ∧ child.parent = some p)

end Sub


namespace Sub

/-- What the pointer structure reads of a surface: its role type, its role and
its list of child surfaces. -/
def Surface.links (s : Surface) : RoleType × Option RolePtr × List Nat :=
  (s.role_type, s.role, s.subsurfaces)

/-- What the pointer structure reads of a subsurface: its surface, its parent
and whether it is synchronous. -/
def Subsurface.links (a : Subsurface) : Option Nat × Option Nat × Bool :=
  (a.surface, a.parent, a.synchronous)

end Sub


namespace Sub

/-! ## `subsurface.c`: the parent goes away -/

/-- `XLSubsurfaceParentDestroyed`. -/
def XLSubsurfaceParentDestroyed (w : World) (address : Nat) : Option World :=
  match w.subsurfaces address with
  | none => none
  | some subsurface =>
    let w1 :=
      match subsurface.surface with
      | some surface => ViewUnparent (ViewUnparent w (View.view surface)) (View.under surface)
      | none => w
    some (w1.setSubsurface address
      { subsurface with commit_callback := false, parent := none })

/-- Modelled from the spec: the destruction of a surface without a role, of
`surface.c`, which is not part of these files.  The role of every surface in
the list of children is told through `XLSubsurfaceParentDestroyed`, and the
surface is freed with its list. -/
def destroySurface (w : World) (surface : Nat) : Option World :=
  match w.surfaces surface with
  | none => none
  | some s =>
    match forEachChild XLSubsurfaceParentDestroyed w s.subsurfaces with
    | none => none
    | some w1 =>
      some { w1 with surfaces := fun j => if j = surface then none else w1.surfaces j }

/-- The `nested` world after the subsurface role 10 of surface 2 was released:
surface 2 keeps its role type and its child, surface 4 with subsurface 12. -/
def detachedParent : World :=
  (XLSurfaceReleaseRole 4 nested 2 10).getD World.empty

/-- The `family` after the parent surface 1 was destroyed: subsurfaces 10 and
11, on surfaces 2 and 3, have no parent any more. -/
def orphans : World :=
  (destroySurface family 1).getD World.empty

/-- The worlds built from nothing by creating surfaces, by `GetSubsurface`, by
`Teardown` as the release of the role of the surface it is attached to, and by
destroying a surface that has no role, which runs `XLSubsurfaceParentDestroyed`
on its children.  A new surface and a new subsurface get an address that is
not in use; a step is taken when the operation returns. -/
inductive TreeReachable : World → Prop where
  | init : TreeReachable World.empty
  | surface {w : World} (s : Nat) :
      TreeReachable w → w.surfaces s = none → TreeReachable (addSurface w s)
  | getSubsurface {w w' : World} (fuel surface parent : Nat) (allocated : Option Nat)
      (resource : Bool) :
      TreeReachable w →
      (∀ address, allocated = some address → w.subsurfaces address = none) →
      GetSubsurface fuel w surface parent allocated resource = some w' → TreeReachable w'
  | teardown {w w' : World} (fuel surface address : Nat) (a : Subsurface) :
      TreeReachable w → w.subsurfaces address = some a → a.surface = some surface →
      XLSurfaceReleaseRole fuel w surface address = some w' → TreeReachable w'
  | destroy {w w' : World} (surface : Nat) (s : Surface) :
      TreeReachable w → w.surfaces surface = some s → s.role = none →
      destroySurface w surface = some w' → TreeReachable w'

end Sub


namespace Sub

/-- The `parented` world after subsurface 10 asked to be placed above surface 3
and subsurface 11 asked to be placed below surface 2: both actions wait in the
queue of the parent surface 1. -/
def queued : World :=
  ((PlaceAbove parented 10 3).bind fun w => PlaceBelow w 11 2).getD World.empty

end Sub


namespace Xdg

/-- A fresh role after the resize notification of the window manager
(`HandleResize` with `only_frame` false). -/
def resizedRole : XdgRole := (HandleResize freshRole false).1

end Xdg


namespace Xdg

/-! ## `xdg_surface.c`: the bounds of the window -/

/-- `CurrentRootPosition`.  `translated` is what `XTranslateCoordinates`
answers for the origin of the window. -/
def CurrentRootPosition (role : XdgRole) (translated : Int × Int) : Int × Int :=
  if role.pending_synth_configure ≠ 0 then (role.pending_root_x, role.pending_root_y)
  else translated

/-- The block of `NoteBounds` that resizes the window when the size of the
bounds changed.  The third component is the root position when it was
looked up (`root_position_initialized`).  The result is `none` when the source
would dereference a `NULL` `impl`. -/
def noteBoundsResize (funcs : ImplTable) (role : XdgRole) (min_x min_y : Int)
    (bounds_width bounds_height : Int) (translated : Int × Int) :
    Option (XdgRole × List Call × Option (Int × Int)) :=
  if role.bounds_width ≠ bounds_width ∨ role.bounds_height ≠ bounds_height then
    let root := CurrentRootPosition role translated
    match role.impl with
    | none => none
    | some impl =>
      let pre : XdgRole × List Call :=
        match (funcs impl).note_window_pre_resize with
        | some f =>
          (f role bounds_width bounds_height,
            [Call.impl_note_window_pre_resize impl bounds_width bounds_height])
        | none => (role, [])
      match pre.1.impl with
      | none => none
      | some impl2 =>
        let post : XdgRole × List Call :=
          match (funcs impl2).note_window_resized with
          | some f =>
            (f pre.1 bounds_width bounds_height,
              [Call.impl_note_window_resized impl2 bounds_width bounds_height])
          | none => (pre.1, [])
        some (post.1,
          [Call.XLUpdateSurfaceOutputsOf role.surface (root.1 + min_x) (root.2 + min_y)
              (-1) (-1)]
            ++ pre.2 ++ [Call.XResizeWindow bounds_width bounds_height] ++ post.2,
          some root)
  else some (role, [], none)

/-- The block of `NoteBounds` that handles a change of the window geometry once
the window is really resized. -/
def noteBoundsGeometry (funcs : ImplTable) (role : XdgRole) : Option (XdgRole × List Call) :=
  if hasFlag role.state StateDirtyFrameExtents then
    match role.impl with
    | none => none
    | some impl =>
      let changed : XdgRole × List Call :=
        match (funcs impl).handle_geometry_change with
        | some f => (f role, [Call.impl_handle_geometry_change impl])
        | none => (role, [])
      some ({ changed.1 with state := clearFlag changed.1.state StateDirtyFrameExtents },
        changed.2)
  else some (role, [])

/-- The block of `NoteBounds` that moves the window when the minimum coordinates
changed; `root` is the root position if the resize block looked it up. -/
def noteBoundsMove (role : XdgRole) (min_x min_y : Int) (root : Option (Int × Int))
    (translated : Int × Int) : XdgRole × List Call :=
  if min_x ≠ role.min_x ∨ min_y ≠ role.min_y then
    let root := root.getD (CurrentRootPosition role translated)
    ({ role with
        pending_root_x := root.1 + min_x + role.min_x
        pending_root_y := root.2 + min_y + role.min_y
        pending_synth_configure := role.pending_synth_configure + 1 },
      [Call.XMoveWindow (root.1 + min_x + role.min_x) (root.2 + min_y + role.min_y)])
  else (role, [])

/-- `NoteBounds`, with the integers of the source taken as mathematical
integers. -/
def NoteBounds (funcs : ImplTable) (role : XdgRole) (min_x min_y max_x max_y : Int)
    (translated : Int × Int) : Option (XdgRole × List Call) :=
  if hasFlag role.state StateWaitingForAckCommit then some (role, [])
  else if hasFlag role.state StateTemporaryBounds then some (role, [])
  else
    let bounds_width := max_x - min_x + 1
    let bounds_height := max_y - min_y + 1
    match noteBoundsResize funcs role min_x min_y bounds_width bounds_height translated with
    | none => none
    | some (role1, calls1, root) =>
      match noteBoundsGeometry funcs role1 with
      | none => none
      | some (role2, calls2) =>
        let moved := noteBoundsMove role2 min_x min_y root translated
        let role3 : XdgRole :=
          { moved.1 with
              min_x := min_x
              max_x := max_x
              min_y := min_y
              max_y := max_y
              bounds_width := bounds_width
              bounds_height := bounds_height }
        let noted : XdgRole × List Call :=
          match role3.impl with
          | some impl =>
            match (funcs impl).note_size with
            | some f =>
              (f role3 (max_x - min_x + 1) (max_y - min_y + 1),
                [Call.impl_note_size impl (max_x - min_x + 1) (max_y - min_y + 1)])
            | none => (role3, [])
          | none => (role3, [])
        some (noted.1,
          calls1 ++ calls2 ++ moved.2 ++ noted.2
            ++ (if root.isSome ∨ moved.2 ≠ [] then [Call.RunReconstrainCallbacks] else []))

/-- A role with the idle implementation whose bounds were noted once, as
(3, 0) to (12, 9), with the window at (100, 200) in the root window. -/
def boundedRole : XdgRole :=
  ((NoteBounds idleFuncs attachedRole 3 0 12 9 (100, 200)).map Prod.fst).getD {}

end Xdg

namespace Icon

/-! ## `icon_surface.c`: commit -/

/-- `MoveWindowTo`.  `x_off` and `y_off` as for `UpdateOutputs`; the result is
`none` when the source would read them from a `NULL` surface. -/
def MoveWindowTo (icon : IconSurface) (x y : Int) (x_off y_off : Int) :
    Option (IconSurface × List Call) :=
  if icon.x = x ∧ icon.y = y then some (icon, [])
  else
    match icon.surface with
    | none => none
    | some _ =>
      let icon1 := { icon with x := x, y := y }
      some (icon1,
        Call.XMoveWindow (icon1.x + icon1.min_x + x_off) (icon1.y + icon1.min_y + y_off)
          :: UpdateOutputs icon1 x_off y_off)

/-- `Commit`.  `attachments` tells whether `PendingAttachments` is set in the
pending state of the surface, `buffer` whether the surface has a buffer
attached; `x_off` and `y_off` as for `UpdateOutputs`. -/
def Commit (icon : IconSurface) (attachments buffer : Bool) (x_off y_off : Int) :
    Option (IconSurface × List Call) :=
  let moved : Option (IconSurface × List Call) :=
    if attachments = true then MoveWindowTo icon icon.x icon.y x_off y_off
    else some (icon, [])
  match moved with
  | none => none
  | some (icon1, calls1) =>
    let mapped : IconSurface × List Call :=
      if buffer = true then MaybeMapWindow icon1 x_off y_off else MaybeUnmapWindow icon1
    some (mapped.1, calls1 ++ mapped.2 ++ [Call.SyncHelperUpdate])

/-- `XLMoveIconSurface`. -/
def XLMoveIconSurface (icon : IconSurface) (root_x root_y : Int) (x_off y_off : Int) :
    Option (IconSurface × List Call) :=
  MoveWindowTo icon root_x root_y x_off y_off

/-- An icon surface that was moved to (40, 50) in the root window. -/
def movedIcon : IconSurface :=
  ((XLMoveIconSurface freshIcon 40 50 0 0).map Prod.fst).getD {}

end Icon


namespace Icon

/-- The `movedIcon` after a commit with a buffer attached: its window is
mapped. -/
def mappedIcon : IconSurface :=
  ((Commit movedIcon false true 0 0).map Prod.fst).getD {}

end Icon


namespace Xdg

/-! ## `xdg_surface.c`: the references to a role -/

/-- `ReleaseBacking`: one reference is dropped; when none is left the backing
data is released, an implementation still attached is detached, and the role
is freed, which is the result `none`.  Of the release, the calls that free the
helpers, the target, the window, the subcompositor and the role are
recorded. -/
def ReleaseBacking (role : XdgRole) : Option XdgRole × List Call :=
  if role.refcount - 1 ≠ 0 then
    (some { role with refcount := role.refcount - 1 }, [])
  else
    (none,
      [Call.FreeBufferReleaseHelper]
        ++ (match role.impl with
            | some impl => [Call.impl_detach impl]
            | none => [])
        ++ [Call.RenderDestroyRenderTarget, Call.XDestroyWindow, Call.FreeSyncHelper,
            Call.SubcompositorFree, Call.XLFree])

/-- `Teardown` in full: the reference to the surface is cleared and
`ReleaseBacking` runs.  (`Teardown` above is what this leaves of a role that
stays alive.) -/
def TeardownBacking (role : XdgRole) : Option XdgRole × List Call :=
  ReleaseBacking { role with surface := none }

/-- `HandleResourceDestroy`: the client's handle of the role is gone. -/
def HandleResourceDestroy (role : XdgRole) : Option XdgRole × List Call :=
  ReleaseBacking role

end Xdg

namespace Icon

/-! ## `icon_surface.c`: the references to an icon surface -/

/-- `ReleaseBacking`: one reference is dropped; when none is left the backing
data is released and the icon surface is freed, which is the result `none`.
Of the release, the calls that free the target, the window, the helpers, the
subcompositor and the icon surface are recorded. -/
def ReleaseBacking (icon : IconSurface) : Option IconSurface × List Call :=
  if icon.refcount - 1 ≠ 0 then
    (some { icon with refcount := icon.refcount - 1 }, [])
  else
    (none,
      [Call.RenderDestroyRenderTarget, Call.XDestroyWindow, Call.FreeBufferReleaseHelper,
        Call.FreeSyncHelper, Call.SubcompositorFree, Call.XLFree])

/-- `Teardown`. -/
def Teardown (icon : IconSurface) : Option IconSurface × List Call :=
  ReleaseBacking { icon with surface := none }

/-- `XLReleaseIconSurface`: the owner of the icon surface gives it up. -/
def XLReleaseIconSurface (icon : IconSurface) : Option IconSurface × List Call :=
  let unmapped := MaybeUnmapWindow icon
  let released :=
    ReleaseBacking { unmapped.1 with state := setFlag unmapped.1.state StateIsReleased }
  (released.1, unmapped.2 ++ released.2)

end Icon

namespace Roles

open Sub

/-! ## The role type of a surface -/

/-- `XLGetXdgSurface` of `xdg_surface.c`, as far as the surface is concerned:
the test of the role and of the role type, the two allocations (`allocated`,
`resource`), and the attaching of the role, in which `Setup` assigns
`XdgType`. -/
def XLGetXdgSurface (w : World) (surface : Nat) (allocated resource : Bool) : Option World :=
  match w.surfaces surface with
  | none => none
  | some s =>
    if s.role ≠ none
        ∨ (s.role_type ≠ RoleType.AnythingType ∧ s.role_type ≠ RoleType.XdgType) then
      some (w.call (Call.wl_resource_post_error ProtocolError.XDG_WM_BASE_ERROR_ROLE))
    else if allocated = false ∨ resource = false then
      some (w.call Call.wl_client_post_no_memory)
    else
      some (w.setSurface surface
        { s with role_type := RoleType.XdgType, role := some RolePtr.other })

/-- `XLGetIconSurface` of `icon_surface.c`, as far as the surface is concerned:
the role is attached, and `Setup` assigns no role type.  The result is `none`
when the surface has a role already, where the source aborts. -/
def XLGetIconSurface (w : World) (surface : Nat) : Option World :=
  match w.surfaces surface with
  | none => none
  | some s =>
    if s.role ≠ none then none
    else some (w.setSurface surface { s with role := some RolePtr.other })

/-- Modelled from the spec: `XLSurfaceReleaseRole`, of `surface.c`, for a
shell-surface or icon-surface role.  The `Teardown` of either leaves the
fields of the surface alone, and the role pointer is cleared. -/
def XLSurfaceReleaseRole (w : World) (surface : Nat) : Option World :=
  match w.surfaces surface with
  | none => none
  | some s =>
    match s.role with
    | some RolePtr.other => some (w.setSurface surface { s with role := none })
    | _ => none

/-- Surface 2 of `fourSurfaces` after it was an icon surface and the role was
released. -/
def iconReleased : World :=
  ((XLGetIconSurface fourSurfaces 2).bind fun w => XLSurfaceReleaseRole w 2).getD World.empty

/-- Surface 2 of `fourSurfaces` after it was a shell surface and the role was
released. -/
def xdgReleased : World :=
  ((XLGetXdgSurface fourSurfaces 2 true true).bind fun w =>
    XLSurfaceReleaseRole w 2).getD World.empty

/-- Surface 2 of `fourSurfaces` after it was a subsurface of surface 1 and the
role was released. -/
def subReleased : World :=
  ((GetSubsurface 4 fourSurfaces 2 1 (some 10) true).bind fun w =>
    Sub.XLSurfaceReleaseRole 4 w 2 10).getD World.empty

end Roles


namespace Sub

/-! ## `subsurface.c`: the forest of surfaces -/

/-- `XLUpdateDesynchronousChildren`; `n_children` is the counter behind the
pointer, and the result is its value when the function returns. -/
def XLUpdateDesynchronousChildren : Nat → World → Nat → Int → Option Int
  | 0, _, _, _ => none
  | fuel + 1, w, parent, n_children =>
    match w.surfaces parent with
    | none => none
    | some p =>
      p.subsurfaces.foldlM
        (fun n child =>
          match w.roleOf child with
          | none => none
          | some k =>
            match w.subsurfaces k with
            | none => none
            | some subsurface =>
              XLUpdateDesynchronousChildren fuel w child
                (if subsurface.synchronous = false then n + 1 else n))
        n_children

/-- The surface `p` is the parent of the surface `c`: `c` has a subsurface as
its role, and `p` is the `parent` of that subsurface. -/
def ParentOf (w : World) (c p : Nat) : Prop :=
  ∃ (surf : Surface) (k : Nat) (a : Subsurface), w.surfaces c = some surf
    ∧ surf.role = some (RolePtr.subsurface k) ∧ w.subsurfaces k = some a
    ∧ a.parent = some p

/-- The surface `s` is `top` or is reached from it by going down the lists of
child surfaces. -/
inductive Below (w : World) (top : Nat) : Nat → Prop where
  | refl : Below w top top
  | step {p c : Nat} {psurf : Surface} :
      Below w top p → w.surfaces p = some psurf → c ∈ psurf.subsurfaces → Below w top c

/-- The pointers between surfaces and subsurfaces agree, where a subsurface may
have lost its parent: an attached subsurface is the role of its surface, which
is in the list of its parent if it has one; every surface in a list has an
attached subsurface role with that parent; every role is an attached
subsurface. -/
def Linked (w : World) : Prop :=
  (∀ (k s : Nat) (a : Subsurface), w.subsurfaces k = some a → a.surface = some s →
    ∃ surf, w.surfaces s = some surf ∧ surf.role = some (RolePtr.subsurface k)
      ∧ surf.role_type = RoleType.SubsurfaceType
      ∧ ∀ p, a.parent = some p →
          ∃ psurf, w.surfaces p = some psurf ∧ s ∈ psurf.subsurfaces)
  ∧ (∀ (p c : Nat) (psurf : Surface), w.surfaces p = some psurf → c ∈ psurf.subsurfaces →
    ∃ ck child, w.roleOf c = some ck ∧ w.subsurfaces ck = some child
      ∧ child.surface = some c ∧ child.parent = some p)
  ∧ (∀ (s : Nat) (surf : Surface) (r : RolePtr), w.surfaces s = some surf →
    surf.role = some r →
    ∃ k a, r = RolePtr.subsurface k ∧ w.subsurfaces k = some a ∧ a.surface = some s)

/-- Every surface has a depth of at most `N`, and a surface in a list of
children is deeper than the surface that has the list. -/
def Ranked (w : World) (depth : Nat → Nat) (N : Nat) : Prop :=
  (∀ (s : Nat) (surf : Surface), w.surfaces s = some surf → depth s ≤ N)
  ∧ ∀ (p c : Nat) (psurf : Surface), w.surfaces p = some psurf → c ∈ psurf.subsurfaces →
    depth p < depth c

/-- The surfaces form a forest: the pointers agree and the lists of children
go down a finite depth. -/
def Forest (w : World) : Prop :=
  Linked w ∧ ∃ depth N, Ranked w depth N

/-- What the forest reads of a subsurface: its surface and its parent. -/
def Subsurface.ends (a : Subsurface) : Option Nat × Option Nat :=
  (a.surface, a.parent)

end Sub


namespace Sub

/-- The surface `a` is an ancestor of the surface `s`: it is reached from `s`
by following the parent links, at least one. -/
def Ancestor (w : World) (s a : Nat) : Prop :=
  Relation.TransGen (fun c p => ParentOf w c p) s a

end Sub



namespace Cascade

open Sub

/-! ## `subsurface.c`: the commit of a surface, run through -/

/-- `Commit`, the commit of the subsurface role at `address`, attached to
`surface`.  `buffer` tells of a surface whether `current_state.buffer` is set
when its role is committed. -/
def Commit (buffer : Nat → Bool) (w : World) (surface address : Nat) : Option World :=
  match ViewGetSubcompositor w (View.view surface) with
  | none => some w
  | some _ =>
    match w.subsurfaces address with
    | none => none
    | some subsurface =>
      let w1 :=
        if buffer surface = false then
          let unmapped :=
            (w.call (Call.ViewUnmap surface true)).call (Call.ViewUnmap surface false)
          (if subsurface.mapped = true then unmapped.call Call.XLDetectSurfaceIdleInhibit
            else unmapped).setSubsurface address { subsurface with mapped := false }
        else
          let mapped := w.call (Call.ViewMap surface true)
          (if subsurface.mapped = false then mapped.call Call.XLDetectSurfaceIdleInhibit
            else mapped).setSubsurface address { subsurface with mapped := true }
      if subsurface.synchronous = false then
        match SubsurfaceUpdate w1 address with
        | none => none
        | some w2 => MaybeUpdateOutputs w2 address
      else some w1

/-- `AfterParentCommit` with the commit of the cached state run: `surface` is
the parent that commits, and `commit` is `XLCommitSurface (surface, False)`. -/
def AfterParentCommit (commit : World → Nat → Option World) (w : World)
    (surface address : Nat) : Option World :=
  match w.subsurfaces address with
  | none => none
  | some subsurface =>
    match subsurface.surface with
    | none => some w
    | some own =>
      let moved : Option World :=
        if hasFlag subsurface.pending_substate.flags PendingPosition then
          MoveFractional
            (w.setSubsurface address
              { subsurface with
                  current_substate :=
                    { subsurface.current_substate with
                        x := subsurface.pending_substate.x
                        y := subsurface.pending_substate.y } })
            address
        else some w
      match moved with
      | none => none
      | some w1 =>
        match w1.subsurfaces address with
        | none => none
        | some subsurface1 =>
          let w2 :=
            if subsurface1.pending = true then
              let a := ViewSetSubcompositor w1 (View.under own)
                (ViewGetSubcompositor w1 (View.view surface))
              let b := ViewInsert a (View.view surface) (View.under own)
              let c := ViewSetSubcompositor b (View.view own)
                (ViewGetSubcompositor b (View.view surface))
              let d := ViewInsert c (View.view surface) (View.view own)
              d.setSubsurface address { subsurface1 with pending := false }
            else w1
          let committed : Option World :=
            match w2.subsurfaces address with
            | none => none
            | some subsurface2 =>
              if subsurface2.pending_commit = true then
                match commit w2 own with
                | none => none
                | some w3 => MaybeUpdateOutputs w3 address
              else some w2
          match committed with
          | none => none
          | some w4 =>
            match w4.subsurfaces address with
            | none => none
            | some subsurface4 =>
              some (w4.setSubsurface address
                { subsurface4 with
                    pending_commit := false
                    pending_substate := { subsurface4.pending_substate with flags := 0 } })

/-- Modelled from the spec: `XLCommitSurface (surface, False)`, of `surface.c`,
which is not part of these files.  The cached state of the surface is applied
(recorded as the call); the commit callbacks registered on the surface run
in the order they were registered, which for the callbacks of `subsurface.c`
is `AfterParentCommit` for each subsurface that has the surface as its parent;
the queue of reorderings runs after them (`XLSubsurfaceHandleParentCommit`);
and the commit of the role of the surface runs, which for a subsurface is
`Commit`.  The fuel bounds the nesting of commits inside commits. -/
def XLCommitSurface (buffer : Nat → Bool) : Nat → World → Nat → Option World
  | 0, _, _ => none
  | fuel + 1, w, surface =>
    match w.surfaces surface with
    | none => none
    | some s =>
      match s.commit_callbacks.foldlM
          (fun w address => AfterParentCommit (XLCommitSurface buffer fuel) w surface address)
          (w.call (Call.XLCommitSurface surface)) with
      | none => none
      | some w1 =>
        match XLSubsurfaceHandleParentCommit w1 surface with
        | none => none
        | some w2 =>
          match s.role with
          | some (RolePtr.subsurface address) => Commit buffer w2 surface address
          | some RolePtr.other => some (w2.call (Call.role_commit surface))
          | none => some w2

/-- `NoteSubsurfaceDesynchronous` with the commit of the cached state run;
`commit` is `XLCommitSurface (surface, False)`. -/
def NoteSubsurfaceDesynchronous (commit : World → Nat → Option World) :
    Nat → World → Nat → Bool → Option World
  | 0, _, _, _ => none
  | fuel + 1, w, address, apply_state =>
    match w.subsurfaces address with
    | none => none
    | some subsurface =>
      let w1 := w.setSubsurface address { subsurface with synchronous := false }
      let applied : Option World :=
        match subsurface.surface with
        | some surface =>
          if subsurface.pending_commit = true ∧ apply_state = true then
            match commit w1 surface with
            | none => none
            | some w2 =>
              match w2.subsurfaces address with
              | none => none
              | some subsurface2 =>
                some (w2.setSubsurface address { subsurface2 with pending_commit := false })
          else some w1
        | none => some w1
      match applied with
      | none => none
      | some w3 =>
        match w3.subsurfaces address with
        | none => none
        | some subsurface3 =>
          match subsurface3.surface with
          | none => some w3
          | some surface =>
            match w3.surfaces surface with
            | none => none
            | some s =>
              forEachChild
                (fun w child_subsurface =>
                  match w.subsurfaces child_subsurface with
                  | none => none
                  | some child =>
                    if child.should_be_desync = true then
                      NoteSubsurfaceDesynchronous commit fuel w child_subsurface false
                    else some w)
                w3 s.subsurfaces

/-- `SetDesync` with the commit of the cached state run. -/
def SetDesync (commit : World → Nat → Option World) (fuel : Nat) (w : World)
    (address : Nat) : Option World :=
  match w.subsurfaces address with
  | none => none
  | some subsurface =>
    let w1 := w.setSubsurface address { subsurface with should_be_desync := true }
    match IsParentSynchronous w1 address with
    | none => none
    | some true => some w1
    | some false => NoteSubsurfaceDesynchronous commit fuel w1 address true

/-- The commit of the surface at `s` can run `height` levels down: the surface
exists and has no reordering queued, every subsurface registered for its
commit exists and has it as its parent, and the same holds, one level lower,
for the surface of each of them that is attached. -/
def commitBelow (w : World) : Nat → Nat → Bool
  | 0, _ => false
  | height + 1, s =>
    match w.surfaces s with
    | none => false
    | some surface =>
      (surface.actions.getD []).isEmpty
        && surface.commit_callbacks.all fun k =>
          match w.subsurfaces k with
          | none => false
          | some subsurface =>
            decide (subsurface.parent = some s)
              && match subsurface.surface with
                | none => true
                | some c => commitBelow w height c

/-- The surface a view belongs to. -/
def viewSurface : View → Nat
  | View.view s => s
  | View.under s => s

/-- The fields of a subsurface that no commit writes. -/
def core (a : Subsurface) : Option Nat × Option Nat × Int × Bool × Bool × Bool :=
  (a.surface, a.parent, a.refcount, a.commit_callback, a.should_be_desync, a.synchronous)

/-- The world `w'` differs from `w` only below the surface `s`: in the
subsurfaces attached to deeper surfaces, in the views of deeper surfaces and the
children of the content view of `s`, and by calls that commit deeper surfaces
only. -/
def Sunk (depth : Nat → Nat) (s : Nat) (w w' : World) : Prop :=
  w'.surfaces = w.surfaces
    ∧ (∀ j, (w'.subsurfaces j).map core = (w.subsurfaces j).map core)
    ∧ (∀ j a, w.subsurfaces j = some a → (∀ c, a.surface = some c → depth c ≤ depth s) →
        w'.subsurfaces j = some a)
    ∧ (∀ v, depth (viewSurface v) ≤ depth s →
        w'.view_parent v = w.view_parent v
          ∧ w'.view_subcompositor v = w.view_subcompositor v
          ∧ (v ≠ View.view s → w'.view_children v = w.view_children v))
    ∧ ∃ rest, w'.calls = w.calls ++ rest
        ∧ ∀ c, Call.XLCommitSurface c ∈ rest → depth s < depth c

/-- The world `w'` is `w` after the commit of the surface `s`: beyond what is
`Sunk` below `s`, the subsurface attached to `s` may differ in `mapped`, and
the calls start with the commit of `s`. -/
def Committed (depth : Nat → Nat) (s : Nat) (w w' : World) : Prop :=
  w'.surfaces = w.surfaces
    ∧ (∀ j, (w'.subsurfaces j).map core = (w.subsurfaces j).map core)
    ∧ (∀ j a, w.subsurfaces j = some a → (∀ c, a.surface = some c → depth c ≤ depth s) →
        ∃ m, w'.subsurfaces j = some { a with mapped := m }
          ∧ ((∀ c, a.surface = some c → c ≠ s) → m = a.mapped))
    ∧ (∀ v, depth (viewSurface v) ≤ depth s →
        w'.view_parent v = w.view_parent v
          ∧ w'.view_subcompositor v = w.view_subcompositor v
          ∧ (v ≠ View.view s → w'.view_children v = w.view_children v))
    ∧ ∃ rest, w'.calls = w.calls ++ Call.XLCommitSurface s :: rest
        ∧ ∀ c, Call.XLCommitSurface c ∈ rest → depth s < depth c

/-- The pointers between the subsurfaces and their surfaces agree, and the
lists of children go down by `depth`: an attached subsurface is the role of
its surface, which is in the list of its parent if it has one; a subsurface
that is the role of a surface is attached to it; a surface in a list of
children is deeper than the surface that has the list.  A surface may carry a
role that is no subsurface. -/
def Grown (w : World) (depth : Nat → Nat) : Prop :=
  (∀ (k s : Nat) (a : Subsurface), w.subsurfaces k = some a → a.surface = some s →
    ∃ surf, w.surfaces s = some surf ∧ surf.role = some (RolePtr.subsurface k)
      ∧ ∀ p, a.parent = some p →
          ∃ psurf, w.surfaces p = some psurf ∧ s ∈ psurf.subsurfaces)
  ∧ (∀ (s k : Nat) (surf : Surface), w.surfaces s = some surf →
    surf.role = some (RolePtr.subsurface k) →
    ∃ a, w.subsurfaces k = some a ∧ a.surface = some s)
  ∧ ∀ (p c : Nat) (psurf : Surface), w.surfaces p = some psurf → c ∈ psurf.subsurfaces →
    depth p < depth c

/-- The subsurfaces form trees below surfaces that may carry any role: what a
`Forest` has, and what it has with a shell surface or an icon surface at a
root. -/
def Tree (w : World) : Prop :=
  ∃ depth, Grown w depth

end Cascade


namespace Cascade

open Sub

/-- The `nested` world after the clients of subsurfaces 10 and 12 committed
their surfaces: both subsurfaces are synchronous, so `EarlyCommit` cached both
commits. -/
def cached : World :=
  (((EarlyCommit nested 2 10).bind fun r => EarlyCommit r.1 4 12).map Prod.fst).getD World.empty

end Cascade

namespace Cascade

open Sub

/-- The `cached` world after surface 1 was made a shell surface:
`XLGetXdgSurface` attached the role, and its `Setup` put the content view of
the surface in the subcompositor of the role (`xdg_surface.c` 624), here
number 7. -/
def shown : World :=
  ViewSetSubcompositor ((Roles.XLGetXdgSurface cached 1 true true).getD World.empty)
    (View.view 1) (some 7)

end Cascade


/-! ## Bits of a flag word -/

theorem hasFlag_two_pow (s k : Nat) : hasFlag s (2 ^ k) ↔ s.testBit k = true := by
  unfold hasFlag
  constructor
  · intro h
    by_contra hb
    apply h
    apply Nat.eq_of_testBit_eq
    intro i
    rw [Nat.testBit_and, Nat.testBit_two_pow]
    by_cases hki : k = i
    · subst hki; simp [hb]
    · simp [hki]
  · intro h h0
    have := congrArg (fun z => Nat.testBit z k) h0
    simp [h] at this

theorem testBit_complement (x i : Nat) :
    (complement x).testBit i = (decide (i < 32) ^^ x.testBit i) := by
  have h : (0xFFFFFFFF : Nat) = 2 ^ 32 - 1 := by decide
  unfold complement
  rw [Nat.testBit_xor, h, Nat.testBit_two_pow_sub_one]

theorem testBit_setFlag (s k i : Nat) :
    (setFlag s (2 ^ k)).testBit i = (s.testBit i || decide (k = i)) := by
  unfold setFlag; rw [Nat.testBit_or, Nat.testBit_two_pow]

theorem testBit_clearFlag (s k i : Nat) (hk : k < 32) :
    (clearFlag s (2 ^ k)).testBit i = (s.testBit i && (decide (i < 32) && !decide (k = i))) := by
  unfold clearFlag
  rw [Nat.testBit_and, testBit_complement, Nat.testBit_two_pow]
  by_cases hki : k = i
  · subst hki; simp [hk]
  · simp [hki]

theorem hasFlag_setFlag (s j k : Nat) :
    hasFlag (setFlag s (2 ^ j)) (2 ^ k) ↔ (hasFlag s (2 ^ k) ∨ j = k) := by
  simp [hasFlag_two_pow, testBit_setFlag]

theorem hasFlag_clearFlag (s j k : Nat) (hj : j < 32) (hk : k < 32) :
    hasFlag (clearFlag s (2 ^ j)) (2 ^ k) ↔ (hasFlag s (2 ^ k) ∧ j ≠ k) := by
  simp [hasFlag_two_pow, testBit_clearFlag, hj, hk]

theorem flagsAgreeExcept_refl (changed : List Nat) (s : Nat) :
    flagsAgreeExcept changed s s := fun _ _ _ => Iff.rfl

theorem flagsAgreeExcept_setFlag {changed : List Nat} {s s' : Nat} (j : Nat)
    (hj : 2 ^ j ∈ changed) (h : flagsAgreeExcept changed s s') :
    flagsAgreeExcept changed s (setFlag s' (2 ^ j)) := by
  intro k hk32 hk
  have hjk : j ≠ k := by rintro rfl; exact hk hj
  rw [hasFlag_setFlag, ← h k hk32 hk]
  simp [hjk]

theorem flagsAgreeExcept_clearFlag {changed : List Nat} {s s' : Nat} (j : Nat)
    (hj32 : j < 32) (hj : 2 ^ j ∈ changed) (h : flagsAgreeExcept changed s s') :
    flagsAgreeExcept changed s (clearFlag s' (2 ^ j)) := by
  intro k hk32 hk
  have hjk : j ≠ k := by rintro rfl; exact hk hj
  rw [hasFlag_clearFlag _ _ _ hj32 hk32, ← h k hk32 hk]
  simp [hjk]

namespace Xdg

/-! ### The flags of `xdg_surface.c` as bits -/

theorem xdg_StatePendingFrameCallback_bit : StatePendingFrameCallback = 2 ^ 0 := by decide

theorem xdg_StatePendingWindowGeometry_bit : StatePendingWindowGeometry = 2 ^ 2 := by decide

theorem xdg_StateWaitingForAckConfigure_bit : StateWaitingForAckConfigure = 2 ^ 3 := by decide

theorem xdg_StateWaitingForAckCommit_bit : StateWaitingForAckCommit = 2 ^ 4 := by decide

theorem xdg_StateMaybeConfigure_bit : StateMaybeConfigure = 2 ^ 5 := by decide

theorem xdg_StateDirtyFrameExtents_bit : StateDirtyFrameExtents = 2 ^ 6 := by decide

theorem xdg_StateTemporaryBounds_bit : StateTemporaryBounds = 2 ^ 7 := by decide

theorem xdg_StatePendingBufferRelease_bit : StatePendingBufferRelease = 2 ^ 8 := by decide

@[simp] theorem xdg_hasFlag_StatePendingFrameCallback (s : Nat) :
    hasFlag s StatePendingFrameCallback ↔ s.testBit 0 = true := by
  rw [xdg_StatePendingFrameCallback_bit]; exact hasFlag_two_pow s 0

@[simp] theorem xdg_testBit_setFlag_StatePendingFrameCallback (s i : Nat) :
    (setFlag s StatePendingFrameCallback).testBit i = (s.testBit i || decide (0 = i)) := by
  rw [xdg_StatePendingFrameCallback_bit]; exact testBit_setFlag s 0 i

@[simp] theorem xdg_testBit_clearFlag_StatePendingFrameCallback (s i : Nat) :
    (clearFlag s StatePendingFrameCallback).testBit i
      = (s.testBit i && (decide (i < 32) && !decide (0 = i))) := by
  rw [xdg_StatePendingFrameCallback_bit]; exact testBit_clearFlag s 0 i (by decide)

@[simp] theorem xdg_hasFlag_StatePendingWindowGeometry (s : Nat) :
    hasFlag s StatePendingWindowGeometry ↔ s.testBit 2 = true := by
  rw [xdg_StatePendingWindowGeometry_bit]; exact hasFlag_two_pow s 2

@[simp] theorem xdg_testBit_setFlag_StatePendingWindowGeometry (s i : Nat) :
    (setFlag s StatePendingWindowGeometry).testBit i = (s.testBit i || decide (2 = i)) := by
  rw [xdg_StatePendingWindowGeometry_bit]; exact testBit_setFlag s 2 i

@[simp] theorem xdg_testBit_clearFlag_StatePendingWindowGeometry (s i : Nat) :
    (clearFlag s StatePendingWindowGeometry).testBit i
      = (s.testBit i && (decide (i < 32) && !decide (2 = i))) := by
  rw [xdg_StatePendingWindowGeometry_bit]; exact testBit_clearFlag s 2 i (by decide)

@[simp] theorem xdg_hasFlag_StateWaitingForAckConfigure (s : Nat) :
    hasFlag s StateWaitingForAckConfigure ↔ s.testBit 3 = true := by
  rw [xdg_StateWaitingForAckConfigure_bit]; exact hasFlag_two_pow s 3

@[simp] theorem xdg_testBit_setFlag_StateWaitingForAckConfigure (s i : Nat) :
    (setFlag s StateWaitingForAckConfigure).testBit i = (s.testBit i || decide (3 = i)) := by
  rw [xdg_StateWaitingForAckConfigure_bit]; exact testBit_setFlag s 3 i

@[simp] theorem xdg_testBit_clearFlag_StateWaitingForAckConfigure (s i : Nat) :
    (clearFlag s StateWaitingForAckConfigure).testBit i
      = (s.testBit i && (decide (i < 32) && !decide (3 = i))) := by
  rw [xdg_StateWaitingForAckConfigure_bit]; exact testBit_clearFlag s 3 i (by decide)

@[simp] theorem xdg_hasFlag_StateWaitingForAckCommit (s : Nat) :
    hasFlag s StateWaitingForAckCommit ↔ s.testBit 4 = true := by
  rw [xdg_StateWaitingForAckCommit_bit]; exact hasFlag_two_pow s 4

@[simp] theorem xdg_testBit_setFlag_StateWaitingForAckCommit (s i : Nat) :
    (setFlag s StateWaitingForAckCommit).testBit i = (s.testBit i || decide (4 = i)) := by
  rw [xdg_StateWaitingForAckCommit_bit]; exact testBit_setFlag s 4 i

@[simp] theorem xdg_testBit_clearFlag_StateWaitingForAckCommit (s i : Nat) :
    (clearFlag s StateWaitingForAckCommit).testBit i
      = (s.testBit i && (decide (i < 32) && !decide (4 = i))) := by
  rw [xdg_StateWaitingForAckCommit_bit]; exact testBit_clearFlag s 4 i (by decide)

@[simp] theorem xdg_hasFlag_StateMaybeConfigure (s : Nat) :
    hasFlag s StateMaybeConfigure ↔ s.testBit 5 = true := by
  rw [xdg_StateMaybeConfigure_bit]; exact hasFlag_two_pow s 5

@[simp] theorem xdg_testBit_setFlag_StateMaybeConfigure (s i : Nat) :
    (setFlag s StateMaybeConfigure).testBit i = (s.testBit i || decide (5 = i)) := by
  rw [xdg_StateMaybeConfigure_bit]; exact testBit_setFlag s 5 i

@[simp] theorem xdg_testBit_clearFlag_StateMaybeConfigure (s i : Nat) :
    (clearFlag s StateMaybeConfigure).testBit i
      = (s.testBit i && (decide (i < 32) && !decide (5 = i))) := by
  rw [xdg_StateMaybeConfigure_bit]; exact testBit_clearFlag s 5 i (by decide)

@[simp] theorem xdg_hasFlag_StateDirtyFrameExtents (s : Nat) :
    hasFlag s StateDirtyFrameExtents ↔ s.testBit 6 = true := by
  rw [xdg_StateDirtyFrameExtents_bit]; exact hasFlag_two_pow s 6

@[simp] theorem xdg_testBit_setFlag_StateDirtyFrameExtents (s i : Nat) :
    (setFlag s StateDirtyFrameExtents).testBit i = (s.testBit i || decide (6 = i)) := by
  rw [xdg_StateDirtyFrameExtents_bit]; exact testBit_setFlag s 6 i

@[simp] theorem xdg_testBit_clearFlag_StateDirtyFrameExtents (s i : Nat) :
    (clearFlag s StateDirtyFrameExtents).testBit i
      = (s.testBit i && (decide (i < 32) && !decide (6 = i))) := by
  rw [xdg_StateDirtyFrameExtents_bit]; exact testBit_clearFlag s 6 i (by decide)

@[simp] theorem xdg_hasFlag_StateTemporaryBounds (s : Nat) :
    hasFlag s StateTemporaryBounds ↔ s.testBit 7 = true := by
  rw [xdg_StateTemporaryBounds_bit]; exact hasFlag_two_pow s 7

@[simp] theorem xdg_testBit_setFlag_StateTemporaryBounds (s i : Nat) :
    (setFlag s StateTemporaryBounds).testBit i = (s.testBit i || decide (7 = i)) := by
  rw [xdg_StateTemporaryBounds_bit]; exact testBit_setFlag s 7 i

@[simp] theorem xdg_testBit_clearFlag_StateTemporaryBounds (s i : Nat) :
    (clearFlag s StateTemporaryBounds).testBit i
      = (s.testBit i && (decide (i < 32) && !decide (7 = i))) := by
  rw [xdg_StateTemporaryBounds_bit]; exact testBit_clearFlag s 7 i (by decide)

@[simp] theorem xdg_hasFlag_StatePendingBufferRelease (s : Nat) :
    hasFlag s StatePendingBufferRelease ↔ s.testBit 8 = true := by
  rw [xdg_StatePendingBufferRelease_bit]; exact hasFlag_two_pow s 8

@[simp] theorem xdg_testBit_setFlag_StatePendingBufferRelease (s i : Nat) :
    (setFlag s StatePendingBufferRelease).testBit i = (s.testBit i || decide (8 = i)) := by
  rw [xdg_StatePendingBufferRelease_bit]; exact testBit_setFlag s 8 i

@[simp] theorem xdg_testBit_clearFlag_StatePendingBufferRelease (s i : Nat) :
    (clearFlag s StatePendingBufferRelease).testBit i
      = (s.testBit i && (decide (i < 32) && !decide (8 = i))) := by
  rw [xdg_StatePendingBufferRelease_bit]; exact testBit_clearFlag s 8 i (by decide)

end Xdg

namespace Icon

/-! ### The flags of `icon_surface.c` as bits -/

theorem icon_StateIsMapped_bit : StateIsMapped = 2 ^ 0 := by decide

theorem icon_StateIsReleased_bit : StateIsReleased = 2 ^ 1 := by decide

theorem icon_StatePendingBufferRelease_bit : StatePendingBufferRelease = 2 ^ 2 := by decide

theorem icon_StatePendingFrameCallback_bit : StatePendingFrameCallback = 2 ^ 3 := by decide

@[simp] theorem icon_hasFlag_StateIsMapped (s : Nat) :
    hasFlag s StateIsMapped ↔ s.testBit 0 = true := by
  rw [icon_StateIsMapped_bit]; exact hasFlag_two_pow s 0

@[simp] theorem icon_testBit_setFlag_StateIsMapped (s i : Nat) :
    (setFlag s StateIsMapped).testBit i = (s.testBit i || decide (0 = i)) := by
  rw [icon_StateIsMapped_bit]; exact testBit_setFlag s 0 i

@[simp] theorem icon_testBit_clearFlag_StateIsMapped (s i : Nat) :
    (clearFlag s StateIsMapped).testBit i
      = (s.testBit i && (decide (i < 32) && !decide (0 = i))) := by
  rw [icon_StateIsMapped_bit]; exact testBit_clearFlag s 0 i (by decide)

@[simp] theorem icon_hasFlag_StateIsReleased (s : Nat) :
    hasFlag s StateIsReleased ↔ s.testBit 1 = true := by
  rw [icon_StateIsReleased_bit]; exact hasFlag_two_pow s 1

@[simp] theorem icon_testBit_setFlag_StateIsReleased (s i : Nat) :
    (setFlag s StateIsReleased).testBit i = (s.testBit i || decide (1 = i)) := by
  rw [icon_StateIsReleased_bit]; exact testBit_setFlag s 1 i

@[simp] theorem icon_testBit_clearFlag_StateIsReleased (s i : Nat) :
    (clearFlag s StateIsReleased).testBit i
      = (s.testBit i && (decide (i < 32) && !decide (1 = i))) := by
  rw [icon_StateIsReleased_bit]; exact testBit_clearFlag s 1 i (by decide)

@[simp] theorem icon_hasFlag_StatePendingBufferRelease (s : Nat) :
    hasFlag s StatePendingBufferRelease ↔ s.testBit 2 = true := by
  rw [icon_StatePendingBufferRelease_bit]; exact hasFlag_two_pow s 2

@[simp] theorem icon_testBit_setFlag_StatePendingBufferRelease (s i : Nat) :
    (setFlag s StatePendingBufferRelease).testBit i = (s.testBit i || decide (2 = i)) := by
  rw [icon_StatePendingBufferRelease_bit]; exact testBit_setFlag s 2 i

@[simp] theorem icon_testBit_clearFlag_StatePendingBufferRelease (s i : Nat) :
    (clearFlag s StatePendingBufferRelease).testBit i
      = (s.testBit i && (decide (i < 32) && !decide (2 = i))) := by
  rw [icon_StatePendingBufferRelease_bit]; exact testBit_clearFlag s 2 i (by decide)

@[simp] theorem icon_hasFlag_StatePendingFrameCallback (s : Nat) :
    hasFlag s StatePendingFrameCallback ↔ s.testBit 3 = true := by
  rw [icon_StatePendingFrameCallback_bit]; exact hasFlag_two_pow s 3

@[simp] theorem icon_testBit_setFlag_StatePendingFrameCallback (s i : Nat) :
    (setFlag s StatePendingFrameCallback).testBit i = (s.testBit i || decide (3 = i)) := by
  rw [icon_StatePendingFrameCallback_bit]; exact testBit_setFlag s 3 i

@[simp] theorem icon_testBit_clearFlag_StatePendingFrameCallback (s i : Nat) :
    (clearFlag s StatePendingFrameCallback).testBit i
      = (s.testBit i && (decide (i < 32) && !decide (3 = i))) := by
  rw [icon_StatePendingFrameCallback_bit]; exact testBit_clearFlag s 3 i (by decide)

end Icon

namespace Xdg

/-! ## The configure handshake -/

/-- The outcome of `AckConfigure` on a role with a surface whose serial is
rejected: only the error is posted. -/
theorem AckConfigure_rejected (funcs : ImplTable) (role : XdgRole) (serial : Nat)
    (hs : role.surface.isSome = true)
    (hbad : serial ≠ 0 ∧ serial ≤ role.last_specified_serial) :
    AckConfigure funcs role serial =
      (role, [Call.wl_resource_post_error ProtocolError.XDG_SURFACE_ERROR_INVALID_SERIAL]) := by
  have hn : role.surface.isNone = false := by
    cases h : role.surface <;> simp_all
  simp [AckConfigure, hn, hbad]

/-- The outcome of `AckConfigure` on a role with a surface whose serial is not
rejected. -/
theorem AckConfigure_accepted (funcs : ImplTable) (role : XdgRole) (serial : Nat)
    (hs : role.surface.isSome = true)
    (hok : ¬ (serial ≠ 0 ∧ serial ≤ role.last_specified_serial)) :
    AckConfigure funcs role serial =
      (let step : XdgRole × List Call :=
        if serial = role.conf_serial then
          ({ role with
              last_specified_serial := serial
              state := clearFlag role.state StateWaitingForAckConfigure },
            [Call.SubcompositorGarbage])
        else (role, [])
      match step.1.impl with
      | some impl =>
        ((funcs impl).ack_configure step.1 serial,
          step.2 ++ [Call.impl_ack_configure impl serial])
      | none => step) := by
  have hn : role.surface.isNone = false := by
    cases h : role.surface <;> simp_all
  simp only [AckConfigure, hn, if_neg hok]
  simp

/-- C1: on a role with an attached surface, `AckConfigure` posts the
invalid-serial error exactly when the serial is nonzero and not greater than
`last_specified_serial`; serial 0 is never rejected; and a rejected call leaves
the whole role (so `conf_serial`, `last_specified_serial` and `state`) as it
was, makes no other call and does not run the `ack_configure` hook. -/
theorem AckConfigure_error_iff (funcs : ImplTable) (role : XdgRole) (serial : Nat)
    (hs : role.surface.isSome = true) :
    (Call.wl_resource_post_error ProtocolError.XDG_SURFACE_ERROR_INVALID_SERIAL
        ∈ (AckConfigure funcs role serial).2
      ↔ serial ≠ 0 ∧ serial ≤ role.last_specified_serial)
    ∧ Call.wl_resource_post_error ProtocolError.XDG_SURFACE_ERROR_INVALID_SERIAL
        ∉ (AckConfigure funcs role 0).2
    ∧ (serial ≠ 0 ∧ serial ≤ role.last_specified_serial →
        (AckConfigure funcs role serial).1 = role
        ∧ (AckConfigure funcs role serial).1.conf_serial = role.conf_serial
        ∧ (AckConfigure funcs role serial).1.last_specified_serial
            = role.last_specified_serial
        ∧ (AckConfigure funcs role serial).1.state = role.state
        ∧ (AckConfigure funcs role serial).2 =
            [Call.wl_resource_post_error ProtocolError.XDG_SURFACE_ERROR_INVALID_SERIAL]
        ∧ ∀ impl s, Call.impl_ack_configure impl s ∉ (AckConfigure funcs role serial).2) := by
  have key : ∀ serial' : Nat,
      Call.wl_resource_post_error ProtocolError.XDG_SURFACE_ERROR_INVALID_SERIAL
          ∈ (AckConfigure funcs role serial').2
        ↔ serial' ≠ 0 ∧ serial' ≤ role.last_specified_serial := by
    intro serial'
    by_cases hbad : serial' ≠ 0 ∧ serial' ≤ role.last_specified_serial
    · rw [AckConfigure_rejected funcs role serial' hs hbad]
      simp [hbad]
    · rw [AckConfigure_accepted funcs role serial' hs hbad]
      simp only [hbad, iff_false]
      by_cases hc : serial' = role.conf_serial
      · cases hi : role.impl <;> simp [hc, hi]
      · cases hi : role.impl <;> simp [hc, hi]
  refine ⟨key serial, ?_, ?_⟩
  · rw [key 0]; simp
  · intro hbad
    rw [AckConfigure_rejected funcs role serial hs hbad]
    simp

theorem idleFuncs_inert : HooksInert idleFuncs := by
  intro impl
  simp [idleFuncs, InertHook]

/-- The witness of C1: the role that acknowledged serial 7 rejects serial 5. -/
theorem AckConfigure_error_iff_witness :
    ackedRole.surface.isSome = true
    ∧ (Call.wl_resource_post_error ProtocolError.XDG_SURFACE_ERROR_INVALID_SERIAL
          ∈ (AckConfigure idleFuncs ackedRole 5).2
        ↔ 5 ≠ 0 ∧ 5 ≤ ackedRole.last_specified_serial) :=
  ⟨by decide, (AckConfigure_error_iff idleFuncs ackedRole 5 (by decide)).1⟩

/-- With inert hooks, what `AckConfigure` does to the attachment, the serials
and the flag word of a role that has a surface. -/
theorem AckConfigure_fields (funcs : ImplTable) (hf : HooksInert funcs) (role : XdgRole)
    (serial : Nat) (hs : role.surface.isSome = true) :
    (AckConfigure funcs role serial).1.surface = role.surface
    ∧ (AckConfigure funcs role serial).1.impl = role.impl
    ∧ (AckConfigure funcs role serial).1.conf_serial = role.conf_serial
    ∧ (AckConfigure funcs role serial).1.last_specified_serial
        = (if (serial ≠ 0 ∧ serial ≤ role.last_specified_serial) then
            role.last_specified_serial
          else if serial = role.conf_serial then serial
          else role.last_specified_serial)
    ∧ (AckConfigure funcs role serial).1.state
        = (if (serial ≠ 0 ∧ serial ≤ role.last_specified_serial) then role.state
          else if serial = role.conf_serial then
            clearFlag role.state StateWaitingForAckConfigure
          else role.state) := by
  by_cases hbad : serial ≠ 0 ∧ serial ≤ role.last_specified_serial
  · rw [AckConfigure_rejected funcs role serial hs hbad]
    simp [hbad]
  · rw [AckConfigure_accepted funcs role serial hs hbad]
    simp only [if_neg hbad]
    by_cases hc : serial = role.conf_serial
    · cases hi : role.impl with
      | none => simp [hc, hi]
      | some impl =>
        have hk := (hf impl).2.2.2.1 serial
        simp only [if_pos hc, hi]
        exact ⟨(hk _).1, (hk _).2.1, (hk _).2.2.2.1, (hk _).2.2.2.2, (hk _).2.2.1⟩
    · cases hi : role.impl with
      | none => simp [hc, hi]
      | some impl =>
        have hk := (hf impl).2.2.2.1 serial
        simp only [if_neg hc, hi]
        exact ⟨(hk _).1, (hk _).2.1.trans hi, (hk _).2.2.2.1, (hk _).2.2.2.2, (hk _).2.2.1⟩

/-- `AckConfigure` on a role without a surface does nothing. -/
theorem AckConfigure_detached (funcs : ImplTable) (role : XdgRole) (serial : Nat)
    (hs : role.surface.isSome = false) :
    AckConfigure funcs role serial = (role, []) := by
  have hn : role.surface.isNone = true := by
    cases h : role.surface <;> simp_all
  simp [AckConfigure, hn]

/-- The counterexample to C2: on a fresh role, whose outstanding serial is 0,
`AckConfigure(5)` twice posts no error the second time. -/
theorem AckConfigure_twice_unmatched_accepted :
    freshRole.surface.isSome = true
    ∧ Call.wl_resource_post_error ProtocolError.XDG_SURFACE_ERROR_INVALID_SERIAL
        ∉ (AckConfigure idleFuncs (AckConfigure idleFuncs freshRole 5).1 5).2 := by
  decide

/-- C2, amended: on a role with an attached surface (hooks inert), the second of
two `AckConfigure(5)` calls posts the invalid-serial error exactly when the
outstanding configure serial is 5 or the last acknowledged serial was already at
least 5; and then it changes nothing. -/
theorem AckConfigure_twice_error_iff (funcs : ImplTable) (hf : HooksInert funcs)
    (role : XdgRole) (hs : role.surface.isSome = true) :
    (Call.wl_resource_post_error ProtocolError.XDG_SURFACE_ERROR_INVALID_SERIAL
        ∈ (AckConfigure funcs (AckConfigure funcs role 5).1 5).2
      ↔ role.conf_serial = 5 ∨ 5 ≤ role.last_specified_serial)
    ∧ (role.conf_serial = 5 ∨ 5 ≤ role.last_specified_serial →
        AckConfigure funcs (AckConfigure funcs role 5).1 5 =
          ((AckConfigure funcs role 5).1,
            [Call.wl_resource_post_error ProtocolError.XDG_SURFACE_ERROR_INVALID_SERIAL])) := by
  obtain ⟨h1, -, -, h4, -⟩ := AckConfigure_fields funcs hf role 5 hs
  have hs1 : (AckConfigure funcs role 5).1.surface.isSome = true := by rw [h1]; exact hs
  have hlast : 5 ≤ (AckConfigure funcs role 5).1.last_specified_serial
      ↔ role.conf_serial = 5 ∨ 5 ≤ role.last_specified_serial := by
    rw [h4]
    by_cases hle : 5 ≤ role.last_specified_serial
    · simp [hle]
    · by_cases hc : 5 = role.conf_serial
      · simp [hle, hc.symm]
      · have hc' : ¬ role.conf_serial = 5 := fun h => hc h.symm
        simp [hle, hc, hc']
  have hiff : ∀ r : XdgRole, r.surface.isSome = true →
      (Call.wl_resource_post_error ProtocolError.XDG_SURFACE_ERROR_INVALID_SERIAL
          ∈ (AckConfigure funcs r 5).2 ↔ 5 ≤ r.last_specified_serial) := by
    intro r hr
    by_cases hbad : 5 ≠ 0 ∧ 5 ≤ r.last_specified_serial
    · rw [AckConfigure_rejected funcs r 5 hr hbad]
      simp [hbad.2]
    · have hle : ¬ 5 ≤ r.last_specified_serial := fun h => hbad ⟨by decide, h⟩
      rw [AckConfigure_accepted funcs r 5 hr hbad]
      simp only [hle, iff_false]
      by_cases hc : 5 = r.conf_serial
      · cases hi : r.impl <;> simp [hc, hi]
      · cases hi : r.impl <;> simp [hc, hi]
  refine ⟨(hiff _ hs1).trans hlast, fun h => ?_⟩
  exact AckConfigure_rejected funcs _ 5 hs1 ⟨by decide, hlast.mpr h⟩

/-- The witness of C2 as amended: the role that acknowledged serial 7. -/
theorem AckConfigure_twice_error_iff_witness :
    ackedRole.surface.isSome = true
    ∧ (Call.wl_resource_post_error ProtocolError.XDG_SURFACE_ERROR_INVALID_SERIAL
          ∈ (AckConfigure idleFuncs (AckConfigure idleFuncs ackedRole 5).1 5).2
        ↔ ackedRole.conf_serial = 5 ∨ 5 ≤ ackedRole.last_specified_serial) :=
  ⟨by decide, (AckConfigure_twice_error_iff idleFuncs idleFuncs_inert ackedRole (by decide)).1⟩

/-- One handshake request, with inert hooks and no configure of serial 0, on a
role whose last acknowledged serial is 0 whenever its outstanding serial is:
that property is kept, the last acknowledged serial does not decrease, and only
an `AckConfigure` changes it. -/
theorem applyOp_last_specified_serial (funcs : ImplTable) (hf : HooksInert funcs)
    (role : XdgRole) (op : HandshakeOp)
    (hinv : role.conf_serial = 0 → role.last_specified_serial = 0)
    (hnz : ∀ serial, op = HandshakeOp.send_configure serial → serial ≠ 0) :
    ((applyOp funcs role op).conf_serial = 0 →
        (applyOp funcs role op).last_specified_serial = 0)
    ∧ role.last_specified_serial ≤ (applyOp funcs role op).last_specified_serial
    ∧ ((applyOp funcs role op).last_specified_serial ≠ role.last_specified_serial →
        ∃ serial, op = HandshakeOp.ack_configure serial) := by
  cases op with
  | send_configure serial =>
    have h0 := hnz serial rfl
    simp [applyOp, XLXdgRoleSendConfigure, h0]
  | ack_configure serial =>
    cases hs : role.surface.isSome with
    | false =>
      simp only [applyOp, AckConfigure_detached funcs role serial hs]
      exact ⟨hinv, le_refl _, fun h => absurd rfl h⟩
    | true =>
      obtain ⟨-, -, h3, h4, -⟩ := AckConfigure_fields funcs hf role serial hs
      simp only [applyOp, h3, h4]
      by_cases hbad : serial ≠ 0 ∧ serial ≤ role.last_specified_serial
      · simp only [if_pos hbad]
        exact ⟨hinv, le_refl _, fun h => absurd rfl h⟩
      · simp only [if_neg hbad]
        by_cases hc : serial = role.conf_serial
        · simp only [if_pos hc]
          refine ⟨fun h => by omega, ?_, fun _ => ⟨serial, rfl⟩⟩
          by_cases h0 : serial = 0
          · have := hinv (by omega)
            omega
          · have : ¬ serial ≤ role.last_specified_serial := fun h => hbad ⟨h0, h⟩
            omega
        · simp only [if_neg hc]
          exact ⟨hinv, le_refl _, fun h => absurd rfl h⟩

/-- A run of handshake requests with inert hooks and no configure of serial 0
keeps that property and does not decrease the last acknowledged serial. -/
theorem runOps_last_specified_serial (funcs : ImplTable) (hf : HooksInert funcs)
    (ops : List HandshakeOp) :
    ∀ role : XdgRole, (role.conf_serial = 0 → role.last_specified_serial = 0) →
      sendsNonzero ops →
      ((runOps funcs role ops).conf_serial = 0 →
          (runOps funcs role ops).last_specified_serial = 0)
      ∧ role.last_specified_serial ≤ (runOps funcs role ops).last_specified_serial := by
  induction ops with
  | nil => intro role hinv _; exact ⟨hinv, le_refl _⟩
  | cons op rest ih =>
    intro role hinv hnz
    have hstep := applyOp_last_specified_serial funcs hf role op hinv
      (fun serial h => hnz serial (by simp [h]))
    have hrest := ih (applyOp funcs role op) hstep.1
      (fun serial h => hnz serial (List.mem_cons_of_mem _ h))
    simp only [runOps, List.foldl_cons] at hrest ⊢
    exact ⟨hrest.1, le_trans hstep.2.1 hrest.2⟩

theorem runOps_append (funcs : ImplTable) (role : XdgRole) (pre post : List HandshakeOp) :
    runOps funcs role (pre ++ post) = runOps funcs (runOps funcs role pre) post := by
  simp [runOps, List.foldl_append]

/-- The counterexample to C3: after serial 5 is acknowledged, a configure with
serial 0 and its acknowledgement bring `last_specified_serial` back from 5 to
0. -/
theorem last_specified_serial_reset_by_zero :
    (runOps idleFuncs freshRole
        [HandshakeOp.send_configure 5, HandshakeOp.ack_configure 5]).last_specified_serial = 5
    ∧ (runOps idleFuncs freshRole
        [HandshakeOp.send_configure 5, HandshakeOp.ack_configure 5,
          HandshakeOp.send_configure 0,
          HandshakeOp.ack_configure 0]).last_specified_serial = 0 := by
  decide

/-- C3, amended: over every sequence of `XLXdgRoleSendConfigure` and
`AckConfigure` calls in which no configure carries serial 0 (hooks inert),
started in a state whose last acknowledged serial is 0 whenever its outstanding
serial is 0 (as at creation), each call leaves `last_specified_serial` at least
as large as before, only an `AckConfigure` changes it, a change makes it
strictly greater, and the whole sequence does not decrease it. -/
theorem last_specified_serial_increasing (funcs : ImplTable) (hf : HooksInert funcs)
    (role : XdgRole) (pre post : List HandshakeOp) (op : HandshakeOp)
    (hinv : role.conf_serial = 0 → role.last_specified_serial = 0)
    (hnz : sendsNonzero (pre ++ op :: post)) :
    (runOps funcs role pre).last_specified_serial
        ≤ (runOps funcs role (pre ++ [op])).last_specified_serial
    ∧ ((runOps funcs role (pre ++ [op])).last_specified_serial
          ≠ (runOps funcs role pre).last_specified_serial →
        (∃ serial, op = HandshakeOp.ack_configure serial)
        ∧ (runOps funcs role pre).last_specified_serial
            < (runOps funcs role (pre ++ [op])).last_specified_serial)
    ∧ role.last_specified_serial
        ≤ (runOps funcs role (pre ++ op :: post)).last_specified_serial := by
  have hpre := runOps_last_specified_serial funcs hf pre role hinv
    (fun serial h => hnz serial (List.mem_append_left _ h))
  have hstep := applyOp_last_specified_serial funcs hf (runOps funcs role pre) op hpre.1
    (fun serial h => hnz serial (by simp [h]))
  have hrun : runOps funcs role (pre ++ [op]) = applyOp funcs (runOps funcs role pre) op := by
    rw [runOps_append]; rfl
  rw [hrun]
  refine ⟨hstep.2.1, fun hne => ⟨hstep.2.2 hne, ?_⟩,
    (runOps_last_specified_serial funcs hf _ role hinv hnz).2⟩
  exact lt_of_le_of_ne hstep.2.1 (fun h => hne h.symm)

/-- The witness of C3 as amended: a fresh role is sent serial 5 and
acknowledges it. -/
theorem last_specified_serial_increasing_witness :
    (freshRole.conf_serial = 0 → freshRole.last_specified_serial = 0)
    ∧ sendsNonzero ([HandshakeOp.send_configure 5] ++ HandshakeOp.ack_configure 5 :: [])
    ∧ (runOps idleFuncs freshRole [HandshakeOp.send_configure 5]).last_specified_serial
        ≤ (runOps idleFuncs freshRole
            ([HandshakeOp.send_configure 5]
              ++ [HandshakeOp.ack_configure 5])).last_specified_serial :=
  ⟨fun _ => by decide,
    fun serial h => by simp at h; omega,
    (last_specified_serial_increasing idleFuncs idleFuncs_inert freshRole
      [HandshakeOp.send_configure 5] [] (HandshakeOp.ack_configure 5)
      (fun _ => by decide) (fun serial h => by simp at h; omega)).1⟩

/-- The calls `AckConfigure` makes on a role that has a surface. -/
theorem AckConfigure_calls (funcs : ImplTable) (role : XdgRole) (serial : Nat)
    (hs : role.surface.isSome = true) :
    (AckConfigure funcs role serial).2
      = (if serial ≠ 0 ∧ serial ≤ role.last_specified_serial then
          [Call.wl_resource_post_error ProtocolError.XDG_SURFACE_ERROR_INVALID_SERIAL]
        else
          (if serial = role.conf_serial then [Call.SubcompositorGarbage] else [])
            ++ (match role.impl with
                | some impl => [Call.impl_ack_configure impl serial]
                | none => [])) := by
  by_cases hbad : serial ≠ 0 ∧ serial ≤ role.last_specified_serial
  · rw [AckConfigure_rejected funcs role serial hs hbad]
    simp [hbad]
  · rw [AckConfigure_accepted funcs role serial hs hbad]
    simp only [if_neg hbad]
    by_cases hc : serial = role.conf_serial
    · cases hi : role.impl <;> simp [hc, hi]
    · cases hi : role.impl <;> simp [hc, hi]

/-- C5: `XLXdgRoleSendConfigure(serial)` sets `conf_serial` to `serial`, sets
`StateWaitingForAckConfigure` and `StateWaitingForAckCommit`, clears
`StateMaybeConfigure` and `StateTemporaryBounds`, clears the sync helper's
pending frame and sends the configure event, and leaves `last_specified_serial`,
every other flag and every other field as they were. -/
theorem XLXdgRoleSendConfigure_effect (role : XdgRole) (serial : Nat) :
    (XLXdgRoleSendConfigure role serial).1.conf_serial = serial
    ∧ hasFlag (XLXdgRoleSendConfigure role serial).1.state StateWaitingForAckConfigure
    ∧ hasFlag (XLXdgRoleSendConfigure role serial).1.state StateWaitingForAckCommit
    ∧ ¬ hasFlag (XLXdgRoleSendConfigure role serial).1.state StateMaybeConfigure
    ∧ ¬ hasFlag (XLXdgRoleSendConfigure role serial).1.state StateTemporaryBounds
    ∧ (XLXdgRoleSendConfigure role serial).2
        = [Call.SyncHelperClearPendingFrame, Call.xdg_surface_send_configure serial]
    ∧ (XLXdgRoleSendConfigure role serial).1.last_specified_serial
        = role.last_specified_serial
    ∧ flagsAgreeExcept
        [StateWaitingForAckConfigure, StateWaitingForAckCommit, StateTemporaryBounds,
          StateMaybeConfigure]
        role.state (XLXdgRoleSendConfigure role serial).1.state
    ∧ (XLXdgRoleSendConfigure role serial).1
        = { role with
            conf_serial := serial
            state := (XLXdgRoleSendConfigure role serial).1.state } := by
  refine ⟨rfl, by simp [XLXdgRoleSendConfigure], by simp [XLXdgRoleSendConfigure],
    by simp [XLXdgRoleSendConfigure], by simp [XLXdgRoleSendConfigure], rfl, rfl, ?_, rfl⟩
  simp only [XLXdgRoleSendConfigure]
  rw [xdg_StateWaitingForAckConfigure_bit, xdg_StateWaitingForAckCommit_bit,
    xdg_StateTemporaryBounds_bit, xdg_StateMaybeConfigure_bit]
  exact flagsAgreeExcept_clearFlag 5 (by decide) (by simp)
    (flagsAgreeExcept_clearFlag 7 (by decide) (by simp)
      (flagsAgreeExcept_setFlag 4 (by simp)
        (flagsAgreeExcept_setFlag 3 (by simp) (flagsAgreeExcept_refl _ _))))

/-! ## Commit -/

/-- `Commit` is its three blocks around the commit hook. -/
theorem Commit_eq (funcs : ImplTable) (role : XdgRole) :
    Commit funcs role =
      (match role.impl with
        | none => some (role, [])
        | some impl =>
          commitFrame funcs impl
            (commitAckCommit ((funcs impl).commit (commitWindowGeometry role)))) := by
  rfl

theorem commitWindowGeometry_fields (role : XdgRole) :
    (commitWindowGeometry role).surface = role.surface
    ∧ (commitWindowGeometry role).impl = role.impl
    ∧ (commitWindowGeometry role).conf_serial = role.conf_serial
    ∧ (commitWindowGeometry role).last_specified_serial = role.last_specified_serial
    ∧ (commitWindowGeometry role).state.testBit 3 = role.state.testBit 3
    ∧ (commitWindowGeometry role).state.testBit 4 = role.state.testBit 4 := by
  unfold commitWindowGeometry
  split <;> simp

theorem commitAckCommit_fields (role : XdgRole) :
    (commitAckCommit role).surface = role.surface
    ∧ (commitAckCommit role).impl = role.impl
    ∧ (commitAckCommit role).conf_serial = role.conf_serial
    ∧ (commitAckCommit role).last_specified_serial = role.last_specified_serial
    ∧ (commitAckCommit role).state.testBit 3 = role.state.testBit 3
    ∧ (commitAckCommit role).state.testBit 4
        = (role.state.testBit 4 && role.state.testBit 3) := by
  unfold commitAckCommit
  split
  · rename_i h
    simp only [xdg_hasFlag_StateWaitingForAckConfigure,
      xdg_hasFlag_StateWaitingForAckCommit] at h
    simp [h]
  · rename_i h
    simp only [xdg_hasFlag_StateWaitingForAckConfigure,
      xdg_hasFlag_StateWaitingForAckCommit] at h
    refine ⟨rfl, rfl, rfl, rfl, rfl, ?_⟩
    cases h3 : role.state.testBit 3 <;> cases h4 : role.state.testBit 4 <;> simp_all

theorem commitFrame_result (funcs : ImplTable) (hf : HooksInert funcs) (role : XdgRole)
    (impl : Nat) (hi : role.impl = some impl) :
    ∃ r, commitFrame funcs impl role
        = some (r,
            if hasFlag role.state StateWaitingForAckCommit then
              [Call.impl_commit impl, Call.SyncHelperCheckFrameCallback]
            else
              [Call.impl_commit impl, Call.SyncHelperUpdate]
                ++ (match (funcs impl).after_commit with
                    | some _ => [Call.impl_after_commit impl]
                    | none => []))
      ∧ r.surface = role.surface ∧ r.impl = role.impl ∧ r.state = role.state
      ∧ r.conf_serial = role.conf_serial
      ∧ r.last_specified_serial = role.last_specified_serial := by
  unfold commitFrame
  by_cases hw : hasFlag role.state StateWaitingForAckCommit
  · exact ⟨role, by simp [hw], rfl, rfl, rfl, rfl, rfl⟩
  · cases ha : (funcs impl).after_commit with
    | none => exact ⟨role, by simp [hw, hi, ha], rfl, rfl, rfl, rfl, rfl⟩
    | some f => exact ⟨f role, by simp [hw, hi, ha], (hf impl).2.2.2.2 f ha role⟩

/-- `Commit` on a role with an implementation attached, hooks inert: it returns,
keeps attachment and serials and `StateWaitingForAckConfigure`, leaves
`StateWaitingForAckCommit` set only if both waiting flags were set, and makes
the calls listed. -/
theorem Commit_attached (funcs : ImplTable) (hf : HooksInert funcs) (role : XdgRole)
    (impl : Nat) (hi : role.impl = some impl) :
    ∃ r, Commit funcs role
        = some (r,
            if r.state.testBit 4 = true then
              [Call.impl_commit impl, Call.SyncHelperCheckFrameCallback]
            else
              [Call.impl_commit impl, Call.SyncHelperUpdate]
                ++ (match (funcs impl).after_commit with
                    | some _ => [Call.impl_after_commit impl]
                    | none => []))
      ∧ r.surface = role.surface ∧ r.impl = role.impl
      ∧ r.conf_serial = role.conf_serial
      ∧ r.last_specified_serial = role.last_specified_serial
      ∧ r.state.testBit 3 = role.state.testBit 3
      ∧ r.state.testBit 4 = (role.state.testBit 4 && role.state.testBit 3)
      ∧ r.state.testBit 3
          = ((funcs impl).commit (commitWindowGeometry role)).state.testBit 3 := by
  obtain ⟨g1, g2, g3, g4, g5, g6⟩ := commitWindowGeometry_fields role
  obtain ⟨k1, k2, k3, k4, k5⟩ := (hf impl).2.2.1 (commitWindowGeometry role)
  obtain ⟨a1, a2, a3, a4, a5, a6⟩ :=
    commitAckCommit_fields ((funcs impl).commit (commitWindowGeometry role))
  have hi3 : (commitAckCommit ((funcs impl).commit (commitWindowGeometry role))).impl
      = some impl := by rw [a2, k2, g2, hi]
  obtain ⟨r, hr, f1, f2, f3, f4, f5⟩ := commitFrame_result funcs hf _ impl hi3
  refine ⟨r, ?_, ?_, ?_, ?_, ?_, ?_, ?_, ?_⟩
  · rw [Commit_eq]
    simp only [hi]
    rw [hr, f3]
    simp only [xdg_hasFlag_StateWaitingForAckCommit]
  · rw [f1, a1, k1, g1]
  · rw [f2, a2, k2, g2]
  · rw [f4, a3, k4, g3]
  · rw [f5, a4, k5, g4]
  · rw [f3, a5, k3, g5]
  · rw [f3, a6, k3, g5, g6]
  · rw [f3, a5]

/-- `Commit` on a role without an implementation does nothing. -/
theorem Commit_detached (funcs : ImplTable) (role : XdgRole) (hi : role.impl = none) :
    Commit funcs role = some (role, []) := by
  rw [Commit_eq]
  simp only [hi]

/-- With inert hooks, every reachable role that waits for an `ack_configure`
also waits for the commit after it. -/
theorem Reachable_waiting (funcs : ImplTable) (hf : HooksInert funcs) (role : XdgRole)
    (hr : Reachable funcs role) :
    role.state.testBit 3 = true → role.state.testBit 4 = true := by
  induction hr with
  | create surface => simp [XLGetXdgSurface, Setup]
  | @attach role r cs impl _ h ih =>
    unfold XLXdgRoleAttachImplementation at h
    split at h
    · simp only [Option.some.injEq, Prod.mk.injEq] at h
      rw [← h.1]
      simpa [((hf impl).1 role).2.2.1] using ih
    · exact absurd h (by simp)
  | @detach role r cs impl _ h ih =>
    unfold XLXdgRoleDetachImplementation at h
    split at h
    · simp only [Option.some.injEq, Prod.mk.injEq] at h
      rw [← h.1]
      simpa [((hf impl).2.1 role).2.2.1] using ih
    · exact absurd h (by simp)
  | teardown _ ih => simpa [Teardown] using ih
  | set_window_geometry x y width height _ ih =>
    unfold SetWindowGeometry
    split
    · exact ih
    · simpa using ih
  | @ack_configure role serial _ ih =>
    cases hs : role.surface.isSome with
    | false => rw [AckConfigure_detached funcs role serial hs]; exact ih
    | true =>
      obtain ⟨-, -, -, -, h5⟩ := AckConfigure_fields funcs hf role serial hs
      rw [h5]
      split
      · exact ih
      · split
        · simp
        · exact ih
  | @commit role r cs _ h ih =>
    cases hi : role.impl with
    | none =>
      rw [Commit_detached funcs role hi] at h
      simp only [Option.some.injEq, Prod.mk.injEq] at h
      rw [← h.1]; exact ih
    | some impl =>
      obtain ⟨r', hr', -, -, -, -, h3, h4, -⟩ := Commit_attached funcs hf role impl hi
      rw [hr'] at h
      simp only [Option.some.injEq, Prod.mk.injEq] at h
      rw [← h.1, h3, h4]
      intro h; simp [h, ih h]
  | send_configure serial _ _ => simp [XLXdgRoleSendConfigure]
  | handle_resize only_frame _ ih =>
    cases only_frame
    · simp [HandleResize]
    · simpa [HandleResize] using ih
  | note_rejected_configure _ ih =>
    unfold XLXdgRoleNoteRejectedConfigure
    split
    · simp
    · exact ih
  | set_bounds_size bounds_width bounds_height _ ih =>
    simpa [XLXdgRoleSetBoundsSize] using ih
  | release_buffer buffer idle _ ih =>
    cases idle
    · simpa [ReleaseBuffer] using ih
    · simpa [ReleaseBuffer] using ih
  | handle_frame_callback frame_time _ ih =>
    unfold HandleFrameCallback RunFrameCallbacksConditionally
    split
    · exact ih
    · split
      · simpa using ih
      · exact ih
  | all_buffers_released _ ih =>
    simp only [AllBuffersReleased]
    split
    · simpa using ih
    · simpa using ih

/-- C6: `SetWindowGeometry` compares `x` with the current geometry and `y`,
`width`, `height` with the pending one.  On a role with an implementation
attached whose client asked for geometry (1, 0, 0, 0) and has not committed yet,
`SetWindowGeometry(0, 0, 0, 0)` is dropped as a repeat, and the following
`Commit` leaves the current geometry at (1, 0, 0, 0), not at (0, 0, 0, 0). -/
theorem SetWindowGeometry_then_Commit_stale :
    attachedRole.impl = some 0
    ∧ SetWindowGeometry (SetWindowGeometry attachedRole 1 0 0 0) 0 0 0 0
        = SetWindowGeometry attachedRole 1 0 0 0
    ∧ (Commit idleFuncs
          (SetWindowGeometry (SetWindowGeometry attachedRole 1 0 0 0) 0 0 0 0)).map
        (fun result => result.1.current_state)
        = some
            { window_geometry_x := 1
              window_geometry_y := 0
              window_geometry_width := 0
              window_geometry_height := 0 } := by
  decide

/-- What `Commit` does in a state that waits for the commit whenever it waits
for an `ack_configure` (hooks inert). -/
theorem Commit_of_waiting (funcs : ImplTable) (hf : HooksInert funcs)
    (role : XdgRole)
    (hinv : role.state.testBit 3 = true → role.state.testBit 4 = true) :
    (role.impl = none → Commit funcs role = some (role, []))
    ∧ ∀ impl, role.impl = some impl →
        ∃ r cs, Commit funcs role = some (r, cs)
          ∧ (¬ hasFlag r.state StateWaitingForAckCommit
              ↔ ¬ hasFlag ((funcs impl).commit (commitWindowGeometry role)).state
                    StateWaitingForAckConfigure)
          ∧ (¬ hasFlag ((funcs impl).commit (commitWindowGeometry role)).state
                  StateWaitingForAckConfigure →
              cs = [Call.impl_commit impl, Call.SyncHelperUpdate]
                    ++ (match (funcs impl).after_commit with
                        | some _ => [Call.impl_after_commit impl]
                        | none => []))
          ∧ (hasFlag ((funcs impl).commit (commitWindowGeometry role)).state
                  StateWaitingForAckConfigure →
              cs = [Call.impl_commit impl, Call.SyncHelperCheckFrameCallback])
          ∧ ¬ (Call.SyncHelperUpdate ∈ cs ∧ Call.SyncHelperCheckFrameCallback ∈ cs) := by
  refine ⟨Commit_detached funcs role, fun impl hi => ?_⟩
  obtain ⟨r, hc, -, -, -, -, h3, h4, h3'⟩ := Commit_attached funcs hf role impl hi
  have h43 : r.state.testBit 4 = r.state.testBit 3 := by
    rw [h4, h3]
    cases hb : role.state.testBit 3
    · simp
    · simp [hinv hb]
  refine ⟨r, _, hc, ?_, ?_, ?_, ?_⟩
  · simp only [xdg_hasFlag_StateWaitingForAckCommit,
      xdg_hasFlag_StateWaitingForAckConfigure, h43, h3']
  · intro h
    simp only [xdg_hasFlag_StateWaitingForAckConfigure, ← h3', ← h43] at h
    rw [if_neg h]
  · intro h
    simp only [xdg_hasFlag_StateWaitingForAckConfigure, ← h3', ← h43] at h
    rw [if_pos h]
  · cases hb : r.state.testBit 4
    · cases (funcs impl).after_commit <;> simp
    · simp

/-- C7: in every state of a shell-surface role reachable from its creation
(hooks inert): without an implementation `Commit` changes nothing and makes no
call; with one, `Commit` returns, `StateWaitingForAckCommit` is clear afterwards
exactly when `StateWaitingForAckConfigure` is clear after the commit hook, in
which case the calls are the commit hook, `SyncHelperUpdate` and the
`after_commit` hook if there is one, and otherwise the calls are the commit hook
and `SyncHelperCheckFrameCallback`; never both sync helper calls. -/
theorem Commit_waiting_for_ack (funcs : ImplTable) (hf : HooksInert funcs)
    (role : XdgRole) (hr : Reachable funcs role) :
    (role.impl = none → Commit funcs role = some (role, []))
    ∧ ∀ impl, role.impl = some impl →
        ∃ r cs, Commit funcs role = some (r, cs)
          ∧ (¬ hasFlag r.state StateWaitingForAckCommit
              ↔ ¬ hasFlag ((funcs impl).commit (commitWindowGeometry role)).state
                    StateWaitingForAckConfigure)
          ∧ (¬ hasFlag ((funcs impl).commit (commitWindowGeometry role)).state
                  StateWaitingForAckConfigure →
              cs = [Call.impl_commit impl, Call.SyncHelperUpdate]
                    ++ (match (funcs impl).after_commit with
                        | some _ => [Call.impl_after_commit impl]
                        | none => []))
          ∧ (hasFlag ((funcs impl).commit (commitWindowGeometry role)).state
                  StateWaitingForAckConfigure →
              cs = [Call.impl_commit impl, Call.SyncHelperCheckFrameCallback])
          ∧ ¬ (Call.SyncHelperUpdate ∈ cs ∧ Call.SyncHelperCheckFrameCallback ∈ cs) :=
  Commit_of_waiting funcs hf role (Reachable_waiting funcs hf role hr)

/-- The role a fresh role becomes when the idle implementation 0 is attached
and serial 7 is sent: it is reachable. -/
theorem Reachable_sent :
    Reachable idleFuncs (XLXdgRoleSendConfigure attachedRole 7).1 :=
  Reachable.send_configure 7
    (Reachable.attach 0 (Reachable.create 1)
      (show XLXdgRoleAttachImplementation idleFuncs (XLGetXdgSurface 1) 0
          = some (attachedRole, [Call.impl_attach 0]) by decide))

/-- The witness of C7: a role with the idle implementation 0 that was sent
serial 7 and commits before acknowledging it. -/
theorem Commit_waiting_for_ack_witness :
    HooksInert idleFuncs
    ∧ Reachable idleFuncs (XLXdgRoleSendConfigure attachedRole 7).1
    ∧ (XLXdgRoleSendConfigure attachedRole 7).1.impl = some 0
    ∧ ∃ r cs, Commit idleFuncs (XLXdgRoleSendConfigure attachedRole 7).1 = some (r, cs)
        ∧ (¬ hasFlag r.state StateWaitingForAckCommit
            ↔ ¬ hasFlag
                  ((idleFuncs 0).commit
                    (commitWindowGeometry (XLXdgRoleSendConfigure attachedRole 7).1)).state
                  StateWaitingForAckConfigure)
        ∧ (¬ hasFlag
                ((idleFuncs 0).commit
                  (commitWindowGeometry (XLXdgRoleSendConfigure attachedRole 7).1)).state
                StateWaitingForAckConfigure →
            cs = [Call.impl_commit 0, Call.SyncHelperUpdate]
                  ++ (match (idleFuncs 0).after_commit with
                      | some _ => [Call.impl_after_commit 0]
                      | none => []))
        ∧ (hasFlag
                ((idleFuncs 0).commit
                  (commitWindowGeometry (XLXdgRoleSendConfigure attachedRole 7).1)).state
                StateWaitingForAckConfigure →
            cs = [Call.impl_commit 0, Call.SyncHelperCheckFrameCallback])
        ∧ ¬ (Call.SyncHelperUpdate ∈ cs ∧ Call.SyncHelperCheckFrameCallback ∈ cs) :=
  ⟨idleFuncs_inert, Reachable_sent, by decide,
    (Commit_waiting_for_ack idleFuncs idleFuncs_inert
      (XLXdgRoleSendConfigure attachedRole 7).1 Reachable_sent).2 0 (by decide)⟩

end Xdg

/-! ## Buffer release and deferred frame callbacks -/

/-- C8: for the shell-surface role and the icon-surface role alike.  While
`StatePendingBufferRelease` is set and a surface is attached, a frame callback
delivered with time `t` runs no frame callback: it makes no call at all, sets
`StatePendingFrameCallback`, records `pending_frame_time = t` and changes
nothing else.  `ReleaseBuffer` releases an idle buffer at once and leaves the
role as it was; for a buffer that is not idle it hands the buffer to the release
helper and sets `StatePendingBufferRelease`, changing no other flag. -/
theorem frame_callback_deferred_while_buffer_pending :
    (∀ (role : Xdg.XdgRole) (t : Nat),
      hasFlag role.state Xdg.StatePendingBufferRelease → role.surface.isSome = true →
        Xdg.HandleFrameCallback role t
            = ({ role with
                  state := setFlag role.state Xdg.StatePendingFrameCallback
                  pending_frame_time := t }, [])
          ∧ (∀ s t', Call.XLSurfaceRunFrameCallbacksMs s t'
                ∉ (Xdg.HandleFrameCallback role t).2)
          ∧ hasFlag (Xdg.HandleFrameCallback role t).1.state Xdg.StatePendingFrameCallback
          ∧ (Xdg.HandleFrameCallback role t).1.pending_frame_time = t
          ∧ flagsAgreeExcept [Xdg.StatePendingFrameCallback] role.state
              (Xdg.HandleFrameCallback role t).1.state)
    ∧ (∀ (icon : Icon.IconSurface) (t : Nat),
      hasFlag icon.state Icon.StatePendingBufferRelease → icon.surface.isSome = true →
        Icon.HandleFrameCallback icon t
            = ({ icon with
                  state := setFlag icon.state Icon.StatePendingFrameCallback
                  pending_frame_time := t }, [])
          ∧ (∀ s t', Call.XLSurfaceRunFrameCallbacksMs s t'
                ∉ (Icon.HandleFrameCallback icon t).2)
          ∧ hasFlag (Icon.HandleFrameCallback icon t).1.state Icon.StatePendingFrameCallback
          ∧ (Icon.HandleFrameCallback icon t).1.pending_frame_time = t
          ∧ flagsAgreeExcept [Icon.StatePendingFrameCallback] icon.state
              (Icon.HandleFrameCallback icon t).1.state)
    ∧ (∀ (role : Xdg.XdgRole) (buffer : Nat),
        Xdg.ReleaseBuffer role buffer true = (role, [Call.XLReleaseBuffer buffer])
        ∧ Xdg.ReleaseBuffer role buffer false
            = ({ role with state := setFlag role.state Xdg.StatePendingBufferRelease },
                [Call.ReleaseBufferWithHelper buffer])
        ∧ hasFlag (Xdg.ReleaseBuffer role buffer false).1.state Xdg.StatePendingBufferRelease
        ∧ flagsAgreeExcept [Xdg.StatePendingBufferRelease] role.state
            (Xdg.ReleaseBuffer role buffer false).1.state)
    ∧ (∀ (icon : Icon.IconSurface) (buffer : Nat),
        Icon.ReleaseBuffer icon buffer true = (icon, [Call.XLReleaseBuffer buffer])
        ∧ Icon.ReleaseBuffer icon buffer false
            = ({ icon with state := setFlag icon.state Icon.StatePendingBufferRelease },
                [Call.ReleaseBufferWithHelper buffer])
        ∧ hasFlag (Icon.ReleaseBuffer icon buffer false).1.state
            Icon.StatePendingBufferRelease
        ∧ flagsAgreeExcept [Icon.StatePendingBufferRelease] icon.state
            (Icon.ReleaseBuffer icon buffer false).1.state) := by
  refine ⟨fun role t hp hs => ?_, fun icon t hp hs => ?_, fun role buffer => ?_,
    fun icon buffer => ?_⟩
  · have heq : Xdg.HandleFrameCallback role t
        = ({ role with
              state := setFlag role.state Xdg.StatePendingFrameCallback
              pending_frame_time := t }, []) := by
      simp only [Xdg.HandleFrameCallback, Xdg.RunFrameCallbacksConditionally]
      rw [if_neg (not_not.mpr hp), if_pos hs]
    rw [heq]
    refine ⟨rfl, by simp, ?_, rfl, ?_⟩
    · rw [Xdg.xdg_hasFlag_StatePendingFrameCallback,
        Xdg.xdg_testBit_setFlag_StatePendingFrameCallback]
      simp
    simp only []
    rw [Xdg.xdg_StatePendingFrameCallback_bit]
    exact flagsAgreeExcept_setFlag 0 (by simp) (flagsAgreeExcept_refl _ _)
  · have hn : icon.surface.isNone = false := by
      cases h : icon.surface <;> simp_all
    have heq : Icon.HandleFrameCallback icon t
        = ({ icon with
              state := setFlag icon.state Icon.StatePendingFrameCallback
              pending_frame_time := t }, []) := by
      simp only [Icon.HandleFrameCallback, Icon.RunFrameCallbacksConditionally]
      rw [hn, if_neg (by simp), if_pos hp]
    rw [heq]
    refine ⟨rfl, by simp, by simp, rfl, ?_⟩
    simp only []
    rw [Icon.icon_StatePendingFrameCallback_bit]
    exact flagsAgreeExcept_setFlag 3 (by simp) (flagsAgreeExcept_refl _ _)
  · refine ⟨rfl, rfl, by simp [Xdg.ReleaseBuffer], ?_⟩
    simp only [Xdg.ReleaseBuffer]
    rw [Xdg.xdg_StatePendingBufferRelease_bit]
    exact flagsAgreeExcept_setFlag 8 (by simp) (flagsAgreeExcept_refl _ _)
  · refine ⟨rfl, rfl, by simp [Icon.ReleaseBuffer], ?_⟩
    simp only [Icon.ReleaseBuffer]
    rw [Icon.icon_StatePendingBufferRelease_bit]
    exact flagsAgreeExcept_setFlag 2 (by simp) (flagsAgreeExcept_refl _ _)

/-- The witness of C8: a shell-surface role and an icon surface, each with a
buffer waiting for release, are delivered a frame callback at time 40. -/
theorem frame_callback_deferred_while_buffer_pending_witness :
    hasFlag Xdg.busyRole.state Xdg.StatePendingBufferRelease
    ∧ Xdg.busyRole.surface.isSome = true
    ∧ (Xdg.HandleFrameCallback Xdg.busyRole 40).2 = []
    ∧ (Xdg.HandleFrameCallback Xdg.busyRole 40).1.pending_frame_time = 40
    ∧ hasFlag Icon.busyIcon.state Icon.StatePendingBufferRelease
    ∧ Icon.busyIcon.surface.isSome = true
    ∧ (Icon.HandleFrameCallback Icon.busyIcon 40).2 = []
    ∧ (Icon.HandleFrameCallback Icon.busyIcon 40).1.pending_frame_time = 40 :=
  ⟨by decide, by decide,
    congrArg Prod.snd
      (frame_callback_deferred_while_buffer_pending.1 Xdg.busyRole 40
        (by decide) (by decide)).1,
    (frame_callback_deferred_while_buffer_pending.1 Xdg.busyRole 40
      (by decide) (by decide)).2.2.2.1,
    by decide, by decide,
    congrArg Prod.snd
      (frame_callback_deferred_while_buffer_pending.2.1 Icon.busyIcon 40
        (by decide) (by decide)).1,
    (frame_callback_deferred_while_buffer_pending.2.1 Icon.busyIcon 40
      (by decide) (by decide)).2.2.2.1⟩

namespace Xdg

/-- The shell-surface `AllBuffersReleased` on a role with a surface: both
`StatePendingBufferRelease` and `StatePendingFrameCallback` are clear afterwards,
the surface's frame callbacks run once with the recorded time if a callback was
deferred and not at all otherwise, and no other flag changes. -/
theorem AllBuffersReleased_effect (role : XdgRole) (s : Nat) (hs : role.surface = some s) :
    ¬ hasFlag (AllBuffersReleased role).1.state StatePendingBufferRelease
    ∧ ¬ hasFlag (AllBuffersReleased role).1.state StatePendingFrameCallback
    ∧ (hasFlag role.state StatePendingFrameCallback →
        (AllBuffersReleased role).2
          = [Call.XLSurfaceRunFrameCallbacksMs s role.pending_frame_time])
    ∧ (¬ hasFlag role.state StatePendingFrameCallback → (AllBuffersReleased role).2 = [])
    ∧ flagsAgreeExcept [StatePendingBufferRelease, StatePendingFrameCallback] role.state
        (AllBuffersReleased role).1.state := by
  have hp : hasFlag (clearFlag role.state StatePendingBufferRelease) StatePendingFrameCallback
      ↔ hasFlag role.state StatePendingFrameCallback := by
    rw [xdg_hasFlag_StatePendingFrameCallback, xdg_hasFlag_StatePendingFrameCallback,
      xdg_testBit_clearFlag_StatePendingBufferRelease]
    simp
  have hagree1 : flagsAgreeExcept [StatePendingBufferRelease, StatePendingFrameCallback]
      role.state (clearFlag role.state StatePendingBufferRelease) := by
    rw [xdg_StatePendingBufferRelease_bit]
    exact flagsAgreeExcept_clearFlag 8 (by decide) (by simp) (flagsAgreeExcept_refl _ _)
  have hagree2 : flagsAgreeExcept [StatePendingBufferRelease, StatePendingFrameCallback]
      role.state
      (clearFlag (clearFlag role.state StatePendingBufferRelease)
        StatePendingFrameCallback) := by
    rw [xdg_StatePendingFrameCallback_bit] at hagree1 ⊢
    exact flagsAgreeExcept_clearFlag 0 (by decide) (by simp) hagree1
  by_cases hf : hasFlag role.state StatePendingFrameCallback
  · have heq : AllBuffersReleased role
        = ({ role with
              state := clearFlag (clearFlag role.state StatePendingBufferRelease)
                StatePendingFrameCallback },
            [Call.XLSurfaceRunFrameCallbacksMs s role.pending_frame_time]) := by
      simp only [AllBuffersReleased]
      rw [if_pos ⟨by simp [hs], hp.mpr hf⟩]
      simp [RunFrameCallbacks, hs]
    rw [heq]
    refine ⟨?_, ?_, fun _ => rfl, fun h => absurd hf h, hagree2⟩
    · rw [xdg_hasFlag_StatePendingBufferRelease,
        xdg_testBit_clearFlag_StatePendingFrameCallback,
        xdg_testBit_clearFlag_StatePendingBufferRelease]
      simp
    · rw [xdg_hasFlag_StatePendingFrameCallback,
        xdg_testBit_clearFlag_StatePendingFrameCallback]
      simp
  · have heq : AllBuffersReleased role
        = ({ role with state := clearFlag role.state StatePendingBufferRelease }, []) := by
      simp only [AllBuffersReleased]
      rw [if_neg (fun h => hf (hp.mp h.2))]
    rw [heq]
    refine ⟨?_, fun h => hf (hp.mp h), fun h => absurd h hf, fun _ => rfl, hagree1⟩
    rw [xdg_hasFlag_StatePendingBufferRelease,
      xdg_testBit_clearFlag_StatePendingBufferRelease]
    simp

end Xdg

namespace Icon

/-- The icon-surface `AllBuffersReleased` on an icon surface with a surface:
whatever the flags were, the surface's frame callbacks are run, and the flag
word afterwards is the complement of the two pending bits. -/
theorem AllBuffersReleased_always (icon : IconSurface) (s : Nat)
    (hs : icon.surface = some s) :
    AllBuffersReleased icon
      = ({ icon with
            state := clearFlag (complement StatePendingBufferRelease)
              StatePendingFrameCallback },
          [Call.XLSurfaceRunFrameCallbacksMs s icon.pending_frame_time]) := by
  have hp : hasFlag (complement StatePendingBufferRelease) StatePendingFrameCallback := by
    decide
  simp only [AllBuffersReleased]
  rw [if_pos ⟨by simp [hs], hp⟩]
  simp [RunFrameCallbacks, hs]

/-- C9: the icon-surface `AllBuffersReleased` assigns `~StatePendingBufferRelease`
to the whole flag word, which sets `StatePendingFrameCallback`.  On an icon
surface with a buffer waiting for release and no frame callback deferred, it
runs the surface's frame callbacks, with the time 0 that was never recorded. -/
theorem icon_AllBuffersReleased_runs_undeferred :
    busyIcon.surface = some 1
    ∧ hasFlag busyIcon.state StatePendingBufferRelease
    ∧ ¬ hasFlag busyIcon.state StatePendingFrameCallback
    ∧ (AllBuffersReleased busyIcon).2 = [Call.XLSurfaceRunFrameCallbacksMs 1 0] := by
  decide

/-- C10: the icon-surface `AllBuffersReleased` assigns `~StatePendingBufferRelease`
to the whole flag word.  On an icon surface that is neither mapped nor released,
with a buffer waiting for release, `StateIsMapped` and `StateIsReleased` are both
set afterwards, and `MaybeMapWindow` then maps nothing. -/
theorem icon_AllBuffersReleased_sets_other_flags :
    ¬ hasFlag busyIcon.state StateIsMapped
    ∧ ¬ hasFlag busyIcon.state StateIsReleased
    ∧ hasFlag (AllBuffersReleased busyIcon).1.state StateIsMapped
    ∧ hasFlag (AllBuffersReleased busyIcon).1.state StateIsReleased
    ∧ (MaybeMapWindow (AllBuffersReleased busyIcon).1 0 0).2 = []
    ∧ (MaybeMapWindow busyIcon 0 0).2
        = [Call.XMapRaised, Call.XLUpdateSurfaceOutputs 1 0 0 1 1] := by
  decide

end Icon

namespace Sub

/-! ## Subsurfaces: stores and walks -/

@[simp] theorem setSubsurface_subsurfaces (w : World) (k j : Nat) (a : Subsurface) :
    (w.setSubsurface k a).subsurfaces j = if j = k then some a else w.subsurfaces j := rfl

@[simp] theorem setSubsurface_surfaces (w : World) (k : Nat) (a : Subsurface) :
    (w.setSubsurface k a).surfaces = w.surfaces := rfl

@[simp] theorem setSubsurface_calls (w : World) (k : Nat) (a : Subsurface) :
    (w.setSubsurface k a).calls = w.calls := rfl

@[simp] theorem setSubsurface_view_parent (w : World) (k : Nat) (a : Subsurface) :
    (w.setSubsurface k a).view_parent = w.view_parent := rfl

@[simp] theorem setSubsurface_view_children (w : World) (k : Nat) (a : Subsurface) :
    (w.setSubsurface k a).view_children = w.view_children := rfl

@[simp] theorem setSubsurface_view_subcompositor (w : World) (k : Nat) (a : Subsurface) :
    (w.setSubsurface k a).view_subcompositor = w.view_subcompositor := rfl

@[simp] theorem setSurface_surfaces (w : World) (k j : Nat) (a : Surface) :
    (w.setSurface k a).surfaces j = if j = k then some a else w.surfaces j := rfl

@[simp] theorem setSurface_subsurfaces (w : World) (k : Nat) (a : Surface) :
    (w.setSurface k a).subsurfaces = w.subsurfaces := rfl

@[simp] theorem setSurface_calls (w : World) (k : Nat) (a : Surface) :
    (w.setSurface k a).calls = w.calls := rfl

@[simp] theorem setSurface_view_parent (w : World) (k : Nat) (a : Surface) :
    (w.setSurface k a).view_parent = w.view_parent := rfl

@[simp] theorem setSurface_view_children (w : World) (k : Nat) (a : Surface) :
    (w.setSurface k a).view_children = w.view_children := rfl

@[simp] theorem setSurface_view_subcompositor (w : World) (k : Nat) (a : Surface) :
    (w.setSurface k a).view_subcompositor = w.view_subcompositor := rfl

@[simp] theorem call_surfaces (w : World) (c : Call) : (w.call c).surfaces = w.surfaces := rfl

@[simp] theorem call_subsurfaces (w : World) (c : Call) :
    (w.call c).subsurfaces = w.subsurfaces := rfl

@[simp] theorem call_calls (w : World) (c : Call) : (w.call c).calls = w.calls ++ [c] := rfl

@[simp] theorem call_view_parent (w : World) (c : Call) :
    (w.call c).view_parent = w.view_parent := rfl

@[simp] theorem call_view_children (w : World) (c : Call) :
    (w.call c).view_children = w.view_children := rfl

@[simp] theorem call_view_subcompositor (w : World) (c : Call) :
    (w.call c).view_subcompositor = w.view_subcompositor := rfl

theorem roleOf_congr {w w' : World} (h : w'.surfaces = w.surfaces) (c : Nat) :
    w'.roleOf c = w.roleOf c := by
  unfold World.roleOf
  rw [h]

theorem forEachChild_nil (body : World → Nat → Option World) (w : World) :
    forEachChild body w [] = some w := rfl

theorem forEachChild_cons (body : World → Nat → Option World) (w : World) (c : Nat)
    (rest : List Nat) :
    forEachChild body w (c :: rest)
      = (match w.roleOf c with
          | some ck => body w ck
          | none => none).bind fun w1 => forEachChild body w1 rest := by
  unfold forEachChild
  rw [List.foldlM_cons]
  rfl

theorem forEachChild_congr {f g : World → Nat → Option World} (h : ∀ w k, f w k = g w k)
    (w : World) (l : List Nat) : forEachChild f w l = forEachChild g w l := by
  have : f = g := funext fun w => funext fun k => h w k
  rw [this]

theorem SetSync1_eq_walk (fuel : Nat) :
    ∀ (w : World) (k : Nat), SetSync1 fuel w k = walk true (fun _ => true) false fuel w k := by
  induction fuel with
  | zero => intro w k; rfl
  | succ n ih =>
    intro w k
    unfold SetSync1 walk
    cases hk : w.subsurfaces k with
    | none => rfl
    | some sub =>
      cases hs : sub.surface with
      | none => simp only [hs]; simp
      | some s =>
        simp only [hs, setSubsurface_surfaces]
        cases hsurf : w.surfaces s with
        | none => rfl
        | some surf =>
          simp only []
          apply forEachChild_congr
          intro wi ck
          cases hck : wi.subsurfaces ck with
          | none =>
            simp only []
            cases n with
            | zero => rfl
            | succ m => unfold SetSync1; rw [hck]
          | some child => simp [ih]

theorem NoteSubsurfaceDesynchronous_eq_walk (fuel : Nat) :
    ∀ (w : World) (k : Nat),
      NoteSubsurfaceDesynchronous fuel w k false
        = walk false (fun child => child.should_be_desync) false fuel w k := by
  induction fuel with
  | zero => intro w k; rfl
  | succ n ih =>
    intro w k
    unfold NoteSubsurfaceDesynchronous walk
    cases hk : w.subsurfaces k with
    | none => rfl
    | some sub =>
      cases hs : sub.surface with
      | none => simp only [hs]; simp
      | some s =>
        simp only [hs, setSubsurface_surfaces, Bool.false_eq_true, and_false, if_false]
        cases hsurf : w.surfaces s with
        | none => rfl
        | some surf =>
          simp only []
          apply forEachChild_congr
          intro wi ck
          cases hck : wi.subsurfaces ck with
          | none => rfl
          | some child => simp [ih]

theorem NoteSubsurfaceTeardown_eq_walk (fuel : Nat) :
    ∀ (w : World) (k : Nat),
      NoteSubsurfaceTeardown fuel w k
        = walk false (fun child => child.should_be_desync) true fuel w k := by
  induction fuel with
  | zero => intro w k; rfl
  | succ n ih =>
    intro w k
    unfold NoteSubsurfaceTeardown walk
    cases hk : w.subsurfaces k with
    | none => rfl
    | some sub =>
      cases hs : sub.surface with
      | none => simp only [hs]; simp
      | some s =>
        simp only [hs]
        cases hsurf : w.surfaces s with
        | none => rfl
        | some surf =>
          simp only []
          apply forEachChild_congr
          intro wi ck
          cases hck : wi.subsurfaces ck with
          | none => rfl
          | some child => simp [ih]

end Sub

namespace Sub

theorem SameTree.refl (w : World) : SameTree w w := ⟨rfl, fun _ => rfl⟩

theorem SameTree.symm {w w' : World} (h : SameTree w w') : SameTree w' w :=
  ⟨h.1.symm, fun j => (h.2 j).symm⟩

theorem SameTree.trans {w w1 w2 : World} (h1 : SameTree w w1) (h2 : SameTree w1 w2) :
    SameTree w w2 :=
  ⟨h2.1.trans h1.1, fun j => (h2.2 j).trans (h1.2 j)⟩

theorem SameTree.lookup {w w' : World} (h : SameTree w w') {k : Nat} {a : Subsurface}
    (hk : w.subsurfaces k = some a) :
    ∃ a', w'.subsurfaces k = some a'
      ∧ ({ a' with synchronous := false } : Subsurface) = { a with synchronous := false } := by
  have := h.2 k
  rw [hk] at this
  cases hk' : w'.subsurfaces k with
  | none => rw [hk'] at this; simp at this
  | some a' =>
    rw [hk'] at this
    simp only [Option.map_some', Option.some.injEq] at this
    exact ⟨a', rfl, this⟩

theorem Resynced.sameTree {value : Bool} {V : Nat → Prop} {w w' : World}
    (h : Resynced value V w w') : SameTree w w' := by
  refine ⟨h.1, fun j => ?_⟩
  by_cases hj : V j
  · rw [(h.2.2.2.2.2 j).1 hj]
    cases w.subsurfaces j <;> simp
  · rw [(h.2.2.2.2.2 j).2 hj]

theorem Resynced_congr {value : Bool} {V V' : Nat → Prop} {w w' : World}
    (hV : ∀ j, V j ↔ V' j) (h : Resynced value V w w') : Resynced value V' w w' := by
  obtain ⟨h1, h2, h3, h4, h5, h6⟩ := h
  exact ⟨h1, h2, h3, h4, h5, fun j =>
    ⟨fun hj => (h6 j).1 ((hV j).2 hj), fun hj => (h6 j).2 (fun h => hj ((hV j).1 h))⟩⟩

theorem Resynced_trans {value : Bool} {V V' : Nat → Prop} {w w1 w2 : World}
    (h : Resynced value V w w1) (h' : Resynced value V' w1 w2) :
    Resynced value (fun j => V j ∨ V' j) w w2 := by
  obtain ⟨h1, h2, h3, h4, h5, h6⟩ := h
  obtain ⟨g1, g2, g3, g4, g5, g6⟩ := h'
  refine ⟨g1.trans h1, g2.trans h2, g3.trans h3, g4.trans h4, g5.trans h5, fun j => ?_⟩
  by_cases hj : V j <;> by_cases hj' : V' j
  · refine ⟨fun _ => ?_, fun hn => absurd (Or.inl hj) hn⟩
    rw [(g6 j).1 hj', (h6 j).1 hj]
    cases w.subsurfaces j <;> simp
  · refine ⟨fun _ => ?_, fun hn => absurd (Or.inl hj) hn⟩
    rw [(g6 j).2 hj', (h6 j).1 hj]
  · refine ⟨fun _ => ?_, fun hn => absurd (Or.inr hj') hn⟩
    rw [(g6 j).1 hj', (h6 j).2 hj]
  · refine ⟨fun h => ?_, fun _ => ?_⟩
    · rcases h with h | h
      · exact absurd h hj
      · exact absurd h hj'
    · rw [(g6 j).2 hj', (h6 j).2 hj]

theorem Resynced_store (value : Bool) (w : World) (k : Nat) (a : Subsurface)
    (hk : w.subsurfaces k = some a) :
    Resynced value (fun j => j = k) w (w.setSubsurface k { a with synchronous := value }) := by
  refine ⟨rfl, rfl, rfl, rfl, rfl, fun j => ⟨fun hj => ?_, fun hj => ?_⟩⟩
  · subst hj; simp [hk]
  · simp [hj]

theorem Reach_sameTree {want : Subsurface → Bool}
    (hw : ∀ (a : Subsurface) (v : Bool), want { a with synchronous := v } = want a)
    {w w' : World} (h : SameTree w w') {k j : Nat} (hr : Reach want w k j) :
    Reach want w' k j := by
  induction hr with
  | refl k => exact Reach.refl k
  | @step k s c ck j subsurface child surface h1 h2 h3 h4 h5 h6 h7 _ ih =>
    obtain ⟨a', ha', hn⟩ := h.lookup h1
    obtain ⟨c', hc', hcn⟩ := h.lookup h6
    have hs' : a'.surface = some s := by
      have := congrArg Subsurface.surface hn
      simpa [h2] using this
    have hwant : want c' = true := by
      rw [← hw c' false, hcn, hw child false]; exact h7
    exact Reach.step ha' hs' (by rw [h.1]; exact h3) h4
      (by rw [roleOf_congr h.1]; exact h5) hc' hwant ih

theorem Reach_sameTree_iff {want : Subsurface → Bool}
    (hw : ∀ (a : Subsurface) (v : Bool), want { a with synchronous := v } = want a)
    {w w' : World} (h : SameTree w w') (k j : Nat) :
    Reach want w' k j ↔ Reach want w k j :=
  ⟨Reach_sameTree hw h.symm, Reach_sameTree hw h⟩

/-- What is reachable from a subsurface whose surface and child list are known. -/
theorem Reach_iff {want : Subsurface → Bool} {w : World} {k s : Nat} {a : Subsurface}
    {surface : Surface} (hk : w.subsurfaces k = some a) (hs : a.surface = some s)
    (hsurf : w.surfaces s = some surface) (j : Nat) :
    Reach want w k j ↔
      (j = k ∨ ∃ c ∈ surface.subsurfaces, ∃ ck child, w.roleOf c = some ck
        ∧ w.subsurfaces ck = some child ∧ want child = true ∧ Reach want w ck j) := by
  constructor
  · intro h
    cases h with
    | refl => exact Or.inl rfl
    | @step _ s' c ck _ subsurface child surface' h1 h2 h3 h4 h5 h6 h7 h8 =>
      rw [hk] at h1
      cases h1
      rw [hs] at h2
      cases h2
      rw [hsurf] at h3
      cases h3
      exact Or.inr ⟨c, h4, ck, child, h5, h6, h7, h8⟩
  · rintro (rfl | ⟨c, hc, ck, child, h5, h6, h7, h8⟩)
    · exact Reach.refl _
    · exact Reach.step hk hs hsurf hc h5 h6 h7 h8

/-- From a subsurface that has no surface only the subsurface itself is
reached. -/
theorem Reach_detached {want : Subsurface → Bool} {w : World} {k : Nat} {a : Subsurface}
    (hk : w.subsurfaces k = some a) (hs : a.surface = none) (j : Nat) :
    Reach want w k j ↔ j = k := by
  constructor
  · intro h
    cases h with
    | refl => rfl
    | @step _ s' c ck _ subsurface child surface' h1 h2 h3 h4 h5 h6 h7 h8 =>
      rw [hk] at h1
      cases h1
      rw [hs] at h2
      cases h2
  · rintro rfl
    exact Reach.refl _

end Sub

namespace Sub

/-- The loop over the children: given what the body does to one child, the
whole loop stores `synchronous = value` into everything reached through the
listed children that satisfy `want`. -/
theorem forEachChild_walk {value : Bool} {want : Subsurface → Bool}
    (hw : ∀ (a : Subsurface) (v : Bool), want { a with synchronous := v } = want a)
    (w : World) (body : World → Nat → Option World)
    (hbody : ∀ (wi w' : World) (ck : Nat) (child : Subsurface), SameTree w wi →
      wi.subsurfaces ck = some child → want child = true →
      body wi ck = some w' → Resynced value (Reach want w ck) wi w')
    (hskip : ∀ (wi : World) (ck : Nat) (child : Subsurface),
      wi.subsurfaces ck = some child → want child = false → body wi ck = some wi)
    (hnone : ∀ (wi : World) (ck : Nat), wi.subsurfaces ck = none → body wi ck = none) :
    ∀ (l : List Nat) (V : Nat → Prop) (wi w' : World), Resynced value V w wi →
      forEachChild body wi l = some w' →
      Resynced value
        (fun j => V j ∨ ∃ c ∈ l, ∃ ck child, w.roleOf c = some ck
          ∧ w.subsurfaces ck = some child ∧ want child = true ∧ Reach want w ck j)
        w w' := by
  intro l
  induction l with
  | nil =>
    intro V wi w' hV h
    rw [forEachChild_nil] at h
    cases h
    exact Resynced_congr (fun j => by simp) hV
  | cons c rest ih =>
    intro V wi w' hV h
    rw [forEachChild_cons, roleOf_congr hV.1] at h
    cases hc : w.roleOf c with
    | none => rw [hc] at h; simp at h
    | some ck =>
      rw [hc] at h
      simp only [] at h
      cases hck : wi.subsurfaces ck with
      | none => rw [hnone wi ck hck] at h; simp at h
      | some childi =>
        obtain ⟨child, hchild, hnorm⟩ := hV.sameTree.symm.lookup hck
        have hwant : want child = want childi := by
          rw [← hw child false, hnorm, hw childi false]
        cases hwc : want childi with
        | false =>
          rw [hskip wi ck childi hck hwc] at h
          simp only [Option.some_bind] at h
          refine Resynced_congr (fun j => ?_) (ih V wi w' hV h)
          constructor
          · rintro (h | ⟨c', hc', ck', child', h1, h2, h3, h4⟩)
            · exact Or.inl h
            · exact Or.inr ⟨c', List.mem_cons_of_mem _ hc', ck', child', h1, h2, h3, h4⟩
          · rintro (h | ⟨c', hc', ck', child', h1, h2, h3, h4⟩)
            · exact Or.inl h
            · rcases List.mem_cons.mp hc' with rfl | hc'
              · rw [hc] at h1
                cases h1
                rw [hchild] at h2
                cases h2
                rw [hwant, hwc] at h3
                cases h3
              · exact Or.inr ⟨c', hc', ck', child', h1, h2, h3, h4⟩
        | true =>
          cases hb : body wi ck with
          | none => rw [hb] at h; simp at h
          | some w1 =>
            rw [hb] at h
            simp only [Option.some_bind] at h
            have h1 := hbody wi w1 ck childi hV.sameTree hck hwc hb
            have h2 := ih _ w1 w' (Resynced_trans hV h1) h
            refine Resynced_congr (fun j => ?_) h2
            constructor
            · rintro ((h | h) | ⟨c', hc', ck', child', h1, h2, h3, h4⟩)
              · exact Or.inl h
              · exact Or.inr ⟨c, List.mem_cons_self _ _, ck, child, hc, hchild,
                  hwant.trans hwc, h⟩
              · exact Or.inr ⟨c', List.mem_cons_of_mem _ hc', ck', child', h1, h2, h3, h4⟩
            · rintro (h | ⟨c', hc', ck', child', h1, h2, h3, h4⟩)
              · exact Or.inl (Or.inl h)
              · rcases List.mem_cons.mp hc' with rfl | hc'
                · rw [hc] at h1
                  cases h1
                  exact Or.inl (Or.inr h4)
                · exact Or.inr ⟨c', hc', ck', child', h1, h2, h3, h4⟩

/-- A walk that returns has stored `synchronous = value` into exactly the
subsurfaces reached from its start through children that satisfy `want`. -/
theorem walk_resynced {value : Bool} {want : Subsurface → Bool} {strict : Bool}
    (hw : ∀ (a : Subsurface) (v : Bool), want { a with synchronous := v } = want a)
    (fuel : Nat) :
    ∀ (w w' : World) (k : Nat), walk value want strict fuel w k = some w' →
      Resynced value (Reach want w k) w w' := by
  induction fuel with
  | zero => intro w w' k h; simp [walk] at h
  | succ n ih =>
    intro w w' k h
    unfold walk at h
    cases hk : w.subsurfaces k with
    | none => rw [hk] at h; simp at h
    | some a =>
      rw [hk] at h
      simp only [] at h
      have hstore := Resynced_store value w k a hk
      cases hs : a.surface with
      | none =>
        simp only [hs] at h hstore
        cases strict with
        | true => simp at h
        | false =>
          simp only [Bool.false_eq_true, if_false, Option.some.injEq] at h
          rw [← h]
          refine Resynced_congr (fun j => ?_) hstore
          rw [Reach_detached hk hs]
      | some s =>
        simp only [hs] at h hstore
        cases hsurf : w.surfaces s with
        | none => rw [hsurf] at h; simp at h
        | some surface =>
          rw [hsurf] at h
          simp only [] at h
          have hfold := forEachChild_walk hw w
            (fun w child_subsurface =>
              match w.subsurfaces child_subsurface with
              | none => none
              | some child =>
                if want child = true then walk value want strict n w child_subsurface
                else some w)
            (fun wi w' ck child hT hck hwc hb => by
              simp only [hck, hwc, if_true] at hb
              exact Resynced_congr (Reach_sameTree_iff hw hT ck) (ih wi w' ck hb))
            (fun wi ck child hck hwc => by simp [hck, hwc])
            (fun wi ck hck => by simp [hck])
            surface.subsurfaces _ _ w' hstore h
          refine Resynced_congr (fun j => ?_) hfold
          rw [Reach_iff hk hs hsurf]

end Sub

namespace Sub

theorem SameTree.lookup_fields {w w' : World} (h : SameTree w w') {k : Nat} {a : Subsurface}
    (hk : w.subsurfaces k = some a) :
    ∃ a', w'.subsurfaces k = some a' ∧ a'.surface = a.surface ∧ a'.parent = a.parent
      ∧ a'.should_be_desync = a.should_be_desync ∧ a'.pending_commit = a.pending_commit
      ∧ a'.pending = a.pending := by
  obtain ⟨a', ha', hn⟩ := h.lookup hk
  refine ⟨a', ha', ?_⟩
  cases a
  cases a'
  simp only [Subsurface.mk.injEq] at hn
  simp only
  obtain ⟨h1, h2, _, _, _, _, h7, _, h9, _, h11⟩ := hn
  exact ⟨h1, h2, h7, h9, h11⟩

/-- What `treeBelow` says about a subsurface with a surface. -/
theorem treeBelow_succ {w : World} {height k s : Nat} {a : Subsurface}
    (hk : w.subsurfaces k = some a) (hs : a.surface = some s)
    (h : treeBelow w (height + 1) k = true) :
    ∃ surface, w.surfaces s = some surface ∧ ∀ c ∈ surface.subsurfaces,
      ∃ ck child, w.roleOf c = some ck ∧ w.subsurfaces ck = some child
        ∧ child.surface = some c ∧ treeBelow w height ck = true := by
  unfold treeBelow at h
  rw [hk] at h
  simp only [hs] at h
  cases hsurf : w.surfaces s with
  | none => rw [hsurf] at h; simp at h
  | some surface =>
    rw [hsurf] at h
    simp only [List.all_eq_true] at h
    refine ⟨surface, rfl, fun c hc => ?_⟩
    have hc' := h c hc
    cases hr : w.roleOf c with
    | none => rw [hr] at hc'; simp at hc'
    | some ck =>
      rw [hr] at hc'
      simp only [Bool.and_eq_true] at hc'
      cases hck : w.subsurfaces ck with
      | none => rw [hck] at hc'; simp at hc'
      | some child =>
        rw [hck] at hc'
        simp only [decide_eq_true_eq] at hc'
        exact ⟨ck, child, rfl, hck, hc'.1, hc'.2⟩

theorem treeBelow_lookup {w : World} {height k : Nat} (h : treeBelow w height k = true) :
    ∃ a, w.subsurfaces k = some a := by
  cases height with
  | zero => simp [treeBelow] at h
  | succ n =>
    unfold treeBelow at h
    cases hk : w.subsurfaces k with
    | none => rw [hk] at h; simp at h
    | some a => exact ⟨a, rfl⟩

/-- The loop over the children returns when its body does on every child. -/
theorem forEachChild_total (w : World) (body : World → Nat → Option World)
    (good : Nat → Prop)
    (hbody : ∀ (wi : World) (ck : Nat), SameTree w wi → good ck →
      ∃ w', body wi ck = some w' ∧ SameTree w w') :
    ∀ (l : List Nat) (wi : World), SameTree w wi →
      (∀ c ∈ l, ∃ ck, w.roleOf c = some ck ∧ good ck) →
      ∃ w', forEachChild body wi l = some w' ∧ SameTree w w' := by
  intro l
  induction l with
  | nil => intro wi hT _; exact ⟨wi, rfl, hT⟩
  | cons c rest ih =>
    intro wi hT hl
    obtain ⟨ck, hc, hg⟩ := hl c (List.mem_cons_self _ _)
    obtain ⟨w1, hb, hT1⟩ := hbody wi ck hT hg
    obtain ⟨w', hf, hT'⟩ := ih w1 hT1 (fun c' hc' => hl c' (List.mem_cons_of_mem _ hc'))
    refine ⟨w', ?_, hT'⟩
    rw [forEachChild_cons, roleOf_congr hT.1, hc]
    simp only [hb, Option.some_bind, hf]

/-- A walk over a tree of height at most `fuel` returns; the strict walk needs
the start to have a surface. -/
theorem walk_total {value : Bool} {want : Subsurface → Bool} {strict : Bool}
    (w : World) (fuel : Nat) :
    ∀ (wi : World) (k : Nat), SameTree w wi → treeBelow w fuel k = true →
      (strict = true → ∃ a s, w.subsurfaces k = some a ∧ a.surface = some s) →
      ∃ w', walk value want strict fuel wi k = some w' ∧ SameTree w w' := by
  induction fuel with
  | zero => intro wi k _ h; simp [treeBelow] at h
  | succ n ih =>
    intro wi k hT htree hstrict
    obtain ⟨a, hk⟩ := treeBelow_lookup htree
    obtain ⟨ai, hki, hsi, -⟩ := hT.lookup_fields hk
    have hstore := (Resynced_store value wi k ai hki).sameTree
    unfold walk
    rw [hki]
    simp only []
    cases hs : a.surface with
    | none =>
      rw [hs] at hsi
      simp only [hsi] at hstore ⊢
      cases strict with
      | true =>
        obtain ⟨a', s, h1, h2⟩ := hstrict rfl
        rw [hk] at h1
        cases h1
        rw [hs] at h2
        cases h2
      | false => exact ⟨_, by simp, hT.trans hstore⟩
    | some s =>
      rw [hs] at hsi
      simp only [hsi] at hstore ⊢
      obtain ⟨surface, hsurf, hch⟩ := treeBelow_succ hk hs htree
      rw [hT.1, hsurf]
      simp only []
      refine forEachChild_total w _
        (fun ck => ∃ child, w.subsurfaces ck = some child
          ∧ (∃ c, child.surface = some c) ∧ treeBelow w n ck = true)
        (fun wj ck hTj hg => ?_) surface.subsurfaces _ (hT.trans hstore)
        (fun c hc => ?_)
      · obtain ⟨child, hck, ⟨c, hcs⟩, htc⟩ := hg
        obtain ⟨childj, hckj, -⟩ := hTj.lookup_fields hck
        simp only [hckj]
        by_cases hwc : want childj = true
        · simp only [hwc, if_true]
          exact ih wj ck hTj htc (fun _ => ⟨child, c, hck, hcs⟩)
        · simp only [hwc, if_false]
          exact ⟨wj, by simp, hTj⟩
      · obtain ⟨ck, child, h1, h2, h3, h4⟩ := hch c hc
        exact ⟨ck, h1, child, h2, ⟨c, h3⟩, h4⟩

/-- A walk over a tree of height at most `fuel` returns the world with
`synchronous = value` stored into what it reaches. -/
theorem walk_returns {value : Bool} {want : Subsurface → Bool} {strict : Bool}
    (hw : ∀ (a : Subsurface) (v : Bool), want { a with synchronous := v } = want a)
    (w : World) (fuel k : Nat) (htree : treeBelow w fuel k = true)
    (hstrict : strict = true → ∃ a s, w.subsurfaces k = some a ∧ a.surface = some s) :
    ∃ w', walk value want strict fuel w k = some w'
      ∧ Resynced value (Reach want w k) w w' := by
  obtain ⟨w', h, -⟩ := walk_total w fuel w k (SameTree.refl w) htree hstrict
  exact ⟨w', h, walk_resynced hw fuel w w' k h⟩

end Sub

namespace Sub

/-- C11: `EarlyCommit` on a subsurface returns False exactly when the
subsurface is synchronous, and then sets `pending_commit` and makes no call;
on a desynchronous subsurface it returns True, merges the cached state into
the surface exactly when `pending_commit` was set, and leaves `pending_commit`
false.  Nothing else changes. -/
theorem EarlyCommit_effect (w : World) (surface k : Nat) (a : Subsurface)
    (hk : w.subsurfaces k = some a) :
    ∃ w' r, EarlyCommit w surface k = some (w', r)
      ∧ (r = false ↔ a.synchronous = true)
      ∧ (a.synchronous = true →
          w'.subsurfaces k = some { a with pending_commit := true } ∧ w'.calls = w.calls)
      ∧ (a.synchronous = false →
          r = true
          ∧ w'.subsurfaces k = some { a with pending_commit := false }
          ∧ w'.calls
              = w.calls ++
                (if a.pending_commit = true then [Call.XLSurfaceMergeCachedState surface]
                 else []))
      ∧ (∀ j, j ≠ k → w'.subsurfaces j = w.subsurfaces j)
      ∧ w'.surfaces = w.surfaces ∧ w'.view_parent = w.view_parent
      ∧ w'.view_children = w.view_children := by
  unfold EarlyCommit
  rw [hk]
  obtain ⟨s, p, rc, ps, cs, cc, sbd, sync, pc, m, pe⟩ := a
  cases sync <;> cases pc <;> simp [hk] <;> exact fun j h1 h2 => absurd h2 h1

/-- The witness of C11: subsurface 10 of the `family`, synchronous as
`GetSubsurface` left it. -/
theorem EarlyCommit_effect_witness :
    family.subsurfaces 10 = some (newSubsurface 2 1)
    ∧ ∃ w' r, EarlyCommit family 2 10 = some (w', r)
      ∧ (r = false ↔ (newSubsurface 2 1).synchronous = true)
      ∧ ((newSubsurface 2 1).synchronous = true →
          w'.subsurfaces 10 = some { newSubsurface 2 1 with pending_commit := true }
            ∧ w'.calls = family.calls) :=
  ⟨by decide,
    (EarlyCommit_effect family 2 10 (newSubsurface 2 1) (by decide)).imp fun _ h =>
      h.imp fun _ h => ⟨h.1, h.2.1, h.2.2.1⟩⟩

end Sub

namespace Sub

/-- Everything reached from an existing subsurface exists. -/
theorem Reach_exists {want : Subsurface → Bool} {w : World} {k j : Nat} {a : Subsurface}
    (hk : w.subsurfaces k = some a) (h : Reach want w k j) :
    ∃ b, w.subsurfaces j = some b := by
  induction h generalizing a with
  | refl k => exact ⟨a, hk⟩
  | step _ _ _ _ _ h6 _ _ ih => exact ih h6

/-- The check `treeBelow` reads the surfaces and the `surface` field of the
subsurfaces only. -/
theorem treeBelow_congr {w w1 : World} (hsurf : w1.surfaces = w.surfaces)
    (hsub : ∀ j, (w1.subsurfaces j).map (fun a => a.surface)
      = (w.subsurfaces j).map (fun a => a.surface)) (height : Nat) :
    ∀ k, treeBelow w1 height k = treeBelow w height k := by
  induction height with
  | zero => intro k; rfl
  | succ n ih =>
    intro k
    unfold treeBelow
    have hk := hsub k
    cases h1 : w1.subsurfaces k with
    | none =>
      rw [h1] at hk
      cases h : w.subsurfaces k with
      | none => rfl
      | some a => rw [h] at hk; simp at hk
    | some a1 =>
      rw [h1] at hk
      cases h : w.subsurfaces k with
      | none => rw [h] at hk; simp at hk
      | some a =>
        rw [h] at hk
        simp only [Option.map_some', Option.some.injEq] at hk
        simp only [hk, hsurf]
        cases hs : a.surface with
        | none => rfl
        | some s =>
          simp only []
          cases hsf : w.surfaces s with
          | none => rfl
          | some surface =>
            simp only []
            congr 1
            funext c
            rw [roleOf_congr hsurf]
            cases hr : w.roleOf c with
            | none => rfl
            | some ck =>
              simp only [ih ck]
              have hck := hsub ck
              cases h2 : w1.subsurfaces ck with
              | none =>
                rw [h2] at hck
                cases h3 : w.subsurfaces ck with
                | none => rfl
                | some b => rw [h3] at hck; simp at hck
              | some b1 =>
                rw [h2] at hck
                cases h3 : w.subsurfaces ck with
                | none => rw [h3] at hck; simp at hck
                | some b =>
                  rw [h3] at hck
                  simp only [Option.map_some', Option.some.injEq] at hck
                  simp only [hck]

/-- Two worlds that differ in one subsurface `S` only, and not in its `surface`
field: what is reached in one is reached in the other, from the same start or
from `S`. -/
theorem Reach_restore {want : Subsurface → Bool} {w w1 : World} {S : Nat}
    (hsurf : w1.surfaces = w.surfaces)
    (hsub : ∀ j, j ≠ S → w1.subsurfaces j = w.subsurfaces j)
    (hS : (w1.subsurfaces S).map (fun a => a.surface)
      = (w.subsurfaces S).map (fun a => a.surface))
    {k j : Nat} (h : Reach want w1 k j) : Reach want w k j ∨ Reach want w S j := by
  induction h with
  | refl k => exact Or.inl (Reach.refl k)
  | @step k s c ck j subsurface child surface h1 h2 h3 h4 h5 h6 h7 _ ih =>
    rcases ih with ih | ih
    · by_cases hck : ck = S
      · subst hck
        exact Or.inr ih
      · have hroot : ∃ a, w.subsurfaces k = some a ∧ a.surface = some s := by
          by_cases hk : k = S
          · subst hk
            rw [h1] at hS
            cases hw : w.subsurfaces k with
            | none => rw [hw] at hS; simp at hS
            | some a =>
              rw [hw] at hS
              simp only [Option.map_some', Option.some.injEq] at hS
              exact ⟨a, rfl, by rw [← hS, h2]⟩
          · exact ⟨subsurface, by rw [← hsub k hk, h1], h2⟩
        obtain ⟨a, ha, has⟩ := hroot
        rw [hsurf] at h3
        rw [roleOf_congr hsurf] at h5
        rw [hsub ck hck] at h6
        exact Or.inl (Reach.step ha has h3 h4 h5 h6 h7 ih)
    · exact Or.inr ih

/-- Changing fields other than `surface` of the start of a walk does not change
what the walk reaches. -/
theorem Reach_root_congr {want : Subsurface → Bool} {w w1 : World} {S : Nat}
    (hsurf : w1.surfaces = w.surfaces)
    (hsub : ∀ j, j ≠ S → w1.subsurfaces j = w.subsurfaces j)
    (hS : (w1.subsurfaces S).map (fun a => a.surface)
      = (w.subsurfaces S).map (fun a => a.surface))
    (j : Nat) : Reach want w1 S j ↔ Reach want w S j :=
  ⟨fun h => (Reach_restore hsurf hsub hS h).elim id id,
    fun h => (Reach_restore hsurf.symm (fun j hj => (hsub j hj).symm) hS.symm h).elim id id⟩

end Sub

namespace Sub

/-- A store into one subsurface that keeps its `surface` field keeps the shape
of the tree. -/
theorem store_shape (w : World) (S : Nat) (a b : Subsurface) (hS : w.subsurfaces S = some a)
    (hb : b.surface = a.surface) (j : Nat) :
    ((w.setSubsurface S b).subsurfaces j).map (fun a => a.surface)
      = (w.subsurfaces j).map (fun a => a.surface) := by
  by_cases hj : j = S
  · subst hj; simp [hS, hb]
  · simp [hj]

/-- C12: `SetSync` on a subsurface `S` whose tree of descendants is no higher
than the fuel returns, and afterwards `S` and every descendant of `S` (every
subsurface reachable from the surface of `S` through the `subsurfaces` lists)
has `synchronous` true, `S` has `should_be_desync` false, and nothing else has
changed: not the `should_be_desync` or `pending_commit` of a descendant, not
the `pending_commit` of `S`, no other subsurface, no surface, and no call is
made. -/
theorem SetSync_effect (fuel : Nat) (w : World) (S : Nat) (a : Subsurface)
    (hS : w.subsurfaces S = some a) (htree : treeBelow w fuel S = true) :
    ∃ w', SetSync fuel w S = some w'
      ∧ w'.subsurfaces S = some { a with should_be_desync := false, synchronous := true }
      ∧ (∀ j, Descendant w S j → ∃ b, w'.subsurfaces j = some b ∧ b.synchronous = true)
      ∧ (∀ j, j ≠ S → Descendant w S j →
          w'.subsurfaces j = (w.subsurfaces j).map fun b => { b with synchronous := true })
      ∧ (∀ j, ¬ Descendant w S j → w'.subsurfaces j = w.subsurfaces j)
      ∧ w'.surfaces = w.surfaces ∧ w'.calls = w.calls := by
  have hsub : ∀ j, j ≠ S →
      (w.setSubsurface S { a with should_be_desync := false }).subsurfaces j
        = w.subsurfaces j := fun j hj => by simp [hj]
  have hshape := store_shape w S a { a with should_be_desync := false } hS rfl
  have hreach := fun j =>
    @Reach_root_congr (fun _ => true) w
      (w.setSubsurface S { a with should_be_desync := false }) S rfl hsub (hshape S) j
  obtain ⟨w', hw', hr⟩ :=
    @walk_returns true (fun _ => true) false (fun _ _ => rfl)
      (w.setSubsurface S { a with should_be_desync := false }) fuel S
      ((treeBelow_congr (show (w.setSubsurface S _).surfaces = w.surfaces from rfl)
        hshape fuel S).trans htree) (fun h => by cases h)
  obtain ⟨h1, -, -, -, h5, h6⟩ := hr
  have hmap : ∀ j, j ≠ S → Descendant w S j →
      w'.subsurfaces j = (w.subsurfaces j).map fun b => { b with synchronous := true } := by
    intro j hj hd
    rw [(h6 j).1 ((hreach j).2 hd), hsub j hj]
  have hroot : w'.subsurfaces S
      = some { a with should_be_desync := false, synchronous := true } := by
    rw [(h6 S).1 (Reach.refl S)]
    simp
  refine ⟨w', ?_, hroot, fun j hd => ?_, hmap, fun j hd => ?_, h1, h5⟩
  · unfold SetSync
    rw [hS]
    simp only []
    rw [SetSync1_eq_walk]
    exact hw'
  · by_cases hj : j = S
    · subst hj
      exact ⟨_, hroot, rfl⟩
    · obtain ⟨b, hb⟩ := Reach_exists hS hd
      exact ⟨_, by rw [hmap j hj hd, hb]; rfl, rfl⟩
  · have hj : j ≠ S := fun h => hd (h ▸ Reach.refl S)
    rw [(h6 j).2 (fun h => hd ((hreach j).1 h)), hsub j hj]

/-- The witness of C12: `SetSync` on subsurface 10 of the `nested` world, whose
surface carries subsurface 12. -/
theorem SetSync_effect_witness :
    nested.subsurfaces 10 = some (newSubsurface 2 1) ∧ treeBelow nested 2 10 = true
    ∧ ∃ w', SetSync 2 nested 10 = some w'
      ∧ w'.subsurfaces 10
          = some { newSubsurface 2 1 with should_be_desync := false, synchronous := true }
      ∧ (∀ j, Descendant nested 10 j → ∃ b, w'.subsurfaces j = some b ∧ b.synchronous = true) :=
  ⟨by decide, by decide,
    (SetSync_effect 2 nested 10 (newSubsurface 2 1) (by decide) (by decide)).imp fun _ h =>
      ⟨h.1, h.2.1, h.2.2.1⟩⟩

end Sub

namespace Sub

theorem setSubsurface_twice (w : World) (k : Nat) (a b : Subsurface) :
    (w.setSubsurface k a).setSubsurface k b = w.setSubsurface k b := by
  unfold World.setSubsurface
  simp only [World.mk.injEq, true_and, and_true]
  funext j
  by_cases hj : j = k <;> simp [hj]

/-- One more request after `count` requests. -/
theorem repeatSetDesync_succ (fuel S : Nat) :
    ∀ (count : Nat) (w : World), repeatSetDesync fuel (count + 1) w S
      = (repeatSetDesync fuel count w S).bind fun w1 => SetDesync fuel w1 S := by
  intro count
  induction count with
  | zero => intro w; simp [repeatSetDesync]
  | succ m ihm =>
    intro w
    rw [repeatSetDesync]
    cases h : SetDesync fuel w S with
    | none => simp [repeatSetDesync, h]
    | some w1 =>
      simp only [Option.some_bind]
      rw [ihm w1]
      conv_rhs => rw [repeatSetDesync, h]
      simp

/-- `SetDesync` under a synchronous parent role only records the request. -/
theorem SetDesync_held (fuel : Nat) (w : World) (S p pk : Nat) (a pa : Subsurface)
    (ps : Surface) (hS : w.subsurfaces S = some a) (hp : a.parent = some p)
    (hps : w.surfaces p = some ps) (htype : ps.role_type = RoleType.SubsurfaceType)
    (hrole : ps.role = some (RolePtr.subsurface pk)) (hpk : w.subsurfaces pk = some pa)
    (hsync : pa.synchronous = true) :
    SetDesync fuel w S = some (w.setSubsurface S { a with should_be_desync := true }) := by
  unfold SetDesync
  rw [hS]
  simp only []
  have : IsParentSynchronous (w.setSubsurface S { a with should_be_desync := true }) S
      = some true := by
    unfold IsParentSynchronous
    simp only [setSubsurface_subsurfaces, if_true, hp, setSubsurface_surfaces, hps, htype,
      ne_eq, not_true_eq_false, if_false, hrole]
    by_cases h : pk = S
    · subst h
      rw [hS] at hpk
      cases hpk
      simp [hsync]
    · simp [h, hpk, hsync]
  rw [this]

/-- C13: `SetDesync` on a subsurface whose parent surface carries an attached
synchronous subsurface role sets `should_be_desync` and changes nothing else
(the result is the same world with that one field stored: `synchronous` and
`pending_commit` of the node, every other subsurface, every surface and the
calls made are as before), and repeating the request any number of times
yields that same state. -/
theorem SetDesync_under_synchronous_parent (fuel : Nat) (w : World) (S p pk : Nat)
    (a pa : Subsurface) (ps : Surface) (hS : w.subsurfaces S = some a)
    (hp : a.parent = some p) (hps : w.surfaces p = some ps)
    (htype : ps.role_type = RoleType.SubsurfaceType)
    (hrole : ps.role = some (RolePtr.subsurface pk)) (hpk : w.subsurfaces pk = some pa)
    (hsync : pa.synchronous = true) (count : Nat) :
    SetDesync fuel w S = some (w.setSubsurface S { a with should_be_desync := true })
      ∧ repeatSetDesync fuel (count + 1) w S
          = some (w.setSubsurface S { a with should_be_desync := true }) := by
  have h1 := SetDesync_held fuel w S p pk a pa ps hS hp hps htype hrole hpk hsync
  refine ⟨h1, ?_⟩
  induction count with
  | zero => simp [repeatSetDesync, h1]
  | succ n ih =>
    rw [repeatSetDesync_succ fuel S (n + 1) w, ih]
    simp only [Option.some_bind]
    by_cases h : pk = S
    · subst h
      rw [hS] at hpk
      cases hpk
      rw [SetDesync_held fuel _ pk p pk { a with should_be_desync := true }
        { a with should_be_desync := true } ps (by simp) hp (by simpa using hps) htype hrole
        (by simp) hsync, setSubsurface_twice]
    · rw [SetDesync_held fuel _ S p pk { a with should_be_desync := true } pa ps (by simp) hp
        (by simpa using hps) htype hrole (by simpa [h] using hpk) hsync, setSubsurface_twice]

/-- The witness of C13: subsurface 12 of the `nested` world, whose parent
surface 2 carries the synchronous subsurface 10, asks three times. -/
theorem SetDesync_under_synchronous_parent_witness :
    nested.subsurfaces 12 = some (newSubsurface 4 2)
    ∧ nested.surfaces 2
        = some { role_type := RoleType.SubsurfaceType, role := some (RolePtr.subsurface 10),
                 subsurfaces := [4], commit_callbacks := [12] }
    ∧ nested.subsurfaces 10 = some (newSubsurface 2 1)
    ∧ SetDesync 1 nested 12
        = some (nested.setSubsurface 12 { newSubsurface 4 2 with should_be_desync := true })
    ∧ repeatSetDesync 1 3 nested 12
        = some (nested.setSubsurface 12 { newSubsurface 4 2 with should_be_desync := true }) :=
  ⟨by decide, by decide, by decide,
    SetDesync_under_synchronous_parent 1 nested 12 2 10 (newSubsurface 4 2) (newSubsurface 2 1)
      { role_type := RoleType.SubsurfaceType, role := some (RolePtr.subsurface 10),
        subsurfaces := [4], commit_callbacks := [12] }
      (by decide) rfl (by decide) rfl rfl (by decide) rfl 2⟩

end Sub

namespace Sub

/-- A store into a subsurface that keeps its `parent` and `synchronous` fields
does not change what `IsParentSynchronous` answers for it. -/
theorem IsParentSynchronous_store (w : World) (S : Nat) (a b : Subsurface)
    (hS : w.subsurfaces S = some a) (hp : b.parent = a.parent)
    (hsync : b.synchronous = a.synchronous) :
    IsParentSynchronous (w.setSubsurface S b) S = IsParentSynchronous w S := by
  unfold IsParentSynchronous
  simp only [setSubsurface_subsurfaces, if_true, hS, hp, setSubsurface_surfaces]
  cases a.parent with
  | none => rfl
  | some p =>
    simp only []
    cases w.surfaces p with
    | none => rfl
    | some ps =>
      simp only []
      by_cases ht : ps.role_type = RoleType.SubsurfaceType
      · simp only [ht, ne_eq, not_true_eq_false, if_false]
        cases ps.role with
        | none => rfl
        | some r =>
          cases r with
          | other => rfl
          | subsurface pk =>
            simp only []
            by_cases h : pk = S
            · subst h; simp [hS, hsync]
            · simp [h]
      · simp [ht]

/-- `NoteSubsurfaceDesynchronous` with `apply_state` is the commit of the
cached state, if there is one, followed by the walk without `apply_state`. -/
theorem NoteSubsurfaceDesynchronous_apply (fuel : Nat) (w : World) (S s : Nat)
    (a : Subsurface) (hS : w.subsurfaces S = some a) (hs : a.surface = some s) :
    NoteSubsurfaceDesynchronous fuel w S true
      = NoteSubsurfaceDesynchronous fuel
          (if a.pending_commit = true then
            (w.call (Call.XLCommitSurface s)).setSubsurface S { a with pending_commit := false }
           else w) S false := by
  cases fuel with
  | zero => rfl
  | succ n =>
    by_cases hpc : a.pending_commit = true
    · simp only [hpc, if_true]
      unfold NoteSubsurfaceDesynchronous
      simp only [hS, hs, hpc, and_self, if_true, setSubsurface_subsurfaces, Bool.false_eq_true,
        false_and, and_false, if_false, setSubsurface_surfaces, call_surfaces]
      have : ((w.call (Call.XLCommitSurface s)).setSubsurface S
            { a with pending_commit := false }).setSubsurface S
              { a with pending_commit := false, synchronous := false }
          = ((w.setSubsurface S { a with synchronous := false }).call
              (Call.XLCommitSurface s)).setSubsurface S
                { a with synchronous := false, pending_commit := false } := by
        unfold World.setSubsurface World.call
        simp only [World.mk.injEq, true_and, and_true]
        funext j
        by_cases hj : j = S <;> simp [hj]
      simp only [hs, hpc] at this ⊢
      rw [this]
    · have hpc' : a.pending_commit = false := by simpa using hpc
      rw [if_neg hpc]
      unfold NoteSubsurfaceDesynchronous
      simp only [hS, hs, hpc', Bool.false_eq_true, false_and, and_false, if_false]

end Sub

namespace Sub

/-- A walk started in a world `wS` that differs from `w` in the fields of the
start `S` other than `surface`: it returns, and its effect is told over `w`. -/
theorem walk_rooted {value : Bool} {want : Subsurface → Bool} {strict : Bool}
    (hw : ∀ (a : Subsurface) (v : Bool), want { a with synchronous := v } = want a)
    (fuel : Nat) (w wS : World) (S : Nat) (a b : Subsurface)
    (hS : w.subsurfaces S = some a) (hb : wS.subsurfaces S = some b)
    (hsurf : b.surface = a.surface) (hsf : wS.surfaces = w.surfaces)
    (hsub : ∀ j, j ≠ S → wS.subsurfaces j = w.subsurfaces j)
    (htree : treeBelow w fuel S = true) (hstrict : strict = true → ∃ s, a.surface = some s) :
    ∃ w', walk value want strict fuel wS S = some w'
      ∧ w'.subsurfaces S = some { b with synchronous := value }
      ∧ (∀ j, j ≠ S → Reach want w S j →
          w'.subsurfaces j = (w.subsurfaces j).map fun c => { c with synchronous := value })
      ∧ (∀ j, ¬ Reach want w S j → w'.subsurfaces j = w.subsurfaces j)
      ∧ w'.surfaces = w.surfaces ∧ w'.calls = wS.calls
      ∧ w'.view_parent = wS.view_parent ∧ w'.view_children = wS.view_children
      ∧ w'.view_subcompositor = wS.view_subcompositor := by
  have hshape : ∀ j, (wS.subsurfaces j).map (fun a => a.surface)
      = (w.subsurfaces j).map (fun a => a.surface) := by
    intro j
    by_cases hj : j = S
    · subst hj; simp [hS, hb, hsurf]
    · rw [hsub j hj]
  have hreach := fun j => @Reach_root_congr want w wS S hsf hsub (hshape S) j
  obtain ⟨w', hw', hr⟩ :=
    @walk_returns value want strict hw wS fuel S
      ((treeBelow_congr hsf hshape fuel S).trans htree)
      (fun h => by
        obtain ⟨s, hs⟩ := hstrict h
        exact ⟨b, s, hb, hsurf.trans hs⟩)
  obtain ⟨h1, h2, h3, h4, h5, h6⟩ := hr
  refine ⟨w', hw', ?_, fun j hj hd => ?_, fun j hd => ?_, h1.trans hsf, h5, h2, h3, h4⟩
  · rw [(h6 S).1 (Reach.refl S), hb]
    rfl
  · rw [(h6 j).1 ((hreach j).2 hd), hsub j hj]
  · have hj : j ≠ S := fun h => hd (by rw [h]; exact Reach.refl S)
    rw [(h6 j).2 (fun h => hd ((hreach j).1 h)), hsub j hj]

/-- What `SetDesync` itself stores, with the commit of the surface recorded as
a call and not run: on an attached subsurface `S` whose parent is not
synchronous, with a tree of descendants no higher than the fuel, it returns;
it makes `S` desynchronous, calls `XLCommitSurface` for the surface of `S`
once exactly when `pending_commit` was set on `S` and leaves it clear, and
stores `synchronous = false` into exactly the subsurfaces reached from `S`
through children that each have `should_be_desync` set; it stores nothing
else.  What the commit in turn does is in `Cascade.SetDesync_runs`. -/
theorem SetDesync_effect (fuel : Nat) (w : World) (S s : Nat) (a : Subsurface)
    (hS : w.subsurfaces S = some a) (hs : a.surface = some s)
    (hparent : IsParentSynchronous w S = some false) (htree : treeBelow w fuel S = true) :
    ∃ w', SetDesync fuel w S = some w'
      ∧ w'.subsurfaces S
          = some { a with should_be_desync := true, synchronous := false,
                          pending_commit := false }
      ∧ w'.calls
          = w.calls ++ (if a.pending_commit = true then [Call.XLCommitSurface s] else [])
      ∧ (∀ j, j ≠ S → DesyncChain w S j →
          w'.subsurfaces j = (w.subsurfaces j).map fun c => { c with synchronous := false })
      ∧ (∀ j, ¬ DesyncChain w S j → w'.subsurfaces j = w.subsurfaces j)
      ∧ w'.surfaces = w.surfaces := by
  have hstart : SetDesync fuel w S
      = NoteSubsurfaceDesynchronous fuel
          (w.setSubsurface S { a with should_be_desync := true }) S true := by
    unfold SetDesync
    rw [hS]
    simp only []
    rw [IsParentSynchronous_store w S a { a with should_be_desync := true } hS rfl rfl,
      hparent]
  rw [hstart,
    NoteSubsurfaceDesynchronous_apply fuel _ S s { a with should_be_desync := true } (by simp) hs,
    NoteSubsurfaceDesynchronous_eq_walk]
  by_cases hpc : a.pending_commit = true
  · simp only [if_pos hpc]
    obtain ⟨w', h1, h2, h3, h4, h5, h6, -⟩ :=
      @walk_rooted false (fun c => c.should_be_desync) false
        (fun _ _ => rfl) fuel w
        (((w.setSubsurface S { a with should_be_desync := true }).call
          (Call.XLCommitSurface s)).setSubsurface S
            { a with should_be_desync := true, pending_commit := false })
        S a { a with should_be_desync := true, pending_commit := false } hS (by simp) rfl rfl
        (fun j hj => by simp [hj]) htree (fun h => by cases h)
    exact ⟨w', h1, h2, by rw [h6]; simp, h3, h4, h5⟩
  · have hpc' : a.pending_commit = false := by simpa using hpc
    simp only [if_neg hpc]
    obtain ⟨w', h1, h2, h3, h4, h5, h6, -⟩ :=
      @walk_rooted false (fun c => c.should_be_desync) false
        (fun _ _ => rfl) fuel w (w.setSubsurface S { a with should_be_desync := true })
        S a { a with should_be_desync := true } hS (by simp) rfl rfl
        (fun j hj => by simp [hj]) htree (fun h => by cases h)
    refine ⟨w', h1, ?_, by rw [h6]; simp, h3, h4, h5⟩
    rw [h2]
    simp [hpc']

end Sub

namespace Sub

@[simp] theorem ViewUnparent_surfaces (w : World) (v : View) :
    (ViewUnparent w v).surfaces = w.surfaces := by
  unfold ViewUnparent; cases w.view_parent v <;> rfl

@[simp] theorem ViewUnparent_subsurfaces (w : World) (v : View) :
    (ViewUnparent w v).subsurfaces = w.subsurfaces := by
  unfold ViewUnparent; cases w.view_parent v <;> rfl

@[simp] theorem ViewUnparent_calls (w : World) (v : View) :
    (ViewUnparent w v).calls = w.calls := by
  unfold ViewUnparent; cases w.view_parent v <;> rfl

@[simp] theorem ViewSetSubcompositor_surfaces (w : World) (v : View) (s : Option Nat) :
    (ViewSetSubcompositor w v s).surfaces = w.surfaces := rfl

@[simp] theorem ViewSetSubcompositor_subsurfaces (w : World) (v : View) (s : Option Nat) :
    (ViewSetSubcompositor w v s).subsurfaces = w.subsurfaces := rfl

@[simp] theorem ViewSetSubcompositor_calls (w : World) (v : View) (s : Option Nat) :
    (ViewSetSubcompositor w v s).calls = w.calls := rfl

@[simp] theorem ViewSetSubcompositor_view_children (w : World) (v : View) (s : Option Nat) :
    (ViewSetSubcompositor w v s).view_children = w.view_children := rfl

@[simp] theorem ViewSetSubcompositor_view_parent (w : World) (v : View) (s : Option Nat) :
    (ViewSetSubcompositor w v s).view_parent = w.view_parent := rfl

@[simp] theorem ViewInsert_surfaces (w : World) (p c : View) :
    (ViewInsert w p c).surfaces = w.surfaces := rfl

@[simp] theorem ViewInsert_subsurfaces (w : World) (p c : View) :
    (ViewInsert w p c).subsurfaces = w.subsurfaces := rfl

@[simp] theorem ViewInsert_calls (w : World) (p c : View) :
    (ViewInsert w p c).calls = w.calls := rfl

/-- `SubsurfaceUpdate` returns when the parent of the subsurface exists; it
touches no subsurface and commits nothing. -/
theorem SubsurfaceUpdate_frame (w : World) (k p : Nat) (b : Subsurface) (ps : Surface)
    (hk : w.subsurfaces k = some b) (hp : b.parent = some p) (hps : w.surfaces p = some ps) :
    ∃ w' added, SubsurfaceUpdate w k = some w' ∧ w'.subsurfaces = w.subsurfaces
      ∧ w'.surfaces = w.surfaces
      ∧ w'.calls = w.calls ++ added ∧ ∀ x, Call.XLCommitSurface x ∉ added := by
  unfold SubsurfaceUpdate
  simp only [hk, hp, hps]
  by_cases h : ps.role = none
  · exact ⟨w, [], by simp [h], rfl, rfl, by simp, by simp⟩
  · exact ⟨w.call (Call.subsurface_update p), [Call.subsurface_update p], by simp [h], rfl, rfl,
      rfl, by simp⟩

/-- The detaching part of `Teardown` returns when the parent exists; it touches
no subsurface, takes the surface out of the parent's list, and commits
nothing. -/
theorem teardownFromParent_frame (w : World) (surface k p : Nat) (pending : Bool)
    (b : Subsurface) (ps : Surface)
    (hk : w.subsurfaces k = some b) (hp : b.parent = some p) (hps : w.surfaces p = some ps) :
    ∃ w' added, teardownFromParent w surface k p pending = some w'
      ∧ w'.subsurfaces = w.subsurfaces
      ∧ w'.calls = w.calls ++ added ∧ (∀ x, Call.XLCommitSurface x ∉ added)
      ∧ ∀ j, (w'.surfaces j).map Surface.links
          = (w.surfaces j).map (fun x =>
              (x.role_type, x.role,
                (if j = p then x.subsurfaces.filter (fun c => c ≠ surface)
                 else x.subsurfaces))) := by
  unfold teardownFromParent
  simp only []
  generalize (if pending = false then ViewGetSubcompositor w (View.view surface) else none) = sc
  generalize hw1 : (if pending = false then
      ViewSetSubcompositor
        (ViewUnparent
          (ViewSetSubcompositor (ViewUnparent w (View.view surface)) (View.view surface) none)
          (View.under surface))
        (View.under surface) none
    else w) = w1
  have h1 : w1.surfaces = w.surfaces ∧ w1.subsurfaces = w.subsurfaces ∧ w1.calls = w.calls := by
    rw [← hw1]
    split <;> simp
  obtain ⟨h1s, h1b, h1c⟩ := h1
  rw [h1s, hps]
  simp only []
  generalize hw2 : (match ps.actions with
    | none => w1
    | some actions =>
      { (w1.setSurface p
          { ps with
            actions := some (actions.filter (fun a : SurfaceAction => a.subsurface ≠ k)) })
        with calls :=
          w1.calls ++
            ((actions.filter (fun a : SurfaceAction => a.subsurface = k)).map
              (fun a : SurfaceAction => Call.XLSurfaceCancelRunOnFree a.other)) }) = w2
  have h2 : (∃ ps2, w2.surfaces p = some ps2 ∧ ps2.links = ps.links)
      ∧ (∀ j, j ≠ p → w2.surfaces j = w.surfaces j)
      ∧ w2.subsurfaces = w.subsurfaces
      ∧ ∃ added, w2.calls = w.calls ++ added ∧ ∀ x, Call.XLCommitSurface x ∉ added := by
    rw [← hw2]
    cases ps.actions with
    | none =>
      exact ⟨⟨ps, by rw [h1s, hps], rfl⟩, fun j _ => by rw [h1s], h1b, [], by simp [h1c],
        by simp⟩
    | some actions =>
      refine ⟨⟨{ ps with
            actions := some (actions.filter (fun a : SurfaceAction => a.subsurface ≠ k)) },
          by show (if p = p then _ else _) = _; exact if_pos rfl, rfl⟩,
        fun j hj => ?_, h1b, _, by simp only [h1c]; rfl, ?_⟩
      · show (if j = p then _ else w1.surfaces j) = _
        rw [if_neg hj, h1s]
      · intro x hx
        simp at hx
  obtain ⟨⟨ps2, hps2, hl2⟩, h2o, h2b, added2, h2c, h2n⟩ := h2
  rw [hps2]
  simp only []
  have hlinks : ∀ j, (((w2.setSurface p
        { ps2 with
            subsurfaces := XLListRemove ps2.subsurfaces surface
            commit_callbacks := ps2.commit_callbacks.filter (fun j => j ≠ k) }).call
          (Call.XLSurfaceCancelCommitCallback p)).surfaces j).map Surface.links
      = (w.surfaces j).map (fun x =>
          (x.role_type, x.role,
            (if j = p then x.subsurfaces.filter (fun c => c ≠ surface)
             else x.subsurfaces))) := by
    intro j
    simp only [Surface.links, Prod.mk.injEq] at hl2
    by_cases hj : j = p
    · subst hj
      simp [World.setSurface, World.call, hps, Surface.links, XLListRemove, hl2.1, hl2.2.1,
        hl2.2.2]
    · simp only [call_surfaces, setSurface_surfaces, if_neg hj, h2o j hj]
      rfl
  by_cases hsc : sc.isSome = true
  · rw [if_pos hsc]
    obtain ⟨w', added, h, hb, hsf, hc, hn⟩ :=
      SubsurfaceUpdate_frame
        ((w2.setSurface p
          { ps2 with
              subsurfaces := XLListRemove ps2.subsurfaces surface
              commit_callbacks := ps2.commit_callbacks.filter (fun j => j ≠ k) }).call
          (Call.XLSurfaceCancelCommitCallback p)) k p b _
        (by simp [h2b, hk]) hp (by show (if p = p then _ else _) = _; exact if_pos rfl)
    refine ⟨w', added2 ++ [Call.XLSurfaceCancelCommitCallback p] ++ added, h, ?_, ?_, ?_, ?_⟩
    · rw [hb]; simp [h2b]
    · rw [hc]; simp [World.call, h2c]
    · intro x hx
      simp only [List.mem_append, List.mem_singleton] at hx
      rcases hx with (hx | hx) | hx
      · exact h2n x hx
      · cases hx
      · exact hn x hx
    · intro j
      rw [hsf]
      exact hlinks j
  · rw [if_neg hsc]
    refine ⟨_, added2 ++ [Call.XLSurfaceCancelCommitCallback p], rfl, by simp [h2b],
      by simp [World.call, h2c], ?_, hlinks⟩
    intro x hx
    simp only [List.mem_append, List.mem_singleton] at hx
    rcases hx with hx | hx
    · exact h2n x hx
    · cases hx

end Sub

namespace Sub

/-- `DestroyBacking` of an existing subsurface returns and touches no other
subsurface. -/
theorem DestroyBacking_frame (w : World) (k : Nat) (b : Subsurface)
    (hk : w.subsurfaces k = some b) :
    ∃ w', DestroyBacking w k = some w'
      ∧ (∀ j, j ≠ k → w'.subsurfaces j = w.subsurfaces j)
      ∧ w'.surfaces = w.surfaces ∧ w'.calls = w.calls
      ∧ ∀ b', w'.subsurfaces k = some b' → b'.surface = b.surface := by
  unfold DestroyBacking
  rw [hk]
  simp only []
  split
  · refine ⟨_, rfl, fun j hj => by simp [hj], rfl, rfl, fun b' hb' => ?_⟩
    simp only [setSubsurface_subsurfaces, if_true, Option.some.injEq] at hb'
    rw [← hb']
  · refine ⟨_, rfl, fun j hj => by simp [hj], rfl, rfl, fun b' hb' => ?_⟩
    simp at hb'

/-- `Teardown` of an attached subsurface whose parent surface, if it has one,
exists, over a tree no higher than the fuel: it returns, the subsurfaces other
than the one torn down are as the walk of `NoteSubsurfaceTeardown` leaves them,
and no surface is committed. -/
theorem Teardown_frame (fuel : Nat) (w : World) (S s : Nat) (a : Subsurface)
    (hS : w.subsurfaces S = some a) (hs : a.surface = some s)
    (hp : ∀ p, a.parent = some p → ∃ ps, w.surfaces p = some ps)
    (htree : treeBelow w fuel S = true) :
    ∃ w' added, Teardown fuel w s S = some w'
      ∧ (∀ j, j ≠ S → DesyncChain w S j →
          w'.subsurfaces j = (w.subsurfaces j).map fun c => { c with synchronous := false })
      ∧ (∀ j, j ≠ S → ¬ DesyncChain w S j → w'.subsurfaces j = w.subsurfaces j)
      ∧ w'.calls = w.calls ++ added ∧ ∀ x, Call.XLCommitSurface x ∉ added := by
  obtain ⟨w1, h1, h1S, h1r, h1n, h1s, h1c, -⟩ :=
    @walk_rooted false (fun c => c.should_be_desync) true
      (fun _ _ => rfl) fuel w w S a a hS hS rfl rfl (fun _ _ => rfl) htree (fun _ => ⟨s, hs⟩)
  rw [← NoteSubsurfaceTeardown_eq_walk] at h1
  unfold Teardown
  rw [h1]
  simp only [h1S]
  have hdetached : ∃ w3 added,
      (match a.parent with
        | none =>
          some (w1.setSubsurface S { a with synchronous := false, surface := none })
        | some parent =>
          teardownFromParent
            (w1.setSubsurface S { a with synchronous := false, surface := none })
            s S parent a.pending) = some w3
      ∧ w3.subsurfaces
          = (w1.setSubsurface S { a with synchronous := false, surface := none }).subsurfaces
      ∧ w3.calls = w.calls ++ added ∧ ∀ x, Call.XLCommitSurface x ∉ added := by
    cases hpar : a.parent with
    | none => exact ⟨_, [], rfl, rfl, by simp [h1c], by simp⟩
    | some p =>
      obtain ⟨ps, hps⟩ := hp p hpar
      obtain ⟨w3, added, h3, h3b, h3c, h3n, -⟩ :=
        teardownFromParent_frame
          (w1.setSubsurface S { a with synchronous := false, surface := none })
          s S p a.pending { a with synchronous := false, surface := none } ps (by simp) hpar
          (by simp [h1s, hps])
      simp only [hpar] at h3 h3b
      exact ⟨w3, added, h3, h3b, by rw [h3c]; simp [h1c], h3n⟩
  obtain ⟨w3, added, h3, h3b, h3c, h3n⟩ := hdetached
  rw [h3]
  simp only []
  obtain ⟨w4, h4, h4b, -, h4c, -⟩ :=
    DestroyBacking_frame w3 S { a with synchronous := false, surface := none }
      (by rw [h3b]; simp)
  rw [h4]
  refine ⟨_, added ++ [Call.XLDetectSurfaceIdleInhibit], rfl, fun j hj hd => ?_,
    fun j hj hd => ?_, by simp [World.call, h4c, h3c], ?_⟩
  · show w4.subsurfaces j = _
    rw [h4b j hj, h3b]
    simp only [setSubsurface_subsurfaces, if_neg hj]
    exact h1r j hj hd
  · show w4.subsurfaces j = _
    rw [h4b j hj, h3b]
    simp only [setSubsurface_subsurfaces, if_neg hj]
    exact h1n j hd
  · intro x hx
    simp only [List.mem_append, List.mem_singleton] at hx
    rcases hx with hx | hx
    · exact h3n x hx
    · cases hx

end Sub

namespace Sub

/-- The counterexample of C16: in the `deepHeld` world subsurface 13 is a
descendant of subsurface 10 and has `should_be_desync` set, and after the
teardown of 10 it is still synchronous, because its parent 12 never asked to
be desynchronous and the walk does not go below it. -/
theorem Teardown_keeps_held_descendant_synchronous :
    Descendant deepHeld 10 13
    ∧ (deepHeld.subsurfaces 13).map (fun g => g.should_be_desync) = some true
    ∧ (Teardown 4 deepHeld 2 10).map
        (fun w' => (w'.subsurfaces 13).map fun g => (g.should_be_desync, g.synchronous))
        = some (some (true, true)) := by
  refine ⟨?_, by decide, by decide⟩
  refine @Reach.step (fun _ => true) deepHeld 10 2 4 12 13 (newSubsurface 2 1)
    (newSubsurface 4 2)
    { role_type := RoleType.SubsurfaceType, role := some (RolePtr.subsurface 10),
      subsurfaces := [4], commit_callbacks := [12] }
    (by decide) rfl (by decide) (by decide) (by decide) (by decide) rfl ?_
  exact @Reach.step (fun _ => true) deepHeld 12 4 5 13 13 (newSubsurface 4 2)
    { newSubsurface 5 4 with should_be_desync := true }
    { role_type := RoleType.SubsurfaceType, role := some (RolePtr.subsurface 12),
      subsurfaces := [5], commit_callbacks := [13] }
    (by decide) rfl (by decide) (by decide) (by decide) (by decide) rfl (Reach.refl 13)

/-- C16, amended: when an attached subsurface `S` is torn down (its parent
surface, if it has one, exists; its tree of descendants is no higher than the
fuel), `Teardown` returns, every descendant reached from `S` through a chain of
children that each have `should_be_desync` set ends with `synchronous` false,
every other descendant is unchanged, no descendant's `pending_commit` changes
and no surface commit is issued. -/
theorem Teardown_desync_chain (fuel : Nat) (w : World) (S s : Nat) (a : Subsurface)
    (hS : w.subsurfaces S = some a) (hs : a.surface = some s)
    (hp : ∀ p, a.parent = some p → ∃ ps, w.surfaces p = some ps)
    (htree : treeBelow w fuel S = true) :
    ∃ w' added, Teardown fuel w s S = some w'
      ∧ w'.calls = w.calls ++ added ∧ (∀ x, Call.XLCommitSurface x ∉ added)
      ∧ ∀ j, j ≠ S → Descendant w S j →
          ∃ c c', w.subsurfaces j = some c ∧ w'.subsurfaces j = some c'
            ∧ c'.pending_commit = c.pending_commit
            ∧ (DesyncChain w S j → c' = { c with synchronous := false })
            ∧ (¬ DesyncChain w S j → c' = c) := by
  obtain ⟨w', added, h, hr, hn, hc, hq⟩ := Teardown_frame fuel w S s a hS hs hp htree
  refine ⟨w', added, h, hc, hq, fun j hj hd => ?_⟩
  obtain ⟨c, hcj⟩ := Reach_exists hS hd
  by_cases hchain : DesyncChain w S j
  · refine ⟨c, { c with synchronous := false }, hcj, by rw [hr j hj hchain, hcj]; rfl, rfl,
      fun _ => rfl, fun h => absurd hchain h⟩
  · exact ⟨c, c, hcj, by rw [hn j hj hchain, hcj], rfl, fun h => absurd h hchain, fun _ => rfl⟩

/-- The witness of C16: the teardown of subsurface 10 in the `heldDesync`
world, whose child 12 asked to be desynchronous. -/
theorem Teardown_desync_chain_witness :
    heldDesync.subsurfaces 10 = some (newSubsurface 2 1)
    ∧ (∀ p, (newSubsurface 2 1).parent = some p → ∃ ps, heldDesync.surfaces p = some ps)
    ∧ treeBelow heldDesync 2 10 = true
    ∧ ∃ w' added, Teardown 2 heldDesync 2 10 = some w'
      ∧ w'.calls = heldDesync.calls ++ added ∧ (∀ x, Call.XLCommitSurface x ∉ added) :=
  have hp : ∀ p, (newSubsurface 2 1).parent = some p → ∃ ps, heldDesync.surfaces p = some ps :=
    fun p h => by
      cases h
      exact ⟨{ subsurfaces := [3, 2], commit_callbacks := [10, 11] }, by decide⟩
  ⟨by decide, hp, by decide,
    (Teardown_desync_chain 2 heldDesync 10 2 (newSubsurface 2 1) (by decide) rfl hp
      (by decide)).imp fun _ h => h.imp fun _ h => ⟨h.1, h.2.1, h.2.2.1⟩⟩

end Sub

namespace Sub

theorem hasFlag_PendingPosition_set (flags : Nat) :
    hasFlag (setFlag flags PendingPosition) PendingPosition := by
  have h := (hasFlag_setFlag flags 0 0).2 (Or.inr rfl)
  simpa [PendingPosition] using h

/-- `AfterParentCommit` on an attached subsurface. -/
theorem AfterParentCommit_attached (w : World) (surface k own : Nat) (a : Subsurface)
    (hk : w.subsurfaces k = some a) (hown : a.surface = some own)
    (hmove : hasFlag a.pending_substate.flags PendingPosition →
      ∃ p ps, a.parent = some p ∧ w.surfaces p = some ps) :
    ∃ w', AfterParentCommit w surface k = some w'
      ∧ w'.subsurfaces k
          = some { a with
              current_substate :=
                if hasFlag a.pending_substate.flags PendingPosition then
                  { a.current_substate with
                      x := a.pending_substate.x, y := a.pending_substate.y }
                else a.current_substate
              pending := false
              pending_commit := false
              pending_substate := { a.pending_substate with flags := 0 } }
      ∧ w'.calls
          = w.calls
            ++ (if hasFlag a.pending_substate.flags PendingPosition then
                  [Call.ViewMove own a.pending_substate.x a.pending_substate.y]
                else [])
            ++ (if a.pending_commit = true then
                  [Call.XLCommitSurface own, Call.MaybeUpdateOutputs own]
                else [])
      ∧ (a.pending = true →
          w'.view_children (View.view surface)
              = w.view_children (View.view surface) ++ [View.under own, View.view own]
          ∧ w'.view_parent (View.under own) = some (View.view surface)
          ∧ w'.view_parent (View.view own) = some (View.view surface))
      ∧ (a.pending = false →
          w'.view_children = w.view_children ∧ w'.view_parent = w.view_parent)
      ∧ (∀ j, j ≠ k → w'.subsurfaces j = w.subsurfaces j)
      ∧ w'.surfaces = w.surfaces := by
  obtain ⟨s, p, rc, ⟨px, py, pf⟩, cs, cc, sbd, sync, pc, m, pe⟩ := a
  simp only at hown hmove
  subst hown
  unfold AfterParentCommit
  simp only [hk]
  by_cases hpos : hasFlag pf PendingPosition
  · obtain ⟨p', ps, hp, hps⟩ := hmove hpos
    subst hp
    simp only [hpos, if_true, MoveFractional, setSubsurface_subsurfaces, setSubsurface_surfaces,
      hps, call_subsurfaces]
    cases pe <;> cases pc <;>
      simp [MaybeUpdateOutputs, ViewInsert, ViewSetSubcompositor, World.setSubsurface,
        World.call] <;>
      first | exact fun j h1 h2 => absurd h2 h1 | (intro j hj; simp [hj])
  · simp only [hpos, if_false, hk]
    cases pe <;> cases pc <;>
      simp [MaybeUpdateOutputs, ViewInsert, ViewSetSubcompositor, World.setSubsurface,
        World.call, hk] <;>
      first | exact fun j h1 h2 => absurd h2 h1 | (intro j hj; simp [hj])

end Sub

namespace Sub

/-- The counterexample of C18: in the `parented` world subsurface 10 asks to be
placed above surface 3 and then below its parent surface 1.  The queue holds
the second request first, and at the parent's commit the action enqueued first
(the one that names surface 3) is run and destroyed first; the action enqueued
last runs last, so its effect, the views of surface 2 under the parent's under
view, is what remains. -/
theorem RunSurfaceActions_runs_oldest_first_example :
    ((PlaceAbove parented 10 3).bind fun w =>
        (PlaceBelow w 10 1).bind fun w => (w.surfaces 1).bind fun s => s.actions)
      = some [{ type := SurfaceActionType.PlaceBelowOther, subsurface := 10, other := 1 },
              { type := SurfaceActionType.PlaceAboveOther, subsurface := 10, other := 3 }]
    ∧ (((PlaceAbove parented 10 3).bind fun w =>
          (PlaceBelow w 10 1).bind fun w => XLSubsurfaceHandleParentCommit w 1).map fun w =>
        (w.calls, w.view_parent (View.view 2)))
      = some (parented.calls ++
                [Call.XLSurfaceRunOnFree 3, Call.XLSurfaceRunOnFree 1,
                 Call.XLSurfaceCancelRunOnFree 3, Call.XLSurfaceCancelRunOnFree 1],
              some (View.under 1)) := by
  constructor <;> decide

/-- C18, amended: `AddSurfaceAction` puts the new action at the head of the
parent's queue, and `RunSurfaceActions` runs a queue from its far end: the
action at the end of the list, the least recently enqueued, is run and
destroyed first, and the rest of the queue is then run the same way.  So the
actions run in the order they were enqueued, the most recent one last. -/
theorem RunSurfaceActions_enqueue_order (w : World) (k other p : Nat)
    (type : SurfaceActionType) (a : Subsurface) (ps : Surface)
    (hk : w.subsurfaces k = some a) (hp : a.parent = some p)
    (hps : w.surfaces p = some ps) :
    (∃ w', AddSurfaceAction w k other type = some w'
      ∧ (w'.surfaces p).map (fun s => s.actions)
          = some (some ({ type := type, subsurface := k, other := other }
              :: ps.actions.getD [])))
    ∧ ∀ (w0 : World) (parent : Nat) (queue : List SurfaceAction) (oldest : SurfaceAction),
        RunSurfaceActions w0 parent (queue ++ [oldest])
          = (runAndDestroy w0 parent oldest queue).bind fun w1 =>
              RunSurfaceActions w1 parent queue := by
  constructor
  · unfold AddSurfaceAction
    simp only [hk, hp, call_surfaces, hps]
    exact ⟨_, rfl, by simp⟩
  · intro w0 parent queue oldest
    unfold RunSurfaceActions
    rw [List.reverse_append, List.reverse_singleton, List.singleton_append, runBackwards,
      List.reverse_reverse]
    cases runAndDestroy w0 parent oldest queue <;> rfl

/-- The witness of C18: subsurface 10 of the `parented` world asks to be placed
above surface 3. -/
theorem RunSurfaceActions_enqueue_order_witness :
    parented.subsurfaces 10 = some { newSubsurface 2 1 with pending := false }
    ∧ parented.surfaces 1 = some { subsurfaces := [3, 2], commit_callbacks := [10, 11] }
    ∧ ∃ w', AddSurfaceAction parented 10 3 SurfaceActionType.PlaceAboveOther = some w'
      ∧ (w'.surfaces 1).map (fun s => s.actions)
          = some (some [{ type := SurfaceActionType.PlaceAboveOther, subsurface := 10,
                          other := 3 }]) :=
  ⟨by decide, by decide,
    (RunSurfaceActions_enqueue_order parented 10 3 1 SurfaceActionType.PlaceAboveOther
      { newSubsurface 2 1 with pending := false }
      { subsurfaces := [3, 2], commit_callbacks := [10, 11] } (by decide) rfl (by decide)).1⟩

end Sub

namespace Sub

/-- Where `insertBefore` puts the new view. -/
theorem insertBefore_split (sibling child : View) :
    ∀ (l : List View), sibling ∈ l →
      ∃ pre post, l = pre ++ sibling :: post ∧ sibling ∉ pre
        ∧ insertBefore sibling child l = some (pre ++ child :: sibling :: post) := by
  intro l
  induction l with
  | nil => intro h; cases h
  | cons v rest ih =>
    intro h
    by_cases hv : v = sibling
    · subst hv
      exact ⟨[], rest, rfl, by simp, by simp [insertBefore]⟩
    · have hrest : sibling ∈ rest := by
        rcases List.mem_cons.mp h with h | h
        · exact absurd h.symm hv
        · exact h
      obtain ⟨pre, post, h1, h2, h3⟩ := ih hrest
      refine ⟨v :: pre, post, by rw [h1]; rfl, ?_, ?_⟩
      · intro hm
        rcases List.mem_cons.mp hm with h | h
        · exact hv h.symm
        · exact h2 h
      · simp [insertBefore, hv, h3]

/-- Where `insertAfter` puts the new view. -/
theorem insertAfter_split (sibling child : View) :
    ∀ (l : List View), sibling ∈ l →
      ∃ pre post, l = pre ++ sibling :: post ∧ sibling ∉ pre
        ∧ insertAfter sibling child l = some (pre ++ sibling :: child :: post) := by
  intro l
  induction l with
  | nil => intro h; cases h
  | cons v rest ih =>
    intro h
    by_cases hv : v = sibling
    · subst hv
      exact ⟨[], rest, rfl, by simp, by simp [insertAfter]⟩
    · have hrest : sibling ∈ rest := by
        rcases List.mem_cons.mp h with h | h
        · exact absurd h.symm hv
        · exact h
      obtain ⟨pre, post, h1, h2, h3⟩ := ih hrest
      refine ⟨v :: pre, post, by rw [h1]; rfl, ?_, ?_⟩
      · intro hm
        rcases List.mem_cons.mp hm with h | h
        · exact hv h.symm
        · exact h2 h
      · simp [insertAfter, hv, h3]

/-- Taking a view that is not there out of a list leaves the list. -/
theorem filter_absent (x : View) (l : List View) (h : x ∉ l) :
    l.filter (fun c => c ≠ x) = l := by
  rw [List.filter_eq_self]
  intro c hc
  simp only [ne_eq, decide_not, Bool.not_eq_true', decide_eq_false_iff_not]
  intro hcx
  exact h (hcx ▸ hc)

/-- Taking out the view that was put into a list it was not in gives the list
back. -/
theorem filter_inserted (x s : View) (pre post : List View) (hpre : x ∉ pre)
    (hpost : x ∉ post) (hs : s ≠ x) :
    (pre ++ s :: x :: post).filter (fun c => c ≠ x) = pre ++ s :: post
    ∧ (pre ++ x :: s :: post).filter (fun c => c ≠ x) = pre ++ s :: post := by
  have h1 := filter_absent x pre hpre
  have h2 := filter_absent x post hpost
  have h3 : ∀ c ∈ post, ¬ c = x := fun c hc hcx => hpost (hcx ▸ hc)
  constructor
  · rw [List.filter_append, h1, List.filter_cons, List.filter_cons]
    simpa [hs] using h3
  · rw [List.filter_append, h1, List.filter_cons, List.filter_cons]
    simpa [hs] using h3

end Sub

namespace Sub

/-- `SiblingViews` reads the subsurfaces, the surface `other` and the views. -/
theorem SiblingViews_congr {w w' : World} {address own other parent : Nat} {top : View}
    {others : List View} (h : SiblingViews w address own other parent top others)
    (hsub : w'.subsurfaces = w.subsurfaces) (hsurf : w'.surfaces other = w.surfaces other)
    (hvp : w'.view_parent = w.view_parent) (hvc : w'.view_children = w.view_children) :
    SiblingViews w' address own other parent top others := by
  unfold SiblingViews at h ⊢
  have hcheck : CheckSiblingRelationship w' address other
      = CheckSiblingRelationship w address other := by
    unfold CheckSiblingRelationship
    rw [hsub, hsurf]
  rw [hcheck, hsub, hvp, hvc]
  exact h

/-- Where `insertBefore` puts the new view, the place of the sibling known. -/
theorem insertBefore_at (sibling child : View) (post : List View) :
    ∀ (pre : List View), sibling ∉ pre →
      insertBefore sibling child (pre ++ sibling :: post)
        = some (pre ++ child :: sibling :: post) := by
  intro pre
  induction pre with
  | nil => intro _; simp [insertBefore]
  | cons v rest ih =>
    intro h
    have hv : v ≠ sibling := fun e => h (e ▸ List.mem_cons_self _ _)
    have hrest : sibling ∉ rest := fun e => h (List.mem_cons_of_mem _ e)
    simp [insertBefore, hv, ih hrest]

/-- Where `insertAfter` puts the new view, the place of the sibling known. -/
theorem insertAfter_at (sibling child : View) (post : List View) :
    ∀ (pre : List View), sibling ∉ pre →
      insertAfter sibling child (pre ++ sibling :: post)
        = some (pre ++ sibling :: child :: post) := by
  intro pre
  induction pre with
  | nil => intro _; simp [insertAfter]
  | cons v rest ih =>
    intro h
    have hv : v ≠ sibling := fun e => h (e ▸ List.mem_cons_self _ _)
    have hrest : sibling ∉ rest := fun e => h (List.mem_cons_of_mem _ e)
    simp [insertAfter, hv, ih hrest]

/-- The paint order after `ParentBelow`, spelled out. -/
theorem orderBelow_at (own other : Nat) (pre post : List View)
    (h1 : View.under other ∉ pre) (h2 : View.view own ∉ pre) :
    orderBelow own other (pre ++ View.under other :: post)
      = some (pre ++ View.under own :: View.view own :: View.under other :: post) := by
  unfold orderBelow
  rw [insertBefore_at _ _ _ pre h1]
  simp only [Option.some_bind]
  exact insertBefore_at _ _ _ pre h2

/-- The paint order after `ParentAbove`, spelled out. -/
theorem orderAbove_at (own other : Nat) (pre post : List View)
    (h1 : View.view other ∉ pre) (h2 : View.under own ∉ pre) :
    orderAbove own other (pre ++ View.view other :: post)
      = some (pre ++ View.view other :: View.under own :: View.view own :: post) := by
  unfold orderAbove
  rw [insertAfter_at _ _ _ pre h1]
  simp only [Option.some_bind]
  have h := insertAfter_at (View.under own) (View.view own) post (pre ++ [View.view other])
    (by
      intro hm
      rcases List.mem_append.mp hm with hm | hm
      · exact h2 hm
      · simp at hm)
  simpa using h

end Sub

namespace Sub

/-- The two `ViewUnparent` calls of `RunOneSurfaceAction` on views that are
children of `top`. -/
theorem unparent_both (w : World) (own : Nat) (top : View)
    (hv : w.view_parent (View.view own) = some top)
    (hu : w.view_parent (View.under own) = some top) :
    (ViewUnparent (ViewUnparent w (View.view own)) (View.under own)).view_children top
        = ((w.view_children top).filter (fun c => c ≠ View.view own)).filter
            (fun c => c ≠ View.under own)
    ∧ (∀ v, v ≠ View.view own → v ≠ View.under own →
        (ViewUnparent (ViewUnparent w (View.view own)) (View.under own)).view_parent v
          = w.view_parent v) := by
  have h1 : ViewUnparent w (View.view own)
      = { w with
          view_children := fun v =>
            if v = top then (w.view_children top).filter (fun c => c ≠ View.view own)
            else w.view_children v
          view_parent := fun v => if v = View.view own then none else w.view_parent v } := by
    unfold ViewUnparent
    rw [hv]
  rw [h1]
  unfold ViewUnparent
  simp only [reduceCtorEq, if_false, hu, if_true]
  refine ⟨trivial, fun v h1 h2 => ?_⟩
  simp [h1, h2]

end Sub

namespace Sub

/-- `ParentBelow` into the view `top`, when the two insertions find their
siblings. -/
theorem ParentBelow_effect (w : World) (top : View) (own other : Nat) (order : List View)
    (h : orderBelow own other (w.view_children top) = some order) :
    ∃ w', ParentBelow w (some top) (View.under other) own = some w'
      ∧ w'.view_children top = order
      ∧ w'.view_parent (View.view own) = some top
      ∧ w'.view_parent (View.under own) = some top
      ∧ (∀ v, v ≠ View.view own → v ≠ View.under own → w'.view_parent v = w.view_parent v)
      ∧ w'.surfaces = w.surfaces ∧ w'.subsurfaces = w.subsurfaces ∧ w'.calls = w.calls := by
  unfold orderBelow at h
  unfold ParentBelow ViewInsertBefore
  cases h1 : insertBefore (View.under other) (View.view own) (w.view_children top) with
  | none => rw [h1] at h; simp at h
  | some l1 =>
    rw [h1] at h
    simp only [Option.some_bind] at h
    simp only [h1, if_true, h]
    refine ⟨_, rfl, by simp, by simp, by simp, fun v hv hu => by simp [hv, hu], rfl, rfl, rfl⟩

/-- `ParentAbove` into the view `top`, when the two insertions find their
siblings. -/
theorem ParentAbove_effect (w : World) (top : View) (own other : Nat) (order : List View)
    (h : orderAbove own other (w.view_children top) = some order) :
    ∃ w', ParentAbove w (some top) (View.view other) own = some w'
      ∧ w'.view_children top = order
      ∧ w'.view_parent (View.view own) = some top
      ∧ w'.view_parent (View.under own) = some top
      ∧ (∀ v, v ≠ View.view own → v ≠ View.under own → w'.view_parent v = w.view_parent v)
      ∧ w'.surfaces = w.surfaces ∧ w'.subsurfaces = w.subsurfaces ∧ w'.calls = w.calls := by
  unfold orderAbove at h
  unfold ParentAbove ViewInsertAfter
  cases h1 : insertAfter (View.view other) (View.under own) (w.view_children top) with
  | none => rw [h1] at h; simp at h
  | some l1 =>
    rw [h1] at h
    simp only [Option.some_bind] at h
    simp only [h1, if_true, h]
    refine ⟨_, rfl, by simp, by simp, by simp, fun v hv hu => by simp [hv, hu], rfl, rfl, rfl⟩

end Sub

namespace Sub

/-- Taking the two views of `own` out of a paint order they were put into next
to each other. -/
theorem filter_own_inserted (own : Nat) (l1 l2 : List View) :
    ((l1 ++ View.under own :: View.view own :: l2).filter
        (fun c => c ≠ View.view own)).filter (fun c => c ≠ View.under own)
      = ((l1 ++ l2).filter (fun c => c ≠ View.view own)).filter
          (fun c => c ≠ View.under own) := by
  simp [List.filter_append, List.filter_cons]

/-- What `SiblingViews` says about the paint order without the views of `own`. -/
theorem SiblingViews.others_clean {w : World} {address own other parent : Nat} {top : View}
    {others : List View} (h : SiblingViews w address own other parent top others) :
    View.view own ∉ others ∧ View.under own ∉ others
      ∧ (others.filter (fun c => c ≠ View.view own)).filter (fun c => c ≠ View.under own)
          = others := by
  obtain ⟨-, -, -, -, -, -, -, h8, -, -⟩ := h
  have hv : View.view own ∉ others := by
    rw [← h8]
    simp [List.mem_filter]
  have hu : View.under own ∉ others := by
    rw [← h8]
    simp [List.mem_filter]
  exact ⟨hv, hu, by rw [filter_absent _ _ hv, filter_absent _ _ hu]⟩

/-- `RunOneSurfaceAction` for a place-below action between siblings. -/
theorem RunOneSurfaceAction_below {w : World} {address own other parent : Nat} {top : View}
    {others : List View} (h : SiblingViews w address own other parent top others) :
    ∃ w' pre post, RunOneSurfaceAction w
          { type := SurfaceActionType.PlaceBelowOther, subsurface := address, other := other }
        = some w'
      ∧ others = pre ++ View.under other :: post
      ∧ w'.view_children top
          = pre ++ View.under own :: View.view own :: View.under other :: post
      ∧ orderBelow own other others = some (w'.view_children top)
      ∧ SiblingViews w' address own other parent top others
      ∧ w'.surfaces = w.surfaces ∧ w'.subsurfaces = w.subsurfaces ∧ w'.calls = w.calls := by
  obtain ⟨hv, hu, hclean⟩ := h.others_clean
  have h' := h
  obtain ⟨⟨a, ha, hown, hpar⟩, hne, hop, hcheck, hpo, hpv, hpu, h8, hmu, hmv⟩ := h'
  obtain ⟨pre, post, hsplit, hpre, -⟩ :=
    insertBefore_split (View.under other) (View.view own) others hmu
  have hvpre : View.view own ∉ pre := fun hm => hv (by rw [hsplit]; exact List.mem_append_left _ hm)
  obtain ⟨hc1, hp1⟩ := unparent_both w own top hpv hpu
  have horder : orderBelow own other
      ((ViewUnparent (ViewUnparent w (View.view own)) (View.under own)).view_children top)
      = some (pre ++ View.under own :: View.view own :: View.under other :: post) := by
    rw [hc1, h8, hsplit]
    exact orderBelow_at own other pre post hpre hvpre
  obtain ⟨w', hw', hch, hvo, huo, hvp, hs, hb, hc⟩ := ParentBelow_effect _ top own other _ horder
  refine ⟨w', pre, post, ?_, hsplit, hch, ?_, ?_, by simpa using hs, by simpa using hb,
    by simpa using hc⟩
  · unfold RunOneSurfaceAction
    simp only [ha, hown, hpar, reduceCtorEq, if_false, if_true, ne_eq, hop, not_false_eq_true,
      hcheck, ViewGetParent, hpo]
    exact hw'
  · rw [hch, hsplit]
    exact orderBelow_at own other pre post hpre hvpre
  · have hother1 : View.view other ≠ View.view own := fun e => hne (by cases e; rfl)
    have hother2 : View.view other ≠ View.under own := by simp
    refine ⟨⟨a, by rw [hb]; simpa using ha, hown, hpar⟩, hne, hop, ?_, ?_, hvo, huo, ?_, hmu, hmv⟩
    · have : CheckSiblingRelationship w' address other
          = CheckSiblingRelationship w address other := by
        unfold CheckSiblingRelationship
        rw [hb, hs]
        simp
      rw [this, hcheck]
    · rw [hvp _ hother1 hother2, hp1 _ hother1 hother2, hpo]
    · rw [hch, filter_own_inserted, ← hsplit, hclean]

end Sub

namespace Sub

/-- `RunOneSurfaceAction` for a place-above action between siblings. -/
theorem RunOneSurfaceAction_above {w : World} {address own other parent : Nat} {top : View}
    {others : List View} (h : SiblingViews w address own other parent top others) :
    ∃ w' pre post, RunOneSurfaceAction w
          { type := SurfaceActionType.PlaceAboveOther, subsurface := address, other := other }
        = some w'
      ∧ others = pre ++ View.view other :: post
      ∧ w'.view_children top
          = pre ++ View.view other :: View.under own :: View.view own :: post
      ∧ SiblingViews w' address own other parent top others
      ∧ w'.surfaces = w.surfaces ∧ w'.subsurfaces = w.subsurfaces ∧ w'.calls = w.calls := by
  obtain ⟨hv, hu, hclean⟩ := h.others_clean
  have h' := h
  obtain ⟨⟨a, ha, hown, hpar⟩, hne, hop, hcheck, hpo, hpv, hpu, h8, hmu, hmv⟩ := h'
  obtain ⟨pre, post, hsplit, hpre, -⟩ :=
    insertAfter_split (View.view other) (View.under own) others hmv
  have hupre : View.under own ∉ pre := fun hm => hu (by rw [hsplit]; exact List.mem_append_left _ hm)
  obtain ⟨hc1, hp1⟩ := unparent_both w own top hpv hpu
  have horder : orderAbove own other
      ((ViewUnparent (ViewUnparent w (View.view own)) (View.under own)).view_children top)
      = some (pre ++ View.view other :: View.under own :: View.view own :: post) := by
    rw [hc1, h8, hsplit]
    exact orderAbove_at own other pre post hpre hupre
  obtain ⟨w', hw', hch, hvo, huo, hvp, hs, hb, hc⟩ := ParentAbove_effect _ top own other _ horder
  refine ⟨w', pre, post, ?_, hsplit, hch, ?_, by simpa using hs, by simpa using hb,
    by simpa using hc⟩
  · unfold RunOneSurfaceAction
    simp only [ha, hown, hpar, if_true, ne_eq, hop, not_false_eq_true, hcheck, ViewGetParent, hpo,
      if_false]
    exact hw'
  · have hother1 : View.view other ≠ View.view own := fun e => hne (by cases e; rfl)
    have hother2 : View.view other ≠ View.under own := by simp
    refine ⟨⟨a, by rw [hb]; simpa using ha, hown, hpar⟩, hne, hop, ?_, ?_, hvo, huo, ?_, hmu, hmv⟩
    · have : CheckSiblingRelationship w' address other
          = CheckSiblingRelationship w address other := by
        unfold CheckSiblingRelationship
        rw [hb, hs]
        simp
      rw [this, hcheck]
    · rw [hvp _ hother1 hother2, hp1 _ hother1 hother2, hpo]
    · have e : pre ++ View.view other :: View.under own :: View.view own :: post
          = (pre ++ [View.view other]) ++ View.under own :: View.view own :: post := by simp
      rw [hch, e, filter_own_inserted]
      have e2 : (pre ++ [View.view other]) ++ post = others := by rw [hsplit]; simp
      rw [e2, hclean]

end Sub

namespace Sub

/-- `PlaceAbove` and `PlaceBelow` between siblings enqueue the action. -/
theorem place_sibling {w : World} {address own other parent : Nat} {top : View}
    {others : List View} (h : SiblingViews w address own other parent top others)
    (ps : Surface) (hps : w.surfaces parent = some ps) :
    PlaceAbove w address other
        = some ((w.call (Call.XLSurfaceRunOnFree other)).setSurface parent
            { ps with
              actions :=
                some ({ type := SurfaceActionType.PlaceAboveOther, subsurface := address,
                        other := other } :: ps.actions.getD []) })
    ∧ PlaceBelow w address other
        = some ((w.call (Call.XLSurfaceRunOnFree other)).setSurface parent
            { ps with
              actions :=
                some ({ type := SurfaceActionType.PlaceBelowOther, subsurface := address,
                        other := other } :: ps.actions.getD []) }) := by
  obtain ⟨⟨a, ha, hown, hpar⟩, hne, hop, hcheck, -⟩ := h
  have hrej : placeRejected w address other = some false := by
    unfold placeRejected
    have : a.parent ≠ some other := by
      rw [hpar]
      intro e
      cases e
      exact hop rfl
    simp [ha, this, hcheck]
  unfold PlaceAbove PlaceBelow AddSurfaceAction
  simp only [hrej, ha, hpar, call_surfaces, hps, and_self]

/-- An enqueued action, or a destroyed one, leaves siblings siblings. -/
theorem SiblingViews_queue {w : World} {address own other parent : Nat} {top : View}
    {others : List View} (h : SiblingViews w address own other parent top others)
    (c : Call) (ps : Surface) :
    SiblingViews ((w.call c).setSurface parent ps) address own other parent top others := by
  refine SiblingViews_congr h rfl ?_ rfl rfl
  have hop : other ≠ parent := h.2.2.1
  simp [World.setSurface, World.call, hop]

/-- One turn of the loop of `RunSurfaceActions`, once `RunOneSurfaceAction` is
known to return. -/
theorem runAndDestroy_of_run {w w1 : World} {parent : Nat} {action : SurfaceAction}
    {remaining : List SurfaceAction} {ps : Surface}
    (hrun : RunOneSurfaceAction w action = some w1) (hps : w1.surfaces parent = some ps) :
    runAndDestroy w parent action remaining
      = some ((w1.call (Call.XLSurfaceCancelRunOnFree action.other)).setSurface parent
          { ps with actions := some remaining }) := by
  unfold runAndDestroy
  simp only [hrun, hps]

end Sub

namespace Sub

theorem setSurface_same (w : World) (p : Nat) (s : Surface) :
    (w.setSurface p s).surfaces p = some s := by
  simp [World.setSurface]

/-- The parent's commit with two actions in the queue: the one enqueued first
is run and destroyed, and the commit goes on with the other. -/
theorem commit_two {w w1 : World} {parent : Nat} {ps ps1 : Surface}
    {first second : SurfaceAction} (hps : w.surfaces parent = some ps)
    (hq : ps.actions = some [second, first])
    (hrun : RunOneSurfaceAction w first = some w1) (hps1 : w1.surfaces parent = some ps1) :
    XLSubsurfaceHandleParentCommit w parent
      = XLSubsurfaceHandleParentCommit
          ((w1.call (Call.XLSurfaceCancelRunOnFree first.other)).setSurface parent
            { ps1 with actions := some [second] }) parent := by
  unfold XLSubsurfaceHandleParentCommit
  rw [hps, setSurface_same]
  simp only [hq, RunSurfaceActions, List.reverse_cons, List.reverse_nil, List.nil_append,
    List.singleton_append, runBackwards]
  rw [runAndDestroy_of_run hrun hps1]

/-- The parent's commit with the single action place-below in the queue. -/
theorem commit_below {w : World} {address own other parent : Nat} {top : View}
    {others : List View} (h : SiblingViews w address own other parent top others)
    (ps : Surface) (hps : w.surfaces parent = some ps)
    (hq : ps.actions
      = some [{ type := SurfaceActionType.PlaceBelowOther, subsurface := address,
                other := other }]) :
    ∃ w' pre post, XLSubsurfaceHandleParentCommit w parent = some w'
      ∧ others = pre ++ View.under other :: post
      ∧ w'.view_children top
          = pre ++ View.under own :: View.view own :: View.under other :: post
      ∧ orderBelow own other others = some (w'.view_children top)
      ∧ (w'.surfaces parent).map (fun s => s.actions) = some (some []) := by
  obtain ⟨w1, pre, post, hrun, hsplit, hch, hord, -, hs, -, -⟩ := RunOneSurfaceAction_below h
  refine ⟨(w1.call (Call.XLSurfaceCancelRunOnFree other)).setSurface parent
    { ps with actions := some [] }, pre, post, ?_, hsplit, ?_, ?_, ?_⟩
  · unfold XLSubsurfaceHandleParentCommit
    simp only [hps, hq, RunSurfaceActions, List.reverse_cons, List.reverse_nil, List.nil_append,
      runBackwards]
    rw [runAndDestroy_of_run hrun (by rw [hs]; exact hps)]
  · exact hch
  · exact hord
  · simp [World.setSurface]

/-- C19: for siblings `own` (at `address`) and `other` of one parent whose
views are children of the view `top`, with nothing queued: when place-above and
then place-below of `own` relative to `other` are requested in that order, the
parent's commit returns, the paint order of `top` is then the one that
place-below alone gives from the same starting order (the under and content
views of `own` sit immediately below the under view of `other`), and the
action queue is empty. -/
theorem place_above_then_below_is_below (w : World) (address own other parent : Nat)
    (top : View) (others : List View) (ps : Surface)
    (h : SiblingViews w address own other parent top others)
    (hps : w.surfaces parent = some ps) (hq : ps.actions.getD [] = []) :
    ∃ w1 w2 w3 v1 v2 pre post,
      PlaceAbove w address other = some w1 ∧ PlaceBelow w1 address other = some w2
      ∧ XLSubsurfaceHandleParentCommit w2 parent = some w3
      ∧ PlaceBelow w address other = some v1
      ∧ XLSubsurfaceHandleParentCommit v1 parent = some v2
      ∧ w3.view_children top = v2.view_children top
      ∧ others = pre ++ View.under other :: post
      ∧ w3.view_children top
          = pre ++ View.under own :: View.view own :: View.under other :: post
      ∧ (w3.surfaces parent).map (fun s => s.actions) = some (some []) := by
  obtain ⟨hA, hB⟩ := place_sibling h ps hps
  rw [hq] at hA hB
  have h1 := SiblingViews_queue h (Call.XLSurfaceRunOnFree other)
    { ps with
      actions := some [{ type := SurfaceActionType.PlaceAboveOther, subsurface := address,
                         other := other }] }
  have hv1 := SiblingViews_queue h (Call.XLSurfaceRunOnFree other)
    { ps with
      actions := some [{ type := SurfaceActionType.PlaceBelowOther, subsurface := address,
                         other := other }] }
  obtain ⟨-, hB1⟩ := place_sibling h1 _ (setSurface_same _ _ _)
  have h2 := SiblingViews_queue h1 (Call.XLSurfaceRunOnFree other)
    { ps with
      actions := some [{ type := SurfaceActionType.PlaceBelowOther, subsurface := address,
                         other := other },
                       { type := SurfaceActionType.PlaceAboveOther, subsurface := address,
                         other := other }] }
  simp only [Option.getD_some] at hB1
  obtain ⟨v2, vpre, vpost, hv2, -, -, hvord, -⟩ :=
    commit_below hv1 _ (setSurface_same _ _ _) rfl
  obtain ⟨wa, -, -, hrunA, -, -, ha, hsa, -, -⟩ := RunOneSurfaceAction_above h2
  have hb := SiblingViews_queue ha
    (Call.XLSurfaceCancelRunOnFree
      ({ type := SurfaceActionType.PlaceAboveOther, subsurface := address,
         other := other } : SurfaceAction).other)
    { ps with
      actions := some [{ type := SurfaceActionType.PlaceBelowOther, subsurface := address,
                         other := other }] }
  obtain ⟨w3, pre, post, hw3, hsplit, hch, hord, hempty⟩ :=
    commit_below hb _ (setSurface_same _ _ _) rfl
  refine ⟨_, _, w3, _, v2, pre, post, hA, hB1, ?_, hB, hv2, ?_, hsplit, hch, hempty⟩
  · rw [commit_two (setSurface_same _ _ _) rfl hrunA (by rw [hsa]; exact setSurface_same _ _ _)]
    exact hw3
  · have := hord.symm.trans hvord
    exact Option.some.inj this

/-- The witness of C19: subsurfaces 10 and 11 of the `parented` world, on the
surfaces 2 and 3 of parent surface 1. -/
theorem place_above_then_below_is_below_witness :
    SiblingViews parented 10 2 3 1 (View.view 1) [View.under 3, View.view 3]
    ∧ parented.surfaces 1 = some { subsurfaces := [3, 2], commit_callbacks := [10, 11] }
    ∧ ∃ w1 w2 w3 v1 v2 pre post,
      PlaceAbove parented 10 3 = some w1 ∧ PlaceBelow w1 10 3 = some w2
      ∧ XLSubsurfaceHandleParentCommit w2 1 = some w3
      ∧ PlaceBelow parented 10 3 = some v1
      ∧ XLSubsurfaceHandleParentCommit v1 1 = some v2
      ∧ w3.view_children (View.view 1) = v2.view_children (View.view 1)
      ∧ [View.under 3, View.view 3] = pre ++ View.under 3 :: post
      ∧ w3.view_children (View.view 1)
          = pre ++ View.under 2 :: View.view 2 :: View.under 3 :: post
      ∧ (w3.surfaces 1).map (fun s => s.actions) = some (some []) :=
  have hsib : SiblingViews parented 10 2 3 1 (View.view 1) [View.under 3, View.view 3] :=
    ⟨⟨{ newSubsurface 2 1 with pending := false }, by decide, rfl, rfl⟩, by decide, by decide,
      by decide, by decide, by decide, by decide, by decide, by decide, by decide⟩
  ⟨hsib, by decide,
    place_above_then_below_is_below parented 10 2 3 1 (View.view 1)
      [View.under 3, View.view 3] { subsurfaces := [3, 2], commit_callbacks := [10, 11] }
      hsib (by decide) rfl⟩

/-- C20: in the `parented` world subsurface 10, on surface 2, names its own
surface 2 as the target.  `CheckSiblingRelationship` answers True, for the
surface has a subsurface role whose parent is the parent of the subject, so
`PlaceAbove` and `PlaceBelow` post no error and enqueue the action on the
parent surface 1. -/
theorem Place_accepts_own_surface :
    (parented.subsurfaces 10).map (fun a => a.surface) = some (some 2)
    ∧ CheckSiblingRelationship parented 10 2 = some true
    ∧ (PlaceAbove parented 10 2).map
        (fun w => (w.calls, (w.surfaces 1).bind fun s => s.actions))
      = some (parented.calls ++ [Call.XLSurfaceRunOnFree 2],
              some [{ type := SurfaceActionType.PlaceAboveOther, subsurface := 10,
                      other := 2 }])
    ∧ (PlaceBelow parented 10 2).map
        (fun w => (w.calls, (w.surfaces 1).bind fun s => s.actions))
      = some (parented.calls ++ [Call.XLSurfaceRunOnFree 2],
              some [{ type := SurfaceActionType.PlaceBelowOther, subsurface := 10,
                      other := 2 }]) := by
  refine ⟨by decide, by decide, by decide, by decide⟩

end Sub

namespace Sub

/-- Reading a heap cell through a map that agrees with another heap's. -/
theorem lookup_of_map_eq {α β : Type} {f g : α → β} {x y : Option α} {a : α}
    (h : x.map f = y.map g) (hx : x = some a) : ∃ b, y = some b ∧ f a = g b := by
  subst hx
  cases y with
  | none => simp at h
  | some b => exact ⟨b, rfl, by simpa using h⟩

/-- One more step at the far end of a path. -/
theorem Reach_snoc {want : Subsurface → Bool} {w : World} {k t s c ck : Nat}
    {ta child : Subsurface} {surface : Surface} (h : Reach want w k t)
    (h1 : w.subsurfaces t = some ta) (h2 : ta.surface = some s)
    (h3 : w.surfaces s = some surface) (h4 : c ∈ surface.subsurfaces)
    (h5 : w.roleOf c = some ck) (h6 : w.subsurfaces ck = some child)
    (h7 : want child = true) : Reach want w k ck := by
  induction h with
  | refl k => exact Reach.step h1 h2 h3 h4 h5 h6 h7 (Reach.refl ck)
  | step g1 g2 g3 g4 g5 g6 g7 _ ih => exact Reach.step g1 g2 g3 g4 g5 g6 g7 (ih h1)

/-- The last step of a path. -/
theorem Reach_last {want : Subsurface → Bool} {w : World} {k j : Nat}
    (h : Reach want w k j) :
    j = k ∨ ∃ (t s c : Nat) (ta child : Subsurface) (surface : Surface),
      Reach want w k t ∧ w.subsurfaces t = some ta ∧ ta.surface = some s
        ∧ w.surfaces s = some surface ∧ c ∈ surface.subsurfaces
        ∧ w.roleOf c = some j ∧ w.subsurfaces j = some child ∧ want child = true := by
  induction h with
  | refl k => exact Or.inl rfl
  | @step k s c ck j subsurface child surface g1 g2 g3 g4 g5 g6 g7 _ ih =>
    right
    rcases ih with rfl | ⟨t, s', c', ta, child', surface', r, r1, r2, r3, r4, r5, r6, r7⟩
    · exact ⟨k, s, c, subsurface, child, surface, Reach.refl k, g1, g2, g3, g4, g5, g6, g7⟩
    · exact ⟨t, s', c', ta, child', surface',
        Reach.step g1 g2 g3 g4 g5 g6 g7 r, r1, r2, r3, r4, r5, r6, r7⟩

/-- `WellLinked` reads the links of the surfaces, and the surface and the
parent of the subsurfaces. -/
theorem WellLinked_congr {w w' : World}
    (hsurf : ∀ j, (w'.surfaces j).map Surface.links = (w.surfaces j).map Surface.links)
    (hsub : ∀ j, (w'.subsurfaces j).map (fun a => (a.surface, a.parent))
      = (w.subsurfaces j).map (fun a => (a.surface, a.parent)))
    (hl : WellLinked w) : WellLinked w' := by
  obtain ⟨h1, h2⟩ := hl
  have hsurfaces : ∀ {j : Nat} {x : Surface}, w.surfaces j = some x →
      ∃ x', w'.surfaces j = some x' ∧ x'.links = x.links := fun {j x} hx => by
    obtain ⟨x', hx', e⟩ := lookup_of_map_eq (hsurf j).symm hx
    exact ⟨x', hx', e.symm⟩
  have hsubs : ∀ {j : Nat} {a : Subsurface}, w.subsurfaces j = some a →
      ∃ a', w'.subsurfaces j = some a' ∧ a'.surface = a.surface ∧ a'.parent = a.parent :=
    fun {j a} ha => by
      obtain ⟨a', ha', e⟩ := lookup_of_map_eq (hsub j).symm ha
      simp only [Prod.mk.injEq] at e
      exact ⟨a', ha', e.1.symm, e.2.symm⟩
  have hrole : ∀ {c ck : Nat}, w.roleOf c = some ck → w'.roleOf c = some ck := by
    intro c ck h
    unfold World.roleOf at h ⊢
    cases hc : w.surfaces c with
    | none => rw [hc] at h; simp at h
    | some x =>
      obtain ⟨x', hx', e⟩ := hsurfaces hc
      rw [hc] at h
      rw [hx']
      simp only [Surface.links, Prod.mk.injEq] at e
      simp only [e.2.1]
      exact h
  constructor
  · intro k s a' hk hs
    obtain ⟨a, ha, e⟩ := lookup_of_map_eq (hsub k) hk
    simp only [Prod.mk.injEq] at e
    obtain ⟨surf, p, psurf, g1, g2, g3, g4, g5, g6⟩ := h1 k s a ha (by rw [← e.1, hs])
    obtain ⟨surf', hs', es⟩ := hsurfaces g1
    obtain ⟨psurf', hp', ep⟩ := hsurfaces g5
    simp only [Surface.links, Prod.mk.injEq] at es ep
    exact ⟨surf', p, psurf', hs', by rw [es.2.1, g2], by rw [es.1, g3], by rw [e.2, g4], hp',
      by rw [ep.2.2]; exact g6⟩
  · intro p c psurf' hp hc
    obtain ⟨psurf, hps, e⟩ := lookup_of_map_eq (hsurf p) hp
    simp only [Surface.links, Prod.mk.injEq] at e
    obtain ⟨ck, child, g1, g2, g3, g4⟩ := h2 p c psurf hps (by rw [← e.2.2]; exact hc)
    obtain ⟨child', hc', e1, e2⟩ := hsubs g2
    exact ⟨ck, child', hrole g1, hc', by rw [e1, g3], by rw [e2, g4]⟩

end Sub

namespace Sub

/-- `SyncHeld` survives storing `synchronous = true` into a set of subsurfaces
that holds, with an attached subsurface, the attached children of its surface. -/
theorem SyncHeld_resync_true {w w' : World} (V : Nat → Prop)
    (hsurf : ∀ j, (w'.surfaces j).map Surface.links = (w.surfaces j).map Surface.links)
    (hV : ∀ j, V j → (w'.subsurfaces j).map Subsurface.links
      = (w.subsurfaces j).map (fun a => (a.surface, a.parent, true)))
    (hN : ∀ j, ¬ V j → (w'.subsurfaces j).map Subsurface.links
      = (w.subsurfaces j).map Subsurface.links)
    (hclosed : ∀ (t p c k : Nat) (ta a : Subsurface), V t → w.subsurfaces t = some ta →
      ta.surface = some p → w.subsurfaces k = some a → a.surface = some c →
      a.parent = some p → V k)
    (hh : SyncHeld w) : SyncHeld w' := by
  intro k s p t a' ta' psurf' hk hs hp hps hrole ht hts htsync
  by_cases hVk : V k
  · obtain ⟨a, -, e⟩ := lookup_of_map_eq (hV k hVk) hk
    simp only [Subsurface.links, Prod.mk.injEq] at e
    exact e.2.2
  · obtain ⟨a, ha, e⟩ := lookup_of_map_eq (hN k hVk) hk
    simp only [Subsurface.links, Prod.mk.injEq] at e
    obtain ⟨psurf, hpsurf, ep⟩ := lookup_of_map_eq (hsurf p) hps
    simp only [Surface.links, Prod.mk.injEq] at ep
    by_cases hVt : V t
    · obtain ⟨ta, hta, et⟩ := lookup_of_map_eq (hV t hVt) ht
      simp only [Subsurface.links, Prod.mk.injEq] at et
      exact absurd (hclosed t p s k ta a hVt hta (by rw [← et.1, hts]) ha (by rw [← e.1, hs])
        (by rw [← e.2.1, hp])) hVk
    · obtain ⟨ta, hta, et⟩ := lookup_of_map_eq (hN t hVt) ht
      simp only [Subsurface.links, Prod.mk.injEq] at et
      rw [e.2.2]
      exact hh k s p t a ta psurf ha (by rw [← e.1, hs]) (by rw [← e.2.1, hp]) hpsurf
        (by rw [← ep.2.1, hrole]) hta (by rw [← et.1, hts]) (by rw [← et.2.2, htsync])

/-- `SyncHeld` survives storing `synchronous = false` into a set of
subsurfaces in which every attached one has, as the attached role of its
parent surface, a member of the set or a desynchronous subsurface. -/
theorem SyncHeld_resync_false {w w' : World} (V : Nat → Prop)
    (hsurf : ∀ j, (w'.surfaces j).map Surface.links = (w.surfaces j).map Surface.links)
    (hV : ∀ j, V j → (w'.subsurfaces j).map Subsurface.links
      = (w.subsurfaces j).map (fun a => (a.surface, a.parent, false)))
    (hN : ∀ j, ¬ V j → (w'.subsurfaces j).map Subsurface.links
      = (w.subsurfaces j).map Subsurface.links)
    (hcond : ∀ (k s p t : Nat) (a ta : Subsurface) (psurf : Surface), V k →
      w.subsurfaces k = some a → a.surface = some s → a.parent = some p →
      w.surfaces p = some psurf → psurf.role = some (RolePtr.subsurface t) →
      w.subsurfaces t = some ta → ta.surface = some p → V t ∨ ta.synchronous = false)
    (hh : SyncHeld w) : SyncHeld w' := by
  intro k s p t a' ta' psurf' hk hs hp hps hrole ht hts htsync
  obtain ⟨psurf, hpsurf, ep⟩ := lookup_of_map_eq (hsurf p) hps
  simp only [Surface.links, Prod.mk.injEq] at ep
  by_cases hVt : V t
  · obtain ⟨ta, -, et⟩ := lookup_of_map_eq (hV t hVt) ht
    simp only [Subsurface.links, Prod.mk.injEq] at et
    rw [htsync] at et
    exact absurd et.2.2 (by simp)
  · obtain ⟨ta, hta, et⟩ := lookup_of_map_eq (hN t hVt) ht
    simp only [Subsurface.links, Prod.mk.injEq] at et
    have htas : ta.synchronous = true := by rw [← et.2.2, htsync]
    by_cases hVk : V k
    · obtain ⟨a, ha, e⟩ := lookup_of_map_eq (hV k hVk) hk
      simp only [Subsurface.links, Prod.mk.injEq] at e
      rcases hcond k s p t a ta psurf hVk ha (by rw [← e.1, hs]) (by rw [← e.2.1, hp]) hpsurf
        (by rw [← ep.2.1, hrole]) hta (by rw [← et.1, hts]) with h | h
      · exact absurd h hVt
      · rw [htas] at h; cases h
    · obtain ⟨a, ha, e⟩ := lookup_of_map_eq (hN k hVk) hk
      simp only [Subsurface.links, Prod.mk.injEq] at e
      rw [e.2.2]
      exact hh k s p t a ta psurf ha (by rw [← e.1, hs]) (by rw [← e.2.1, hp]) hpsurf
        (by rw [← ep.2.1, hrole]) hta (by rw [← et.1, hts]) htas

/-- The links of the subsurfaces, without `synchronous`, from either form of a
change of `synchronous`. -/
theorem links_of_resync {w w' : World} {value : Bool} (V : Nat → Prop)
    (hV : ∀ j, V j → (w'.subsurfaces j).map Subsurface.links
      = (w.subsurfaces j).map (fun a => (a.surface, a.parent, value)))
    (hN : ∀ j, ¬ V j → (w'.subsurfaces j).map Subsurface.links
      = (w.subsurfaces j).map Subsurface.links) (j : Nat) :
    (w'.subsurfaces j).map (fun a => (a.surface, a.parent))
      = (w.subsurfaces j).map (fun a => (a.surface, a.parent)) := by
  by_cases h : V j
  · have := congrArg (Option.map fun x : Option Nat × Option Nat × Bool => (x.1, x.2.1)) (hV j h)
    simpa [Option.map_map, Function.comp_def, Subsurface.links] using this
  · have := congrArg (Option.map fun x : Option Nat × Option Nat × Bool => (x.1, x.2.1)) (hN j h)
    simpa [Option.map_map, Function.comp_def, Subsurface.links] using this

end Sub

namespace Sub

/-- The role of a surface, read through `roleOf`. -/
theorem roleOf_of_role {w : World} {c k : Nat} {surf : Surface} (h : w.surfaces c = some surf)
    (hr : surf.role = some (RolePtr.subsurface k)) : w.roleOf c = some k := by
  unfold World.roleOf
  rw [h]
  simp only [hr]

theorem role_of_roleOf {w : World} {c k : Nat} (h : w.roleOf c = some k) :
    ∃ surf, w.surfaces c = some surf ∧ surf.role = some (RolePtr.subsurface k) := by
  unfold World.roleOf at h
  cases hc : w.surfaces c with
  | none => rw [hc] at h; simp at h
  | some surf =>
    rw [hc] at h
    refine ⟨surf, rfl, ?_⟩
    simp only [] at h
    cases hr : surf.role with
    | none => simp [hr] at h
    | some r =>
      cases r with
      | other => simp [hr] at h
      | subsurface j =>
        simp only [hr, Option.some.injEq] at h
        rw [h]

/-- The invariants survive the detaching of an attached subsurface: its role
pointer is cleared, its surface leaves the list of its parent, and it is
gone or has no surface. -/
theorem detach_preserves {w w' : World} (S s p : Nat) (a : Subsurface)
    (hS : w.subsurfaces S = some a) (hs : a.surface = some s) (hp : a.parent = some p)
    (hsurf : ∀ j, (w'.surfaces j).map Surface.links
      = (w.surfaces j).map (fun x =>
          (x.role_type, (if j = s then none else x.role),
            (if j = p then x.subsurfaces.filter (fun c => c ≠ s) else x.subsurfaces))))
    (hsub : ∀ j, j ≠ S → (w'.subsurfaces j).map Subsurface.links
      = (w.subsurfaces j).map Subsurface.links)
    (hgone : ∀ b, w'.subsurfaces S = some b → b.surface = none)
    (hl : WellLinked w) (hh : SyncHeld w) : WellLinked w' ∧ SyncHeld w' := by
  obtain ⟨h1, h2⟩ := hl
  obtain ⟨ssurf, -, -, hssurf, hsrole, -, -, -, -⟩ := h1 S s a hS hs
  -- an attached subsurface of the new world is an attached one of the old, not `S`
  have hold : ∀ {k c : Nat} {a' : Subsurface}, w'.subsurfaces k = some a' →
      a'.surface = some c →
      k ≠ S ∧ c ≠ s ∧ ∃ b, w.subsurfaces k = some b ∧ b.surface = some c
        ∧ b.parent = a'.parent ∧ b.synchronous = a'.synchronous := by
    intro k c a' hk hc
    have hkS : k ≠ S := by
      intro e
      subst e
      rw [hgone a' hk] at hc
      cases hc
    obtain ⟨b, hb, e⟩ := lookup_of_map_eq (hsub k hkS) hk
    simp only [Subsurface.links, Prod.mk.injEq] at e
    have hbc : b.surface = some c := by rw [← e.1, hc]
    refine ⟨hkS, ?_, b, hb, hbc, e.2.1.symm, e.2.2.symm⟩
    intro ecs
    subst ecs
    obtain ⟨surf, -, -, g1, g2, -⟩ := h1 k c b hb hbc
    rw [hssurf] at g1
    cases g1
    rw [hsrole] at g2
    cases g2
    exact hkS rfl
  -- surfaces of the old world are there in the new
  have hnew : ∀ {j : Nat} {x : Surface}, w.surfaces j = some x →
      ∃ x', w'.surfaces j = some x' ∧ x'.role_type = x.role_type
        ∧ x'.role = (if j = s then none else x.role)
        ∧ x'.subsurfaces
            = (if j = p then x.subsurfaces.filter (fun c => c ≠ s) else x.subsurfaces) := by
    intro j x hx
    obtain ⟨x', hx', e⟩ := lookup_of_map_eq (hsurf j).symm hx
    simp only [Surface.links, Prod.mk.injEq] at e
    exact ⟨x', hx', e.1.symm, e.2.1.symm, e.2.2.symm⟩
  refine ⟨⟨?_, ?_⟩, ?_⟩
  · intro k c a' hk hc
    obtain ⟨-, hcs, b, hb, hbc, hbp, -⟩ := hold hk hc
    obtain ⟨surf, q, qsurf, g1, g2, g3, g4, g5, g6⟩ := h1 k c b hb hbc
    obtain ⟨surf', hs', e1, e2, -⟩ := hnew g1
    obtain ⟨qsurf', hq', -, -, e3⟩ := hnew g5
    refine ⟨surf', q, qsurf', hs', ?_, by rw [e1, g3], by rw [← hbp, g4], hq', ?_⟩
    · rw [e2, if_neg hcs, g2]
    · rw [e3]
      split
      · exact List.mem_filter.mpr ⟨g6, by simpa using hcs⟩
      · exact g6
  · intro q c qsurf' hq hc
    obtain ⟨qsurf, hqs, e⟩ := lookup_of_map_eq (hsurf q) hq
    simp only [Surface.links, Prod.mk.injEq] at e
    have hcold : c ∈ qsurf.subsurfaces ∧ (q = p → c ≠ s) := by
      rw [e.2.2] at hc
      by_cases hqp : q = p
      · rw [if_pos hqp] at hc
        have := List.mem_filter.mp hc
        exact ⟨this.1, fun _ => by simpa using this.2⟩
      · rw [if_neg hqp] at hc
        exact ⟨hc, fun h => absurd h hqp⟩
    obtain ⟨ck, child, g1, g2, g3, g4⟩ := h2 q c qsurf hqs hcold.1
    have hcs : c ≠ s := by
      intro ecs
      subst ecs
      have hr := roleOf_of_role hssurf hsrole
      rw [hr] at g1
      cases g1
      rw [hS] at g2
      cases g2
      rw [hp] at g4
      cases g4
      exact hcold.2 rfl rfl
    have hckS : ck ≠ S := by
      intro e'
      subst e'
      rw [hS] at g2
      cases g2
      rw [hs] at g3
      cases g3
      exact hcs rfl
    obtain ⟨csurf, hcsurf, hcrole⟩ := role_of_roleOf g1
    obtain ⟨csurf', hcsurf', -, e2, -⟩ := hnew hcsurf
    obtain ⟨child', hchild', e'⟩ := lookup_of_map_eq (hsub ck hckS).symm g2
    simp only [Subsurface.links, Prod.mk.injEq] at e'
    exact ⟨ck, child', roleOf_of_role hcsurf' (by rw [e2, if_neg hcs, hcrole]), hchild',
      by rw [← e'.1, g3], by rw [← e'.2.1, g4]⟩
  · intro k c q t a' ta' qsurf' hk hc hq hqs hrole ht hts htsync
    obtain ⟨-, -, b, hb, hbc, hbp, hbs⟩ := hold hk hc
    obtain ⟨-, hqs', tb, htb, htbs, -, htbsync⟩ := hold ht hts
    obtain ⟨qsurf, hqsurf, e⟩ := lookup_of_map_eq (hsurf q) hqs
    simp only [Surface.links, Prod.mk.injEq] at e
    rw [if_neg hqs'] at e
    rw [← hbs]
    exact hh k c q t b tb qsurf hb hbc (by rw [hbp, hq]) hqsurf (by rw [← e.2.1, hrole]) htb htbs
      (by rw [htbsync, htsync])

end Sub

namespace Sub

/-- The invariants survive the attaching of a new synchronous subsurface to a
surface without a role whose attached children are all synchronous: the
surface gets the role and enters the list of the parent. -/
theorem attach_preserves {w w' : World} (address surface parent : Nat) (ssurf psurf : Surface)
    (hfresh : w.subsurfaces address = none) (hsurface : w.surfaces surface = some ssurf)
    (hnorole : ssurf.role = none) (hparent : w.surfaces parent = some psurf)
    (hsurf : ∀ j, (w'.surfaces j).map Surface.links
      = (w.surfaces j).map (fun x =>
          ((if j = surface then RoleType.SubsurfaceType else x.role_type),
            (if j = surface then some (RolePtr.subsurface address) else x.role),
            (if j = parent then surface :: x.subsurfaces else x.subsurfaces))))
    (hsub : ∀ j, j ≠ address → (w'.subsurfaces j).map Subsurface.links
      = (w.subsurfaces j).map Subsurface.links)
    (hnew : (w'.subsurfaces address).map Subsurface.links
      = some (some surface, some parent, true))
    (hchildren : ∀ (k c : Nat) (a : Subsurface), w.subsurfaces k = some a →
      a.surface = some c → a.parent = some surface → a.synchronous = true)
    (hl : WellLinked w) (hh : SyncHeld w) : WellLinked w' ∧ SyncHeld w' := by
  obtain ⟨h1, h2⟩ := hl
  -- a subsurface of the new world is the new one or an old one
  have hold : ∀ {k : Nat} {a' : Subsurface}, w'.subsurfaces k = some a' → k ≠ address →
      ∃ b, w.subsurfaces k = some b ∧ b.surface = a'.surface
        ∧ b.parent = a'.parent ∧ b.synchronous = a'.synchronous := by
    intro k a' hk hka
    obtain ⟨b, hb, e⟩ := lookup_of_map_eq (hsub k hka) hk
    simp only [Subsurface.links, Prod.mk.injEq] at e
    exact ⟨b, hb, e.1.symm, e.2.1.symm, e.2.2.symm⟩
  have hthe : ∀ {a' : Subsurface}, w'.subsurfaces address = some a' →
      a'.surface = some surface ∧ a'.parent = some parent ∧ a'.synchronous = true := by
    intro a' ha'
    rw [ha'] at hnew
    simp only [Option.map_some', Subsurface.links, Option.some.injEq, Prod.mk.injEq] at hnew
    exact hnew
  have hsurfaces : ∀ {j : Nat} {x : Surface}, w.surfaces j = some x →
      ∃ x', w'.surfaces j = some x'
        ∧ x'.role_type = (if j = surface then RoleType.SubsurfaceType else x.role_type)
        ∧ x'.role = (if j = surface then some (RolePtr.subsurface address) else x.role)
        ∧ x'.subsurfaces = (if j = parent then surface :: x.subsurfaces else x.subsurfaces) := by
    intro j x hx
    obtain ⟨x', hx', e⟩ := lookup_of_map_eq (hsurf j).symm hx
    simp only [Surface.links, Prod.mk.injEq] at e
    exact ⟨x', hx', e.1.symm, e.2.1.symm, e.2.2.symm⟩
  -- a surface with a role in the old world is not the one that gets the new role
  have hother : ∀ {c : Nat} {x : Surface} {r : RolePtr}, w.surfaces c = some x →
      x.role = some r → c ≠ surface := by
    intro c x r hx hr e
    subst e
    rw [hsurface] at hx
    cases hx
    rw [hnorole] at hr
    cases hr
  obtain ⟨ssurf', hssurf', es1, es2, -⟩ := hsurfaces hsurface
  obtain ⟨psurf', hpsurf', -, -, ep3⟩ := hsurfaces hparent
  rw [if_pos rfl] at es1 es2 ep3
  refine ⟨⟨?_, ?_⟩, ?_⟩
  · intro k c a' hk hc
    by_cases hka : k = address
    · subst hka
      obtain ⟨e1, e2, -⟩ := hthe hk
      rw [e1] at hc
      cases hc
      exact ⟨ssurf', parent, psurf', hssurf', es2, es1, e2, hpsurf',
        by rw [ep3]; exact List.mem_cons_self _ _⟩
    · obtain ⟨b, hb, e1, e2, -⟩ := hold hk hka
      obtain ⟨surf, q, qsurf, g1, g2, g3, g4, g5, g6⟩ := h1 k c b hb (by rw [e1, hc])
      have hcs := hother g1 g2
      obtain ⟨surf', hs', f1, f2, -⟩ := hsurfaces g1
      obtain ⟨qsurf', hq', -, -, f3⟩ := hsurfaces g5
      rw [if_neg hcs] at f1 f2
      refine ⟨surf', q, qsurf', hs', by rw [f2, g2], by rw [f1, g3], by rw [← e2, g4], hq', ?_⟩
      rw [f3]
      split
      · exact List.mem_cons_of_mem _ g6
      · exact g6
  · intro q c qsurf' hq hc
    obtain ⟨qsurf, hqs, e⟩ := lookup_of_map_eq (hsurf q) hq
    simp only [Surface.links, Prod.mk.injEq] at e
    have hcases : (c = surface ∧ q = parent) ∨ c ∈ qsurf.subsurfaces := by
      rw [e.2.2] at hc
      by_cases hqp : q = parent
      · rw [if_pos hqp] at hc
        rcases List.mem_cons.mp hc with h | h
        · exact Or.inl ⟨h, hqp⟩
        · exact Or.inr h
      · rw [if_neg hqp] at hc
        exact Or.inr hc
    rcases hcases with ⟨rfl, rfl⟩ | hcold
    · cases hnew' : w'.subsurfaces address with
      | none => rw [hnew'] at hnew; simp at hnew
      | some a' =>
        obtain ⟨e1, e2, -⟩ := hthe hnew'
        exact ⟨address, a', roleOf_of_role hssurf' es2, hnew', e1, e2⟩
    · obtain ⟨ck, child, g1, g2, g3, g4⟩ := h2 q c qsurf hqs hcold
      obtain ⟨csurf, hcsurf, hcrole⟩ := role_of_roleOf g1
      have hcs := hother hcsurf hcrole
      obtain ⟨csurf', hcsurf', -, f2, -⟩ := hsurfaces hcsurf
      rw [if_neg hcs] at f2
      have hcka : ck ≠ address := by
        intro e'
        subst e'
        rw [hfresh] at g2
        cases g2
      obtain ⟨child', hchild', e'⟩ := lookup_of_map_eq (hsub ck hcka).symm g2
      simp only [Subsurface.links, Prod.mk.injEq] at e'
      exact ⟨ck, child', roleOf_of_role hcsurf' (by rw [f2, hcrole]), hchild',
        by rw [← e'.1, g3], by rw [← e'.2.1, g4]⟩
  · intro k c q t a' ta' qsurf' hk hc hq hqs hrole ht hts htsync
    by_cases hka : k = address
    · subst hka
      exact (hthe hk).2.2
    · obtain ⟨b, hb, e1, e2, e3⟩ := hold hk hka
      rw [← e3]
      obtain ⟨qsurf, hqsurf, e⟩ := lookup_of_map_eq (hsurf q) hqs
      simp only [Surface.links, Prod.mk.injEq] at e
      by_cases hqs' : q = surface
      · subst hqs'
        exact hchildren k c b hb (by rw [e1, hc]) (by rw [e2, hq])
      · simp only [if_neg hqs'] at e
        have hta : t ≠ address := by
          intro e'
          subst e'
          have := (hthe ht).1
          rw [hts] at this
          cases this
          exact hqs' rfl
        obtain ⟨tb, htb, f1, -, f3⟩ := hold ht hta
        exact hh k c q t b tb qsurf hb (by rw [e1, hc]) (by rw [e2, hq]) hqsurf
          (by rw [← e.2.1, hrole]) htb (by rw [f1, hts]) (by rw [f3, htsync])

end Sub

namespace Sub

/-- The invariants read the links only. -/
theorem preserved_of_links {w w' : World}
    (hsurf : ∀ j, (w'.surfaces j).map Surface.links = (w.surfaces j).map Surface.links)
    (hsub : ∀ j, (w'.subsurfaces j).map Subsurface.links
      = (w.subsurfaces j).map Subsurface.links)
    (hl : WellLinked w) (hh : SyncHeld w) : WellLinked w' ∧ SyncHeld w' := by
  have hV : ∀ j, False → (w'.subsurfaces j).map Subsurface.links
      = (w.subsurfaces j).map (fun a => (a.surface, a.parent, true)) := fun _ h => h.elim
  exact ⟨WellLinked_congr hsurf (links_of_resync (fun _ => False) hV (fun j _ => hsub j)) hl,
    SyncHeld_resync_true (fun _ => False) hsurf hV (fun j _ => hsub j)
      (fun _ _ _ _ _ _ h => h.elim) hh⟩

/-- A store into a subsurface that keeps its links keeps all links. -/
theorem links_store (w : World) (k : Nat) (a b : Subsurface) (hk : w.subsurfaces k = some a)
    (hb : b.links = a.links) (j : Nat) :
    ((w.setSubsurface k b).subsurfaces j).map Subsurface.links
      = (w.subsurfaces j).map Subsurface.links := by
  by_cases hj : j = k
  · subst hj; simp [hk, hb]
  · simp [hj]

theorem EarlyCommit_preserves {w w' : World} {surface k : Nat} {applied : Bool}
    (h : EarlyCommit w surface k = some (w', applied)) (hl : WellLinked w)
    (hh : SyncHeld w) : WellLinked w' ∧ SyncHeld w' := by
  unfold EarlyCommit at h
  cases hk : w.subsurfaces k with
  | none => rw [hk] at h; simp at h
  | some a =>
    rw [hk] at h
    simp only [] at h
    split at h
    · simp only [Option.some.injEq, Prod.mk.injEq] at h
      rw [← h.1]
      exact @preserved_of_links w _ (fun _ => rfl) (links_store w k a _ hk rfl) hl hh
    · split at h
      · simp only [Option.some.injEq, Prod.mk.injEq] at h
        rw [← h.1]
        exact @preserved_of_links w _ (fun _ => rfl)
          (links_store (w.call (Call.XLSurfaceMergeCachedState surface)) k a _ hk rfl) hl hh
      · simp only [Option.some.injEq, Prod.mk.injEq] at h
        rw [← h.1]
        exact ⟨hl, hh⟩

theorem AfterParentCommit_preserves {w w' : World} {surface k : Nat}
    (h : AfterParentCommit w surface k = some w') (hl : WellLinked w) (hh : SyncHeld w) :
    WellLinked w' ∧ SyncHeld w' := by
  cases hk : w.subsurfaces k with
  | none => unfold AfterParentCommit at h; rw [hk] at h; simp at h
  | some a =>
    cases hs : a.surface with
    | none =>
      unfold AfterParentCommit at h
      simp only [hk, hs, Option.some.injEq] at h
      rw [← h]
      exact ⟨hl, hh⟩
    | some own =>
      obtain ⟨-, p, psurf, -, -, -, hp, hps, -⟩ := hl.1 k own a hk hs
      obtain ⟨w'', h', hsub, -, -, -, hother, hsurf⟩ :=
        AfterParentCommit_attached w surface k own a hk hs (fun _ => ⟨p, psurf, hp, hps⟩)
      rw [h] at h'
      cases h'
      refine preserved_of_links (fun j => by rw [hsurf]) (fun j => ?_) hl hh
      by_cases hj : j = k
      · subst hj
        rw [hsub, hk]
        rfl
      · rw [hother j hj]

theorem addSurface_preserves {w : World} {s : Nat} (hs : w.surfaces s = none)
    (hl : WellLinked w) (hh : SyncHeld w) :
    WellLinked (addSurface w s) ∧ SyncHeld (addSurface w s) := by
  have hold : ∀ {j : Nat} {x : Surface}, w.surfaces j = some x →
      (addSurface w s).surfaces j = some x := by
    intro j x hx
    have hj : j ≠ s := fun e => by rw [e, hs] at hx; cases hx
    simp [addSurface, hj, hx]
  have hback : ∀ {j : Nat} {x : Surface}, (addSurface w s).surfaces j = some x →
      w.surfaces j = some x ∨ (j = s ∧ x = {}) := by
    intro j x hx
    by_cases hj : j = s
    · subst hj
      simp [addSurface] at hx
      exact Or.inr ⟨rfl, hx.symm⟩
    · simp [addSurface, hj] at hx
      exact Or.inl hx
  obtain ⟨h1, h2⟩ := hl
  refine ⟨⟨?_, ?_⟩, ?_⟩
  · intro k c a hk hc
    obtain ⟨surf, p, psurf, g1, g2, g3, g4, g5, g6⟩ := h1 k c a hk hc
    exact ⟨surf, p, psurf, hold g1, g2, g3, g4, hold g5, g6⟩
  · intro p c psurf hp hc
    rcases hback hp with hp' | ⟨-, rfl⟩
    · obtain ⟨ck, child, g1, g2, g3, g4⟩ := h2 p c psurf hp' hc
      obtain ⟨csurf, hcs, hcr⟩ := role_of_roleOf g1
      exact ⟨ck, child, roleOf_of_role (hold hcs) hcr, g2, g3, g4⟩
    · cases hc
  · intro k c p t a ta psurf hk hc hp hps hrole ht hts htsync
    rcases hback hps with hps' | ⟨-, rfl⟩
    · exact hh k c p t a ta psurf hk hc hp hps' hrole ht hts htsync
    · cases hrole

end Sub

namespace Sub

/-- The links after a change of `synchronous`, told over a world that has the
same links as the one the change started in. -/
theorem Resynced_links {value : Bool} {V : Nat → Prop} {w0 w w' : World}
    (h : Resynced value V w w')
    (hsurf0 : ∀ j, (w.surfaces j).map Surface.links = (w0.surfaces j).map Surface.links)
    (hsub0 : ∀ j, (w.subsurfaces j).map Subsurface.links
      = (w0.subsurfaces j).map Subsurface.links) :
    (∀ j, (w'.surfaces j).map Surface.links = (w0.surfaces j).map Surface.links)
    ∧ (∀ j, V j → (w'.subsurfaces j).map Subsurface.links
        = (w0.subsurfaces j).map (fun a => (a.surface, a.parent, value)))
    ∧ (∀ j, ¬ V j → (w'.subsurfaces j).map Subsurface.links
        = (w0.subsurfaces j).map Subsurface.links) := by
  obtain ⟨h1, -, -, -, -, h6⟩ := h
  refine ⟨fun j => by rw [h1]; exact hsurf0 j, fun j hj => ?_, fun j hj => ?_⟩
  · rw [(h6 j).1 hj]
    have := congrArg
      (Option.map fun x : Option Nat × Option Nat × Bool => (x.1, x.2.1, value)) (hsub0 j)
    simpa [Option.map_map, Function.comp_def, Subsurface.links] using this
  · rw [(h6 j).2 hj]
    exact hsub0 j

/-- What a walk through all children reaches holds, with an attached
subsurface, the attached children of its surface.  The walk may run in a
world `v` that has more than `w` has. -/
theorem Reach_children_closed {v w : World} {r : Nat} (hl : WellLinked w)
    (hsubs : ∀ (j : Nat) (a : Subsurface), w.subsurfaces j = some a →
      ∃ a', v.subsurfaces j = some a' ∧ a'.surface = a.surface)
    (hsurfs : ∀ (p : Nat) (psurf : Surface), w.surfaces p = some psurf →
      ∃ psurf', v.surfaces p = some psurf' ∧ ∀ c ∈ psurf.subsurfaces, c ∈ psurf'.subsurfaces)
    (hroles : ∀ (c k : Nat), w.roleOf c = some k → v.roleOf c = some k)
    (t p c k : Nat) (ta a : Subsurface) (hr : Reach (fun _ => true) v r t)
    (ht : w.subsurfaces t = some ta) (hts : ta.surface = some p)
    (hk : w.subsurfaces k = some a) (hc : a.surface = some c) (hp : a.parent = some p) :
    Reach (fun _ => true) v r k := by
  obtain ⟨surf, p', psurf, g1, g2, -, g4, g5, g6⟩ := hl.1 k c a hk hc
  rw [hp] at g4
  cases g4
  obtain ⟨ta', hta', e1⟩ := hsubs t ta ht
  obtain ⟨a', ha', -⟩ := hsubs k a hk
  obtain ⟨psurf', hps', hmem⟩ := hsurfs p psurf g5
  exact Reach_snoc hr hta' (by rw [e1, hts]) hps' (hmem c g6)
    (hroles c k (roleOf_of_role g1 g2)) ha' rfl

theorem SetSync_preserves {w w' : World} {fuel S : Nat} (h : SetSync fuel w S = some w')
    (hl : WellLinked w) (hh : SyncHeld w) : WellLinked w' ∧ SyncHeld w' := by
  unfold SetSync at h
  cases hS : w.subsurfaces S with
  | none => rw [hS] at h; simp at h
  | some a =>
    rw [hS] at h
    simp only [] at h
    rw [SetSync1_eq_walk] at h
    have hr := @walk_resynced true (fun _ => true) false (fun _ _ => rfl) fuel _ w' S h
    have hpre := links_store w S a { a with should_be_desync := false } hS rfl
    obtain ⟨hsurf, hV, hN⟩ := @Resynced_links true _ w _ w' hr (fun _ => rfl) hpre
    have hclosed := Reach_children_closed
      (v := w.setSubsurface S { a with should_be_desync := false }) (r := S) hl
      (fun j b hb => by
        by_cases hj : j = S
        · rw [hj] at hb ⊢
          rw [hS] at hb
          cases hb
          exact ⟨{ a with should_be_desync := false }, by simp, rfl⟩
        · exact ⟨b, by simp [hj, hb], rfl⟩)
      (fun p psurf hp => ⟨psurf, hp, fun _ hc => hc⟩)
      (fun c k hck => (roleOf_congr (w := w) rfl c).trans hck)
    exact ⟨WellLinked_congr hsurf (links_of_resync _ hV hN) hl,
      SyncHeld_resync_true _ hsurf hV hN
        (fun t p c k ta b hVt ht hts hk hc hp => hclosed t p c k ta b hVt ht hts hk hc hp) hh⟩

end Sub

namespace Sub

/-- Who is reached by a walk, other than its start, has as the role of its
parent surface one that is reached too.  The walk may run in a world `v` whose
subsurfaces differ from those of `w` in fields other than `surface`. -/
theorem Reach_parent_role {v w : World} {want : Subsurface → Bool} {r k : Nat}
    (hl : WellLinked w) (hsurf : v.surfaces = w.surfaces)
    (hsubs : ∀ (j : Nat) (a' : Subsurface), v.subsurfaces j = some a' →
      ∃ a, w.subsurfaces j = some a ∧ a.surface = a'.surface)
    (hr : Reach want v r k) (hk : k ≠ r) (p t : Nat) (a : Subsurface) (psurf : Surface)
    (ha : w.subsurfaces k = some a) (hp : a.parent = some p)
    (hps : w.surfaces p = some psurf) (hrole : psurf.role = some (RolePtr.subsurface t)) :
    Reach want v r t := by
  rcases Reach_last hr with e | ⟨x, xs, c, xa', child, xsurf, g0, g1, g2, g3, g4, g5, -, -⟩
  · exact absurd e hk
  · obtain ⟨xa, hxa, exa⟩ := hsubs x xa' g1
    rw [hsurf] at g3
    rw [roleOf_congr hsurf] at g5
    obtain ⟨ck, child', f1, f2, f3, f4⟩ := hl.2 xs c xsurf g3 g4
    rw [g5] at f1
    cases f1
    rw [ha] at f2
    cases f2
    rw [hp] at f4
    cases f4
    obtain ⟨surf, -, -, e1, e2, -⟩ := hl.1 x p xa hxa (by rw [exa, g2])
    rw [hps] at e1
    cases e1
    rw [hrole] at e2
    cases e2
    exact g0

/-- `NoteSubsurfaceDesynchronous` on a subsurface without a surface does not
look at `apply_state`. -/
theorem NoteSubsurfaceDesynchronous_detached (fuel : Nat) (w : World) (S : Nat)
    (a : Subsurface) (hS : w.subsurfaces S = some a) (hs : a.surface = none) :
    NoteSubsurfaceDesynchronous fuel w S true = NoteSubsurfaceDesynchronous fuel w S false := by
  cases fuel with
  | zero => rfl
  | succ n =>
    unfold NoteSubsurfaceDesynchronous
    simp only [hS, hs]

/-- `SetDesync` when the parent is not synchronous is a walk that starts in a
world with the links of the one the request was made in. -/
theorem SetDesync_as_walk {w w' : World} {fuel S : Nat} {a : Subsurface}
    (h : NoteSubsurfaceDesynchronous fuel
      (w.setSubsurface S { a with should_be_desync := true }) S true = some w') :
    ∃ v b, walk false (fun c => c.should_be_desync) false fuel v S = some w'
      ∧ v.surfaces = w.surfaces ∧ (∀ j, j ≠ S → v.subsurfaces j = w.subsurfaces j)
      ∧ v.subsurfaces S = some b ∧ b.links = a.links := by
  cases hs : a.surface with
  | none =>
    rw [NoteSubsurfaceDesynchronous_detached fuel _ S { a with should_be_desync := true }
      (by simp) hs, NoteSubsurfaceDesynchronous_eq_walk] at h
    exact ⟨_, { a with should_be_desync := true }, h, rfl, fun j hj => by simp [hj], by simp,
      rfl⟩
  | some s =>
    rw [NoteSubsurfaceDesynchronous_apply fuel _ S s { a with should_be_desync := true }
      (by simp) hs, NoteSubsurfaceDesynchronous_eq_walk] at h
    by_cases hpc : a.pending_commit = true
    · simp only [if_pos hpc] at h
      exact ⟨_, { a with should_be_desync := true, pending_commit := false }, h, rfl,
        fun j hj => by simp [hj], by simp, rfl⟩
    · simp only [if_neg hpc] at h
      exact ⟨_, { a with should_be_desync := true }, h, rfl, fun j hj => by simp [hj], by simp,
        rfl⟩

end Sub

namespace Sub

theorem SetDesync_preserves {w w' : World} {fuel S : Nat} (h : SetDesync fuel w S = some w')
    (hl : WellLinked w) (hh : SyncHeld w) : WellLinked w' ∧ SyncHeld w' := by
  unfold SetDesync at h
  cases hS : w.subsurfaces S with
  | none => rw [hS] at h; simp at h
  | some a =>
    rw [hS] at h
    simp only [] at h
    rw [IsParentSynchronous_store w S a { a with should_be_desync := true } hS rfl rfl] at h
    cases hpar : IsParentSynchronous w S with
    | none => rw [hpar] at h; simp at h
    | some held =>
      rw [hpar] at h
      cases held with
      | true =>
        simp only [Option.some.injEq] at h
        rw [← h]
        exact @preserved_of_links w _ (fun _ => rfl) (links_store w S a _ hS rfl) hl hh
      | false =>
        simp only [] at h
        obtain ⟨v, b, hwalk, hvs, hvo, hvS, hvl⟩ := SetDesync_as_walk h
        have hr := @walk_resynced false (fun c => c.should_be_desync) false (fun _ _ => rfl)
          fuel v w' S hwalk
        have hpre : ∀ j, (v.subsurfaces j).map Subsurface.links
            = (w.subsurfaces j).map Subsurface.links := by
          intro j
          by_cases hj : j = S
          · rw [hj, hvS, hS]
            simp [hvl]
          · rw [hvo j hj]
        obtain ⟨hsurf, hV, hN⟩ := @Resynced_links false _ w v w' hr (fun j => by rw [hvs]) hpre
        have hsubs : ∀ (j : Nat) (a' : Subsurface), v.subsurfaces j = some a' →
            ∃ a0, w.subsurfaces j = some a0 ∧ a0.surface = a'.surface := by
          intro j a' ha'
          obtain ⟨a0, ha0, e⟩ := lookup_of_map_eq (hpre j) ha'
          simp only [Subsurface.links, Prod.mk.injEq] at e
          exact ⟨a0, ha0, e.1.symm⟩
        refine ⟨WellLinked_congr hsurf (links_of_resync _ hV hN) hl,
          SyncHeld_resync_false _ hsurf hV hN ?_ hh⟩
        intro k s p t a0 ta psurf hVk hk hs hp hps hrole ht hts
        by_cases hkS : k = S
        · right
          subst hkS
          rw [hS] at hk
          cases hk
          obtain ⟨surf, p', psurf', e1, -, e3, -, -, -⟩ := hl.1 t p ta ht hts
          rw [hps] at e1
          cases e1
          unfold IsParentSynchronous at hpar
          simp only [hS, hp, hps, e3, ne_eq, not_true_eq_false, if_false, hrole, ht,
            Option.some.injEq] at hpar
          exact hpar
        · left
          exact Reach_parent_role hl hvs hsubs hVk hkS p t a0 psurf hk hp hps hrole

end Sub

namespace Sub

/-- What the release of the role of an attached subsurface leaves: the role
pointer of its surface is cleared, the surface is out of the list of the
parent, the subsurface is gone or has no surface, and the other subsurfaces
are as the walk of `NoteSubsurfaceTeardown` leaves them. -/
theorem XLSurfaceReleaseRole_links {w w' : World} {fuel s S p : Nat} {a : Subsurface}
    {psurf : Surface} (h : XLSurfaceReleaseRole fuel w s S = some w')
    (hS : w.subsurfaces S = some a) (hp : a.parent = some p)
    (hps : w.surfaces p = some psurf) :
    (∀ j, (w'.surfaces j).map Surface.links
      = (w.surfaces j).map (fun x =>
          (x.role_type, (if j = s then none else x.role),
            (if j = p then x.subsurfaces.filter (fun c => c ≠ s) else x.subsurfaces))))
    ∧ (∀ j, j ≠ S → DesyncChain w S j →
        w'.subsurfaces j = (w.subsurfaces j).map fun c => { c with synchronous := false })
    ∧ (∀ j, j ≠ S → ¬ DesyncChain w S j → w'.subsurfaces j = w.subsurfaces j)
    ∧ (∀ b, w'.subsurfaces S = some b → b.surface = none) := by
  unfold XLSurfaceReleaseRole at h
  cases hT : Teardown fuel w s S with
  | none => rw [hT] at h; simp at h
  | some wt =>
    rw [hT] at h
    simp only [] at h
    unfold Teardown at hT
    cases hN : NoteSubsurfaceTeardown fuel w S with
    | none => rw [hN] at hT; simp at hT
    | some w1 =>
      rw [hN] at hT
      simp only [] at hT
      rw [NoteSubsurfaceTeardown_eq_walk] at hN
      obtain ⟨r1, -, -, -, -, r6⟩ :=
        @walk_resynced false (fun c => c.should_be_desync) true (fun _ _ => rfl) fuel w w1 S hN
      have h1S : w1.subsurfaces S = some { a with synchronous := false } := by
        rw [(r6 S).1 (Reach.refl S), hS]
        rfl
      rw [h1S] at hT
      simp only [hp] at hT
      obtain ⟨w3, added, h3, h3b, -, -, h3l⟩ :=
        teardownFromParent_frame
          (w1.setSubsurface S { a with synchronous := false, surface := none })
          s S p a.pending { a with synchronous := false, surface := none } psurf (by simp) hp
          (by simp [r1, hps])
      simp only [hp] at h3
      rw [h3] at hT
      simp only [] at hT
      obtain ⟨w4, h4, h4b, h4s, -, h4g⟩ :=
        DestroyBacking_frame w3 S { a with synchronous := false, surface := none }
          (by rw [h3b]; simp)
      rw [h4] at hT
      simp only [Option.some.injEq] at hT
      have hts : wt.surfaces = w3.surfaces := by rw [← hT]; exact h4s
      have htb : wt.subsurfaces = w4.subsurfaces := by rw [← hT]; rfl
      have h3l' : ∀ j, (wt.surfaces j).map Surface.links
          = (w.surfaces j).map (fun x =>
              (x.role_type, x.role,
                (if j = p then x.subsurfaces.filter (fun c => c ≠ s) else x.subsurfaces))) := by
        intro j
        rw [hts, h3l j]
        simp [r1]
      cases hst : wt.surfaces s with
      | none => rw [hst] at h; simp at h
      | some st =>
        rw [hst] at h
        simp only [Option.some.injEq] at h
        have hother : ∀ j, j ≠ S → w'.subsurfaces j = w1.subsurfaces j := by
          intro j hj
          rw [← h]
          simp only [setSurface_subsurfaces, htb, h4b j hj, h3b, setSubsurface_subsurfaces,
            if_neg hj]
        refine ⟨fun j => ?_, fun j hj hd => ?_, fun j hj hd => ?_, fun b hb => ?_⟩
        · by_cases hj : j = s
          · subst hj
            have := h3l' j
            rw [hst] at this
            rw [← h]
            simp only [setSurface_surfaces, if_true, Option.map_some']
            cases hw : w.surfaces j with
            | none => rw [hw] at this; simp at this
            | some x =>
              rw [hw] at this
              simp only [Option.map_some', Option.some.injEq, Surface.links,
                Prod.mk.injEq] at this ⊢
              exact ⟨this.1, trivial, this.2.2⟩
          · rw [← h]
            simp only [setSurface_surfaces, if_neg hj]
            exact h3l' j
        · rw [hother j hj, (r6 j).1 hd]
        · rw [hother j hj, (r6 j).2 hd]
        · rw [← h] at hb
          simp only [setSurface_subsurfaces, htb] at hb
          exact h4g b hb

end Sub

namespace Sub

theorem XLSurfaceReleaseRole_preserves {w w' : World} {fuel s S : Nat} {a : Subsurface}
    (h : XLSurfaceReleaseRole fuel w s S = some w') (hS : w.subsurfaces S = some a)
    (hs : a.surface = some s) (hl : WellLinked w) (hh : SyncHeld w) :
    WellLinked w' ∧ SyncHeld w' := by
  obtain ⟨ssurf, p, psurf, -, -, -, hp, hps, -⟩ := hl.1 S s a hS hs
  obtain ⟨hsurf, hchain, hrest, hgone⟩ := XLSurfaceReleaseRole_links h hS hp hps
  -- through the world `wd` with the subsurface detached and no flag changed yet
  have key : ∀ wd : World, wd.surfaces = w'.surfaces →
      (∀ j, wd.subsurfaces j = if j = S then w'.subsurfaces S else w.subsurfaces j) →
      WellLinked w' ∧ SyncHeld w' := by
    intro wd hds hdb
    obtain ⟨hdl, hdh⟩ :=
      @detach_preserves w wd S s p a hS hs hp (fun j => by rw [hds]; exact hsurf j)
        (fun j hj => by rw [hdb, if_neg hj])
        (fun b hb => hgone b (by rw [hdb, if_pos rfl] at hb; exact hb)) hl hh
    have hV : ∀ j, (DesyncChain w S j ∧ j ≠ S) →
        (w'.subsurfaces j).map Subsurface.links
          = (wd.subsurfaces j).map (fun a => (a.surface, a.parent, false)) := by
      intro j hj
      rw [hdb, if_neg hj.2, hchain j hj.2 hj.1]
      cases w.subsurfaces j <;> rfl
    have hN : ∀ j, ¬ (DesyncChain w S j ∧ j ≠ S) →
        (w'.subsurfaces j).map Subsurface.links
          = (wd.subsurfaces j).map Subsurface.links := by
      intro j hj
      rw [hdb]
      by_cases hjS : j = S
      · rw [if_pos hjS, hjS]
      · rw [if_neg hjS, hrest j hjS (fun hd => hj ⟨hd, hjS⟩)]
    have hsf : ∀ j, (w'.surfaces j).map Surface.links = (wd.surfaces j).map Surface.links :=
      fun j => by rw [hds]
    refine ⟨@WellLinked_congr wd w' hsf
        (links_of_resync (fun j => DesyncChain w S j ∧ j ≠ S) hV hN) hdl,
      @SyncHeld_resync_false wd w' (fun j => DesyncChain w S j ∧ j ≠ S) hsf hV hN ?_ hdh⟩
    intro k c q t a0 ta qsurf hVk hk hc hq hqs hrole ht hts
    left
    rw [hdb, if_neg hVk.2] at hk
    have htS : t ≠ S := by
      intro e
      rw [hdb, if_pos e] at ht
      rw [hgone ta ht] at hts
      cases hts
    rw [hds] at hqs
    obtain ⟨qsurf0, hq0, e⟩ := lookup_of_map_eq (hsurf q) hqs
    simp only [Surface.links, Prod.mk.injEq] at e
    have hqs' : q ≠ s := by
      intro e'
      rw [if_pos e', hrole] at e
      cases e.2.1
    rw [if_neg hqs', hrole] at e
    exact ⟨Reach_parent_role hl rfl (fun j a' ha' => ⟨a', ha', rfl⟩) hVk.1 hVk.2 q t a0 qsurf0
      hk hq hq0 e.2.1.symm, htS⟩
  exact key
    { w' with subsurfaces := fun j => if j = S then w'.subsurfaces S else w.subsurfaces j }
    rfl (fun _ => rfl)

end Sub

namespace Sub

/-- What `Setup` does when it returns: the subsurface is attached to the
surface, the surface enters the list of the parent, and the walk of `SetSync1`
runs from the subsurface in the world `v`. -/
theorem Setup_cases {w w6 : World} {fuel surface address parent : Nat} {s0 p0 : Surface}
    {new0 : Subsurface} (h : Setup fuel w surface address = some w6)
    (hs : w.surfaces surface = some s0) (hn : w.subsurfaces address = some new0)
    (hpar : new0.parent = some parent) (hp : w.surfaces parent = some p0)
    (hne : parent ≠ surface) :
    ∃ (v : World) (b : Subsurface),
      walk true (fun _ => true) false fuel v address = some w6
      ∧ (∀ j, (v.surfaces j).map Surface.links
          = (w.surfaces j).map (fun x =>
              ((if j = surface then RoleType.SubsurfaceType else x.role_type), x.role,
                (if j = parent then surface :: x.subsurfaces else x.subsurfaces))))
      ∧ (∀ j, j ≠ address → v.subsurfaces j = w.subsurfaces j)
      ∧ v.subsurfaces address = some b
      ∧ b.links = (some surface, some parent, new0.synchronous) := by
  unfold Setup at h
  simp only [hs, hn, MoveFractional, setSubsurface_subsurfaces, if_true, hpar,
    setSubsurface_surfaces, setSurface_surfaces, if_neg hne, hp, call_surfaces,
    call_subsurfaces] at h
  rw [SetSync1_eq_walk] at h
  refine ⟨_, { new0 with surface := some surface, parent := some parent,
                         refcount := new0.refcount + 1, pending := true },
    h, fun j => ?_, fun j hj => ?_, by simp, rfl⟩
  · by_cases hj : j = parent
    · subst hj
      simp [hp, Surface.links, hne]
    · by_cases hj' : j = surface
      · subst hj'
        simp [hs, Surface.links, hj]
      · simp only [setSubsurface_surfaces, setSurface_surfaces, call_surfaces, if_neg hj,
          if_neg hj']
        rfl
  · simp [hj]

end Sub

namespace Sub

/-- What `GetSubsurface` does when it returns: it posts an error and changes
nothing else, or it attaches the new subsurface and runs the walk of `SetSync1`
from it in a world `v` told over the one the request was made in. -/
theorem GetSubsurface_cases {w w' : World} {fuel surface parent : Nat}
    {allocated : Option Nat} {resource : Bool}
    (h : GetSubsurface fuel w surface parent allocated resource = some w') :
    (∃ c, w' = w.call c)
    ∨ ∃ (address : Nat) (s0 p0 s6 : Surface) (v w6 : World) (b : Subsurface),
        allocated = some address ∧ w.surfaces surface = some s0 ∧ s0.role = none
        ∧ w.surfaces parent = some p0
        ∧ (∀ j, (v.surfaces j).map Surface.links
            = (w.surfaces j).map (fun x =>
                ((if j = surface then RoleType.SubsurfaceType else x.role_type), x.role,
                  (if j = parent then surface :: x.subsurfaces else x.subsurfaces))))
        ∧ (∀ j, j ≠ address → v.subsurfaces j = w.subsurfaces j)
        ∧ v.subsurfaces address = some b ∧ b.links = (some surface, some parent, true)
        ∧ walk true (fun _ => true) false fuel v address = some w6
        ∧ w6.surfaces surface = some s6
        ∧ w' = w6.setSurface surface { s6 with role := some (RolePtr.subsurface address) } := by
  unfold GetSubsurface at h
  cases hs0 : w.surfaces surface with
  | none => rw [hs0] at h; simp at h
  | some s0 =>
    rw [hs0] at h
    simp only [] at h
    split at h
    · exact Or.inl ⟨_, (Option.some.inj h).symm⟩
    · rename_i hcond
      split at h
      · exact Or.inl ⟨_, (Option.some.inj h).symm⟩
      · rename_i hne
        cases hroot : GetRootSurface fuel w parent with
        | none => rw [hroot] at h; simp at h
        | some root =>
          rw [hroot] at h
          simp only [] at h
          split at h
          · exact Or.inl ⟨_, (Option.some.inj h).symm⟩
          · cases allocated with
            | none => exact Or.inl ⟨_, (Option.some.inj h).symm⟩
            | some address =>
              simp only [] at h
              split at h
              · exact Or.inl ⟨_, (Option.some.inj h).symm⟩
              · cases hp0 : w.surfaces parent with
                | none => rw [hp0] at h; simp at h
                | some p0 =>
                  rw [hp0] at h
                  simp only [] at h
                  right
                  unfold XLSurfaceAttachRole at h
                  cases hsetup : Setup fuel
                      (((w.setSubsurface address
                            { refcount := 1, parent := some parent, commit_callback := true,
                              synchronous := true }).setSurface parent
                          { p0 with commit_callbacks := p0.commit_callbacks ++ [address] }).call
                        (Call.XLSurfaceRunAtCommit parent)) surface address with
                  | none => rw [hsetup] at h; simp at h
                  | some w6 =>
                    rw [hsetup] at h
                    simp only [] at h
                    cases hs6 : w6.surfaces surface with
                    | none => rw [hs6] at h; simp at h
                    | some s6 =>
                      rw [hs6] at h
                      simp only [Option.some.injEq] at h
                      have hrole : s0.role = none := by
                        by_contra hr
                        exact hcond (Or.inl hr)
                      have hsp : surface ≠ parent := fun e => hne e.symm
                      obtain ⟨v, b, hwalk, hvs, hvo, hvb, hbl⟩ :=
                        @Setup_cases _ w6 fuel surface address parent s0
                          { p0 with commit_callbacks := p0.commit_callbacks ++ [address] }
                          { refcount := 1, parent := some parent, commit_callback := true,
                            synchronous := true }
                          hsetup (by simp [hsp, hs0]) (by simp) rfl (by simp) hne
                      refine ⟨address, s0, p0, s6, v, w6, b, rfl, rfl, hrole, rfl, fun j => ?_,
                        fun j hj => ?_, hvb, hbl, hwalk, hs6, h.symm⟩
                      · rw [hvs j]
                        by_cases hj : j = parent
                        · subst hj
                          simp [hp0]
                        · simp [hj]
                      · rw [hvo j hj]
                        simp [hj]

end Sub

namespace Sub

theorem GetSubsurface_preserves {w w' : World} {fuel surface parent : Nat}
    {allocated : Option Nat} {resource : Bool}
    (h : GetSubsurface fuel w surface parent allocated resource = some w')
    (hfresh : ∀ address, allocated = some address → w.subsurfaces address = none)
    (hl : WellLinked w) (hh : SyncHeld w) : WellLinked w' ∧ SyncHeld w' := by
  rcases GetSubsurface_cases h with ⟨c, rfl⟩ |
    ⟨address, s0, p0, s6, v, w6, b, hal, hs0, hrole, hp0, hvs, hvo, hvb, hbl, hwalk, hs6, rfl⟩
  · exact @preserved_of_links w _ (fun _ => rfl) (fun _ => rfl) hl hh
  · have hfr := hfresh address hal
    obtain ⟨r1, -, -, -, -, r6⟩ :=
      @walk_resynced true (fun _ => true) false (fun _ _ => rfl) fuel v w6 address hwalk
    simp only [Subsurface.links, Prod.mk.injEq] at hbl
    -- what the world of the walk has of the world of the request
    have hsubs : ∀ (j : Nat) (a : Subsurface), w.subsurfaces j = some a →
        ∃ a', v.subsurfaces j = some a' ∧ a'.surface = a.surface := by
      intro j a ha
      have hj : j ≠ address := fun e => by rw [e, hfr] at ha; cases ha
      exact ⟨a, by rw [hvo j hj, ha], rfl⟩
    have hsurfv : ∀ (p : Nat) (psurf : Surface), w.surfaces p = some psurf →
        ∃ psurf', v.surfaces p = some psurf' ∧ psurf'.role = psurf.role
          ∧ psurf'.role_type
              = (if p = surface then RoleType.SubsurfaceType else psurf.role_type)
          ∧ psurf'.subsurfaces
              = (if p = parent then surface :: psurf.subsurfaces else psurf.subsurfaces) := by
      intro p psurf hp
      obtain ⟨x', hx', e⟩ := lookup_of_map_eq (hvs p).symm hp
      simp only [Surface.links, Prod.mk.injEq] at e
      exact ⟨x', hx', e.2.1.symm, e.1.symm, e.2.2.symm⟩
    have hsurfs : ∀ (p : Nat) (psurf : Surface), w.surfaces p = some psurf →
        ∃ psurf', v.surfaces p = some psurf' ∧ ∀ c ∈ psurf.subsurfaces, c ∈ psurf'.subsurfaces := by
      intro p psurf hp
      obtain ⟨x', hx', -, -, e⟩ := hsurfv p psurf hp
      refine ⟨x', hx', fun c hc => ?_⟩
      rw [e]
      split
      · exact List.mem_cons_of_mem _ hc
      · exact hc
    have hroles : ∀ (c k : Nat), w.roleOf c = some k → v.roleOf c = some k := by
      intro c k hck
      obtain ⟨surf, hsf, hr⟩ := role_of_roleOf hck
      obtain ⟨x', hx', e, -, -⟩ := hsurfv c surf hsf
      exact roleOf_of_role hx' (by rw [e, hr])
    have key : ∀ wh : World, wh.surfaces = w.surfaces →
        (∀ j, wh.subsurfaces j = if j = address then none else w6.subsurfaces j) →
        WellLinked (w6.setSurface surface { s6 with role := some (RolePtr.subsurface address) })
          ∧ SyncHeld
              (w6.setSurface surface { s6 with role := some (RolePtr.subsurface address) }) := by
      intro wh hhs hhb
      have hV : ∀ j, (Reach (fun _ => true) v address j ∧ j ≠ address) →
          (wh.subsurfaces j).map Subsurface.links
            = (w.subsurfaces j).map (fun a => (a.surface, a.parent, true)) := by
        intro j hj
        rw [hhb, if_neg hj.2, (r6 j).1 hj.1, hvo j hj.2]
        cases w.subsurfaces j <;> rfl
      have hN : ∀ j, ¬ (Reach (fun _ => true) v address j ∧ j ≠ address) →
          (wh.subsurfaces j).map Subsurface.links
            = (w.subsurfaces j).map Subsurface.links := by
        intro j hj
        rw [hhb]
        by_cases hja : j = address
        · rw [if_pos hja, hja, hfr]
        · rw [if_neg hja, (r6 j).2 (fun hd => hj ⟨hd, hja⟩), hvo j hja]
      have hsf : ∀ j, (wh.surfaces j).map Surface.links = (w.surfaces j).map Surface.links :=
        fun j => by rw [hhs]
      have hwl : WellLinked wh :=
        WellLinked_congr hsf
          (links_of_resync (fun j => Reach (fun _ => true) v address j ∧ j ≠ address) hV hN) hl
      have hwh : SyncHeld wh :=
        SyncHeld_resync_true (fun j => Reach (fun _ => true) v address j ∧ j ≠ address) hsf hV hN
          (fun t p c k ta a hVt ht hts hk hc hp =>
            ⟨Reach_children_closed hl hsubs hsurfs hroles t p c k ta a hVt.1 ht hts hk hc hp,
              fun e => by rw [e, hfr] at hk; cases hk⟩) hh
      refine @attach_preserves wh _ address surface parent s0 p0 (by rw [hhb, if_pos rfl])
        (by rw [hhs, hs0]) hrole (by rw [hhs, hp0]) (fun j => ?_) (fun j hj => ?_) ?_ ?_ hwl hwh
      · rw [hhs]
        by_cases hj : j = surface
        · subst hj
          have := hvs j
          rw [← r1, hs6, hs0] at this
          simp only [Option.map_some', Option.some.injEq, Surface.links, Prod.mk.injEq,
            if_true] at this
          simp [hs0, Surface.links, this.1, this.2.2]
        · simp only [setSurface_surfaces, if_neg hj, r1, hvs j]
      · simp only [setSurface_subsurfaces, hhb, if_neg hj]
      · simp only [setSurface_subsurfaces, (r6 address).1 (Reach.refl address), hvb,
          Option.map_some', Subsurface.links, hbl.1, hbl.2.1]
      · intro k c a hk hc hp
        have hka : k ≠ address := fun e => by rw [hhb, if_pos e] at hk; cases hk
        rw [hhb, if_neg hka] at hk
        obtain ⟨weq, hweq⟩ : ∃ a0, w.subsurfaces k = some a0 ∧ a0.surface = a.surface
            ∧ a0.parent = a.parent := by
          by_cases hd : Reach (fun _ => true) v address k
          · rw [(r6 k).1 hd, hvo k hka] at hk
            cases hwk : w.subsurfaces k with
            | none => rw [hwk] at hk; simp at hk
            | some a0 =>
              rw [hwk] at hk
              simp only [Option.map_some', Option.some.injEq] at hk
              exact ⟨a0, rfl, by rw [← hk], by rw [← hk]⟩
          · rw [(r6 k).2 hd, hvo k hka] at hk
            exact ⟨a, hk, rfl, rfl⟩
        obtain ⟨hw0, e1, e2⟩ := hweq
        obtain ⟨csurf, q, qsurf, g1, g2, -, g4, g5, g6⟩ := hl.1 k c weq hw0 (by rw [e1, hc])
        rw [e2, hp] at g4
        cases g4
        obtain ⟨sv, hsv, hmem⟩ := hsurfs surface qsurf g5
        have hreach : Reach (fun _ => true) v address k :=
          Reach.step hvb hbl.1 hsv (hmem c g6) (hroles c k (roleOf_of_role g1 g2))
            (by rw [hvo k hka]; exact hw0) rfl (Reach.refl k)
        rw [(r6 k).1 hreach, hvo k hka, hw0] at hk
        simp only [Option.map_some', Option.some.injEq] at hk
        rw [← hk]
    exact key
      { w with subsurfaces := fun j => if j = address then none else w6.subsurfaces j }
      rfl (fun _ => rfl)

end Sub

namespace Sub

/-- Every reachable world is well linked and holds the children of synchronous
subsurfaces synchronous. -/
theorem Reachable_invariants {w : World} (h : Reachable w) : WellLinked w ∧ SyncHeld w := by
  induction h with
  | init =>
    refine ⟨⟨?_, ?_⟩, ?_⟩
    · intro k s a hk
      cases hk
    · intro p c psurf hp
      cases hp
    · intro k s p t a ta psurf hk
      cases hk
  | surface s _ hs ih => exact addSurface_preserves hs ih.1 ih.2
  | getSubsurface fuel surface parent allocated resource _ hfresh h ih =>
    exact GetSubsurface_preserves h hfresh ih.1 ih.2
  | setSync fuel address _ h ih => exact SetSync_preserves h ih.1 ih.2
  | setDesync fuel address _ h ih => exact SetDesync_preserves h ih.1 ih.2
  | earlyCommit surface address applied _ h ih => exact EarlyCommit_preserves h ih.1 ih.2
  | afterParentCommit surface address _ h ih => exact AfterParentCommit_preserves h ih.1 ih.2
  | teardown fuel surface address a _ hS hs h ih =>
    exact XLSurfaceReleaseRole_preserves h hS hs ih.1 ih.2

/-- An operation that returns, returns what `getD` reads. -/
theorem eq_some_getD {x : Option World} (h : x.isSome = true) :
    x = some (x.getD World.empty) := by
  cases x with
  | none => cases h
  | some w => rfl

theorem fourSurfaces_reachable : Reachable fourSurfaces :=
  Reachable.surface 4
    (Reachable.surface 3
      (Reachable.surface 2 (Reachable.surface 1 Reachable.init (by decide)) (by decide))
      (by decide))
    (by decide)

theorem family_reachable : Reachable family := by
  have h1 := eq_some_getD (x := GetSubsurface 4 fourSurfaces 2 1 (some 10) true) (by decide)
  have r1 := Reachable.getSubsurface 4 2 1 (some 10) true fourSurfaces_reachable
    (fun address e => by cases e; decide) h1
  have h2 := eq_some_getD
    (x := GetSubsurface 4
      ((GetSubsurface 4 fourSurfaces 2 1 (some 10) true).getD World.empty) 3 1 (some 11) true)
    (by decide)
  have r2 := Reachable.getSubsurface 4 3 1 (some 11) true r1
    (fun address e => by cases e; decide) h2
  have e : family
      = (GetSubsurface 4
          ((GetSubsurface 4 fourSurfaces 2 1 (some 10) true).getD World.empty) 3 1 (some 11)
          true).getD World.empty := by
    unfold family
    rw [h1]
    rfl
  rw [e]
  exact r2

theorem nested_reachable : Reachable nested :=
  Reachable.getSubsurface 4 4 2 (some 12) true family_reachable
    (fun address e => by cases e; decide)
    (eq_some_getD (x := GetSubsurface 4 family 4 2 (some 12) true) (by decide))

theorem heldDesync_reachable : Reachable heldDesync :=
  Reachable.setDesync 4 12 nested_reachable
    (eq_some_getD (x := SetDesync 4 nested 12) (by decide))

/-- C15: in every world reachable by creating surfaces and through
`GetSubsurface` (with `Setup`), `SetSync`, `SetDesync`, `EarlyCommit`,
`AfterParentCommit` and `Teardown` (as the release of the role), every attached
subsurface whose parent surface carries an attached synchronous subsurface
role is itself synchronous, whatever its own `should_be_desync` says. -/
theorem Reachable_sync_held (w : World) (h : Reachable w) (k s p t : Nat)
    (a ta : Subsurface) (psurf : Surface) (hk : w.subsurfaces k = some a)
    (hs : a.surface = some s) (hp : a.parent = some p) (hps : w.surfaces p = some psurf)
    (hrole : psurf.role = some (RolePtr.subsurface t)) (ht : w.subsurfaces t = some ta)
    (hts : ta.surface = some p) (hsync : ta.synchronous = true) :
    a.synchronous = true :=
  (Reachable_invariants h).2 k s p t a ta psurf hk hs hp hps hrole ht hts hsync

/-- The witness of C15: in the `heldDesync` world subsurface 12 asked to be
desynchronous, its parent surface 2 carries the attached synchronous
subsurface 10, and 12 is synchronous. -/
theorem Reachable_sync_held_witness :
    Reachable heldDesync
    ∧ heldDesync.subsurfaces 12 = some { newSubsurface 4 2 with should_be_desync := true }
    ∧ heldDesync.surfaces 2
        = some { role_type := RoleType.SubsurfaceType, role := some (RolePtr.subsurface 10),
                 subsurfaces := [4], commit_callbacks := [12] }
    ∧ heldDesync.subsurfaces 10 = some (newSubsurface 2 1)
    ∧ ({ newSubsurface 4 2 with should_be_desync := true } : Subsurface).synchronous = true :=
  ⟨heldDesync_reachable, by decide, by decide, by decide,
    Reachable_sync_held heldDesync heldDesync_reachable 12 4 2 10
      { newSubsurface 4 2 with should_be_desync := true } (newSubsurface 2 1)
      { role_type := RoleType.SubsurfaceType, role := some (RolePtr.subsurface 10),
        subsurfaces := [4], commit_callbacks := [12] }
      (by decide) rfl rfl (by decide) rfl (by decide) rfl rfl⟩

end Sub

namespace Sub

/-! ## Requests on a subsurface whose parent lost its role or is gone -/

theorem fourSurfaces_treeReachable : TreeReachable fourSurfaces :=
  TreeReachable.surface 4
    (TreeReachable.surface 3
      (TreeReachable.surface 2 (TreeReachable.surface 1 TreeReachable.init rfl) rfl) rfl) rfl

theorem family_treeReachable : TreeReachable family := by
  have h1 := eq_some_getD (x := GetSubsurface 4 fourSurfaces 2 1 (some 10) true) (by decide)
  have r1 := TreeReachable.getSubsurface 4 2 1 (some 10) true fourSurfaces_treeReachable
    (fun address e => by cases e; decide) h1
  have h2 := eq_some_getD
    (x := GetSubsurface 4
      ((GetSubsurface 4 fourSurfaces 2 1 (some 10) true).getD World.empty) 3 1 (some 11) true)
    (by decide)
  have r2 := TreeReachable.getSubsurface 4 3 1 (some 11) true r1
    (fun address e => by cases e; decide) h2
  have e : family
      = (GetSubsurface 4
          ((GetSubsurface 4 fourSurfaces 2 1 (some 10) true).getD World.empty) 3 1 (some 11)
          true).getD World.empty := by
    unfold family
    rw [h1]
    rfl
  rw [e]
  exact r2

theorem orphans_treeReachable : TreeReachable orphans :=
  TreeReachable.destroy 1 { subsurfaces := [3, 2], commit_callbacks := [10, 11] }
    family_treeReachable (by decide) rfl (eq_some_getD (by decide))

theorem detachedParent_reachable : Reachable detachedParent :=
  Reachable.teardown 4 2 10 (newSubsurface 2 1) nested_reachable (by decide) rfl
    (eq_some_getD (by decide))

/-- C29: `SetDesync` is not total on the reachable states.  In the reachable
world `detachedParent` the parent surface 2 of subsurface 12 has the role type
of a subsurface and no role; `IsParentSynchronous` reads the absent role
instead of answering `False`, so `SetDesync` on subsurface 12 does not return,
whatever the fuel. -/
theorem SetDesync_reads_absent_parent_role :
    Reachable detachedParent
      ∧ detachedParent.subsurfaces 12 = some (newSubsurface 4 2)
      ∧ (detachedParent.surfaces 2).map (fun s => (s.role_type, s.role))
          = some (RoleType.SubsurfaceType, none)
      ∧ IsParentSynchronous detachedParent 12 = none
      ∧ ∀ fuel, SetDesync fuel detachedParent 12 = none := by
  refine ⟨detachedParent_reachable, by decide, by decide, by decide, fun fuel => ?_⟩
  have h1 : detachedParent.subsurfaces 12 = some (newSubsurface 4 2) := by decide
  have h2 : IsParentSynchronous
      (detachedParent.setSubsurface 12 { newSubsurface 4 2 with should_be_desync := true }) 12
        = none := by decide
  unfold SetDesync
  rw [h1]
  simp only [h2]

/-- C30: `PlaceAbove` and `PlaceBelow` reach `AddSurfaceAction` for a subsurface
that has no parent.  In the reachable world `orphans` the parent of subsurfaces
10 and 11 was destroyed; for subsurface 10 and the target surface 3, which
carries the other orphan, `CheckSiblingRelationship` answers `True`, no error
is posted, and `AddSurfaceAction` reads the client data of the absent parent,
so neither request returns. -/
theorem Place_enqueues_for_orphan :
    TreeReachable orphans
      ∧ (orphans.subsurfaces 10).map (fun a => a.parent) = some none
      ∧ (orphans.subsurfaces 11).map (fun a => (a.surface, a.parent)) = some (some 3, none)
      ∧ CheckSiblingRelationship orphans 10 3 = some true
      ∧ placeRejected orphans 10 3 = some false
      ∧ AddSurfaceAction orphans 10 3 SurfaceActionType.PlaceAboveOther = none
      ∧ AddSurfaceAction orphans 10 3 SurfaceActionType.PlaceBelowOther = none
      ∧ PlaceAbove orphans 10 3 = none ∧ PlaceBelow orphans 10 3 = none := by
  exact ⟨orphans_treeReachable, by decide, by decide, by decide, by decide,
    Option.isNone_iff_eq_none.mp (by decide), Option.isNone_iff_eq_none.mp (by decide),
    Option.isNone_iff_eq_none.mp (by decide), Option.isNone_iff_eq_none.mp (by decide)⟩

end Sub

namespace Sub

/-! ## What `Teardown` leaves on the parent -/

/-- The detaching part of `Teardown` returns when the parent exists, and leaves
the parent without the actions of the subsurface, without the surface in its
list, and without the commit callback of the subsurface. -/
theorem teardownFromParent_parent (w : World) (surface k p : Nat) (pending : Bool)
    (b : Subsurface) (ps : Surface)
    (hk : w.subsurfaces k = some b) (hp : b.parent = some p) (hps : w.surfaces p = some ps) :
    ∃ w', teardownFromParent w surface k p pending = some w'
      ∧ w'.subsurfaces = w.subsurfaces
      ∧ w'.surfaces p = some { ps with
          actions := ps.actions.map
            (fun l => l.filter (fun a : SurfaceAction => a.subsurface ≠ k))
          subsurfaces := XLListRemove ps.subsurfaces surface
          commit_callbacks := ps.commit_callbacks.filter (fun j => j ≠ k) }
      ∧ Call.XLSurfaceCancelCommitCallback p ∈ w'.calls := by
  unfold teardownFromParent
  simp only []
  generalize (if pending = false then ViewGetSubcompositor w (View.view surface) else none) = sc
  generalize hw1 : (if pending = false then
      ViewSetSubcompositor
        (ViewUnparent
          (ViewSetSubcompositor (ViewUnparent w (View.view surface)) (View.view surface) none)
          (View.under surface))
        (View.under surface) none
    else w) = w1
  have h1 : w1.surfaces = w.surfaces ∧ w1.subsurfaces = w.subsurfaces := by
    rw [← hw1]
    split <;> simp
  obtain ⟨h1s, h1b⟩ := h1
  rw [h1s, hps]
  simp only []
  have key : ∀ (w3 : World) (X : Surface), w3.surfaces p = some X →
      w3.subsurfaces = w.subsurfaces → Call.XLSurfaceCancelCommitCallback p ∈ w3.calls →
      ∃ w', (if sc.isSome = true then SubsurfaceUpdate w3 k else some w3) = some w'
        ∧ w'.subsurfaces = w.subsurfaces
        ∧ w'.surfaces p = some X ∧ Call.XLSurfaceCancelCommitCallback p ∈ w'.calls := by
    intro w3 X hX hb hc
    by_cases hsc : sc.isSome = true
    · rw [if_pos hsc]
      obtain ⟨w', added, h, hsb, hsf, hcalls, -⟩ :=
        SubsurfaceUpdate_frame w3 k p b X (by rw [hb, hk]) hp hX
      exact ⟨w', h, by rw [hsb, hb], by rw [hsf, hX],
        by rw [hcalls]; exact List.mem_append_left _ hc⟩
    · rw [if_neg hsc]
      exact ⟨w3, rfl, hb, hX, hc⟩
  cases hact : ps.actions with
  | none =>
    simp only [h1s, hps]
    refine key _ _ ?_ (by simp [h1b]) (by simp [World.call])
    simp [World.setSurface, World.call, hact]
  | some actions =>
    simp only [setSurface_surfaces, if_true]
    refine key _ _ ?_ (by simp [World.setSurface, World.call, h1b])
      (by simp [World.call])
    simp [World.setSurface, World.call, hact]

end Sub

namespace Sub

/-- C24: `Teardown` of an attached subsurface `S` on surface `s` whose parent
surface `p` exists, over a tree no higher than the fuel, returns; afterwards
the action queue of the parent is the old queue without the actions whose
subject is `S`, the others in their old order, the list of children of the
parent is the old list without `s`, and the commit callback of `S` is cancelled
and no longer registered with the parent. -/
theorem Teardown_parent_queue (fuel : Nat) (w : World) (S s p : Nat) (a : Subsurface)
    (ps : Surface) (hS : w.subsurfaces S = some a) (hs : a.surface = some s)
    (hp : a.parent = some p) (hps : w.surfaces p = some ps)
    (htree : treeBelow w fuel S = true) :
    ∃ w' ps', Teardown fuel w s S = some w' ∧ w'.surfaces p = some ps'
      ∧ ps'.actions = ps.actions.map
          (fun l => l.filter (fun x : SurfaceAction => x.subsurface ≠ S))
      ∧ (∀ l x, ps'.actions = some l → x ∈ l → x.subsurface ≠ S)
      ∧ ps'.subsurfaces = ps.subsurfaces.filter (fun c => c ≠ s)
      ∧ s ∉ ps'.subsurfaces
      ∧ S ∉ ps'.commit_callbacks
      ∧ Call.XLSurfaceCancelCommitCallback p ∈ w'.calls := by
  obtain ⟨w1, h1, h1S, -, -, h1s, -, -⟩ :=
    @walk_rooted false (fun c => c.should_be_desync) true
      (fun _ _ => rfl) fuel w w S a a hS hS rfl rfl (fun _ _ => rfl) htree (fun _ => ⟨s, hs⟩)
  rw [← NoteSubsurfaceTeardown_eq_walk] at h1
  unfold Teardown
  rw [h1]
  simp only [h1S, hp]
  obtain ⟨w3, h3, h3b, h3p, h3c⟩ :=
    teardownFromParent_parent
      (w1.setSubsurface S { a with synchronous := false, surface := none })
      s S p a.pending { a with synchronous := false, surface := none } ps (by simp) hp
      (by simp [h1s, hps])
  simp only [hp] at h3 h3b
  rw [h3]
  simp only []
  obtain ⟨w4, h4, -, h4s, h4c, -⟩ :=
    DestroyBacking_frame w3 S { a with synchronous := false, surface := none }
      (by rw [h3b]; simp [hp])
  rw [h4]
  refine ⟨_, _, rfl, by show w4.surfaces p = _; rw [h4s, h3p], rfl, ?_, rfl, ?_, ?_, ?_⟩
  · intro l x hl hx
    cases hact : ps.actions with
    | none => simp [hact] at hl
    | some l0 =>
      simp only [hact, Option.map_some', Option.some.injEq] at hl
      subst hl
      simpa using (List.mem_filter.mp hx).2
  · simp [XLListRemove]
  · simp
  · show _ ∈ w4.calls ++ _
    rw [h4c]
    exact List.mem_append_left _ h3c

end Sub

namespace Sub

/-- The witness of C24: in the `queued` world the teardown of subsurface 10
leaves the action of subsurface 11 in the queue of the parent. -/
theorem Teardown_parent_queue_witness :
    treeBelow queued 4 10 = true
      ∧ ∃ w' ps', Teardown 4 queued 2 10 = some w' ∧ w'.surfaces 1 = some ps'
        ∧ ps'.actions
          = (some [{ type := SurfaceActionType.PlaceBelowOther, subsurface := 11, other := 2 },
              { type := SurfaceActionType.PlaceAboveOther, subsurface := 10,
                other := 3 }]).map
            (fun l => l.filter (fun x : SurfaceAction => x.subsurface ≠ 10))
        ∧ (∀ l x, ps'.actions = some l → x ∈ l → x.subsurface ≠ 10)
        ∧ ps'.subsurfaces = [3, 2].filter (fun c => c ≠ 2)
        ∧ 2 ∉ ps'.subsurfaces
        ∧ 10 ∉ ps'.commit_callbacks
        ∧ Call.XLSurfaceCancelCommitCallback 1 ∈ w'.calls :=
  ⟨by decide,
    Teardown_parent_queue 4 queued 10 2 1 { newSubsurface 2 1 with pending := false }
      { subsurfaces := [3, 2]
        actions :=
          some [{ type := SurfaceActionType.PlaceBelowOther, subsurface := 11, other := 2 },
            { type := SurfaceActionType.PlaceAboveOther, subsurface := 10, other := 3 }]
        commit_callbacks := [10, 11] }
      (by decide) rfl rfl (by decide) (by decide)⟩

end Sub

namespace Xdg

/-! ## The waiting flags -/

/-- C28: in every state of a shell-surface role reachable from its creation
(hooks inert), `StateWaitingForAckConfigure` set implies
`StateWaitingForAckCommit` set; `HandleResize` with `only_frame` false sets
both together with `StateMaybeConfigure` and changes no other flag and no other
field; `XLXdgRoleNoteRejectedConfigure` clears the three flags and nothing else
when `StateMaybeConfigure` is set, and changes nothing when it is clear. -/
theorem waiting_flags_invariant (funcs : ImplTable) (hf : HooksInert funcs) (role : XdgRole)
    (hr : Reachable funcs role) :
    (hasFlag role.state StateWaitingForAckConfigure →
        hasFlag role.state StateWaitingForAckCommit)
    ∧ (hasFlag (HandleResize role false).1.state StateWaitingForAckConfigure
        ∧ hasFlag (HandleResize role false).1.state StateWaitingForAckCommit
        ∧ hasFlag (HandleResize role false).1.state StateMaybeConfigure
        ∧ flagsAgreeExcept
            [StateWaitingForAckConfigure, StateWaitingForAckCommit, StateMaybeConfigure]
            role.state (HandleResize role false).1.state
        ∧ (HandleResize role false).1
            = { role with state := (HandleResize role false).1.state })
    ∧ (hasFlag role.state StateMaybeConfigure →
        ¬ hasFlag (XLXdgRoleNoteRejectedConfigure role).state StateWaitingForAckConfigure
        ∧ ¬ hasFlag (XLXdgRoleNoteRejectedConfigure role).state StateWaitingForAckCommit
        ∧ ¬ hasFlag (XLXdgRoleNoteRejectedConfigure role).state StateMaybeConfigure
        ∧ flagsAgreeExcept
            [StateWaitingForAckConfigure, StateWaitingForAckCommit, StateMaybeConfigure]
            role.state (XLXdgRoleNoteRejectedConfigure role).state
        ∧ XLXdgRoleNoteRejectedConfigure role
            = { role with state := (XLXdgRoleNoteRejectedConfigure role).state })
    ∧ (¬ hasFlag role.state StateMaybeConfigure →
        XLXdgRoleNoteRejectedConfigure role = role) := by
  refine ⟨?_, ⟨by simp [HandleResize], by simp [HandleResize], by simp [HandleResize], ?_,
    rfl⟩, fun hm => ?_, fun hm => ?_⟩
  · have h := Reachable_waiting funcs hf role hr
    rw [xdg_StateWaitingForAckConfigure_bit, xdg_StateWaitingForAckCommit_bit,
      hasFlag_two_pow, hasFlag_two_pow]
    exact h
  · simp only [HandleResize, Bool.false_eq_true, if_false]
    rw [xdg_StateWaitingForAckConfigure_bit, xdg_StateWaitingForAckCommit_bit,
      xdg_StateMaybeConfigure_bit]
    exact flagsAgreeExcept_setFlag 5 (by simp)
      (flagsAgreeExcept_setFlag 4 (by simp)
        (flagsAgreeExcept_setFlag 3 (by simp) (flagsAgreeExcept_refl _ _)))
  · unfold XLXdgRoleNoteRejectedConfigure
    rw [if_pos hm]
    refine ⟨by simp, by simp, by simp, ?_, rfl⟩
    simp only []
    rw [xdg_StateWaitingForAckConfigure_bit, xdg_StateWaitingForAckCommit_bit,
      xdg_StateMaybeConfigure_bit]
    exact flagsAgreeExcept_clearFlag 5 (by decide) (by simp)
      (flagsAgreeExcept_clearFlag 4 (by decide) (by simp)
        (flagsAgreeExcept_clearFlag 3 (by decide) (by simp) (flagsAgreeExcept_refl _ _)))
  · unfold XLXdgRoleNoteRejectedConfigure
    rw [if_neg hm]

end Xdg

namespace Xdg

/-- The witness of C28: a fresh role after `HandleResize`, which waits with
`StateMaybeConfigure` set and is rolled back by
`XLXdgRoleNoteRejectedConfigure`. -/
theorem waiting_flags_invariant_witness :
    HooksInert idleFuncs ∧ Reachable idleFuncs resizedRole
    ∧ hasFlag resizedRole.state StateMaybeConfigure
    ∧ (hasFlag resizedRole.state StateWaitingForAckConfigure →
        hasFlag resizedRole.state StateWaitingForAckCommit)
    ∧ ¬ hasFlag (XLXdgRoleNoteRejectedConfigure resizedRole).state
          StateWaitingForAckConfigure
    ∧ ¬ hasFlag (XLXdgRoleNoteRejectedConfigure resizedRole).state StateWaitingForAckCommit
    ∧ ¬ hasFlag (XLXdgRoleNoteRejectedConfigure resizedRole).state StateMaybeConfigure
    ∧ flagsAgreeExcept
        [StateWaitingForAckConfigure, StateWaitingForAckCommit, StateMaybeConfigure]
        resizedRole.state (XLXdgRoleNoteRejectedConfigure resizedRole).state
    ∧ XLXdgRoleNoteRejectedConfigure resizedRole
        = { resizedRole with state := (XLXdgRoleNoteRejectedConfigure resizedRole).state } :=
  ⟨idleFuncs_inert, Reachable.handle_resize false (Reachable.create 1), by decide,
    (waiting_flags_invariant idleFuncs idleFuncs_inert resizedRole
      (Reachable.handle_resize false (Reachable.create 1))).1,
    (waiting_flags_invariant idleFuncs idleFuncs_inert resizedRole
      (Reachable.handle_resize false (Reachable.create 1))).2.2.1 (by decide)⟩

end Xdg

namespace Xdg

/-! ## The bounds of the window -/

/-- C25: `NoteBounds` does not move the window by the opposite of the change of
the minimum coordinates.  The role `boundedRole` ignores no bounds, has
`min_x = 3` recorded and its root position is (103, 200); when bounds with
`min_x = 5` and the same size are noted, the window is moved to
`103 + 5 + 3 = 111`, the sum of the root position and both minimum
coordinates, which is neither `103 - (5 - 3)` nor `103 + (5 - 3)`.  The same
coordinate is stored as `pending_root_x`, `pending_synth_configure` goes from
1 to 2, and the recorded bounds are the arguments. -/
theorem NoteBounds_moves_by_sum :
    ¬ hasFlag boundedRole.state StateWaitingForAckCommit
      ∧ ¬ hasFlag boundedRole.state StateTemporaryBounds
      ∧ boundedRole.min_x = 3 ∧ boundedRole.min_y = 0
      ∧ boundedRole.pending_synth_configure = 1
      ∧ CurrentRootPosition boundedRole (100, 200) = (103, 200)
      ∧ NoteBounds idleFuncs boundedRole 5 0 14 9 (100, 200)
          = some ({ boundedRole with
                      min_x := 5, max_x := 14, min_y := 0, max_y := 9
                      bounds_width := 10, bounds_height := 10
                      pending_root_x := 111, pending_root_y := 200
                      pending_synth_configure := 2 },
                  [Call.XMoveWindow 111 200, Call.RunReconstrainCallbacks])
      ∧ (111 : Int) ≠ 103 - (5 - 3) ∧ (111 : Int) ≠ 103 + (5 - 3) := by
  decide

end Xdg

namespace Icon

/-! ## Commit of an icon surface -/

/-- C26: the `Commit` of an icon surface never moves the window.  Whatever the
commit carries, `Commit` returns, issues no `XMoveWindow`, leaves `x` and `y`
as they were, and does with `PendingAttachments` set what it does without;
for the mapped icon surface `mappedIcon`, whose surface has a buffer and the
offset (2, 3), a commit with `PendingAttachments` set only updates the sync
helper: the window is not moved to (42, 53) and the outputs are not
updated. -/
theorem Commit_never_moves (icon : IconSurface) (attachments buffer : Bool)
    (x_off y_off : Int) :
    (∃ r cs, Commit icon attachments buffer x_off y_off = some (r, cs)
        ∧ (∀ x y, Call.XMoveWindow x y ∉ cs) ∧ r.x = icon.x ∧ r.y = icon.y)
      ∧ Commit icon true buffer x_off y_off = Commit icon false buffer x_off y_off
      ∧ Commit mappedIcon true true 2 3 = some (mappedIcon, [Call.SyncHelperUpdate])
      ∧ (mappedIcon.x + mappedIcon.min_x + 2, mappedIcon.y + mappedIcon.min_y + 3)
          = ((42 : Int), (53 : Int)) := by
  have hmove : MoveWindowTo icon icon.x icon.y x_off y_off = some (icon, []) := by
    simp [MoveWindowTo]
  refine ⟨?_, by simp [Commit, hmove], by decide, by decide⟩
  have hc : Commit icon attachments buffer x_off y_off
      = some ((if buffer = true then MaybeMapWindow icon x_off y_off
                else MaybeUnmapWindow icon).1,
          (if buffer = true then MaybeMapWindow icon x_off y_off
                else MaybeUnmapWindow icon).2 ++ [Call.SyncHelperUpdate]) := by
    cases attachments <;> simp [Commit, hmove]
  refine ⟨_, _, hc, ?_, ?_, ?_⟩
  · intro x y hx
    cases buffer
    · simp only [Bool.false_eq_true, if_false, MaybeUnmapWindow] at hx
      split at hx
      · simp at hx
      · cases hs : icon.surface <;> simp [hs] at hx
    · simp only [if_true, MaybeMapWindow, UpdateOutputs] at hx
      split at hx
      · simp at hx
      · split at hx
        · simp at hx
        · cases hs : icon.surface <;> simp [hs] at hx
  · cases buffer
    · simp only [Bool.false_eq_true, if_false, MaybeUnmapWindow]
      split <;> rfl
    · simp only [if_true, MaybeMapWindow]
      split
      · rfl
      · split <;> rfl
  · cases buffer
    · simp only [Bool.false_eq_true, if_false, MaybeUnmapWindow]
      split <;> rfl
    · simp only [if_true, MaybeMapWindow]
      split
      · rfl
      · split <;> rfl

end Icon

namespace Roles

open Sub

/-! ## The role type of a surface that was an icon surface -/

/-- The three sample worlds in which surface 2 held a role that was released.
After `XLGetIconSurface`, which writes no role type itself, the role type is
as it was before, `AnythingType`, and both `GetSubsurface` and
`XLGetXdgSurface` attach a role of their own type.  After a shell-surface
role, `GetSubsurface` posts the bad-surface error and attaches nothing, and
after a subsurface role, `XLGetXdgSurface` posts the role error and attaches
nothing.  Whether the callers of `XLGetIconSurface`, which are in other files,
reserve a role type for the icon surface is not told by these files. -/
theorem released_role_types :
    (iconReleased.surfaces 2).map (fun s => (s.role_type, s.role))
        = some (RoleType.AnythingType, none)
      ∧ (GetSubsurface 4 iconReleased 2 1 (some 10) true).map
          (fun w => ((w.surfaces 2).map (fun s => (s.role_type, s.role)), w.calls))
        = some (some (RoleType.SubsurfaceType, some (RolePtr.subsurface 10)),
            [Call.XLSurfaceRunAtCommit 1, Call.ViewMove 2 0 0])
      ∧ (XLGetXdgSurface iconReleased 2 true true).map
          (fun w => ((w.surfaces 2).map (fun s => (s.role_type, s.role)), w.calls))
        = some (some (RoleType.XdgType, some RolePtr.other), [])
      ∧ (xdgReleased.surfaces 2).map (fun s => (s.role_type, s.role))
        = some (RoleType.XdgType, none)
      ∧ (GetSubsurface 4 xdgReleased 2 1 (some 10) true).map
          (fun w => ((w.surfaces 2).map (fun s => (s.role_type, s.role)), w.subsurfaces 10,
            w.calls))
        = some (some (RoleType.XdgType, none), none,
            [Call.wl_resource_post_error ProtocolError.WL_SUBCOMPOSITOR_ERROR_BAD_SURFACE])
      ∧ (subReleased.surfaces 2).map (fun s => (s.role_type, s.role))
        = some (RoleType.SubsurfaceType, none)
      ∧ (XLGetXdgSurface subReleased 2 true true).map
          (fun w => ((w.surfaces 2).map (fun s => (s.role_type, s.role)),
            w.calls.getLast?))
        = some (some (RoleType.SubsurfaceType, none),
            some (Call.wl_resource_post_error ProtocolError.XDG_WM_BASE_ERROR_ROLE)) := by
  refine ⟨?_, ?_, ?_, ?_, ?_, ?_, ?_⟩ <;> decide

end Roles

namespace Sub

/-! ## The forest of surfaces -/

/-- A fold that can do every step returns. -/
theorem foldlM_total {α β : Type} (f : β → α → Option β) :
    ∀ (l : List α) (b : β), (∀ x, x ∈ l → ∀ b', ∃ b'', f b' x = some b'') →
      ∃ b'', l.foldlM f b = some b''
  | [], b, _ => ⟨b, rfl⟩
  | x :: l, b, h => by
    obtain ⟨b1, h1⟩ := h x (List.mem_cons_self _ _) b
    obtain ⟨b2, h2⟩ := foldlM_total f l b1 (fun y hy => h y (List.mem_cons_of_mem _ hy))
    exact ⟨b2, by simp [List.foldlM, h1, h2]⟩

/-- In a forest `GetRootSurface` returns from every surface, given more fuel
than the surface is deep. -/
theorem GetRootSurface_returns {w : World} {depth : Nat → Nat} {N : Nat}
    (hl : Linked w) (hr : Ranked w depth N) :
    ∀ (fuel s : Nat) (surf : Surface), w.surfaces s = some surf → depth s < fuel →
      ∃ root, GetRootSurface fuel w s = some root := by
  intro fuel
  induction fuel with
  | zero => intro s surf _ h; exact absurd h (Nat.not_lt_zero _)
  | succ n ih =>
    intro s surf hs hd
    unfold GetRootSurface
    rw [hs]
    simp only []
    by_cases hc : surf.role_type ≠ RoleType.SubsurfaceType ∨ surf.role = none
    · rw [if_pos hc]
      exact ⟨s, rfl⟩
    · rw [if_neg hc]
      cases hrole : surf.role with
      | none => exact absurd (Or.inr hrole) hc
      | some r =>
        obtain ⟨k, a, rfl, hk, hks⟩ := hl.2.2 s surf r hs hrole
        simp only [hk]
        cases hp : a.parent with
        | none => exact ⟨s, rfl⟩
        | some p =>
          obtain ⟨-, -, -, -, hpar⟩ := hl.1 k s a hk hks
          obtain ⟨psurf, hps, hmem⟩ := hpar p hp
          have := hr.2 p s psurf hps hmem
          exact ih p psurf hps (by omega)

/-- A tree of subsurfaces whose surfaces are `good`, where the children of a
good surface are good, deeper, and carry attached subsurface roles, passes the
check `treeBelow` at every height above what is left of the depth. -/
theorem treeBelow_of_rank {w : World} {depth : Nat → Nat} {N : Nat} (good : Nat → Prop)
    (h : ∀ s, good s → ∃ surf, w.surfaces s = some surf
      ∧ ∀ c, c ∈ surf.subsurfaces → good c ∧ depth s < depth c ∧ depth c ≤ N
        ∧ ∃ ck child, w.roleOf c = some ck ∧ w.subsurfaces ck = some child
          ∧ child.surface = some c) :
    ∀ (n k : Nat) (a : Subsurface), w.subsurfaces k = some a → 0 < n →
      (∀ s, a.surface = some s → good s ∧ N < depth s + n) → treeBelow w n k = true := by
  intro n
  induction n with
  | zero => intro k a _ h0; exact absurd h0 (Nat.lt_irrefl 0)
  | succ n ih =>
    intro k a hk _ hgood
    unfold treeBelow
    rw [hk]
    simp only []
    cases hs : a.surface with
    | none => rfl
    | some s =>
      obtain ⟨hg, hN⟩ := hgood s hs
      obtain ⟨surf, hsurf, hch⟩ := h s hg
      simp only [hsurf, List.all_eq_true]
      intro c hc
      obtain ⟨hgc, hd, hcN, ck, child, h1, h2, h3⟩ := hch c hc
      simp only [h1, h2, h3, decide_True, Bool.true_and]
      exact ih ck child h2 (by omega) (fun s' hs' => by
        rw [h3] at hs'
        cases hs'
        exact ⟨hgc, by omega⟩)

/-- In a forest every subsurface passes the check `treeBelow` at every height
above the bound of the depth. -/
theorem treeBelow_of_forest {w : World} {depth : Nat → Nat} {N : Nat}
    (hl : Linked w) (hr : Ranked w depth N) (n k : Nat) (a : Subsurface)
    (hk : w.subsurfaces k = some a) (hn : N < n) : treeBelow w n k = true := by
  refine @treeBelow_of_rank w depth N (fun s => ∃ surf, w.surfaces s = some surf) ?_ n k a hk
    (by omega) ?_
  · rintro s ⟨surf, hs⟩
    refine ⟨surf, hs, fun c hc => ?_⟩
    obtain ⟨ck, child, h1, h2, h3, -⟩ := hl.2.1 s c surf hs hc
    obtain ⟨csurf, hcs, -⟩ := role_of_roleOf h1
    exact ⟨⟨csurf, hcs⟩, hr.2 s c surf hs hc, hr.1 c csurf hcs, ck, child, h1, h2, h3⟩
  · intro s hs
    obtain ⟨surf, hsurf, -⟩ := hl.1 k s a hk hs
    exact ⟨⟨surf, hsurf⟩, by omega⟩

/-- In a forest `XLUpdateDesynchronousChildren` returns from every surface,
given more fuel than the depth that is left. -/
theorem XLUpdateDesynchronousChildren_returns {w : World} {depth : Nat → Nat} {N : Nat}
    (hl : Linked w) (hr : Ranked w depth N) :
    ∀ (fuel s : Nat) (surf : Surface) (n : Int), w.surfaces s = some surf →
      N < depth s + fuel → ∃ m, XLUpdateDesynchronousChildren fuel w s n = some m := by
  intro fuel
  induction fuel with
  | zero =>
    intro s surf n hs h
    have := hr.1 s surf hs
    omega
  | succ f ih =>
    intro s surf n hs hN
    unfold XLUpdateDesynchronousChildren
    rw [hs]
    simp only []
    apply foldlM_total
    intro c hc n'
    obtain ⟨ck, child, h1, h2, -, -⟩ := hl.2.1 s c surf hs hc
    obtain ⟨csurf, hcs, -⟩ := role_of_roleOf h1
    simp only [h1, h2]
    have := hr.2 s c surf hs hc
    exact ih c csurf _ hcs (by omega)

end Sub

namespace Sub

/-- A world whose surfaces and lists of children are among those of a ranked
world is ranked the same way. -/
theorem Ranked_of_lists {w w' : World} {depth : Nat → Nat} {N : Nat}
    (h : ∀ (j : Nat) (x' : Surface), w'.surfaces j = some x' →
      ∃ x, w.surfaces j = some x ∧ ∀ c, c ∈ x'.subsurfaces → c ∈ x.subsurfaces)
    (hr : Ranked w depth N) : Ranked w' depth N := by
  refine ⟨fun s surf hs => ?_, fun p c psurf hp hc => ?_⟩
  · obtain ⟨x, hx, -⟩ := h s surf hs
    exact hr.1 s x hx
  · obtain ⟨x, hx, hsub⟩ := h p psurf hp
    exact hr.2 p c x hx (hsub c hc)

/-- The links survive the detaching of an attached subsurface, with or without
a parent: the role pointer of its surface is cleared, the surface leaves the
list of the parent, and the subsurface is gone or has no surface. -/
theorem Linked_detach {w w' : World} (S s : Nat) (a : Subsurface)
    (hS : w.subsurfaces S = some a) (hs : a.surface = some s)
    (hsurf : ∀ j, (w'.surfaces j).map Surface.links
      = (w.surfaces j).map (fun x =>
          (x.role_type, (if j = s then none else x.role),
            (if a.parent = some j then x.subsurfaces.filter (fun c => c ≠ s)
             else x.subsurfaces))))
    (hsub : ∀ j, j ≠ S → (w'.subsurfaces j).map Subsurface.ends
      = (w.subsurfaces j).map Subsurface.ends)
    (hgone : ∀ b, w'.subsurfaces S = some b → b.surface = none)
    (hl : Linked w) : Linked w' := by
  obtain ⟨h1, h2, h3⟩ := hl
  obtain ⟨ssurf, hssurf, hsrole, -, -⟩ := h1 S s a hS hs
  -- an attached subsurface of the new world is an attached one of the old, not `S`
  have hold : ∀ {k c : Nat} {a' : Subsurface}, w'.subsurfaces k = some a' →
      a'.surface = some c →
      k ≠ S ∧ c ≠ s ∧ ∃ b, w.subsurfaces k = some b ∧ b.surface = some c
        ∧ b.parent = a'.parent := by
    intro k c a' hk hc
    have hkS : k ≠ S := by
      intro e
      subst e
      rw [hgone a' hk] at hc
      cases hc
    obtain ⟨b, hb, e⟩ := lookup_of_map_eq (hsub k hkS) hk
    simp only [Subsurface.ends, Prod.mk.injEq] at e
    have hbc : b.surface = some c := by rw [← e.1, hc]
    refine ⟨hkS, ?_, b, hb, hbc, e.2.symm⟩
    intro ecs
    subst ecs
    obtain ⟨surf, g1, g2, -⟩ := h1 k c b hb hbc
    rw [hssurf] at g1
    cases g1
    rw [hsrole] at g2
    cases g2
    exact hkS rfl
  -- surfaces of the old world are there in the new
  have hnew : ∀ {j : Nat} {x : Surface}, w.surfaces j = some x →
      ∃ x', w'.surfaces j = some x' ∧ x'.role_type = x.role_type
        ∧ x'.role = (if j = s then none else x.role)
        ∧ x'.subsurfaces
            = (if a.parent = some j then x.subsurfaces.filter (fun c => c ≠ s)
               else x.subsurfaces) := by
    intro j x hx
    obtain ⟨x', hx', e⟩ := lookup_of_map_eq (hsurf j).symm hx
    simp only [Surface.links, Prod.mk.injEq] at e
    exact ⟨x', hx', e.1.symm, e.2.1.symm, e.2.2.symm⟩
  refine ⟨?_, ?_, ?_⟩
  · intro k c a' hk hc
    obtain ⟨-, hcs, b, hb, hbc, hbp⟩ := hold hk hc
    obtain ⟨surf, g1, g2, g3, g4⟩ := h1 k c b hb hbc
    obtain ⟨surf', hs', e1, e2, -⟩ := hnew g1
    refine ⟨surf', hs', by rw [e2, if_neg hcs, g2], by rw [e1, g3], fun q hq => ?_⟩
    obtain ⟨qsurf, g5, g6⟩ := g4 q (by rw [hbp, hq])
    obtain ⟨qsurf', hq', -, -, e3⟩ := hnew g5
    refine ⟨qsurf', hq', ?_⟩
    rw [e3]
    split
    · exact List.mem_filter.mpr ⟨g6, by simpa using hcs⟩
    · exact g6
  · intro q c qsurf' hq hc
    obtain ⟨qsurf, hqs, e⟩ := lookup_of_map_eq (hsurf q) hq
    simp only [Surface.links, Prod.mk.injEq] at e
    have hcold : c ∈ qsurf.subsurfaces ∧ (a.parent = some q → c ≠ s) := by
      rw [e.2.2] at hc
      by_cases hqp : a.parent = some q
      · rw [if_pos hqp] at hc
        have := List.mem_filter.mp hc
        exact ⟨this.1, fun _ => by simpa using this.2⟩
      · rw [if_neg hqp] at hc
        exact ⟨hc, fun h => absurd h hqp⟩
    obtain ⟨ck, child, g1, g2, g3, g4⟩ := h2 q c qsurf hqs hcold.1
    have hcs : c ≠ s := by
      intro ecs
      subst ecs
      have hr := roleOf_of_role hssurf hsrole
      rw [hr] at g1
      cases g1
      rw [hS] at g2
      cases g2
      exact hcold.2 g4 rfl
    have hckS : ck ≠ S := by
      intro e'
      subst e'
      rw [hS] at g2
      cases g2
      rw [hs] at g3
      cases g3
      exact hcs rfl
    obtain ⟨csurf, hcsurf, hcrole⟩ := role_of_roleOf g1
    obtain ⟨csurf', hcsurf', -, e2, -⟩ := hnew hcsurf
    obtain ⟨child', hchild', e'⟩ := lookup_of_map_eq (hsub ck hckS).symm g2
    simp only [Subsurface.ends, Prod.mk.injEq] at e'
    exact ⟨ck, child', roleOf_of_role hcsurf' (by rw [e2, if_neg hcs, hcrole]), hchild',
      by rw [← e'.1, g3], by rw [← e'.2, g4]⟩
  · intro c surf' r hc hr
    obtain ⟨surf, hsf, e⟩ := lookup_of_map_eq (hsurf c) hc
    simp only [Surface.links, Prod.mk.injEq] at e
    have hcs : c ≠ s := by
      intro ecs
      rw [e.2.1, if_pos ecs] at hr
      cases hr
    rw [e.2.1, if_neg hcs] at hr
    obtain ⟨k, b, rfl, hb, hbc⟩ := h3 c surf r hsf hr
    have hkS : k ≠ S := by
      intro e'
      subst e'
      rw [hS] at hb
      cases hb
      rw [hs] at hbc
      cases hbc
      exact hcs rfl
    obtain ⟨b', hb', e'⟩ := lookup_of_map_eq (hsub k hkS).symm hb
    simp only [Subsurface.ends, Prod.mk.injEq] at e'
    exact ⟨k, b', rfl, hb', by rw [← e'.1, hbc]⟩

/-- A forest stays one when an attached subsurface is detached. -/
theorem Forest_detach {w w' : World} (S s : Nat) (a : Subsurface)
    (hS : w.subsurfaces S = some a) (hs : a.surface = some s)
    (hsurf : ∀ j, (w'.surfaces j).map Surface.links
      = (w.surfaces j).map (fun x =>
          (x.role_type, (if j = s then none else x.role),
            (if a.parent = some j then x.subsurfaces.filter (fun c => c ≠ s)
             else x.subsurfaces))))
    (hsub : ∀ j, j ≠ S → (w'.subsurfaces j).map Subsurface.ends
      = (w.subsurfaces j).map Subsurface.ends)
    (hgone : ∀ b, w'.subsurfaces S = some b → b.surface = none)
    (hf : Forest w) : Forest w' := by
  obtain ⟨hl, depth, N, hr⟩ := hf
  refine ⟨Linked_detach S s a hS hs hsurf hsub hgone hl, depth, N, Ranked_of_lists ?_ hr⟩
  intro j x' hx'
  obtain ⟨x, hx, e⟩ := lookup_of_map_eq (hsurf j) hx'
  simp only [Surface.links, Prod.mk.injEq] at e
  refine ⟨x, hx, fun c hc => ?_⟩
  rw [e.2.2] at hc
  split at hc
  · exact (List.mem_filter.mp hc).1
  · exact hc

end Sub

namespace Sub

/-- The links survive the attaching of a new subsurface to a surface without a
role: the surface gets the role and enters the list of the parent. -/
theorem Linked_attach {w w' : World} (address surface parent : Nat) (ssurf psurf : Surface)
    (hfresh : w.subsurfaces address = none) (hsurface : w.surfaces surface = some ssurf)
    (hnorole : ssurf.role = none) (hparent : w.surfaces parent = some psurf)
    (hsurf : ∀ j, (w'.surfaces j).map Surface.links
      = (w.surfaces j).map (fun x =>
          ((if j = surface then RoleType.SubsurfaceType else x.role_type),
            (if j = surface then some (RolePtr.subsurface address) else x.role),
            (if j = parent then surface :: x.subsurfaces else x.subsurfaces))))
    (hsub : ∀ j, j ≠ address → (w'.subsurfaces j).map Subsurface.ends
      = (w.subsurfaces j).map Subsurface.ends)
    (hnew : (w'.subsurfaces address).map Subsurface.ends = some (some surface, some parent))
    (hl : Linked w) : Linked w' := by
  obtain ⟨h1, h2, h3⟩ := hl
  have hold : ∀ {k : Nat} {a' : Subsurface}, w'.subsurfaces k = some a' → k ≠ address →
      ∃ b, w.subsurfaces k = some b ∧ b.surface = a'.surface ∧ b.parent = a'.parent := by
    intro k a' hk hka
    obtain ⟨b, hb, e⟩ := lookup_of_map_eq (hsub k hka) hk
    simp only [Subsurface.ends, Prod.mk.injEq] at e
    exact ⟨b, hb, e.1.symm, e.2.symm⟩
  have hkeep : ∀ {k : Nat} {b : Subsurface}, w.subsurfaces k = some b →
      ∃ b', w'.subsurfaces k = some b' ∧ b'.surface = b.surface ∧ b'.parent = b.parent := by
    intro k b hk
    have hka : k ≠ address := by
      intro e
      rw [e, hfresh] at hk
      cases hk
    obtain ⟨b', hb', e⟩ := lookup_of_map_eq (hsub k hka).symm hk
    simp only [Subsurface.ends, Prod.mk.injEq] at e
    exact ⟨b', hb', e.1.symm, e.2.symm⟩
  have hthe : ∃ a', w'.subsurfaces address = some a' ∧ a'.surface = some surface
      ∧ a'.parent = some parent := by
    cases ha : w'.subsurfaces address with
    | none => rw [ha] at hnew; simp at hnew
    | some a' =>
      rw [ha] at hnew
      simp only [Option.map_some', Subsurface.ends, Option.some.injEq, Prod.mk.injEq] at hnew
      exact ⟨a', rfl, hnew⟩
  have hfwd : ∀ {j : Nat} {x : Surface}, w.surfaces j = some x →
      ∃ x', w'.surfaces j = some x'
        ∧ x'.role_type = (if j = surface then RoleType.SubsurfaceType else x.role_type)
        ∧ x'.role = (if j = surface then some (RolePtr.subsurface address) else x.role)
        ∧ x'.subsurfaces = (if j = parent then surface :: x.subsurfaces else x.subsurfaces) := by
    intro j x hx
    obtain ⟨x', hx', e⟩ := lookup_of_map_eq (hsurf j).symm hx
    simp only [Surface.links, Prod.mk.injEq] at e
    exact ⟨x', hx', e.1.symm, e.2.1.symm, e.2.2.symm⟩
  obtain ⟨anew, hanew, hanews, hanewp⟩ := hthe
  refine ⟨?_, ?_, ?_⟩
  · intro k c a' hk hc
    by_cases hka : k = address
    · subst hka
      rw [hanew] at hk
      cases hk
      rw [hanews] at hc
      cases hc
      obtain ⟨x', hx', e1, e2, -⟩ := hfwd hsurface
      refine ⟨x', hx', by rw [e2, if_pos rfl], by rw [e1, if_pos rfl], fun p hp => ?_⟩
      rw [hanewp] at hp
      cases hp
      obtain ⟨p', hp', -, -, e3⟩ := hfwd hparent
      exact ⟨p', hp', by rw [e3, if_pos rfl]; exact List.mem_cons_self _ _⟩
    · obtain ⟨b, hb, hbs, hbp⟩ := hold hk hka
      obtain ⟨surf, g1, g2, g3, g4⟩ := h1 k c b hb (by rw [hbs, hc])
      have hcs : c ≠ surface := by
        intro e
        subst e
        rw [hsurface] at g1
        cases g1
        rw [hnorole] at g2
        cases g2
      obtain ⟨x', hx', e1, e2, -⟩ := hfwd g1
      refine ⟨x', hx', by rw [e2, if_neg hcs, g2], by rw [e1, if_neg hcs, g3], fun q hq => ?_⟩
      obtain ⟨qsurf, g5, g6⟩ := g4 q (by rw [hbp, hq])
      obtain ⟨q', hq', -, -, e3⟩ := hfwd g5
      refine ⟨q', hq', ?_⟩
      rw [e3]
      split
      · exact List.mem_cons_of_mem _ g6
      · exact g6
  · intro q c qsurf' hq hc
    obtain ⟨qsurf, hqs, e⟩ := lookup_of_map_eq (hsurf q) hq
    simp only [Surface.links, Prod.mk.injEq] at e
    have hcases : c ∈ qsurf.subsurfaces ∨ (q = parent ∧ c = surface) := by
      rw [e.2.2] at hc
      by_cases hqp : q = parent
      · rw [if_pos hqp] at hc
        rcases List.mem_cons.mp hc with h | h
        · exact Or.inr ⟨hqp, h⟩
        · exact Or.inl h
      · rw [if_neg hqp] at hc
        exact Or.inl hc
    rcases hcases with hcold | ⟨hqp, hcs⟩
    · obtain ⟨ck, child, g1, g2, g3, g4⟩ := h2 q c qsurf hqs hcold
      obtain ⟨csurf, hcsurf, hcrole⟩ := role_of_roleOf g1
      have hcs : c ≠ surface := by
        intro e'
        subst e'
        rw [hsurface] at hcsurf
        cases hcsurf
        rw [hnorole] at hcrole
        cases hcrole
      obtain ⟨csurf', hcsurf', -, e2, -⟩ := hfwd hcsurf
      obtain ⟨child', hchild', f1, f2⟩ := hkeep g2
      exact ⟨ck, child', roleOf_of_role hcsurf' (by rw [e2, if_neg hcs, hcrole]), hchild',
        by rw [f1, g3], by rw [f2, g4]⟩
    · subst hqp
      subst hcs
      obtain ⟨x', hx', -, e2, -⟩ := hfwd hsurface
      exact ⟨address, anew, roleOf_of_role hx' (by rw [e2, if_pos rfl]), hanew, hanews, hanewp⟩
  · intro c surf' r hc hr
    obtain ⟨surf, hsf, e⟩ := lookup_of_map_eq (hsurf c) hc
    simp only [Surface.links, Prod.mk.injEq] at e
    by_cases hcs : c = surface
    · subst hcs
      rw [e.2.1, if_pos rfl] at hr
      cases hr
      exact ⟨address, anew, rfl, hanew, hanews⟩
    · rw [e.2.1, if_neg hcs] at hr
      obtain ⟨k, b, rfl, hb, hbc⟩ := h3 c surf r hsf hr
      obtain ⟨b', hb', f1, -⟩ := hkeep hb
      exact ⟨k, b', rfl, hb', by rw [f1, hbc]⟩

/-- A surface below a surface without a role has that surface as its root. -/
theorem root_of_below {w : World} {top : Nat} {t : Surface} (hl : Linked w)
    (htop : w.surfaces top = some t) (hrole : t.role = none) {x : Nat}
    (hx : Below w top x) :
    ∀ (fuel root : Nat), GetRootSurface fuel w x = some root → root = top := by
  induction hx with
  | refl =>
    intro fuel root h
    cases fuel with
    | zero => simp [GetRootSurface] at h
    | succ n =>
      unfold GetRootSurface at h
      rw [htop] at h
      simp only [hrole, or_true, if_true, Option.some.injEq] at h
      exact h.symm
  | @step p c psurf _ hp hc ih =>
    intro fuel root h
    cases fuel with
    | zero => simp [GetRootSurface] at h
    | succ n =>
      obtain ⟨ck, child, g1, g2, g3, g4⟩ := hl.2.1 p c psurf hp hc
      obtain ⟨csurf, hcs, hcrole⟩ := role_of_roleOf g1
      obtain ⟨csurf', hcs', -, htype, -⟩ := hl.1 ck c child g2 g3
      rw [hcs] at hcs'
      cases hcs'
      unfold GetRootSurface at h
      rw [hcs] at h
      simp only [hcrole, htype, ne_eq, not_true_eq_false, false_or, g2, g4] at h
      simp only [reduceCtorEq, if_false] at h
      exact ih n root h

/-- A ranked world stays ranked when a surface enters the list of a surface
that is not below it. -/
theorem Ranked_attach {w w' : World} {depth : Nat → Nat} {N : Nat} (surface parent : Nat)
    (psurf : Surface) (hparent : w.surfaces parent = some psurf)
    (hsurf : ∀ j, (w'.surfaces j).map (fun x => x.subsurfaces)
      = (w.surfaces j).map (fun x =>
          (if j = parent then surface :: x.subsurfaces else x.subsurfaces)))
    (hnot : ¬ Below w surface parent) (hr : Ranked w depth N) :
    ∃ depth' N', Ranked w' depth' N' := by
  classical
  refine ⟨fun x => if Below w surface x then depth x + depth parent + 1 else depth x,
    N + N + 1, fun s surf hs => ?_, fun p c psurf' hp hc => ?_⟩
  · obtain ⟨x, hx, -⟩ := lookup_of_map_eq (hsurf s) hs
    have h1 := hr.1 s x hx
    have h2 := hr.1 parent psurf hparent
    simp only []
    split <;> omega
  · obtain ⟨x, hx, e⟩ := lookup_of_map_eq (hsurf p) hp
    have hcases : c ∈ x.subsurfaces ∨ (p = parent ∧ c = surface) := by
      rw [e] at hc
      by_cases hqp : p = parent
      · rw [if_pos hqp] at hc
        rcases List.mem_cons.mp hc with h | h
        · exact Or.inr ⟨hqp, h⟩
        · exact Or.inl h
      · rw [if_neg hqp] at hc
        exact Or.inl hc
    simp only []
    rcases hcases with hcold | ⟨hqp, hcs⟩
    · have hd := hr.2 p c x hx hcold
      by_cases hb : Below w surface p
      · rw [if_pos hb, if_pos (Below.step hb hx hcold)]
        omega
      · rw [if_neg hb]
        split <;> omega
    · subst hqp
      subst hcs
      rw [if_neg hnot, if_pos Below.refl]
      omega

end Sub

namespace Sub

/-- A forest stays one when its links are kept and the only new surfaces have
no role and no children. -/
theorem Forest_extension {w w' : World}
    (hkeep : ∀ (j : Nat) (x : Surface), w.surfaces j = some x →
      ∃ x', w'.surfaces j = some x' ∧ x'.links = x.links)
    (hbare : ∀ (j : Nat) (x' : Surface), w'.surfaces j = some x' →
      (∃ x, w.surfaces j = some x ∧ x'.links = x.links)
        ∨ (x'.role = none ∧ x'.subsurfaces = []))
    (hsub : ∀ j, (w'.subsurfaces j).map Subsurface.ends = (w.subsurfaces j).map Subsurface.ends)
    (hf : Forest w) : Forest w' := by
  obtain ⟨⟨h1, h2, h3⟩, depth, N, hr⟩ := hf
  have hold : ∀ {k : Nat} {a' : Subsurface}, w'.subsurfaces k = some a' →
      ∃ b, w.subsurfaces k = some b ∧ b.surface = a'.surface ∧ b.parent = a'.parent := by
    intro k a' hk
    obtain ⟨b, hb, e⟩ := lookup_of_map_eq (hsub k) hk
    simp only [Subsurface.ends, Prod.mk.injEq] at e
    exact ⟨b, hb, e.1.symm, e.2.symm⟩
  have hfwd : ∀ {k : Nat} {b : Subsurface}, w.subsurfaces k = some b →
      ∃ b', w'.subsurfaces k = some b' ∧ b'.surface = b.surface ∧ b'.parent = b.parent := by
    intro k b hk
    obtain ⟨b', hb', e⟩ := lookup_of_map_eq (hsub k).symm hk
    simp only [Subsurface.ends, Prod.mk.injEq] at e
    exact ⟨b', hb', e.1.symm, e.2.symm⟩
  refine ⟨⟨?_, ?_, ?_⟩, ?_⟩
  · intro k c a' hk hc
    obtain ⟨b, hb, hbs, hbp⟩ := hold hk
    obtain ⟨surf, g1, g2, g3, g4⟩ := h1 k c b hb (by rw [hbs, hc])
    obtain ⟨x', hx', e⟩ := hkeep c surf g1
    simp only [Surface.links, Prod.mk.injEq] at e
    refine ⟨x', hx', by rw [e.2.1, g2], by rw [e.1, g3], fun q hq => ?_⟩
    obtain ⟨qsurf, g5, g6⟩ := g4 q (by rw [hbp, hq])
    obtain ⟨q', hq', e'⟩ := hkeep q qsurf g5
    simp only [Surface.links, Prod.mk.injEq] at e'
    exact ⟨q', hq', by rw [e'.2.2]; exact g6⟩
  · intro q c qsurf' hq hc
    rcases hbare q qsurf' hq with ⟨qsurf, hqs, e⟩ | ⟨-, hnil⟩
    · simp only [Surface.links, Prod.mk.injEq] at e
      obtain ⟨ck, child, g1, g2, g3, g4⟩ := h2 q c qsurf hqs (by rw [← e.2.2]; exact hc)
      obtain ⟨csurf, hcsurf, hcrole⟩ := role_of_roleOf g1
      obtain ⟨csurf', hcsurf', e'⟩ := hkeep c csurf hcsurf
      simp only [Surface.links, Prod.mk.injEq] at e'
      obtain ⟨child', hchild', f1, f2⟩ := hfwd g2
      exact ⟨ck, child', roleOf_of_role hcsurf' (by rw [e'.2.1, hcrole]), hchild',
        by rw [f1, g3], by rw [f2, g4]⟩
    · rw [hnil] at hc
      cases hc
  · intro c surf' r hc hr
    rcases hbare c surf' hc with ⟨surf, hsf, e⟩ | ⟨hnone, -⟩
    · simp only [Surface.links, Prod.mk.injEq] at e
      obtain ⟨k, b, rfl, hb, hbc⟩ := h3 c surf r hsf (by rw [← e.2.1]; exact hr)
      obtain ⟨b', hb', f1, -⟩ := hfwd hb
      exact ⟨k, b', rfl, hb', by rw [f1, hbc]⟩
    · rw [hnone] at hr
      cases hr
  · refine ⟨fun x => if (w.surfaces x).isSome = true then depth x else 0, N,
      fun s surf hs => ?_, fun p c psurf hp hc => ?_⟩
    · simp only []
      split
      · rename_i h
        obtain ⟨x, hx⟩ := Option.isSome_iff_exists.mp h
        exact hr.1 s x hx
      · exact Nat.zero_le _
    · rcases hbare p psurf hp with ⟨x, hx, e⟩ | ⟨-, hnil⟩
      · simp only [Surface.links, Prod.mk.injEq] at e
        have hcx : c ∈ x.subsurfaces := by rw [← e.2.2]; exact hc
        obtain ⟨ck, child, g1, -⟩ := h2 p c x hx hcx
        obtain ⟨csurf, hcsurf, -⟩ := role_of_roleOf g1
        simp only [hx, hcsurf, Option.isSome_some, if_true]
        exact hr.2 p c x hx hcx
      · rw [hnil] at hc
        cases hc

/-- A forest stays one when a new surface is created. -/
theorem Forest_addSurface {w : World} {s : Nat} (hs : w.surfaces s = none) (hf : Forest w) :
    Forest (addSurface w s) := by
  refine @Forest_extension w (addSurface w s) (fun j x hx => ?_) (fun j x' hx' => ?_)
    (fun j => rfl) hf
  · have hj : j ≠ s := fun e => by rw [e, hs] at hx; cases hx
    exact ⟨x, by simp [addSurface, hj, hx], rfl⟩
  · by_cases hj : j = s
    · subst hj
      simp only [addSurface, setSurface_surfaces, if_true, Option.some.injEq] at hx'
      subst hx'
      exact Or.inr ⟨rfl, rfl⟩
    · simp only [addSurface, setSurface_surfaces, if_neg hj] at hx'
      exact Or.inl ⟨x', hx', rfl⟩

/-- A forest stays one when the links are kept. -/
theorem Forest_congr {w w' : World}
    (hsurf : ∀ j, (w'.surfaces j).map Surface.links = (w.surfaces j).map Surface.links)
    (hsub : ∀ j, (w'.subsurfaces j).map Subsurface.ends = (w.subsurfaces j).map Subsurface.ends)
    (hf : Forest w) : Forest w' := by
  refine Forest_extension (fun j x hx => ?_) (fun j x' hx' => ?_) hsub hf
  · obtain ⟨x', hx', e⟩ := lookup_of_map_eq (hsurf j).symm hx
    exact ⟨x', hx', e.symm⟩
  · obtain ⟨x, hx, e⟩ := lookup_of_map_eq (hsurf j) hx'
    exact Or.inl ⟨x, hx, e⟩

end Sub

namespace Sub

/-- What `XLSubsurfaceParentDestroyed` leaves: the surfaces as they were, and
the subsurface without a parent. -/
theorem XLSubsurfaceParentDestroyed_ends {w w1 : World} {k : Nat}
    (h : XLSubsurfaceParentDestroyed w k = some w1) :
    w1.surfaces = w.surfaces
      ∧ (∀ j a, w.subsurfaces j = some a →
          ∃ a', w1.subsurfaces j = some a' ∧ a'.surface = a.surface
            ∧ (j = k → a'.parent = none) ∧ (j ≠ k → a'.parent = a.parent))
      ∧ ∀ j, w.subsurfaces j = none → w1.subsurfaces j = none := by
  unfold XLSubsurfaceParentDestroyed at h
  cases hk : w.subsurfaces k with
  | none => rw [hk] at h; simp at h
  | some b =>
    rw [hk] at h
    simp only [Option.some.injEq] at h
    subst h
    have hs : ∀ (v : World), v.surfaces = w.surfaces → v.subsurfaces = w.subsurfaces →
        (v.setSubsurface k { b with commit_callback := false, parent := none }).surfaces
            = w.surfaces
          ∧ (∀ j a, w.subsurfaces j = some a →
              ∃ a', (v.setSubsurface k
                  { b with commit_callback := false, parent := none }).subsurfaces j = some a'
                ∧ a'.surface = a.surface
                ∧ (j = k → a'.parent = none) ∧ (j ≠ k → a'.parent = a.parent))
          ∧ ∀ j, w.subsurfaces j = none →
              (v.setSubsurface k
                { b with commit_callback := false, parent := none }).subsurfaces j = none := by
      intro v hv1 hv2
      refine ⟨by simp [hv1], fun j a hj => ?_, fun j hj => ?_⟩
      · by_cases hjk : j = k
        · rw [hjk, hk] at hj
          cases hj
          exact ⟨{ b with commit_callback := false, parent := none }, by simp [hjk], rfl,
            fun _ => rfl, fun e => absurd hjk e⟩
        · exact ⟨a, by simp [hjk, hv2, hj], rfl, fun e => absurd e hjk, fun _ => rfl⟩
      · have hjk : j ≠ k := fun e => by rw [e, hk] at hj; cases hj
        simp [hjk, hv2, hj]
    have hv : (match b.surface with
        | some surface => ViewUnparent (ViewUnparent w (View.view surface)) (View.under surface)
        | none => w).surfaces = w.surfaces
      ∧ (match b.surface with
        | some surface => ViewUnparent (ViewUnparent w (View.view surface)) (View.under surface)
        | none => w).subsurfaces = w.subsurfaces := by
      cases b.surface <;> simp
    revert hv
    generalize (match b.surface with
        | some surface => ViewUnparent (ViewUnparent w (View.view surface)) (View.under surface)
        | none => w) = v
    intro hv
    exact hs v hv.1 hv.2

/-- What the loop of the destruction of a surface leaves: the surfaces as they
were, and the subsurfaces that are the roles of the children without a
parent. -/
theorem forEachChild_orphans :
    ∀ (l : List Nat) (w w' : World),
      forEachChild XLSubsurfaceParentDestroyed w l = some w' →
      w'.surfaces = w.surfaces
        ∧ (∀ j a, w.subsurfaces j = some a →
            ∃ a', w'.subsurfaces j = some a' ∧ a'.surface = a.surface
              ∧ ((∃ c, c ∈ l ∧ w.roleOf c = some j) → a'.parent = none)
              ∧ ((¬ ∃ c, c ∈ l ∧ w.roleOf c = some j) → a'.parent = a.parent))
        ∧ ∀ j, w.subsurfaces j = none → w'.subsurfaces j = none
  | [], w, w', h => by
    rw [forEachChild_nil] at h
    cases h
    refine ⟨rfl, fun j a hj => ⟨a, hj, rfl, ?_, fun _ => rfl⟩, fun j hj => hj⟩
    rintro ⟨c, hc, -⟩
    cases hc
  | c :: rest, w, w', h => by
    rw [forEachChild_cons] at h
    cases hr : w.roleOf c with
    | none => rw [hr] at h; simp at h
    | some ck =>
      rw [hr] at h
      simp only [] at h
      cases h1 : XLSubsurfaceParentDestroyed w ck with
      | none => rw [h1] at h; simp at h
      | some w1 =>
        rw [h1] at h
        simp only [Option.some_bind] at h
        obtain ⟨e1, f1, g1⟩ := XLSubsurfaceParentDestroyed_ends h1
        obtain ⟨e2, f2, g2⟩ := forEachChild_orphans rest w1 w' h
        have hrole : ∀ x, w1.roleOf x = w.roleOf x := fun x => roleOf_congr e1 x
        refine ⟨by rw [e2, e1], fun j a hj => ?_, fun j hj => g2 j (g1 j hj)⟩
        obtain ⟨a1, ha1, s1, p1, q1⟩ := f1 j a hj
        obtain ⟨a', ha', s2, p2, q2⟩ := f2 j a1 ha1
        refine ⟨a', ha', by rw [s2, s1], ?_, ?_⟩
        · rintro ⟨c', hc', hrc'⟩
          by_cases hrest : ∃ x, x ∈ rest ∧ w1.roleOf x = some j
          · exact p2 hrest
          · rw [q2 hrest]
            rcases List.mem_cons.mp hc' with e | e
            · subst e
              rw [hr] at hrc'
              cases hrc'
              exact p1 rfl
            · exact absurd ⟨c', e, by rw [hrole, hrc']⟩ hrest
        · intro hno
          have hrest : ¬ ∃ x, x ∈ rest ∧ w1.roleOf x = some j := by
            rintro ⟨x, hx, hrx⟩
            exact hno ⟨x, List.mem_cons_of_mem _ hx, by rw [← hrole, hrx]⟩
          have hjk : j ≠ ck := by
            intro e
            subst e
            exact hno ⟨c, List.mem_cons_self _ _, hr⟩
          rw [q2 hrest, q1 hjk]

end Sub

namespace Sub

/-- A forest stays one when a surface without a role is destroyed. -/
theorem destroySurface_forest {w w' : World} {x : Nat} {xs : Surface}
    (h : destroySurface w x = some w') (hx : w.surfaces x = some xs) (hrole : xs.role = none)
    (hf : Forest w) : Forest w' := by
  unfold destroySurface at h
  rw [hx] at h
  simp only [] at h
  cases h1 : forEachChild XLSubsurfaceParentDestroyed w xs.subsurfaces with
  | none => rw [h1] at h; simp at h
  | some w1 =>
    rw [h1] at h
    simp only [Option.some.injEq] at h
    obtain ⟨e1, f1, g1⟩ := forEachChild_orphans _ _ _ h1
    have hsurf : ∀ j, w'.surfaces j = if j = x then none else w.surfaces j := by
      intro j
      rw [← h, ← e1]
    have hsubs : w'.subsurfaces = w1.subsurfaces := by rw [← h]
    obtain ⟨⟨h1', h2, h3⟩, depth, N, hr⟩ := hf
    -- the subsurfaces of the new world are those of the old
    have hold : ∀ {k : Nat} {a' : Subsurface}, w'.subsurfaces k = some a' →
        ∃ a, w.subsurfaces k = some a ∧ a'.surface = a.surface
          ∧ ((∃ c, c ∈ xs.subsurfaces ∧ w.roleOf c = some k) → a'.parent = none)
          ∧ ((¬ ∃ c, c ∈ xs.subsurfaces ∧ w.roleOf c = some k) → a'.parent = a.parent) := by
      intro k a' hk
      rw [hsubs] at hk
      cases ha : w.subsurfaces k with
      | none => rw [g1 k ha] at hk; cases hk
      | some a =>
        obtain ⟨a'', ha'', r1, r2, r3⟩ := f1 k a ha
        rw [hk] at ha''
        cases ha''
        exact ⟨a, rfl, r1, r2, r3⟩
    have hkeep : ∀ {j : Nat} {y : Surface}, w.surfaces j = some y → j ≠ x →
        w'.surfaces j = some y := by
      intro j y hy hj
      rw [hsurf, if_neg hj, hy]
    have hback : ∀ {j : Nat} {y : Surface}, w'.surfaces j = some y →
        j ≠ x ∧ w.surfaces j = some y := by
      intro j y hy
      rw [hsurf] at hy
      by_cases hj : j = x
      · rw [if_pos hj] at hy
        cases hy
      · rw [if_neg hj] at hy
        exact ⟨hj, hy⟩
    have hnot : ∀ {c : Nat} {y : Surface} {r : RolePtr}, w.surfaces c = some y →
        y.role = some r → c ≠ x := by
      intro c y r hy hr e
      rw [e, hx] at hy
      cases hy
      rw [hrole] at hr
      cases hr
    refine ⟨⟨?_, ?_, ?_⟩, depth, N, Ranked_of_lists (fun j y hy => ?_) hr⟩
    · intro k c a' hk hc
      obtain ⟨a, ha, r1, r2, r3⟩ := hold hk
      obtain ⟨surf, g1', g2, g3, g4⟩ := h1' k c a ha (by rw [← r1, hc])
      refine ⟨surf, hkeep g1' (hnot g1' g2), g2, g3, fun q hq => ?_⟩
      by_cases ho : ∃ c', c' ∈ xs.subsurfaces ∧ w.roleOf c' = some k
      · rw [r2 ho] at hq
        cases hq
      · obtain ⟨qsurf, g5, g6⟩ := g4 q (by rw [← r3 ho, hq])
        refine ⟨qsurf, hkeep g5 ?_, g6⟩
        intro e
        subst e
        rw [hx] at g5
        cases g5
        exact ho ⟨c, g6, roleOf_of_role g1' g2⟩
    · intro q c qsurf hq hc
      obtain ⟨hqx, hq'⟩ := hback hq
      obtain ⟨ck, child, t1, t2, t3, t4⟩ := h2 q c qsurf hq' hc
      obtain ⟨csurf, hcsurf, hcrole⟩ := role_of_roleOf t1
      obtain ⟨child', hchild', r1, -, r3⟩ := f1 ck child t2
      have ho : ¬ ∃ c', c' ∈ xs.subsurfaces ∧ w.roleOf c' = some ck := by
        rintro ⟨c', hc', hrc'⟩
        obtain ⟨ck', child'', u1, u2, u3, u4⟩ := h2 x c' xs hx hc'
        rw [hrc'] at u1
        cases u1
        rw [t2] at u2
        cases u2
        rw [t4] at u4
        cases u4
        exact hqx rfl
      exact ⟨ck, child', roleOf_of_role (hkeep hcsurf (hnot hcsurf hcrole)) hcrole,
        by rw [hsubs, hchild'], by rw [r1, t3], by rw [r3 ho, t4]⟩
    · intro c surf r hc hr'
      obtain ⟨-, hc'⟩ := hback hc
      obtain ⟨k, b, rfl, hb, hbc⟩ := h3 c surf r hc' hr'
      obtain ⟨b', hb', r1, -, -⟩ := f1 k b hb
      exact ⟨k, b', rfl, by rw [hsubs, hb'], by rw [r1, hbc]⟩
    · obtain ⟨-, hy'⟩ := hback hy
      exact ⟨y, hy', fun c hc => hc⟩

end Sub

namespace Sub

/-- What the release of the role of an attached subsurface without a parent
leaves: the role pointer of its surface is cleared, the subsurface is gone or
has no surface, and the other subsurfaces keep their surface and parent. -/
theorem XLSurfaceReleaseRole_orphan {w w' : World} {fuel s S : Nat} {a : Subsurface}
    (h : XLSurfaceReleaseRole fuel w s S = some w')
    (hS : w.subsurfaces S = some a) (hp : a.parent = none) :
    (∀ j, (w'.surfaces j).map Surface.links
      = (w.surfaces j).map (fun x =>
          (x.role_type, (if j = s then none else x.role), x.subsurfaces)))
    ∧ (∀ j, j ≠ S → (w'.subsurfaces j).map Subsurface.ends
        = (w.subsurfaces j).map Subsurface.ends)
    ∧ (∀ b, w'.subsurfaces S = some b → b.surface = none) := by
  unfold XLSurfaceReleaseRole at h
  cases hT : Teardown fuel w s S with
  | none => rw [hT] at h; simp at h
  | some wt =>
    rw [hT] at h
    simp only [] at h
    unfold Teardown at hT
    cases hN : NoteSubsurfaceTeardown fuel w S with
    | none => rw [hN] at hT; simp at hT
    | some w1 =>
      rw [hN] at hT
      simp only [] at hT
      rw [NoteSubsurfaceTeardown_eq_walk] at hN
      obtain ⟨r1, -, -, -, -, r6⟩ :=
        @walk_resynced false (fun c => c.should_be_desync) true (fun _ _ => rfl) fuel w w1 S hN
      have h1S : w1.subsurfaces S = some { a with synchronous := false } := by
        rw [(r6 S).1 (Reach.refl S), hS]
        rfl
      rw [h1S] at hT
      simp only [hp] at hT
      obtain ⟨w4, h4, h4b, h4s, -, h4g⟩ :=
        DestroyBacking_frame
          (w1.setSubsurface S { a with synchronous := false, surface := none, parent := none })
          S { a with synchronous := false, surface := none, parent := none } (by simp)
      rw [h4] at hT
      simp only [Option.some.injEq] at hT
      have hts : wt.surfaces = w.surfaces := by rw [← hT]; simp [h4s, r1]
      have htb : wt.subsurfaces = w4.subsurfaces := by rw [← hT]; rfl
      cases hst : wt.surfaces s with
      | none => rw [hst] at h; simp at h
      | some st =>
        rw [hst] at h
        simp only [Option.some.injEq] at h
        refine ⟨fun j => ?_, fun j hj => ?_, fun b hb => ?_⟩
        · rw [← h]
          by_cases hj : j = s
          · subst hj
            rw [← hts, hst]
            simp [Surface.links]
          · simp only [setSurface_surfaces, if_neg hj, hts]
            cases w.surfaces j <;> rfl
        · rw [← h]
          simp only [setSurface_subsurfaces, htb, h4b j hj, setSubsurface_subsurfaces, if_neg hj]
          by_cases hd : Reach (fun c => c.should_be_desync) w S j
          · rw [(r6 j).1 hd]
            cases w.subsurfaces j <;> rfl
          · rw [(r6 j).2 hd]
        · rw [← h] at hb
          simp only [setSurface_subsurfaces, htb] at hb
          exact h4g b hb

/-- A forest stays one when the role of an attached subsurface is released. -/
theorem XLSurfaceReleaseRole_forest {w w' : World} {fuel s S : Nat} {a : Subsurface}
    (h : XLSurfaceReleaseRole fuel w s S = some w') (hS : w.subsurfaces S = some a)
    (hs : a.surface = some s) (hf : Forest w) : Forest w' := by
  cases hp : a.parent with
  | none =>
    obtain ⟨hsurf, hsub, hgone⟩ := XLSurfaceReleaseRole_orphan h hS hp
    refine Forest_detach S s a hS hs (fun j => ?_) hsub hgone hf
    rw [hsurf j, hp]
    simp
  | some p =>
    obtain ⟨-, -, -, -, hpar⟩ := hf.1.1 S s a hS hs
    obtain ⟨psurf, hps, -⟩ := hpar p hp
    obtain ⟨hsurf, hchain, hrest, hgone⟩ := XLSurfaceReleaseRole_links h hS hp hps
    refine Forest_detach S s a hS hs (fun j => ?_) (fun j hj => ?_) hgone hf
    · rw [hsurf j, hp]
      by_cases hj : j = p
      · subst hj
        simp
      · have : ¬ (some p = some j) := fun e => hj (Option.some.inj e).symm
        simp only [if_neg hj, if_neg this]
    · by_cases hd : DesyncChain w S j
      · rw [hchain j hj hd]
        cases w.subsurfaces j <;> rfl
      · rw [hrest j hj hd]

end Sub

namespace Sub

/-- When `GetSubsurface` returns without posting an error or running out of
memory, the parent is another surface and its root is not the surface. -/
theorem GetSubsurface_checks {w w' : World} {fuel surface parent : Nat}
    {allocated : Option Nat} {resource : Bool}
    (h : GetSubsurface fuel w surface parent allocated resource = some w') :
    (∃ c, w' = w.call c)
      ∨ (parent ≠ surface
          ∧ ∃ root, GetRootSurface fuel w parent = some root ∧ root ≠ surface) := by
  unfold GetSubsurface at h
  cases hs0 : w.surfaces surface with
  | none => rw [hs0] at h; simp at h
  | some s0 =>
    rw [hs0] at h
    simp only [] at h
    split at h
    · exact Or.inl ⟨_, (Option.some.inj h).symm⟩
    · split at h
      · exact Or.inl ⟨_, (Option.some.inj h).symm⟩
      · rename_i hne
        cases hroot : GetRootSurface fuel w parent with
        | none => rw [hroot] at h; simp at h
        | some root =>
          rw [hroot] at h
          simp only [] at h
          split at h
          · exact Or.inl ⟨_, (Option.some.inj h).symm⟩
          · rename_i hrs
            exact Or.inr ⟨hne, root, rfl, hrs⟩

/-- What `GetSubsurface` does to the links when it returns: it posts an error
and changes nothing else, or the surface gets the new subsurface as its role
and enters the list of the parent. -/
theorem GetSubsurface_links {w w' : World} {fuel surface parent : Nat}
    {allocated : Option Nat} {resource : Bool}
    (h : GetSubsurface fuel w surface parent allocated resource = some w') :
    (∃ c, w' = w.call c)
    ∨ ∃ (address : Nat) (s0 p0 : Surface),
        allocated = some address ∧ w.surfaces surface = some s0 ∧ s0.role = none
        ∧ w.surfaces parent = some p0
        ∧ (∀ j, (w'.surfaces j).map Surface.links
            = (w.surfaces j).map (fun x =>
                ((if j = surface then RoleType.SubsurfaceType else x.role_type),
                  (if j = surface then some (RolePtr.subsurface address) else x.role),
                  (if j = parent then surface :: x.subsurfaces else x.subsurfaces))))
        ∧ (∀ j, j ≠ address → (w'.subsurfaces j).map Subsurface.ends
            = (w.subsurfaces j).map Subsurface.ends)
        ∧ (w'.subsurfaces address).map Subsurface.ends
            = some (some surface, some parent) := by
  rcases GetSubsurface_cases h with ⟨c, rfl⟩ |
    ⟨address, s0, p0, s6, v, w6, b, hal, hs0, hrole, hp0, hvs, hvo, hvb, hbl, hwalk, hs6, rfl⟩
  · exact Or.inl ⟨c, rfl⟩
  · right
    obtain ⟨r1, -, -, -, -, r6⟩ :=
      @walk_resynced true (fun _ => true) false (fun _ _ => rfl) fuel v w6 address hwalk
    simp only [Subsurface.links, Prod.mk.injEq] at hbl
    refine ⟨address, s0, p0, hal, hs0, hrole, hp0, fun j => ?_, fun j hj => ?_, ?_⟩
    · by_cases hj : j = surface
      · subst hj
        have := hvs j
        rw [← r1, hs6, hs0] at this
        simp only [Option.map_some', Option.some.injEq, Surface.links, Prod.mk.injEq,
          if_true] at this
        simp [hs0, Surface.links, this.1, this.2.2]
      · simp only [setSurface_surfaces, if_neg hj, r1, hvs j]
    · simp only [setSurface_subsurfaces]
      by_cases hd : Reach (fun _ => true) v address j
      · rw [(r6 j).1 hd, hvo j hj]
        cases w.subsurfaces j <;> rfl
      · rw [(r6 j).2 hd, hvo j hj]
    · simp only [setSurface_subsurfaces, (r6 address).1 (Reach.refl address), hvb,
        Option.map_some', Subsurface.ends, hbl.1, hbl.2.1]

/-- A forest stays one under `GetSubsurface`. -/
theorem GetSubsurface_forest {w w' : World} {fuel surface parent : Nat}
    {allocated : Option Nat} {resource : Bool}
    (h : GetSubsurface fuel w surface parent allocated resource = some w')
    (hfresh : ∀ address, allocated = some address → w.subsurfaces address = none)
    (hf : Forest w) : Forest w' := by
  have herr : ∀ c, w' = w.call c → Forest w' := by
    intro c e
    subst e
    exact @Forest_congr w (w.call c) (fun _ => rfl) (fun _ => rfl) hf
  rcases GetSubsurface_checks h with ⟨c, e⟩ | ⟨hne, root, hroot, hrs⟩
  · exact herr c e
  · rcases GetSubsurface_links h with ⟨c, e⟩ |
      ⟨address, s0, p0, hal, hs0, hrole, hp0, hsurf, hsub, hnew⟩
    · exact herr c e
    · obtain ⟨hl, depth, N, hr⟩ := hf
      have hnot : ¬ Below w surface parent := fun hb =>
        hrs (root_of_below hl hs0 hrole hb fuel root hroot)
      refine ⟨Linked_attach address surface parent s0 p0 (hfresh address hal) hs0 hrole hp0
        hsurf hsub hnew hl, ?_⟩
      refine @Ranked_attach w w' depth N surface parent p0 hp0 (fun j => ?_) hnot hr
      have := congrArg (Option.map (fun t : RoleType × Option RolePtr × List Nat => t.2.2))
        (hsurf j)
      simpa [Option.map_map, Function.comp, Surface.links] using this

end Sub

namespace Sub

/-- Every world built by creating and destroying surfaces, `GetSubsurface` and
the release of roles is a forest. -/
theorem TreeReachable_forest {w : World} (h : TreeReachable w) : Forest w := by
  induction h with
  | init =>
    refine ⟨⟨?_, ?_, ?_⟩, fun _ => 0, 0, ?_, ?_⟩
    · intro k s a hk
      cases hk
    · intro p c psurf hp
      cases hp
    · intro s surf r hs
      cases hs
    · intro s surf hs
      cases hs
    · intro p c psurf hp
      cases hp
  | surface s _ hs ih => exact Forest_addSurface hs ih
  | getSubsurface fuel surface parent allocated resource _ hfresh h ih =>
    exact GetSubsurface_forest h hfresh ih
  | teardown fuel surface address a _ hS hs h ih =>
    exact XLSurfaceReleaseRole_forest h hS hs ih
  | destroy surface s _ hx hrole h ih => exact destroySurface_forest h hx hrole ih

/-- In a forest the parent of a surface is less deep than the surface. -/
theorem ParentOf_deeper {w : World} {depth : Nat → Nat} {N : Nat} (hl : Linked w)
    (hr : Ranked w depth N) {c p : Nat} (h : ParentOf w c p) : depth p < depth c := by
  obtain ⟨surf, k, a, hc, hrole, hk, hp⟩ := h
  obtain ⟨k', a', e, hk', hs'⟩ := hl.2.2 c surf _ hc hrole
  cases e
  rw [hk] at hk'
  cases hk'
  obtain ⟨-, -, -, -, hpar⟩ := hl.1 k c a hk hs'
  obtain ⟨psurf, hps, hmem⟩ := hpar p hp
  exact hr.2 p c psurf hps hmem

/-- In a forest every chain of parents goes to less deep surfaces. -/
theorem ancestor_deeper {w : World} {depth : Nat → Nat} {N : Nat} (hl : Linked w)
    (hr : Ranked w depth N) {c p : Nat}
    (h : Relation.TransGen (fun c p => ParentOf w c p) c p) : depth p < depth c := by
  induction h with
  | single h => exact ParentOf_deeper hl hr h
  | tail _ h ih => exact Nat.lt_trans (ParentOf_deeper hl hr h) ih

/-- In a forest every walk returns from every subsurface, given more fuel than
the bound of the depth. -/
theorem walks_return {w : World} {depth : Nat → Nat} {N : Nat} (hl : Linked w)
    (hr : Ranked w depth N) (fuel : Nat) (hfuel : N < fuel) (k : Nat) (a : Subsurface)
    (hk : w.subsurfaces k = some a) :
    (∃ w', SetSync1 fuel w k = some w')
      ∧ (∀ apply_state, ∃ w', NoteSubsurfaceDesynchronous fuel w k apply_state = some w')
      ∧ (∀ s, a.surface = some s → ∃ w', NoteSubsurfaceTeardown fuel w k = some w') := by
  have htree := treeBelow_of_forest hl hr fuel k a hk hfuel
  have hfalse : ∃ w', NoteSubsurfaceDesynchronous fuel w k false = some w' := by
    rw [NoteSubsurfaceDesynchronous_eq_walk]
    obtain ⟨w', h, -⟩ :=
      @walk_returns false (fun c => c.should_be_desync) false (fun _ _ => rfl) w fuel k htree
        (fun e => by cases e)
    exact ⟨w', h⟩
  refine ⟨?_, fun apply_state => ?_, fun s hs => ?_⟩
  · rw [SetSync1_eq_walk]
    obtain ⟨w', h, -⟩ :=
      @walk_returns true (fun _ => true) false (fun _ _ => rfl) w fuel k htree
        (fun e => by cases e)
    exact ⟨w', h⟩
  · cases apply_state with
    | false => exact hfalse
    | true =>
      cases hs : a.surface with
      | none =>
        rw [NoteSubsurfaceDesynchronous_detached fuel w k a hk hs]
        exact hfalse
      | some s =>
        rw [NoteSubsurfaceDesynchronous_apply fuel w k s a hk hs,
          NoteSubsurfaceDesynchronous_eq_walk]
        have key : ∀ w2 : World, w2.surfaces = w.surfaces →
            (∀ j, (w2.subsurfaces j).map (fun a => a.surface)
              = (w.subsurfaces j).map (fun a => a.surface)) →
            ∃ w', walk false (fun c => c.should_be_desync) false fuel w2 k = some w' := by
          intro w2 h1 h2
          have ht : treeBelow w2 fuel k = true := by
            rw [treeBelow_congr h1 h2 fuel k]
            exact htree
          obtain ⟨w', h, -⟩ :=
            @walk_returns false (fun c => c.should_be_desync) false (fun _ _ => rfl) w2 fuel k
              ht (fun e => by cases e)
          exact ⟨w', h⟩
        by_cases hpc : a.pending_commit = true
        · rw [if_pos hpc]
          refine key _ (by simp) (fun j => ?_)
          by_cases hj : j = k
          · subst hj
            simp [hk]
          · simp [hj]
        · rw [if_neg hpc]
          exact key w rfl (fun _ => rfl)
  · rw [NoteSubsurfaceTeardown_eq_walk]
    obtain ⟨w', h, -⟩ :=
      @walk_returns false (fun c => c.should_be_desync) true (fun _ _ => rfl) w fuel k htree
        (fun _ => ⟨a, s, hk, hs⟩)
    exact ⟨w', h⟩

/-- C27: in every world built by creating and destroying surfaces, by
`GetSubsurface` and by `Teardown` (the destruction of a surface runs
`XLSubsurfaceParentDestroyed` on its children), no surface is its own
ancestor along the parent links, and there is a bound such that with at least
that much fuel `GetRootSurface` returns from every surface, `SetSync1` and
`NoteSubsurfaceDesynchronous` return from every subsurface,
`NoteSubsurfaceTeardown` returns from every attached subsurface, and
`XLUpdateDesynchronousChildren` returns from every surface. -/
theorem TreeReachable_terminates (w : World) (h : TreeReachable w) :
    (∀ s, ¬ Relation.TransGen (fun c p => ParentOf w c p) s s)
    ∧ ∃ bound, ∀ fuel, bound ≤ fuel →
        (∀ s surf, w.surfaces s = some surf → ∃ root, GetRootSurface fuel w s = some root)
        ∧ (∀ k a, w.subsurfaces k = some a → ∃ w', SetSync1 fuel w k = some w')
        ∧ (∀ k a apply_state, w.subsurfaces k = some a →
            ∃ w', NoteSubsurfaceDesynchronous fuel w k apply_state = some w')
        ∧ (∀ k a s, w.subsurfaces k = some a → a.surface = some s →
            ∃ w', NoteSubsurfaceTeardown fuel w k = some w')
        ∧ (∀ s surf n, w.surfaces s = some surf →
            ∃ m, XLUpdateDesynchronousChildren fuel w s n = some m) := by
  obtain ⟨hl, depth, N, hr⟩ := TreeReachable_forest h
  refine ⟨fun s hs => Nat.lt_irrefl _ (ancestor_deeper hl hr hs), N + 1, fun fuel hfuel =>
    ⟨fun s surf hs => ?_, fun k a hk => ?_, fun k a apply_state hk => ?_,
      fun k a s hk hs => ?_, fun s surf n hs => ?_⟩⟩
  · exact GetRootSurface_returns hl hr fuel s surf hs
      (Nat.lt_of_le_of_lt (hr.1 s surf hs) hfuel)
  · exact (walks_return hl hr fuel hfuel k a hk).1
  · exact (walks_return hl hr fuel hfuel k a hk).2.1 apply_state
  · exact (walks_return hl hr fuel hfuel k a hk).2.2 s hs
  · exact XLUpdateDesynchronousChildren_returns hl hr fuel s surf n hs
      (Nat.lt_of_lt_of_le hfuel (Nat.le_add_left _ _))

/-- The witness of C27: the `family`, where surface 1 is the parent of surfaces
2 and 3. -/
theorem TreeReachable_terminates_witness :
    TreeReachable family
    ∧ (∀ s, ¬ Relation.TransGen (fun c p => ParentOf family c p) s s)
    ∧ ∃ bound, ∀ fuel, bound ≤ fuel →
        (∀ s surf, family.surfaces s = some surf →
          ∃ root, GetRootSurface fuel family s = some root)
        ∧ (∀ k a, family.subsurfaces k = some a → ∃ w', SetSync1 fuel family k = some w')
        ∧ (∀ k a apply_state, family.subsurfaces k = some a →
            ∃ w', NoteSubsurfaceDesynchronous fuel family k apply_state = some w')
        ∧ (∀ k a s, family.subsurfaces k = some a → a.surface = some s →
            ∃ w', NoteSubsurfaceTeardown fuel family k = some w')
        ∧ (∀ s surf n, family.surfaces s = some surf →
            ∃ m, XLUpdateDesynchronousChildren fuel family s n = some m) :=
  ⟨family_treeReachable, TreeReachable_terminates family family_treeReachable⟩

end Sub

namespace Sub

/-! ## `GetSubsurface` attaches -/

/-- The root that `GetRootSurface` finds has the surface below it. -/
theorem GetRootSurface_below {w : World} (hl : Linked w) :
    ∀ (fuel x root : Nat), GetRootSurface fuel w x = some root → Below w root x := by
  intro fuel
  induction fuel with
  | zero => intro x root h; simp [GetRootSurface] at h
  | succ n ih =>
    intro x root h
    unfold GetRootSurface at h
    cases hx : w.surfaces x with
    | none => rw [hx] at h; simp at h
    | some surf =>
      rw [hx] at h
      simp only [] at h
      split at h
      · cases h
        exact Below.refl
      · cases hrole : surf.role with
        | none => rw [hrole] at h; simp at h
        | some r =>
          obtain ⟨k, a, rfl, hk, hks⟩ := hl.2.2 x surf r hx hrole
          rw [hrole] at h
          simp only [hk] at h
          cases hp : a.parent with
          | none =>
            rw [hp] at h
            cases h
            exact Below.refl
          | some p =>
            rw [hp] at h
            simp only [] at h
            obtain ⟨-, -, -, -, hpar⟩ := hl.1 k x a hk hks
            obtain ⟨psurf, hps, hmem⟩ := hpar p hp
            exact Below.step (ih p root h) hps hmem

/-- What is below an existing surface exists. -/
theorem Below_exists {w : World} (hl : Linked w) {top : Nat} {t : Surface}
    (htop : w.surfaces top = some t) {s : Nat} (h : Below w top s) :
    ∃ surf, w.surfaces s = some surf := by
  cases h with
  | refl => exact ⟨t, htop⟩
  | step _ hp hc =>
    obtain ⟨ck, child, g1, -⟩ := hl.2.1 _ _ _ hp hc
    obtain ⟨csurf, hcs, -⟩ := role_of_roleOf g1
    exact ⟨csurf, hcs⟩

/-- What is below a surface is at least as deep. -/
theorem Below_deeper {w : World} {depth : Nat → Nat} {N : Nat} (hr : Ranked w depth N)
    {top s : Nat} (h : Below w top s) : depth top ≤ depth s := by
  induction h with
  | refl => exact Nat.le_refl _
  | step _ hp hc ih => exact Nat.le_of_lt (Nat.lt_of_le_of_lt ih (hr.2 _ _ _ hp hc))

/-- In a forest, `GetSubsurface` for a surface without a role, of no other role
type, and a parent that is another surface and not below it, with a new address
for the subsurface and enough fuel: it returns, and the new subsurface is
attached to the surface, which is the first in the list of the parent. -/
theorem GetSubsurface_attaches {w : World} {depth : Nat → Nat} {N : Nat} (hl : Linked w)
    (hr : Ranked w depth N) (fuel surface parent address : Nat) (s0 p0 : Surface)
    (hs0 : w.surfaces surface = some s0) (hrole : s0.role = none)
    (htype : s0.role_type = RoleType.AnythingType ∨ s0.role_type = RoleType.SubsurfaceType)
    (hne : parent ≠ surface) (hp0 : w.surfaces parent = some p0)
    (hnot : ¬ Below w surface parent) (hfresh : w.subsurfaces address = none)
    (hfuel : N < fuel) :
    ∃ w', GetSubsurface fuel w surface parent (some address) true = some w'
      ∧ w'.subsurfaces address = some (newSubsurface surface parent)
      ∧ w'.surfaces surface
          = some { s0 with role_type := RoleType.SubsurfaceType,
                           role := some (RolePtr.subsurface address) }
      ∧ w'.surfaces parent
          = some { p0 with subsurfaces := surface :: p0.subsurfaces,
                           commit_callbacks := p0.commit_callbacks ++ [address] } := by
  obtain ⟨root, hroot⟩ := GetRootSurface_returns hl hr fuel parent p0 hp0
    (Nat.lt_of_le_of_lt (hr.1 parent p0 hp0) hfuel)
  have hrs : root ≠ surface := by
    intro e
    subst e
    exact hnot (GetRootSurface_below hl fuel parent root hroot)
  have hcheck : ¬ (s0.role ≠ none
      ∨ (s0.role_type ≠ RoleType.AnythingType ∧ s0.role_type ≠ RoleType.SubsurfaceType)) := by
    rintro (h | ⟨h1, h2⟩)
    · exact h hrole
    · rcases htype with h | h
      · exact h1 h
      · exact h2 h
  unfold GetSubsurface
  simp only [hs0, if_neg hcheck, if_neg hne, hroot, if_neg hrs, hp0, Bool.true_eq_false,
    if_false]
  unfold XLSurfaceAttachRole Setup
  simp only [hs0, hp0, MoveFractional, setSubsurface_subsurfaces, if_true,
    setSubsurface_surfaces, setSurface_surfaces, if_neg hne, if_neg (Ne.symm hne),
    call_surfaces, call_subsurfaces, setSurface_subsurfaces]
  have key : ∀ w5 : World,
      w5.subsurfaces address
        = some { surface := some surface, parent := some parent, refcount := 1 + 1,
                 commit_callback := true, synchronous := true, pending := true } →
      (∀ j, j ≠ address → w5.subsurfaces j = w.subsurfaces j) →
      w5.surfaces surface = some { s0 with role_type := RoleType.SubsurfaceType } →
      w5.surfaces parent
        = some { p0 with subsurfaces := surface :: p0.subsurfaces,
                         commit_callbacks := p0.commit_callbacks ++ [address] } →
      (∀ j, j ≠ surface → j ≠ parent → w5.surfaces j = w.surfaces j) →
      ∃ w', (match SetSync1 fuel w5 address with
          | none => none
          | some w1 =>
            match w1.surfaces surface with
            | none => none
            | some s =>
              some (w1.setSurface surface
                { s with role := some (RolePtr.subsurface address) })) = some w'
        ∧ w'.subsurfaces address = some (newSubsurface surface parent)
        ∧ w'.surfaces surface
            = some { s0 with role_type := RoleType.SubsurfaceType,
                             role := some (RolePtr.subsurface address) }
        ∧ w'.surfaces parent
            = some { p0 with subsurfaces := surface :: p0.subsurfaces,
                             commit_callbacks := p0.commit_callbacks ++ [address] } := by
    intro w5 h5a h5o h5s h5p h5r
    have hgood : ∀ s, Below w surface s → ∃ surf, w5.surfaces s = some surf
        ∧ ∀ c, c ∈ surf.subsurfaces → Below w surface c ∧ depth s < depth c ∧ depth c ≤ N
          ∧ ∃ ck child, w5.roleOf c = some ck ∧ w5.subsurfaces ck = some child
            ∧ child.surface = some c := by
      intro s hb
      have hsp : s ≠ parent := fun e => hnot (e ▸ hb)
      obtain ⟨surf, hsurf⟩ := Below_exists hl hs0 hb
      have h5 : ∃ surf5, w5.surfaces s = some surf5 ∧ surf5.subsurfaces = surf.subsurfaces := by
        by_cases hss : s = surface
        · subst hss
          rw [hs0] at hsurf
          cases hsurf
          exact ⟨_, h5s, rfl⟩
        · exact ⟨surf, by rw [h5r s hss hsp, hsurf], rfl⟩
      obtain ⟨surf5, hsurf5, hlist⟩ := h5
      refine ⟨surf5, hsurf5, fun c hc => ?_⟩
      rw [hlist] at hc
      obtain ⟨ck, child, g1, g2, g3, -⟩ := hl.2.1 s c surf hsurf hc
      obtain ⟨csurf, hcs, hcrole⟩ := role_of_roleOf g1
      have hbc : Below w surface c := Below.step hb hsurf hc
      have hcp : c ≠ parent := fun e => hnot (e ▸ hbc)
      have hcsf : c ≠ surface := by
        intro e
        subst e
        rw [hs0] at hcs
        cases hcs
        rw [hrole] at hcrole
        cases hcrole
      have hcka : ck ≠ address := fun e => by rw [e, hfresh] at g2; cases g2
      exact ⟨hbc, hr.2 s c surf hsurf hc, hr.1 c csurf hcs, ck, child,
        roleOf_of_role (by rw [h5r c hcsf hcp, hcs]) hcrole, by rw [h5o ck hcka, g2], g3⟩
    have htree : treeBelow w5 fuel address = true :=
      @treeBelow_of_rank w5 depth N (Below w surface) hgood fuel address _ h5a
        (Nat.lt_of_le_of_lt (Nat.zero_le _) hfuel)
        (fun s hs => by
          cases hs
          exact ⟨Below.refl, Nat.lt_of_lt_of_le hfuel (Nat.le_add_left _ _)⟩)
    obtain ⟨w6, h6, h6a, -, -, h6s, -⟩ :=
      @walk_rooted true (fun _ => true) false (fun _ _ => rfl) fuel w5 w5 address _ _ h5a h5a
        rfl rfl (fun _ _ => rfl) htree (fun e => by cases e)
    rw [← SetSync1_eq_walk] at h6
    rw [h6]
    simp only [h6s, h5s]
    refine ⟨_, rfl, ?_, by simp, ?_⟩
    · simp only [setSurface_subsurfaces, h6a]
      rfl
    · simp only [setSurface_surfaces, if_neg hne, h6s, h5p]
  exact key _ (by simp) (fun j hj => by simp [hj]) (by simp [hne, Ne.symm hne])
    (by simp) (fun j h1 h2 => by simp [h1, h2])

end Sub

namespace Sub

/-- Going down the lists of children composes. -/
theorem Below_trans {w : World} {a b c : Nat} (h1 : Below w a b) (h2 : Below w b c) :
    Below w a c := by
  induction h2 with
  | refl => exact h1
  | step _ hp hc ih => exact Below.step ih hp hc

/-- With agreeing pointers, a surface is in the list of its parent. -/
theorem ParentOf_mem {w : World} (hl : Linked w) {c p : Nat} (h : ParentOf w c p) :
    ∃ psurf, w.surfaces p = some psurf ∧ c ∈ psurf.subsurfaces := by
  obtain ⟨surf, k, a, hc, hrole, hk, hp⟩ := h
  obtain ⟨k', a', e, hk', hs'⟩ := hl.2.2 c surf _ hc hrole
  cases e
  rw [hk] at hk'
  cases hk'
  obtain ⟨-, -, -, -, hpar⟩ := hl.1 k c a hk hs'
  exact hpar p hp

/-- With agreeing pointers, a surface is below its ancestors. -/
theorem Below_of_ancestor {w : World} (hl : Linked w) {s a : Nat} (h : Ancestor w s a) :
    Below w a s := by
  induction h with
  | single h =>
    obtain ⟨psurf, hps, hmem⟩ := ParentOf_mem hl h
    exact Below.step Below.refl hps hmem
  | tail _ h ih =>
    obtain ⟨psurf, hps, hmem⟩ := ParentOf_mem hl h
    exact Below_trans (Below.step Below.refl hps hmem) ih

/-- With agreeing pointers, what is below a surface is the surface or has it as
an ancestor. -/
theorem ancestor_of_below {w : World} (hl : Linked w) {top x : Nat} (h : Below w top x) :
    x = top ∨ Ancestor w x top := by
  induction h with
  | refl => exact Or.inl rfl
  | @step p c psurf _ hp hc ih =>
    obtain ⟨ck, child, g1, g2, -, g4⟩ := hl.2.1 p c psurf hp hc
    obtain ⟨csurf, hcs, hcrole⟩ := role_of_roleOf g1
    have hpar : ParentOf w c p := ⟨csurf, ck, child, hcs, hcrole, g2, g4⟩
    right
    rcases ih with e | h
    · rw [← e]
      exact Relation.TransGen.single hpar
    · exact Relation.TransGen.head hpar h

end Sub

namespace Sub

end Sub

namespace Sub

/-- In the `family`, surface 4 is not an ancestor of surface 2. -/
theorem family_not_ancestor : ¬ Ancestor family 2 4 := by
  intro h
  have hb := Below_of_ancestor (TreeReachable_forest family_treeReachable).1 h
  have key : ∀ x, Below family 4 x → x = 4 := by
    intro x hx
    induction hx with
    | refl => rfl
    | @step p c psurf _ hp hc ih =>
      subst ih
      have h4 : family.surfaces 4 = some {} := by decide
      rw [h4] at hp
      cases hp
      cases hc
  exact absurd (key 2 hb) (by decide)

end Sub

namespace Sub

/-! ## The references to a role -/

/-- `Teardown` of an attached subsurface whose parent surface, if it has one,
exists, over a tree no higher than the fuel: it returns, and the subsurface has
no surface and one reference less, or is freed when that was the last. -/
theorem Teardown_backing (fuel : Nat) (w : World) (S s : Nat) (a : Subsurface)
    (hS : w.subsurfaces S = some a) (hs : a.surface = some s)
    (hp : ∀ p, a.parent = some p → ∃ ps, w.surfaces p = some ps)
    (htree : treeBelow w fuel S = true) :
    ∃ w', Teardown fuel w s S = some w'
      ∧ w'.subsurfaces S
          = (if a.refcount - 1 ≠ 0 then
              some { a with surface := none, synchronous := false,
                            refcount := a.refcount - 1 }
             else none) := by
  obtain ⟨w1, h1, h1S, -, -, h1s, -, -⟩ :=
    @walk_rooted false (fun c => c.should_be_desync) true
      (fun _ _ => rfl) fuel w w S a a hS hS rfl rfl (fun _ _ => rfl) htree (fun _ => ⟨s, hs⟩)
  rw [← NoteSubsurfaceTeardown_eq_walk] at h1
  unfold Teardown
  rw [h1]
  simp only [h1S]
  have hdetached : ∃ w3,
      (match a.parent with
        | none =>
          some (w1.setSubsurface S { a with synchronous := false, surface := none })
        | some parent =>
          teardownFromParent
            (w1.setSubsurface S { a with synchronous := false, surface := none })
            s S parent a.pending) = some w3
      ∧ w3.subsurfaces S = some { a with synchronous := false, surface := none } := by
    cases hpar : a.parent with
    | none => exact ⟨_, rfl, by simp⟩
    | some p =>
      obtain ⟨ps, hps⟩ := hp p hpar
      obtain ⟨w3, added, h3, h3b, -, -, -⟩ :=
        teardownFromParent_frame
          (w1.setSubsurface S { a with synchronous := false, surface := none })
          s S p a.pending { a with synchronous := false, surface := none } ps (by simp) hpar
          (by simp [h1s, hps])
      simp only [hpar] at h3 h3b
      exact ⟨w3, h3, by rw [h3b]; simp [hpar]⟩
  obtain ⟨w3, h3, h3S⟩ := hdetached
  rw [h3]
  simp only []
  unfold DestroyBacking
  rw [h3S]
  simp only []
  by_cases hc : a.refcount - 1 ≠ 0
  · rw [if_pos hc, if_pos hc]
    exact ⟨_, rfl, by simp⟩
  · rw [if_neg hc, if_neg hc]
    exact ⟨_, rfl, by simp [World.call]⟩

end Sub

namespace Sub

/-- What `Setup` leaves of the subsurface when it returns: one more reference,
and the surface it is attached to. -/
theorem Setup_refcount {w w6 : World} {fuel surface address parent : Nat} {s0 p0 : Surface}
    {new0 : Subsurface} (h : Setup fuel w surface address = some w6)
    (hs : w.surfaces surface = some s0) (hn : w.subsurfaces address = some new0)
    (hpar : new0.parent = some parent) (hp : w.surfaces parent = some p0)
    (hne : parent ≠ surface) :
    ∃ b, w6.subsurfaces address = some b ∧ b.refcount = new0.refcount + 1
      ∧ b.surface = some surface := by
  unfold Setup at h
  simp only [hs, hn, MoveFractional, setSubsurface_subsurfaces, if_true, hpar,
    setSubsurface_surfaces, setSurface_surfaces, if_neg hne, hp, call_surfaces,
    call_subsurfaces] at h
  rw [SetSync1_eq_walk] at h
  obtain ⟨-, -, -, -, -, r6⟩ :=
    @walk_resynced true (fun _ => true) false (fun _ _ => rfl) fuel _ w6 address h
  refine ⟨{ new0 with surface := some surface, parent := some parent,
                       refcount := new0.refcount + 1, pending := true, synchronous := true },
    ?_, rfl, rfl⟩
  rw [(r6 address).1 (Reach.refl address)]
  simp only [setSubsurface_subsurfaces, if_true, Option.map_some']

end Sub

namespace Sub

/-- In a forest, `Setup` of a subsurface that was just stored at a new address
with `parent` as its parent, for a surface without a role and a parent that is
another surface and not below it, with enough fuel: it returns, and the
subsurface has one more reference, is attached to the surface, is pending and
synchronous. -/
theorem Setup_returns {w : World} {depth : Nat → Nat} {N : Nat} (hl : Linked w)
    (hr : Ranked w depth N) (fuel surface parent address : Nat) (s0 p0 : Surface)
    (new0 : Subsurface) (hs0 : w.surfaces surface = some s0) (hrole : s0.role = none)
    (hne : parent ≠ surface) (hp0 : w.surfaces parent = some p0)
    (hnot : ¬ Below w surface parent) (hfresh : w.subsurfaces address = none)
    (hpar : new0.parent = some parent) (hfuel : N < fuel) :
    ∃ w6, Setup fuel (w.setSubsurface address new0) surface address = some w6
      ∧ w6.subsurfaces address
          = some { new0 with surface := some surface, refcount := new0.refcount + 1,
                             pending := true, synchronous := true } := by
  have key : ∀ (w5 : World) (b5 : Subsurface),
      w5.subsurfaces address = some b5 → b5.surface = some surface →
      (∀ j, j ≠ address → w5.subsurfaces j = w.subsurfaces j) →
      w5.surfaces surface = some { s0 with role_type := RoleType.SubsurfaceType } →
      (∀ j, j ≠ surface → j ≠ parent → w5.surfaces j = w.surfaces j) →
      ∃ w6, SetSync1 fuel w5 address = some w6
        ∧ w6.subsurfaces address = some { b5 with synchronous := true } := by
    intro w5 b5 h5a h5b h5o h5s h5r
    have hgood : ∀ s, Below w surface s → ∃ surf, w5.surfaces s = some surf
        ∧ ∀ c, c ∈ surf.subsurfaces → Below w surface c ∧ depth s < depth c ∧ depth c ≤ N
          ∧ ∃ ck child, w5.roleOf c = some ck ∧ w5.subsurfaces ck = some child
            ∧ child.surface = some c := by
      intro s hb
      have hsp : s ≠ parent := fun e => hnot (e ▸ hb)
      obtain ⟨surf, hsurf⟩ := Below_exists hl hs0 hb
      have h5 : ∃ surf5, w5.surfaces s = some surf5 ∧ surf5.subsurfaces = surf.subsurfaces := by
        by_cases hss : s = surface
        · subst hss
          rw [hs0] at hsurf
          cases hsurf
          exact ⟨_, h5s, rfl⟩
        · exact ⟨surf, by rw [h5r s hss hsp, hsurf], rfl⟩
      obtain ⟨surf5, hsurf5, hlist⟩ := h5
      refine ⟨surf5, hsurf5, fun c hc => ?_⟩
      rw [hlist] at hc
      obtain ⟨ck, child, g1, g2, g3, -⟩ := hl.2.1 s c surf hsurf hc
      obtain ⟨csurf, hcs, hcrole⟩ := role_of_roleOf g1
      have hbc : Below w surface c := Below.step hb hsurf hc
      have hcp : c ≠ parent := fun e => hnot (e ▸ hbc)
      have hcsf : c ≠ surface := by
        intro e
        subst e
        rw [hs0] at hcs
        cases hcs
        rw [hrole] at hcrole
        cases hcrole
      have hcka : ck ≠ address := fun e => by rw [e, hfresh] at g2; cases g2
      exact ⟨hbc, hr.2 s c surf hsurf hc, hr.1 c csurf hcs, ck, child,
        roleOf_of_role (by rw [h5r c hcsf hcp, hcs]) hcrole, by rw [h5o ck hcka, g2], g3⟩
    have htree : treeBelow w5 fuel address = true :=
      @treeBelow_of_rank w5 depth N (Below w surface) hgood fuel address _ h5a
        (Nat.lt_of_le_of_lt (Nat.zero_le _) hfuel)
        (fun s hs => by
          rw [h5b] at hs
          cases hs
          exact ⟨Below.refl, Nat.lt_of_lt_of_le hfuel (Nat.le_add_left _ _)⟩)
    obtain ⟨w6, h6, h6a, -⟩ :=
      @walk_rooted true (fun _ => true) false (fun _ _ => rfl) fuel w5 w5 address _ _ h5a h5a
        rfl rfl (fun _ _ => rfl) htree (fun e => by cases e)
    rw [← SetSync1_eq_walk] at h6
    exact ⟨w6, h6, h6a⟩
  unfold Setup
  simp only [setSubsurface_surfaces, hs0, setSubsurface_subsurfaces, if_true, MoveFractional,
    hpar, setSurface_surfaces, if_neg hne, if_neg (Ne.symm hne), hp0, call_surfaces,
    call_subsurfaces, setSurface_subsurfaces]
  exact key _
    { new0 with surface := some surface, parent := some parent,
                refcount := new0.refcount + 1, pending := true }
    (by simp) rfl (fun j hj => by simp [hj]) (by simp [hne, Ne.symm hne])
    (fun j h1 h2 => by simp [h1, h2])

end Sub

namespace Xdg

/-- `ReleaseBacking` of a shell-surface role drops one reference and releases
the backing data, once, exactly when that was the last. -/
theorem ReleaseBacking_effect (role : XdgRole) :
    (role.refcount - 1 ≠ 0 →
        ReleaseBacking role = (some { role with refcount := role.refcount - 1 }, []))
      ∧ (role.refcount - 1 = 0 →
        (ReleaseBacking role).1 = none
          ∧ (ReleaseBacking role).2.count Call.XLFree = 1
          ∧ (ReleaseBacking role).2.count Call.XDestroyWindow = 1) := by
  refine ⟨fun h => ?_, fun h => ?_⟩
  · unfold ReleaseBacking
    rw [if_pos h]
  · unfold ReleaseBacking
    rw [if_neg (not_not.mpr h)]
    cases role.impl with
    | none => decide
    | some impl => simp [List.count_cons]

end Xdg

namespace Icon

/-- `ReleaseBacking` of an icon surface drops one reference and releases the
backing data, once, exactly when that was the last. -/
theorem ReleaseBacking_icon_effect (icon : IconSurface) :
    (icon.refcount - 1 ≠ 0 →
        ReleaseBacking icon = (some { icon with refcount := icon.refcount - 1 }, []))
      ∧ (icon.refcount - 1 = 0 →
        (ReleaseBacking icon).1 = none
          ∧ (ReleaseBacking icon).2.count Call.XLFree = 1
          ∧ (ReleaseBacking icon).2.count Call.XDestroyWindow = 1) := by
  refine ⟨fun h => ?_, fun h => ?_⟩
  · unfold ReleaseBacking
    rw [if_pos h]
  · unfold ReleaseBacking
    rw [if_neg (not_not.mpr h)]
    decide

end Icon

namespace Roles

open Sub

/-- The two orders of the end of a subsurface that has two references, one of
its resource and one of its attachment: it is freed by the second of
`Teardown` and `DestroyBacking`, and not by the first. -/
theorem subsurface_lifetime (fuel : Nat) (w : World) (S s : Nat) (a : Subsurface)
    (hS : w.subsurfaces S = some a) (hs : a.surface = some s) (hcount : a.refcount = 2)
    (hp : ∀ p, a.parent = some p → ∃ ps, w.surfaces p = some ps)
    (htree : treeBelow w fuel S = true) :
    (∃ w1 w2, Teardown fuel w s S = some w1
        ∧ w1.subsurfaces S
            = some { a with surface := none, synchronous := false, refcount := 1 }
        ∧ DestroyBacking w1 S = some w2 ∧ w2.subsurfaces S = none)
      ∧ (∃ w1 w2, DestroyBacking w S = some w1
        ∧ w1.subsurfaces S = some { a with refcount := 1 }
        ∧ Teardown fuel w1 s S = some w2 ∧ w2.subsurfaces S = none) := by
  constructor
  · obtain ⟨w1, h1, h1S⟩ := Teardown_backing fuel w S s a hS hs hp htree
    have h1S' : w1.subsurfaces S
        = some { a with surface := none, synchronous := false, refcount := 1 } := by
      rw [h1S, hcount, if_pos (by decide)]
      rfl
    refine ⟨w1, { w1 with subsurfaces := fun j => if j = S then none else w1.subsurfaces j },
      h1, h1S', ?_, by simp⟩
    unfold DestroyBacking
    rw [h1S']
    simp only [show ¬ ((1 : Int) - 1 ≠ 0) by decide, if_false]
  · have h1 : DestroyBacking w S = some (w.setSubsurface S { a with refcount := 1 }) := by
      unfold DestroyBacking
      rw [hS]
      simp only [hcount]
      rw [if_pos (by decide)]
      rfl
    have htree1 : treeBelow (w.setSubsurface S { a with refcount := 1 }) fuel S = true := by
      rw [treeBelow_congr (show (w.setSubsurface S { a with refcount := 1 }).surfaces
          = w.surfaces from rfl) (fun j => ?_) fuel S]
      · exact htree
      · by_cases hj : j = S
        · subst hj
          simp [hS]
        · simp [hj]
    obtain ⟨w2, h2, h2S⟩ :=
      Teardown_backing fuel (w.setSubsurface S { a with refcount := 1 }) S s
        { a with refcount := 1 } (by simp) hs hp htree1
    rw [if_neg (show ¬ ((1 : Int) - 1 ≠ 0) by decide)] at h2S
    exact ⟨_, w2, h1, by simp, h2, h2S⟩

end Roles

namespace Xdg

/-- The references to a shell-surface role: `Setup` adds one; `Teardown` clears
the surface and, like `HandleResourceDestroy`, drops one, which frees the role
exactly when it was the last. -/
theorem refcount_steps (surface : Nat) (role : XdgRole) :
    (Setup surface role).refcount = role.refcount + 1
      ∧ (Teardown role).refcount = role.refcount - 1
      ∧ (Teardown role).surface = none
      ∧ (TeardownBacking role).1
          = (if role.refcount - 1 ≠ 0 then some (Teardown role) else none)
      ∧ (TeardownBacking role).2.count Call.XLFree
          = (if role.refcount - 1 ≠ 0 then 0 else 1)
      ∧ (HandleResourceDestroy role).1
          = (if role.refcount - 1 ≠ 0 then some { role with refcount := role.refcount - 1 }
             else none)
      ∧ (HandleResourceDestroy role).2.count Call.XLFree
          = (if role.refcount - 1 ≠ 0 then 0 else 1) := by
  refine ⟨rfl, rfl, rfl, ?_, ?_, ?_, ?_⟩
  · unfold TeardownBacking ReleaseBacking
    by_cases h : role.refcount - 1 ≠ 0
    · simp only [if_pos h]
      rfl
    · simp only [if_neg h]
  · unfold TeardownBacking ReleaseBacking
    by_cases h : role.refcount - 1 ≠ 0
    · simp only [if_pos h]
      rfl
    · simp only [if_neg h]
      cases role.impl with
      | none => decide
      | some impl => simp [List.count_cons]
  · unfold HandleResourceDestroy ReleaseBacking
    by_cases h : role.refcount - 1 ≠ 0
    · simp only [if_pos h]
    · simp only [if_neg h]
  · unfold HandleResourceDestroy ReleaseBacking
    by_cases h : role.refcount - 1 ≠ 0
    · simp only [if_pos h]
      rfl
    · simp only [if_neg h]
      cases role.impl with
      | none => decide
      | some impl => simp [List.count_cons]

/-- The two orders of the end of a shell-surface role that has two references,
one of its resource and one of its attachment: the second of `Teardown` and
`HandleResourceDestroy` frees it, once, and the first frees nothing. -/
theorem role_lifetime (role : XdgRole) (h : role.refcount = 2) :
    TeardownBacking role = (some (Teardown role), [])
      ∧ (Teardown role).refcount = 1
      ∧ (HandleResourceDestroy (Teardown role)).1 = none
      ∧ (HandleResourceDestroy (Teardown role)).2.count Call.XLFree = 1
      ∧ HandleResourceDestroy role = (some { role with refcount := 1 }, [])
      ∧ (TeardownBacking { role with refcount := 1 }).1 = none
      ∧ (TeardownBacking { role with refcount := 1 }).2.count Call.XLFree = 1 := by
  have h1 : (Teardown role).refcount - 1 = 0 := by
    show role.refcount - 1 - 1 = 0
    rw [h]
    decide
  refine ⟨?_, by show role.refcount - 1 = 1; rw [h]; decide,
    ((ReleaseBacking_effect (Teardown role)).2 h1).1,
    ((ReleaseBacking_effect (Teardown role)).2 h1).2.1, ?_,
    ((ReleaseBacking_effect { role with surface := none, refcount := 1 }).2
      (show (1 : Int) - 1 = 0 by decide)).1,
    ((ReleaseBacking_effect { role with surface := none, refcount := 1 }).2
      (show (1 : Int) - 1 = 0 by decide)).2.1⟩
  · unfold TeardownBacking ReleaseBacking Teardown
    simp only [h]
    rw [if_pos (by decide)]
  · unfold HandleResourceDestroy ReleaseBacking
    simp only [h]
    rw [if_pos (by decide)]
    rfl

end Xdg

namespace Icon

/-- The references to an icon surface: `Setup` adds one; `Teardown` clears the
surface and, like `XLReleaseIconSurface`, drops one, which frees the icon
surface exactly when it was the last. -/
theorem refcount_icon_steps (surface : Nat) (icon : IconSurface) :
    (Setup surface icon).refcount = icon.refcount + 1
      ∧ (Teardown icon).1
          = (if icon.refcount - 1 ≠ 0 then
              some { icon with surface := none, refcount := icon.refcount - 1 }
             else none)
      ∧ (Teardown icon).2.count Call.XLFree = (if icon.refcount - 1 ≠ 0 then 0 else 1)
      ∧ (XLReleaseIconSurface icon).1.map (fun i => i.refcount)
          = (if icon.refcount - 1 ≠ 0 then some (icon.refcount - 1) else none)
      ∧ (XLReleaseIconSurface icon).2.count Call.XLFree
          = (if icon.refcount - 1 ≠ 0 then 0 else 1) := by
  have hu : (MaybeUnmapWindow icon).1.refcount = icon.refcount := by
    unfold MaybeUnmapWindow
    split <;> rfl
  have hc : (MaybeUnmapWindow icon).2.count Call.XLFree = 0 := by
    unfold MaybeUnmapWindow
    split
    · rfl
    · cases icon.surface <;> simp [List.count_cons]
  refine ⟨rfl, ?_, ?_, ?_, ?_⟩
  · unfold Teardown ReleaseBacking
    by_cases h : icon.refcount - 1 ≠ 0
    · simp only [if_pos h]
    · simp only [if_neg h]
  · unfold Teardown ReleaseBacking
    by_cases h : icon.refcount - 1 ≠ 0
    · simp only [if_pos h]
      rfl
    · simp only [if_neg h]
      decide
  · unfold XLReleaseIconSurface ReleaseBacking
    simp only [hu]
    by_cases h : icon.refcount - 1 ≠ 0
    · simp only [if_pos h, Option.map_some']
    · simp only [if_neg h, Option.map_none']
  · unfold XLReleaseIconSurface ReleaseBacking
    simp only [hu, List.count_append, hc]
    by_cases h : icon.refcount - 1 ≠ 0
    · simp only [if_pos h]
      rfl
    · simp only [if_neg h]
      decide

/-- The two orders of the end of an icon surface that has two references, one
of its owner and one of its attachment: the second of `Teardown` and
`XLReleaseIconSurface` frees it, once, and the first frees nothing. -/
theorem icon_lifetime (icon : IconSurface) (h : icon.refcount = 2) :
    Teardown icon = (some { icon with surface := none, refcount := 1 }, [])
      ∧ (XLReleaseIconSurface { icon with surface := none, refcount := 1 }).1 = none
      ∧ (XLReleaseIconSurface { icon with surface := none, refcount := 1 }).2.count
          Call.XLFree = 1
      ∧ (XLReleaseIconSurface icon).1.map (fun i => i.refcount) = some 1
      ∧ (XLReleaseIconSurface icon).2.count Call.XLFree = 0
      ∧ ∀ released, (XLReleaseIconSurface icon).1 = some released →
          (Teardown released).1 = none ∧ (Teardown released).2.count Call.XLFree = 1 := by
  have s1 := refcount_icon_steps 0 icon
  have s2 := refcount_icon_steps 0 { icon with surface := none, refcount := 1 }
  rw [h] at s1
  simp only [show (2 : Int) - 1 ≠ 0 by decide, ne_eq, not_false_eq_true, if_true,
    show ¬ ((1 : Int) - 1 ≠ 0) by decide, if_false, show (2 : Int) - 1 = 1 by decide,
    show ¬ ((2 : Int) - 1 = 0) by decide, show ((1 : Int) - 1 = 0) by decide,
    not_true_eq_false] at s1 s2
  refine ⟨?_, ?_, s2.2.2.2.2, s1.2.2.2.1, s1.2.2.2.2, fun released hr => ?_⟩
  · unfold Teardown ReleaseBacking
    simp only [h]
    rw [if_pos (by decide)]
    rfl
  · have := s2.2.2.2.1
    cases hx : (XLReleaseIconSurface { icon with surface := none, refcount := 1 }).1 with
    | none => rfl
    | some x => rw [hx] at this; simp at this
  · have hrc : released.refcount = 1 := by
      have := s1.2.2.2.1
      rw [hr] at this
      simpa using this
    have s3 := refcount_icon_steps 0 released
    rw [hrc] at s3
    simp only [show ¬ ((1 : Int) - 1 ≠ 0) by decide, if_false] at s3
    exact ⟨s3.2.1, s3.2.2.1⟩

end Icon

namespace Roles

open Sub

end Roles
/-! ## `subsurface.c`: what the commit of a surface does when it is run through -/


namespace Cascade

open Sub

/-! ## The commit of a surface, run through -/

/-- Reading a subsurface in a world that keeps the fields no commit writes. -/
theorem core_lookup {w w' : World}
    (h : ∀ j, (w'.subsurfaces j).map core = (w.subsurfaces j).map core) {j : Nat}
    {a : Subsurface} (hj : w.subsurfaces j = some a) :
    ∃ a', w'.subsurfaces j = some a' ∧ core a' = core a := by
  obtain ⟨b, hb, e⟩ := lookup_of_map_eq (h j).symm hj
  exact ⟨b, hb, e.symm⟩

/-- Worlds that agree on the fields no commit writes agree on `surface` and
`parent`. -/
theorem ends_of_core {w w' : World}
    (h : ∀ j, (w'.subsurfaces j).map core = (w.subsurfaces j).map core) (j : Nat) :
    (w'.subsurfaces j).map Subsurface.ends = (w.subsurfaces j).map Subsurface.ends := by
  have := congrArg (Option.map fun c : Option Nat × Option Nat × Int × Bool × Bool × Bool =>
    (c.1, c.2.1)) (h j)
  simpa [Option.map_map, core, Subsurface.ends, Function.comp] using this

/-- The check `commitBelow` reads the surfaces and the `surface` and `parent`
fields of the subsurfaces only. -/
theorem commitBelow_congr {w w1 : World} (hsurf : w1.surfaces = w.surfaces)
    (hsub : ∀ j, (w1.subsurfaces j).map Subsurface.ends
      = (w.subsurfaces j).map Subsurface.ends) (height : Nat) :
    ∀ s, commitBelow w1 height s = commitBelow w height s := by
  induction height with
  | zero => intro s; rfl
  | succ n ih =>
    intro s
    unfold commitBelow
    rw [hsurf]
    cases hs : w.surfaces s with
    | none => rfl
    | some surface =>
      simp only []
      congr 1
      congr 1
      funext k
      have hk := hsub k
      cases h1 : w1.subsurfaces k with
      | none =>
        rw [h1] at hk
        cases h : w.subsurfaces k with
        | none => rfl
        | some a => rw [h] at hk; simp at hk
      | some a1 =>
        rw [h1] at hk
        cases h : w.subsurfaces k with
        | none => rw [h] at hk; simp at hk
        | some a =>
          rw [h] at hk
          simp only [Option.map_some', Option.some.injEq, Subsurface.ends, Prod.mk.injEq] at hk
          simp only [hk.1, hk.2]
          cases a.surface with
          | none => rfl
          | some c => simp only [ih c]

theorem Sunk_refl (depth : Nat → Nat) (s : Nat) (w : World) : Sunk depth s w w :=
  ⟨rfl, fun _ => rfl, fun _ _ h _ => h, fun _ _ => ⟨rfl, rfl, fun _ => rfl⟩, [],
    (List.append_nil _).symm, fun _ h => by cases h⟩

theorem Sunk_trans {depth : Nat → Nat} {s : Nat} {w w1 w2 : World} (h1 : Sunk depth s w w1)
    (h2 : Sunk depth s w1 w2) : Sunk depth s w w2 := by
  obtain ⟨a1, a2, a3, a4, r1, a5, a6⟩ := h1
  obtain ⟨b1, b2, b3, b4, r2, b5, b6⟩ := h2
  refine ⟨b1.trans a1, fun j => (b2 j).trans (a2 j), fun j a hj hd => ?_, fun v hv => ?_,
    r1 ++ r2, by rw [b5, a5, List.append_assoc], fun c hc => ?_⟩
  · exact b3 j a (a3 j a hj hd) hd
  · obtain ⟨x1, x2, x3⟩ := a4 v hv
    obtain ⟨y1, y2, y3⟩ := b4 v hv
    exact ⟨y1.trans x1, y2.trans x2, fun hne => (y3 hne).trans (x3 hne)⟩
  · rcases List.mem_append.mp hc with h | h
    · exact a6 c h
    · exact b6 c h

/-- What the commit of a deeper surface changes is below every surface that is
less deep. -/
theorem Sunk_of_committed {depth : Nat → Nat} {p s : Nat} {w w' : World}
    (hd : depth p < depth s) (h : Committed depth s w w') : Sunk depth p w w' := by
  obtain ⟨a1, a2, a3, a4, rest, a5, a6⟩ := h
  refine ⟨a1, a2, fun j a hj hdj => ?_, fun v hv => ?_, Call.XLCommitSurface s :: rest, a5,
    fun c hc => ?_⟩
  · obtain ⟨m, hm, hmm⟩ := a3 j a hj (fun c hc => Nat.le_trans (hdj c hc) (Nat.le_of_lt hd))
    have : m = a.mapped := hmm (fun c hc e => by
      have := hdj c hc
      rw [e] at this
      omega)
    rw [hm, this]
  · obtain ⟨x1, x2, x3⟩ := a4 v (Nat.le_trans hv (Nat.le_of_lt hd))
    refine ⟨x1, x2, fun _ => x3 (fun e => ?_)⟩
    rw [e] at hv
    simp only [viewSurface] at hv
    omega
  · rcases List.mem_cons.mp hc with h | h
    · cases h
      exact hd
    · exact Nat.lt_trans hd (a6 c h)

/-- `Commit` of the subsurface attached to a surface, whose parent surface
exists if it has one: it returns, and changes `mapped` of the subsurface and
nothing else but the calls, none of which commits a surface.  The subsurface
is mapped exactly when there is a buffer, if the content view of the surface
is in a subcompositor, and is left as it was if not. -/
theorem Commit_frame (buffer : Nat → Bool) (w : World) (s k : Nat) (a : Subsurface)
    (hk : w.subsurfaces k = some a) (hs : a.surface = some s)
    (hp : ∀ p, a.parent = some p → ∃ ps, w.surfaces p = some ps) :
    ∃ w' m rest, Commit buffer w s k = some w' ∧ w'.surfaces = w.surfaces
      ∧ w'.subsurfaces k = some { a with mapped := m }
      ∧ (∀ j, j ≠ k → w'.subsurfaces j = w.subsurfaces j)
      ∧ w'.view_parent = w.view_parent ∧ w'.view_children = w.view_children
      ∧ w'.view_subcompositor = w.view_subcompositor
      ∧ w'.calls = w.calls ++ rest ∧ (∀ c, Call.XLCommitSurface c ∉ rest)
      ∧ m = (if (w.view_subcompositor (View.view s)).isSome = true then buffer s
              else a.mapped) := by
  obtain ⟨sf, p, rc, ps, cs, cc, sbd, sync, pc, mp, pe⟩ := a
  simp only at hs hp
  subst hs
  unfold Commit
  simp only [hk, ViewGetSubcompositor]
  cases hsc : w.view_subcompositor (View.view s) with
  | none =>
    exact ⟨w, mp, [], rfl, rfl, hk, fun _ _ => rfl, rfl, rfl, rfl, (List.append_nil _).symm,
      fun c h => (by cases h), by simp⟩
  | some sc =>
    simp only []
    cases p with
    | none =>
      cases hb : buffer s <;> cases mp <;> cases sync <;>
        simp [SubsurfaceUpdate, MaybeUpdateOutputs, World.setSubsurface, World.call, hk] <;>
        exact fun j h1 h2 => absurd h2 h1
    | some p =>
      obtain ⟨psurf, hps⟩ := hp p rfl
      cases hr : psurf.role <;> cases hb : buffer s <;> cases mp <;> cases sync <;>
        simp [SubsurfaceUpdate, MaybeUpdateOutputs, World.setSubsurface, World.call, hk, hps,
          hr] <;>
        exact fun j h1 h2 => absurd h2 h1

end Cascade


namespace Cascade

open Sub

/-- The steps of `AfterParentCommit` on an attached subsurface, whatever the
commit does: the pending position is applied and the views are attached first,
which gives the world `w2`; the commit of the cached state, if there is one,
is run in `w2`; and the pending flags are cleared in what it leaves. -/
theorem AfterParentCommit_stages (commit : World → Nat → Option World) (w : World)
    (s k own : Nat) (a : Subsurface) (hk : w.subsurfaces k = some a)
    (hown : a.surface = some own)
    (hmove : hasFlag a.pending_substate.flags PendingPosition →
      ∃ p ps, a.parent = some p ∧ w.surfaces p = some ps) :
    ∃ w2, w2.subsurfaces k
          = some { a with
              current_substate :=
                if hasFlag a.pending_substate.flags PendingPosition then
                  { a.current_substate with
                      x := a.pending_substate.x, y := a.pending_substate.y }
                else a.current_substate
              pending := false }
      ∧ (∀ j, j ≠ k → w2.subsurfaces j = w.subsurfaces j)
      ∧ w2.surfaces = w.surfaces
      ∧ w2.calls
          = w.calls
            ++ (if hasFlag a.pending_substate.flags PendingPosition then
                  [Call.ViewMove own a.pending_substate.x a.pending_substate.y]
                else [])
      ∧ (a.pending = true →
          w2.view_children (View.view s)
              = w.view_children (View.view s) ++ [View.under own, View.view own]
          ∧ w2.view_parent (View.under own) = some (View.view s)
          ∧ w2.view_parent (View.view own) = some (View.view s)
          ∧ w2.view_subcompositor (View.view own) = w.view_subcompositor (View.view s))
      ∧ (a.pending = false →
          w2.view_children = w.view_children ∧ w2.view_parent = w.view_parent
            ∧ w2.view_subcompositor = w.view_subcompositor)
      ∧ (∀ v, v ≠ View.view own → v ≠ View.under own →
          w2.view_parent v = w.view_parent v
            ∧ w2.view_subcompositor v = w.view_subcompositor v)
      ∧ (∀ v, v ≠ View.view s → w2.view_children v = w.view_children v)
      ∧ AfterParentCommit commit w s k
          = ((if a.pending_commit = true then
                (commit w2 own).bind fun w3 => MaybeUpdateOutputs w3 k
              else some w2).bind fun w4 =>
              (w4.subsurfaces k).map fun b =>
                w4.setSubsurface k
                  { b with
                      pending_commit := false
                      pending_substate := { b.pending_substate with flags := 0 } }) := by
  obtain ⟨sf, p, rc, ⟨px, py, pf⟩, cs, cc, sbd, sync, pc, m, pe⟩ := a
  simp only at hown hmove
  subst hown
  by_cases hpos : hasFlag pf PendingPosition
  · obtain ⟨p', ps, hp, hps⟩ := hmove hpos
    subst hp
    cases pe
    · refine ⟨((w.setSubsurface k
          { surface := some own, parent := some p', refcount := rc,
            pending_substate := { x := px, y := py, flags := pf },
            current_substate := { cs with x := px, y := py }, commit_callback := cc,
            should_be_desync := sbd, synchronous := sync, pending_commit := pc, mapped := m,
            pending := false }).call (Call.ViewMove own px py)), ?_, fun j hj => ?_, ?_, ?_, fun hp => ?_, fun hp => ?_, fun v h1 h2 => ?_,
        fun v hv => ?_, ?_⟩
      · simp [hpos, hk, ViewInsert, ViewSetSubcompositor]
      · simp [hj, ViewInsert, ViewSetSubcompositor]
      · simp [ViewInsert, ViewSetSubcompositor]
      · simp [hpos, ViewInsert, ViewSetSubcompositor]
      · cases hp
      · exact ⟨rfl, rfl, rfl⟩
      · simp [ViewInsert, ViewSetSubcompositor, h1, h2]
      · simp [ViewInsert, ViewSetSubcompositor, hv]
      · unfold AfterParentCommit
        cases pc <;>
          simp [hk, hpos, MoveFractional, hps, World.setSubsurface, World.call, ViewInsert,
            ViewSetSubcompositor, ViewGetSubcompositor]
        generalize commit _ own = x
        cases x with
        | none => rfl
        | some w3 =>
          simp only [Option.bind]
          cases MaybeUpdateOutputs w3 k with
          | none => rfl
          | some w4 =>
            simp only []
            cases w4.subsurfaces k <;> rfl
    · refine ⟨(ViewInsert
          (ViewSetSubcompositor
            (ViewInsert
              (ViewSetSubcompositor ((w.setSubsurface k
          { surface := some own, parent := some p', refcount := rc,
            pending_substate := { x := px, y := py, flags := pf },
            current_substate := { cs with x := px, y := py }, commit_callback := cc,
            should_be_desync := sbd, synchronous := sync, pending_commit := pc, mapped := m,
            pending := true }).call (Call.ViewMove own px py))
                (View.under own) (w.view_subcompositor (View.view s)))
              (View.view s) (View.under own))
            (View.view own) (w.view_subcompositor (View.view s)))
          (View.view s) (View.view own)).setSubsurface k
          { surface := some own, parent := some p', refcount := rc,
            pending_substate := { x := px, y := py, flags := pf },
            current_substate := { cs with x := px, y := py }, commit_callback := cc,
            should_be_desync := sbd, synchronous := sync, pending_commit := pc, mapped := m,
            pending := false }, ?_, fun j hj => ?_, ?_, ?_, fun hp => ?_, fun hp => ?_, fun v h1 h2 => ?_,
        fun v hv => ?_, ?_⟩
      · simp [hpos, hk, ViewInsert, ViewSetSubcompositor]
      · simp [hj, ViewInsert, ViewSetSubcompositor]
      · simp [ViewInsert, ViewSetSubcompositor]
      · simp [hpos, ViewInsert, ViewSetSubcompositor]
      · simp [ViewInsert, ViewSetSubcompositor]
      · cases hp
      · simp [ViewInsert, ViewSetSubcompositor, h1, h2]
      · simp [ViewInsert, ViewSetSubcompositor, hv]
      · unfold AfterParentCommit
        cases pc <;>
          simp [hk, hpos, MoveFractional, hps, World.setSubsurface, World.call, ViewInsert,
            ViewSetSubcompositor, ViewGetSubcompositor]
        generalize commit _ own = x
        cases x with
        | none => rfl
        | some w3 =>
          simp only [Option.bind]
          cases MaybeUpdateOutputs w3 k with
          | none => rfl
          | some w4 =>
            simp only []
            cases w4.subsurfaces k <;> rfl
  · cases pe
    · refine ⟨w, ?_, fun j hj => ?_, ?_, ?_, fun hp => ?_, fun hp => ?_, fun v h1 h2 => ?_,
        fun v hv => ?_, ?_⟩
      · simp [hpos, hk, ViewInsert, ViewSetSubcompositor]
      · simp [hj, ViewInsert, ViewSetSubcompositor]
      · simp [ViewInsert, ViewSetSubcompositor]
      · simp [hpos, ViewInsert, ViewSetSubcompositor]
      · cases hp
      · exact ⟨rfl, rfl, rfl⟩
      · simp [ViewInsert, ViewSetSubcompositor, h1, h2]
      · simp [ViewInsert, ViewSetSubcompositor, hv]
      · unfold AfterParentCommit
        cases pc <;>
          simp [hk, hpos, MoveFractional, World.setSubsurface, World.call, ViewInsert,
            ViewSetSubcompositor, ViewGetSubcompositor]
        generalize commit _ own = x
        cases x with
        | none => rfl
        | some w3 =>
          simp only [Option.bind]
          cases MaybeUpdateOutputs w3 k with
          | none => rfl
          | some w4 =>
            simp only []
            cases w4.subsurfaces k <;> rfl
    · refine ⟨(ViewInsert
          (ViewSetSubcompositor
            (ViewInsert
              (ViewSetSubcompositor w
                (View.under own) (w.view_subcompositor (View.view s)))
              (View.view s) (View.under own))
            (View.view own) (w.view_subcompositor (View.view s)))
          (View.view s) (View.view own)).setSubsurface k
          { surface := some own, parent := p, refcount := rc,
            pending_substate := { x := px, y := py, flags := pf },
            current_substate := cs, commit_callback := cc,
            should_be_desync := sbd, synchronous := sync, pending_commit := pc, mapped := m,
            pending := false }, ?_, fun j hj => ?_, ?_, ?_, fun hp => ?_, fun hp => ?_, fun v h1 h2 => ?_,
        fun v hv => ?_, ?_⟩
      · simp [hpos, hk, ViewInsert, ViewSetSubcompositor]
      · simp [hj, ViewInsert, ViewSetSubcompositor]
      · simp [ViewInsert, ViewSetSubcompositor]
      · simp [hpos, ViewInsert, ViewSetSubcompositor]
      · simp [ViewInsert, ViewSetSubcompositor]
      · cases hp
      · simp [ViewInsert, ViewSetSubcompositor, h1, h2]
      · simp [ViewInsert, ViewSetSubcompositor, hv]
      · unfold AfterParentCommit
        cases pc <;>
          simp [hk, hpos, MoveFractional, World.setSubsurface, World.call, ViewInsert,
            ViewSetSubcompositor, ViewGetSubcompositor]
        generalize commit _ own = x
        cases x with
        | none => rfl
        | some w3 =>
          simp only [Option.bind]
          cases MaybeUpdateOutputs w3 k with
          | none => rfl
          | some w4 =>
            simp only []
            cases w4.subsurfaces k <;> rfl

end Cascade


namespace Cascade

open Sub

theorem mapped_self (a : Subsurface) : { a with mapped := a.mapped } = a := by
  cases a
  rfl

/-- A view of a surface that is not deeper than `s` is no view of a surface that
is deeper. -/
theorem view_ne_of_depth {depth : Nat → Nat} {s c : Nat} {v : View}
    (hv : depth (viewSurface v) ≤ depth s) (hd : depth s < depth c) :
    v ≠ View.view c ∧ v ≠ View.under c := by
  constructor <;>
  · intro e
    rw [e] at hv
    simp only [viewSurface] at hv
    omega

/-- `AfterParentCommit` at the commit of the surface `s`, for a subsurface that
has `s` as its parent and is attached to the deeper surface `c`, when the
commit of `c` returns and changes what a commit of `c` may change: it returns,
and what it changes is below `s`. -/
theorem AfterParentCommit_sunk {depth : Nat → Nat} (commit : World → Nat → Option World)
    (w : World) (s k c : Nat) (a : Subsurface) (psurf : Surface)
    (hk : w.subsurfaces k = some a) (hc : a.surface = some c) (hp : a.parent = some s)
    (hs : w.surfaces s = some psurf) (hd : depth s < depth c)
    (hcommit : ∀ w2, w2.surfaces = w.surfaces →
      (∀ j, (w2.subsurfaces j).map core = (w.subsurfaces j).map core) →
      ∃ w3, commit w2 c = some w3 ∧ Committed depth c w2 w3) :
    ∃ w', AfterParentCommit commit w s k = some w' ∧ Sunk depth s w w' := by
  obtain ⟨w2, h2k, h2o, h2s, h2c, -, -, h2v, h2ch, heq⟩ :=
    AfterParentCommit_stages commit w s k c a hk hc (fun _ => ⟨s, psurf, hp, hs⟩)
  have hcore2 : ∀ j, (w2.subsurfaces j).map core = (w.subsurfaces j).map core := by
    intro j
    by_cases hj : j = k
    · subst hj
      rw [h2k, hk]
      rfl
    · rw [h2o j hj]
  have hkdeep : ∀ j aj, w.subsurfaces j = some aj →
      (∀ c', aj.surface = some c' → depth c' ≤ depth s) → j ≠ k := by
    intro j aj hj hsh e
    subst e
    rw [hk] at hj
    cases hj
    have := hsh c hc
    omega
  by_cases hpc : a.pending_commit = true
  · obtain ⟨w3, h3, c1, c2, c3, c4, rest, c5, c6⟩ := hcommit w2 h2s hcore2
    obtain ⟨m, h3k, -⟩ := c3 k _ h2k (fun c' hc' => by
      rw [show c' = c from Option.some.inj (hc'.symm.trans hc)])
    have hm : MaybeUpdateOutputs w3 k = some (w3.call (Call.MaybeUpdateOutputs c)) := by
      unfold MaybeUpdateOutputs
      rw [h3k]
      simp only [hc]
    rw [heq, if_pos hpc, h3]
    simp only [Option.some_bind, hm, call_subsurfaces, h3k, Option.map_some']
    refine ⟨_, rfl, ?_, fun j => ?_, fun j aj hj hsh => ?_, fun v hv => ?_, ?_⟩
    · simp only [setSubsurface_surfaces, call_surfaces, c1, h2s]
    · by_cases hj : j = k
      · subst hj
        simp only [setSubsurface_subsurfaces, if_true, hk, Option.map_some']
        rfl
      · simp only [setSubsurface_subsurfaces, if_neg hj, call_subsurfaces]
        rw [c2 j, hcore2 j]
    · have hjk := hkdeep j aj hj hsh
      simp only [setSubsurface_subsurfaces, if_neg hjk, call_subsurfaces]
      obtain ⟨m', hm', hmm⟩ := c3 j aj (by rw [h2o j hjk]; exact hj)
        (fun c' hc' => Nat.le_trans (hsh c' hc') (Nat.le_of_lt hd))
      rw [hm', hmm (fun c' hc' e => by
        have := hsh c' hc'
        rw [e] at this
        omega), mapped_self]
    · obtain ⟨hv1, hv2⟩ := view_ne_of_depth hv hd
      obtain ⟨x1, x2, x3⟩ := c4 v (Nat.le_trans hv (Nat.le_of_lt hd))
      obtain ⟨y1, y2⟩ := h2v v hv1 hv2
      simp only [setSubsurface_view_parent, call_view_parent, setSubsurface_view_subcompositor,
        call_view_subcompositor, setSubsurface_view_children, call_view_children]
      exact ⟨x1.trans y1, x2.trans y2, fun hne => (x3 hv1).trans (h2ch v hne)⟩
    · refine ⟨(if hasFlag a.pending_substate.flags PendingPosition then
            [Call.ViewMove c a.pending_substate.x a.pending_substate.y]
          else []) ++ Call.XLCommitSurface c :: rest ++ [Call.MaybeUpdateOutputs c], ?_,
        fun c' hc' => ?_⟩
      · simp only [setSubsurface_calls, call_calls, c5, h2c, List.append_assoc,
          List.cons_append]
      · rcases List.mem_append.mp hc' with h | h
        · rcases List.mem_append.mp h with h | h
          · split at h
            · simp at h
            · cases h
          · rcases List.mem_cons.mp h with h | h
            · cases h
              exact hd
            · exact Nat.lt_trans hd (c6 c' h)
        · simp at h
  · rw [heq, if_neg hpc]
    simp only [Option.some_bind, h2k, Option.map_some']
    refine ⟨_, rfl, ?_, fun j => ?_, fun j aj hj hsh => ?_, fun v hv => ?_, ?_⟩
    · simp only [setSubsurface_surfaces, h2s]
    · by_cases hj : j = k
      · subst hj
        simp only [setSubsurface_subsurfaces, if_true, hk, Option.map_some']
        rfl
      · simp only [setSubsurface_subsurfaces, if_neg hj]
        rw [hcore2 j]
    · have hjk := hkdeep j aj hj hsh
      simp only [setSubsurface_subsurfaces, if_neg hjk]
      rw [h2o j hjk, hj]
    · obtain ⟨hv1, hv2⟩ := view_ne_of_depth hv hd
      obtain ⟨y1, y2⟩ := h2v v hv1 hv2
      simp only [setSubsurface_view_parent, setSubsurface_view_subcompositor,
        setSubsurface_view_children]
      exact ⟨y1, y2, fun hne => h2ch v hne⟩
    · refine ⟨(if hasFlag a.pending_substate.flags PendingPosition then
            [Call.ViewMove c a.pending_substate.x a.pending_substate.y]
          else []), ?_, fun c' hc' => ?_⟩
      · simp only [setSubsurface_calls, h2c]
      · split at hc'
        · simp at hc'
        · cases hc'

end Cascade


namespace Cascade

open Sub

/-- Agreeing pointers and the depths are kept by a world that keeps the
surfaces and the `surface` and `parent` fields of the subsurfaces. -/
theorem Grown_ends_congr {w w' : World} {depth : Nat → Nat}
    (hsurf : w'.surfaces = w.surfaces)
    (hsub : ∀ j, (w'.subsurfaces j).map Subsurface.ends
      = (w.subsurfaces j).map Subsurface.ends)
    (hg : Grown w depth) : Grown w' depth := by
  refine ⟨fun k s a' hk' hs' => ?_, fun s k surf hs hrole => ?_, ?_⟩
  · obtain ⟨a, ha, e⟩ := lookup_of_map_eq (hsub k) hk'
    simp only [Subsurface.ends, Prod.mk.injEq] at e
    rw [hsurf]
    obtain ⟨surf, h1, h2, h3⟩ := hg.1 k s a ha (e.1.symm.trans hs')
    exact ⟨surf, h1, h2, fun p hp => h3 p (e.2.symm.trans hp)⟩
  · rw [hsurf] at hs
    obtain ⟨a, ha, has⟩ := hg.2.1 s k surf hs hrole
    obtain ⟨a', ha', e⟩ := lookup_of_map_eq (hsub k).symm ha
    simp only [Subsurface.ends, Prod.mk.injEq] at e
    exact ⟨a', ha', e.1.symm.trans has⟩
  · rw [hsurf]
    exact hg.2.2

/-- The queue of reorderings of a surface that has none queued runs to no
effect. -/
theorem XLSubsurfaceHandleParentCommit_quiet (w : World) (s : Nat) (surf : Surface)
    (hs : w.surfaces s = some surf) (hq : (surf.actions.getD []).isEmpty = true) :
    XLSubsurfaceHandleParentCommit w s = some w := by
  unfold XLSubsurfaceHandleParentCommit
  simp only [hs]
  cases ha : surf.actions with
  | none => rfl
  | some actions =>
    rw [ha] at hq
    simp only [Option.getD_some, List.isEmpty_iff] at hq
    subst hq
    rfl

/-- Where the subsurfaces form trees, the commit of a surface below which every
level can be committed returns, and changes what the commit of that surface may change.  The
subsurface attached to the surface is mapped exactly when there is a buffer, if
the content view of the surface is in a subcompositor, and is left as it was
if not. -/
theorem XLCommitSurface_committed {depth : Nat → Nat} (buffer : Nat → Bool) :
    ∀ (fuel : Nat) (w : World) (s : Nat), Grown w depth → commitBelow w fuel s = true →
      ∃ w', XLCommitSurface buffer fuel w s = some w' ∧ Committed depth s w w'
        ∧ ∀ k a, w.subsurfaces k = some a → a.surface = some s →
            w'.subsurfaces k
              = some { a with
                  mapped :=
                    if (w.view_subcompositor (View.view s)).isSome = true then buffer s
                    else a.mapped } := by
  intro fuel
  induction fuel with
  | zero => intro w s _ h; cases h
  | succ f ih =>
    intro w s hg hcb
    unfold commitBelow at hcb
    cases hs : w.surfaces s with
    | none => rw [hs] at hcb; cases hcb
    | some surf =>
      rw [hs] at hcb
      simp only [Bool.and_eq_true, List.all_eq_true] at hcb
      obtain ⟨hq, hall⟩ := hcb
      -- the callbacks
      have hfold : ∀ (ks : List Nat), (∀ k, k ∈ ks → k ∈ surf.commit_callbacks) →
          ∀ wi, Sunk depth s (w.call (Call.XLCommitSurface s)) wi →
          ∃ w1, ks.foldlM
              (fun w address => AfterParentCommit (XLCommitSurface buffer f) w s address) wi
              = some w1
            ∧ Sunk depth s (w.call (Call.XLCommitSurface s)) w1 := by
        intro ks
        induction ks with
        | nil => intro _ wi hwi; exact ⟨wi, rfl, hwi⟩
        | cons k rest ihk =>
          intro hmem wi hwi
          have hkall := hall k (hmem k (List.mem_cons_self _ _))
          cases hka : w.subsurfaces k with
          | none => rw [hka] at hkall; cases hkall
          | some a =>
            rw [hka] at hkall
            simp only [Bool.and_eq_true, decide_eq_true_eq] at hkall
            obtain ⟨hpar, hbelow⟩ := hkall
            have hwis : wi.surfaces = w.surfaces := hwi.1
            have hwic : ∀ j, (wi.subsurfaces j).map core = (w.subsurfaces j).map core :=
              fun j => hwi.2.1 j
            obtain ⟨ai, hki, hci⟩ := core_lookup hwic hka
            simp only [core, Prod.mk.injEq] at hci
            have hstep : ∃ w2,
                AfterParentCommit (XLCommitSurface buffer f) wi s k = some w2
                  ∧ Sunk depth s wi w2 := by
              cases hsf : a.surface with
              | none =>
                refine ⟨wi, ?_, Sunk_refl depth s wi⟩
                unfold AfterParentCommit
                simp only [hki, hci.1, hsf]
              | some c =>
                rw [hsf] at hbelow
                obtain ⟨-, -, -, hpl⟩ := hg.1 k c a hka hsf
                obtain ⟨psurf, hps, hmemc⟩ := hpl s hpar
                rw [hs] at hps
                cases hps
                have hd : depth s < depth c := hg.2.2 s c surf hs hmemc
                refine AfterParentCommit_sunk (XLCommitSurface buffer f) wi s k c ai surf hki
                  (hci.1.trans hsf) (hci.2.1.trans hpar) (hwis ▸ hs) hd (fun w2 h2s h2c => ?_)
                have hs2 : w2.surfaces = w.surfaces := h2s.trans hwis
                have hc2 : ∀ j, (w2.subsurfaces j).map core = (w.subsurfaces j).map core :=
                  fun j => (h2c j).trans (hwic j)
                have hg2 := Grown_ends_congr hs2 (ends_of_core hc2) hg
                exact (ih w2 c hg2
                  ((commitBelow_congr hs2 (ends_of_core hc2) f c).trans hbelow)).imp
                    fun _ h => ⟨h.1, h.2.1⟩
            obtain ⟨w2, hw2, hs2⟩ := hstep
            obtain ⟨w1, hw1, hs1⟩ :=
              ihk (fun k' hk' => hmem k' (List.mem_cons_of_mem _ hk')) w2 (Sunk_trans hwi hs2)
            refine ⟨w1, ?_, hs1⟩
            rw [List.foldlM_cons, hw2]
            exact hw1
      obtain ⟨w1, hw1, g1, g2, g3, g4, rest, g5, g6⟩ :=
        hfold surf.commit_callbacks (fun _ h => h) (w.call (Call.XLCommitSurface s))
          (Sunk_refl depth s _)
      simp only [call_surfaces, call_subsurfaces, call_view_parent, call_view_children,
        call_view_subcompositor, call_calls] at g1 g2 g3 g4 g5
      have hquiet := XLSubsurfaceHandleParentCommit_quiet w1 s surf (by rw [g1, hs]) hq
      -- the commit of the role
      have hrole : ∃ w',
          (match surf.role with
            | some (RolePtr.subsurface address) => Commit buffer w1 s address
            | some RolePtr.other => some (w1.call (Call.role_commit s))
            | none => some w1) = some w'
          ∧ w'.surfaces = w1.surfaces
          ∧ (∀ j, (w'.subsurfaces j).map core = (w1.subsurfaces j).map core)
          ∧ (∀ j a, w1.subsurfaces j = some a →
              ∃ m, w'.subsurfaces j = some { a with mapped := m }
                ∧ ((∀ c, a.surface = some c → c ≠ s) → m = a.mapped))
          ∧ w'.view_parent = w1.view_parent ∧ w'.view_children = w1.view_children
          ∧ w'.view_subcompositor = w1.view_subcompositor
          ∧ (∃ more, w'.calls = w1.calls ++ more ∧ ∀ c, Call.XLCommitSurface c ∉ more)
          ∧ ∀ k a, surf.role = some (RolePtr.subsurface k) → w1.subsurfaces k = some a →
              w'.subsurfaces k
                = some { a with
                    mapped :=
                      if (w1.view_subcompositor (View.view s)).isSome = true then buffer s
                      else a.mapped } := by
        cases hrl : surf.role with
        | none =>
          exact ⟨w1, rfl, rfl, fun _ => rfl,
            fun j a hj => ⟨a.mapped, by rw [hj, mapped_self], fun _ => rfl⟩,
            rfl, rfl, rfl, ⟨[], (List.append_nil _).symm, fun c h => by cases h⟩,
            fun k a h => by cases h⟩
        | some r =>
          cases r with
          | other =>
            exact ⟨_, rfl, rfl, fun _ => rfl,
              fun j a hj => ⟨a.mapped, by rw [call_subsurfaces, hj, mapped_self], fun _ => rfl⟩,
              rfl, rfl, rfl, ⟨[Call.role_commit s], rfl, fun c h => by simp at h⟩,
              fun k a h => by cases h⟩
          | subsurface k =>
            obtain ⟨a', hk', hks⟩ := hg.2.1 s k surf hs hrl
            have h1k : w1.subsurfaces k = some a' :=
              g3 k a' hk' (fun c hc => by
                rw [show c = s from Option.some.inj (hc.symm.trans hks)])
            obtain ⟨-, -, -, hpl⟩ := hg.1 k s a' hk' hks
            obtain ⟨w', m, more, e1, e2, e3, e4, e5, e6, e7, e8, e9, e10⟩ :=
              Commit_frame buffer w1 s k a' h1k hks (fun p hp => by
                obtain ⟨psurf, hps, -⟩ := hpl p hp
                exact ⟨psurf, by rw [g1, hps]⟩)
            refine ⟨w', e1, e2, fun j => ?_, fun j a hj => ?_, e5, e6, e7, ⟨more, e8, e9⟩,
              fun k2 a2 hr2 h2 => ?_⟩
            · by_cases hjk : j = k
              · subst hjk
                rw [e3, h1k]
                rfl
              · rw [e4 j hjk]
            · by_cases hjk : j = k
              · subst hjk
                rw [h1k] at hj
                cases hj
                exact ⟨m, e3, fun hne => absurd rfl (hne s hks)⟩
              · exact ⟨a.mapped, by rw [e4 j hjk, hj, mapped_self], fun _ => rfl⟩
            · cases hr2
              rw [h1k] at h2
              cases h2
              rw [e3, e10]
      obtain ⟨w', hw', r1, r0, r2, r3, r4, r5, ⟨more, r6, r7⟩, r8⟩ := hrole
      refine ⟨w', ?_, ⟨?_, fun j => ?_, fun j a hj hsh => ?_, fun v hv => ?_,
        rest ++ more, ?_, fun c hc => ?_⟩, fun k a hk hks => ?_⟩
      rotate_right
      · obtain ⟨surf2, hs2, hrole2, -⟩ := hg.1 k s a hk hks
        rw [hs] at hs2
        cases hs2
        have h1k : w1.subsurfaces k = some a :=
          g3 k a hk (fun c hc => by rw [show c = s from Option.some.inj (hc.symm.trans hks)])
        rw [r8 k a hrole2 h1k, (g4 (View.view s) (Nat.le_refl _)).2.1]
      · unfold XLCommitSurface
        simp only [hs, hw1, hquiet]
        exact hw'
      · rw [r1, g1]
      · exact (r0 j).trans (g2 j)
      · obtain ⟨m, hm, hmm⟩ := r2 j a (g3 j a hj hsh)
        exact ⟨m, hm, hmm⟩
      · obtain ⟨x1, x2, x3⟩ := g4 v hv
        rw [r3, r4, r5]
        exact ⟨x1, x2, x3⟩
      · rw [r6, g5, List.append_assoc, List.append_assoc]
        rfl
      · rcases List.mem_append.mp hc with h | h
        · exact g6 c h
        · exact absurd h (r7 c)

end Cascade


namespace Cascade

open Sub

/-- A list of calls that commits deeper surfaces only does not commit `s`. -/
theorem count_commit_deeper {depth : Nat → Nat} {s : Nat} {rest : List Call}
    (h : ∀ c, Call.XLCommitSurface c ∈ rest → depth s < depth c) :
    rest.count (Call.XLCommitSurface s) = 0 :=
  List.count_eq_zero.mpr fun hm => Nat.lt_irrefl _ (h s hm)

/-- `AfterParentCommit` for a subsurface `a` at `k`, attached to `own`, at the
commit of its parent `surface`, in trees where, if there is cached state,
every level below `own` can be committed.  The pending position is applied and
the views are attached, which gives `w2`; the cached state is committed in
`w2` exactly when `pending_commit` is set; the pending flags are cleared. -/
theorem AfterParentCommit_attached_runs (buffer : Nat → Bool) (fuel : Nat) (w : World)
    (surface k own : Nat) (a : Subsurface) (hk : w.subsurfaces k = some a)
    (hown : a.surface = some own) (hpar : a.parent = some surface) (hf : Tree w)
    (hcb : a.pending_commit = true → commitBelow w fuel own = true) :
    ∃ w2 w',
      w2.subsurfaces k
          = some { a with
              current_substate :=
                if hasFlag a.pending_substate.flags PendingPosition then
                  { a.current_substate with
                      x := a.pending_substate.x, y := a.pending_substate.y }
                else a.current_substate
              pending := false }
      ∧ (∀ j, j ≠ k → w2.subsurfaces j = w.subsurfaces j)
      ∧ w2.surfaces = w.surfaces
      ∧ w2.calls
          = w.calls
            ++ (if hasFlag a.pending_substate.flags PendingPosition then
                  [Call.ViewMove own a.pending_substate.x a.pending_substate.y]
                else [])
      ∧ (a.pending = true →
          w2.view_children (View.view surface)
              = w.view_children (View.view surface) ++ [View.under own, View.view own]
          ∧ w2.view_parent (View.under own) = some (View.view surface)
          ∧ w2.view_parent (View.view own) = some (View.view surface)
          ∧ w2.view_subcompositor (View.view own)
              = w.view_subcompositor (View.view surface))
      ∧ (a.pending = false →
          w2.view_children = w.view_children ∧ w2.view_parent = w.view_parent
            ∧ w2.view_subcompositor = w.view_subcompositor)
      ∧ AfterParentCommit (XLCommitSurface buffer fuel) w surface k = some w'
      ∧ (a.pending_commit = true →
          ∃ w3, XLCommitSurface buffer fuel w2 own = some w3
            ∧ w'.calls = w3.calls ++ [Call.MaybeUpdateOutputs own]
            ∧ (∀ j, j ≠ k → w'.subsurfaces j = w3.subsurfaces j)
            ∧ w'.view_children = w3.view_children ∧ w'.view_parent = w3.view_parent)
      ∧ (a.pending_commit = false →
          w'.calls = w2.calls ∧ (∀ j, j ≠ k → w'.subsurfaces j = w2.subsurfaces j)
            ∧ w'.view_children = w2.view_children ∧ w'.view_parent = w2.view_parent)
      ∧ w'.calls.count (Call.XLCommitSurface own)
          = w.calls.count (Call.XLCommitSurface own)
            + (if a.pending_commit = true then 1 else 0)
      ∧ w'.subsurfaces k
          = some { a with
              current_substate :=
                if hasFlag a.pending_substate.flags PendingPosition then
                  { a.current_substate with
                      x := a.pending_substate.x, y := a.pending_substate.y }
                else a.current_substate
              pending := false
              pending_commit := false
              pending_substate := { a.pending_substate with flags := 0 }
              mapped :=
                if a.pending_commit = true
                    ∧ (w2.view_subcompositor (View.view own)).isSome = true then buffer own
                else a.mapped }
      ∧ (a.pending = true →
          w'.view_children (View.view surface)
              = w.view_children (View.view surface) ++ [View.under own, View.view own]
          ∧ w'.view_parent (View.under own) = some (View.view surface)
          ∧ w'.view_parent (View.view own) = some (View.view surface))
      ∧ w'.surfaces = w.surfaces := by
  obtain ⟨depth, hg⟩ := hf
  obtain ⟨-, -, -, hpl⟩ := hg.1 k own a hk hown
  obtain ⟨psurf, hps, hmem⟩ := hpl surface hpar
  have hd : depth surface < depth own := hg.2.2 surface own psurf hps hmem
  obtain ⟨w2, h2k, h2o, h2s, h2c, h2pt, h2pf, h2v, h2ch, heq⟩ :=
    AfterParentCommit_stages (XLCommitSurface buffer fuel) w surface k own a hk hown
      (fun _ => ⟨surface, psurf, hpar, hps⟩)
  have hcore2 : ∀ j, (w2.subsurfaces j).map core = (w.subsurfaces j).map core := by
    intro j
    by_cases hj : j = k
    · subst hj
      rw [h2k, hk]
      rfl
    · rw [h2o j hj]
  have hcount : ∀ l : List Call,
      (l ++ (if hasFlag a.pending_substate.flags PendingPosition then
              [Call.ViewMove own a.pending_substate.x a.pending_substate.y]
            else [])).count (Call.XLCommitSurface own)
        = l.count (Call.XLCommitSurface own) := by
    intro l
    split <;> simp [List.count_cons]
  by_cases hpc : a.pending_commit = true
  · have hg2 := Grown_ends_congr h2s (ends_of_core hcore2) hg
    obtain ⟨w3, h3, ⟨c1, c2, c3, c4, rest, c5, c6⟩, c7⟩ :=
      XLCommitSurface_committed buffer fuel w2 own hg2
        ((commitBelow_congr h2s (ends_of_core hcore2) fuel own).trans (hcb hpc))
    have h3k := c7 k _ h2k hown
    have hm : MaybeUpdateOutputs w3 k = some (w3.call (Call.MaybeUpdateOutputs own)) := by
      unfold MaybeUpdateOutputs
      rw [h3k]
      simp only [hown]
    have hne : View.view surface ≠ View.view own := fun e => by
      cases e
      exact Nat.lt_irrefl _ hd
    obtain ⟨p1, -, p3⟩ := c4 (View.view surface) (Nat.le_of_lt hd)
    obtain ⟨q1, -, -⟩ := c4 (View.under own) (Nat.le_refl _)
    obtain ⟨q2, -, -⟩ := c4 (View.view own) (Nat.le_refl _)
    refine ⟨w2, (w3.call (Call.MaybeUpdateOutputs own)).setSubsurface k
        { a with
          current_substate :=
            if hasFlag a.pending_substate.flags PendingPosition then
              { a.current_substate with
                  x := a.pending_substate.x, y := a.pending_substate.y }
            else a.current_substate
          pending := false
          pending_commit := false
          pending_substate := { a.pending_substate with flags := 0 }
          mapped :=
            if (w2.view_subcompositor (View.view own)).isSome = true then buffer own
            else a.mapped }, h2k, h2o, h2s, h2c,
      h2pt, h2pf, ?_,
      fun _ => ⟨w3, h3, rfl, fun j hj => by simp [hj], rfl, rfl⟩,
      fun h => absurd hpc (by simp [h]), ?_, ?_,
      fun hp => ?_, ?_⟩
    · rw [heq, if_pos hpc, h3]
      simp only [Option.some_bind, hm, call_subsurfaces, h3k, Option.map_some']
    · simp only [setSubsurface_calls, call_calls, c5, h2c, List.count_append, hcount,
        List.count_cons, count_commit_deeper c6, if_pos hpc]
      simp
    · simp [hpc]
    · obtain ⟨t1, t2, t3, -⟩ := h2pt hp
      simp only [setSubsurface_view_children, call_view_children, setSubsurface_view_parent,
        call_view_parent]
      exact ⟨(p3 hne).trans t1, q1.trans t2, q2.trans t3⟩
    · simp only [setSubsurface_surfaces, call_surfaces, c1, h2s]
  · have hpc' : a.pending_commit = false := by simpa using hpc
    refine ⟨w2, w2.setSubsurface k
        { a with
          current_substate :=
            if hasFlag a.pending_substate.flags PendingPosition then
              { a.current_substate with
                  x := a.pending_substate.x, y := a.pending_substate.y }
            else a.current_substate
          pending := false
          pending_commit := false
          pending_substate := { a.pending_substate with flags := 0 }
          mapped := a.mapped }, h2k, h2o, h2s, h2c, h2pt,
      h2pf, ?_, fun h => absurd h hpc,
      fun _ => ⟨rfl, fun j hj => by simp [hj], rfl, rfl⟩, ?_, ?_,
      fun hp => ⟨(h2pt hp).1, (h2pt hp).2.1, (h2pt hp).2.2.1⟩, h2s⟩
    · rw [heq, if_neg hpc]
      simp only [Option.some_bind, h2k, Option.map_some']
    · simp only [setSubsurface_calls, h2c, hcount, if_neg hpc, Nat.add_zero]
    · simp [hpc']

end Cascade


namespace Cascade

open Sub

theorem nested_treeReachable : TreeReachable nested :=
  TreeReachable.getSubsurface 4 4 2 (some 12) true family_treeReachable
    (fun address e => by cases e; decide) (eq_some_getD (by decide))

/-- The `cached` world is the `nested` world with `pending_commit` set on
subsurfaces 10 and 12. -/
theorem cached_eq :
    cached
      = (nested.setSubsurface 10 { newSubsurface 2 1 with pending_commit := true }).setSubsurface
          12 { newSubsurface 4 2 with pending_commit := true } := by
  have h1 : EarlyCommit nested 2 10
      = some (nested.setSubsurface 10 { newSubsurface 2 1 with pending_commit := true },
          false) := by
    unfold EarlyCommit
    rw [show nested.subsurfaces 10 = some (newSubsurface 2 1) by decide]
    rfl
  have h2 : EarlyCommit
        (nested.setSubsurface 10 { newSubsurface 2 1 with pending_commit := true }) 4 12
      = some ((nested.setSubsurface 10
            { newSubsurface 2 1 with pending_commit := true }).setSubsurface
          12 { newSubsurface 4 2 with pending_commit := true }, false) := by
    unfold EarlyCommit
    rw [show (nested.setSubsurface 10
        { newSubsurface 2 1 with pending_commit := true }).subsurfaces 12
          = some (newSubsurface 4 2) by decide]
    rfl
  unfold cached
  rw [h1]
  simp only [Option.some_bind, h2, Option.map_some', Option.getD_some]

/-- A store into a subsurface that keeps its `surface` and `parent`. -/
theorem store_ends (w : World) (k : Nat) (a b : Subsurface) (hk : w.subsurfaces k = some a)
    (hb : Subsurface.ends b = Subsurface.ends a) (j : Nat) :
    ((w.setSubsurface k b).subsurfaces j).map Subsurface.ends
      = (w.subsurfaces j).map Subsurface.ends := by
  by_cases hj : j = k
  · subst hj
    simp [hk, hb]
  · simp [hj]

/-- The check `commitBelow` is kept by a store that keeps `surface` and
`parent`. -/
theorem commitBelow_store (w : World) (k : Nat) (a b : Subsurface)
    (hk : w.subsurfaces k = some a) (hb : Subsurface.ends b = Subsurface.ends a)
    (height s : Nat) :
    commitBelow (w.setSubsurface k b) height s = commitBelow w height s :=
  @commitBelow_congr w (w.setSubsurface k b) rfl (store_ends w k a b hk hb) height s

/-- A forest is made of trees. -/
theorem Tree_of_forest {w : World} (hf : Forest w) : Tree w := by
  obtain ⟨hl, depth, N, hr⟩ := hf
  refine ⟨depth, fun k s a hk hs => ?_, fun s k surf hs hrole => ?_, hr.2⟩
  · obtain ⟨surf, h1, h2, -, h3⟩ := hl.1 k s a hk hs
    exact ⟨surf, h1, h2, h3⟩
  · obtain ⟨k2, a, e, ha, has⟩ := hl.2.2 s surf _ hs hrole
    cases e
    exact ⟨a, ha, has⟩

/-- Trees stay trees under a store that keeps `surface` and `parent`. -/
theorem Tree_store (w : World) (k : Nat) (a b : Subsurface) (hk : w.subsurfaces k = some a)
    (hb : Subsurface.ends b = Subsurface.ends a) (hf : Tree w) :
    Tree (w.setSubsurface k b) :=
  hf.imp fun _ hg =>
    @Grown_ends_congr w (w.setSubsurface k b) _ rfl (store_ends w k a b hk hb) hg

/-- Trees stay trees when a surface without a role gets a role that is no
subsurface. -/
theorem Tree_other_role (w : World) (s0 : Nat) (surf0 : Surface) (rt : RoleType)
    (h0 : w.surfaces s0 = some surf0) (hnone : surf0.role = none) (hf : Tree w) :
    Tree (w.setSurface s0 { surf0 with role_type := rt, role := some RolePtr.other }) := by
  obtain ⟨depth, hg⟩ := hf
  refine ⟨depth, fun k s a hk hs => ?_, fun s k surf hs hrole => ?_,
    fun p c psurf hp hc => ?_⟩
  · obtain ⟨surf, h1, h2, h3⟩ := hg.1 k s a hk hs
    have hne : s ≠ s0 := fun e => by
      subst e
      rw [h0] at h1
      cases h1
      rw [hnone] at h2
      cases h2
    refine ⟨surf, by simp [hne, h1], h2, fun p hp => ?_⟩
    obtain ⟨psurf, hp1, hp2⟩ := h3 p hp
    by_cases hps : p = s0
    · subst hps
      rw [h0] at hp1
      cases hp1
      exact ⟨{ surf0 with role_type := rt, role := some RolePtr.other }, by simp, hp2⟩
    · exact ⟨psurf, by simp [hps, hp1], hp2⟩
  · by_cases hs0 : s = s0
    · subst hs0
      simp only [setSurface_surfaces, if_true, Option.some.injEq] at hs
      subst hs
      cases hrole
    · simp only [setSurface_surfaces, if_neg hs0] at hs
      exact hg.2.1 s k surf hs hrole
  · by_cases hps : p = s0
    · subst hps
      simp only [setSurface_surfaces, if_true, Option.some.injEq] at hp
      subst hp
      exact hg.2.2 p c surf0 h0 hc
    · simp only [setSurface_surfaces, if_neg hps] at hp
      exact hg.2.2 p c psurf hp hc

/-- A forest stays one under a store that keeps `surface` and `parent`. -/
theorem Forest_store (w : World) (k : Nat) (a b : Subsurface) (hk : w.subsurfaces k = some a)
    (hb : Subsurface.ends b = Subsurface.ends a) (hf : Forest w) :
    Forest (w.setSubsurface k b) :=
  @Forest_congr w (w.setSubsurface k b) (fun _ => rfl) (store_ends w k a b hk hb) hf

theorem cached_forest : Forest cached := by
  rw [cached_eq]
  refine Forest_store _ 12 (newSubsurface 4 2) _ (by decide) rfl ?_
  exact Forest_store _ 10 (newSubsurface 2 1) _ (by decide) rfl
    (TreeReachable_forest nested_treeReachable)

/-- The `shown` world is the `cached` world with the shell surface role on
surface 1 and its content view in subcompositor 7. -/
theorem shown_eq :
    shown
      = ViewSetSubcompositor
          (cached.setSurface 1
            { role_type := RoleType.XdgType, role := some RolePtr.other, subsurfaces := [3, 2],
              commit_callbacks := [10, 11] })
          (View.view 1) (some 7) := by
  have h : Roles.XLGetXdgSurface cached 1 true true
      = some (cached.setSurface 1
          { role_type := RoleType.XdgType, role := some RolePtr.other, subsurfaces := [3, 2],
            commit_callbacks := [10, 11] }) := by
    unfold Roles.XLGetXdgSurface
    rw [show cached.surfaces 1
      = some { subsurfaces := [3, 2], commit_callbacks := [10, 11] } by decide]
    rfl
  unfold shown
  rw [h]
  rfl

theorem shown_tree : Tree shown := by
  rw [shown_eq]
  exact Tree_other_role cached 1 { subsurfaces := [3, 2], commit_callbacks := [10, 11] }
    RoleType.XdgType (by decide) rfl (Tree_of_forest cached_forest)

end Cascade


namespace Cascade

open Sub

end Cascade


namespace Cascade

open Sub

/-- The chain of children that asked for `set_desync` is read off the surfaces
and the fields of the subsurfaces that no commit writes. -/
theorem DesyncChain_forward {w w' : World} (hsurf : w'.surfaces = w.surfaces)
    (hsub : ∀ j, (w'.subsurfaces j).map core = (w.subsurfaces j).map core) {k j : Nat}
    (h : DesyncChain w k j) : DesyncChain w' k j := by
  unfold DesyncChain at h ⊢
  induction h with
  | refl k => exact Reach.refl k
  | step h1 h2 h3 h4 h5 h6 h7 _ ih =>
    obtain ⟨sub', hs', e⟩ := core_lookup hsub h1
    obtain ⟨ch', hc', e'⟩ := core_lookup hsub h6
    simp only [core, Prod.mk.injEq] at e e'
    exact Reach.step hs' (e.1.trans h2) (by rw [hsurf]; exact h3) h4
      ((roleOf_congr hsurf _).trans h5) hc' (e'.2.2.2.2.1.trans h7) ih

theorem DesyncChain_congr {w w' : World} (hsurf : w'.surfaces = w.surfaces)
    (hsub : ∀ j, (w'.subsurfaces j).map core = (w.subsurfaces j).map core) (k j : Nat) :
    DesyncChain w' k j ↔ DesyncChain w k j :=
  ⟨DesyncChain_forward hsurf.symm (fun j => (hsub j).symm), DesyncChain_forward hsurf hsub⟩

/-- Storing into a subsurface what is there changes nothing. -/
theorem setSubsurface_same (w : World) (k : Nat) (a : Subsurface)
    (hk : w.subsurfaces k = some a) : w.setSubsurface k a = w := by
  cases w
  simp only [World.setSubsurface, World.mk.injEq, true_and, and_true]
  funext j
  by_cases hj : j = k
  · subst hj
    simp only [if_true]
    exact hk.symm
  · simp only [if_neg hj]

/-- Without `apply_state` no commit is made: the walk is the one that records
nothing. -/
theorem NoteSubsurfaceDesynchronous_quiet (commit : World → Nat → Option World)
    (fuel : Nat) :
    ∀ (w : World) (k : Nat),
      Cascade.NoteSubsurfaceDesynchronous commit fuel w k false
        = Sub.NoteSubsurfaceDesynchronous fuel w k false := by
  induction fuel with
  | zero => intro w k; rfl
  | succ n ih =>
    intro w k
    unfold Cascade.NoteSubsurfaceDesynchronous Sub.NoteSubsurfaceDesynchronous
    cases hk : w.subsurfaces k with
    | none => rfl
    | some sub =>
      cases hs : sub.surface with
      | none => simp [hs]
      | some s =>
        simp only [hs, Bool.false_eq_true, and_false, if_false, setSubsurface_subsurfaces,
          if_true, setSubsurface_surfaces]
        cases hsurf : w.surfaces s with
        | none => rfl
        | some surf =>
          simp only []
          apply forEachChild_congr
          intro wi ck
          cases hck : wi.subsurfaces ck with
          | none => rfl
          | some child => simp [ih]

/-- For a subsurface without cached state, `SetDesync` commits nothing: it is
the request that records nothing. -/
theorem SetDesync_plain (commit : World → Nat → Option World) (fuel : Nat) (w : World)
    (S : Nat) (a : Subsurface) (hS : w.subsurfaces S = some a)
    (hpc : a.pending_commit = false) :
    Cascade.SetDesync commit fuel w S = Sub.SetDesync fuel w S := by
  unfold Cascade.SetDesync Sub.SetDesync
  simp only [hS]
  cases IsParentSynchronous (w.setSubsurface S { a with should_be_desync := true }) S with
  | none => rfl
  | some b =>
    cases b with
    | true => rfl
    | false =>
      simp only []
      cases fuel with
      | zero => rfl
      | succ n =>
        unfold Cascade.NoteSubsurfaceDesynchronous Sub.NoteSubsurfaceDesynchronous
        simp only [setSubsurface_subsurfaces, if_true, hpc, Bool.false_eq_true, false_and,
          if_false]
        cases hs : a.surface with
        | none => simp
        | some s =>
          simp only [setSubsurface_subsurfaces, if_true, hs, setSubsurface_surfaces]
          cases hsurf : w.surfaces s with
          | none => rfl
          | some surf =>
            simp only []
            apply forEachChild_congr
            intro wi ck
            cases hck : wi.subsurfaces ck with
            | none => rfl
            | some child => simp [NoteSubsurfaceDesynchronous_quiet]

end Cascade


namespace Cascade

open Sub

/-- Worlds that agree on the fields no commit writes agree on `surface`. -/
theorem surface_of_core {w w' : World}
    (h : ∀ j, (w'.subsurfaces j).map core = (w.subsurfaces j).map core) (j : Nat) :
    (w'.subsurfaces j).map (fun a => a.surface) = (w.subsurfaces j).map (fun a => a.surface) := by
  have := congrArg (Option.map fun c : Option Nat × Option Nat × Int × Bool × Bool × Bool =>
    c.1) (h j)
  simpa [Option.map_map, core, Function.comp] using this

/-- `SetDesync` on a subsurface that has cached state, attached to `s`, whose
parent is not synchronous, in trees where every level below `s` can be
committed and the tree is no higher than the fuel: the surface `s` is
committed, once, in the world where the subsurface is desynchronous already,
which gives `w2`; then `pending_commit` is cleared and the walk stores
`synchronous = false` along the chain. -/
theorem SetDesync_cached (buffer : Nat → Bool) (fuel : Nat) (w : World) (S s : Nat)
    (a : Subsurface) (hS : w.subsurfaces S = some a) (hs : a.surface = some s)
    (hparent : IsParentSynchronous w S = some false) (htree : treeBelow w fuel S = true)
    (hf : Tree w) (hpc : a.pending_commit = true) (hcb : commitBelow w fuel s = true) :
    ∃ w2 w',
      XLCommitSurface buffer fuel
          (w.setSubsurface S { a with should_be_desync := true, synchronous := false }) s
        = some w2
      ∧ Cascade.SetDesync (XLCommitSurface buffer fuel) fuel w S = some w'
      ∧ w'.subsurfaces S
          = some { a with
              should_be_desync := true, synchronous := false, pending_commit := false
              mapped :=
                if (w.view_subcompositor (View.view s)).isSome = true then buffer s
                else a.mapped }
      ∧ (∀ j, j ≠ S → DesyncChain w S j →
          w'.subsurfaces j = (w2.subsurfaces j).map fun c => { c with synchronous := false })
      ∧ (∀ j, ¬ DesyncChain w S j → w'.subsurfaces j = w2.subsurfaces j)
      ∧ (∀ j, j ≠ S → (w2.subsurfaces j).map core = (w.subsurfaces j).map core)
      ∧ w'.surfaces = w.surfaces ∧ w'.calls = w2.calls
      ∧ w'.view_parent = w2.view_parent ∧ w'.view_children = w2.view_children
      ∧ w'.view_subcompositor = w2.view_subcompositor
      ∧ w'.calls.count (Call.XLCommitSurface s) = w.calls.count (Call.XLCommitSurface s) + 1 := by
  obtain ⟨depth, hg⟩ := hf
  cases fuel with
  | zero => cases htree
  | succ f =>
    -- the world in which the surface is committed
    have hends := store_ends w S a
      { a with should_be_desync := true, synchronous := false } hS rfl
    have hgW :=
      @Grown_ends_congr w
        (w.setSubsurface S { a with should_be_desync := true, synchronous := false }) depth
        rfl hends hg
    obtain ⟨w2, h2, ⟨c1, c2, c3, c4, rest, c5, c6⟩, c7⟩ :=
      XLCommitSurface_committed buffer (f + 1)
        (w.setSubsurface S { a with should_be_desync := true, synchronous := false }) s hgW
        ((commitBelow_store w S a
          { a with should_be_desync := true, synchronous := false } hS rfl (f + 1) s).trans hcb)
    have h2S := c7 S { a with should_be_desync := true, synchronous := false } (by simp) hs
    simp only [setSubsurface_surfaces, setSubsurface_calls, setSubsurface_view_parent,
      setSubsurface_view_children, setSubsurface_view_subcompositor] at c1 c4 c5 h2S
    generalize (if (w.view_subcompositor (View.view s)).isSome = true then buffer s
      else a.mapped) = m at h2S ⊢
    have hcore : ∀ j, j ≠ S → (w2.subsurfaces j).map core = (w.subsurfaces j).map core := by
      intro j hj
      rw [c2 j]
      simp [hj]
    -- the tree below `S`
    have hshape : ∀ j, ((w2.setSubsurface S a).subsurfaces j).map (fun b => b.surface)
        = (w.subsurfaces j).map (fun b => b.surface) := by
      intro j
      by_cases hj : j = S
      · subst hj
        simp [hS]
      · simp only [setSubsurface_subsurfaces, if_neg hj]
        have := surface_of_core c2 j
        simpa [hj] using this
    have hchain : ∀ j, Reach (fun c => c.should_be_desync) (w2.setSubsurface S a) S j
        ↔ DesyncChain w S j := by
      intro j
      refine @DesyncChain_congr w (w2.setSubsurface S a) c1 (fun i => ?_) S j
      by_cases hi : i = S
      · subst hi
        simp [hS]
      · simp only [setSubsurface_subsurfaces, if_neg hi]
        exact hcore i hi
    obtain ⟨w', h1, h2', h3, h4, h5, h6, h7, h8, h9⟩ :=
      @walk_rooted false (fun c => c.should_be_desync) false (fun _ _ => rfl) (f + 1)
        (w2.setSubsurface S a)
        (w2.setSubsurface S
          { a with should_be_desync := true, synchronous := false, pending_commit := false,
                   mapped := m })
        S a
        { a with should_be_desync := true, synchronous := false, pending_commit := false,
                 mapped := m }
        (by simp) (by simp) rfl rfl (fun j hj => by simp [hj])
        ((@treeBelow_congr w (w2.setSubsurface S a) c1 hshape (f + 1) S).trans htree)
        (fun h => by cases h)
    refine ⟨w2, w', h2, ?_, h2', fun j hj hd => ?_, fun j hd => ?_, hcore, h5.trans c1, h6,
      h7, h8, h9, ?_⟩
    · rw [← h1]
      unfold Cascade.SetDesync
      simp only [hS]
      rw [IsParentSynchronous_store w S a { a with should_be_desync := true } hS rfl rfl,
        hparent]
      simp only []
      have g2 := h2
      have g2S := h2S
      simp only [hs, hpc] at g2 g2S
      unfold Cascade.NoteSubsurfaceDesynchronous walk
      simp only [setSubsurface_subsurfaces, if_true, hs, hpc, and_self, setSubsurface_twice,
        g2, g2S, setSubsurface_surfaces, c1]
      cases hsurf : w.surfaces s with
      | none => rfl
      | some surf =>
        simp only []
        apply forEachChild_congr
        intro wi ck
        cases hck : wi.subsurfaces ck with
        | none => rfl
        | some child =>
          simp [NoteSubsurfaceDesynchronous_quiet, NoteSubsurfaceDesynchronous_eq_walk]
    · rw [h3 j hj ((hchain j).2 hd)]
      simp [hj]
    · have hj : j ≠ S := fun e => hd (e ▸ Reach.refl S)
      rw [h4 j (fun h => hd ((hchain j).1 h))]
      simp [hj]
    · rw [h6]
      simp only [setSubsurface_calls, c5, List.count_append, List.count_cons,
        count_commit_deeper c6]
      simp

end Cascade


namespace Cascade

open Sub

/-- Worlds that agree on the fields no commit writes agree on `synchronous`. -/
theorem synchronous_of_core {x y : Option Subsurface} (h : x.map core = y.map core) :
    x.map (fun c => c.synchronous) = y.map (fun c => c.synchronous)
      ∧ x.map (fun _ => false) = y.map (fun _ => false) := by
  have h1 := congrArg (Option.map fun c : Option Nat × Option Nat × Int × Bool × Bool × Bool =>
    c.2.2.2.2.2) h
  have h2 := congrArg (Option.map fun _ : Option Nat × Option Nat × Int × Bool × Bool × Bool =>
    false) h
  constructor
  · simpa [Option.map_map, core, Function.comp] using h1
  · simpa [Option.map_map, core, Function.comp] using h2

end Cascade
